import Mathlib

/-! # CDC NCM host driver (`drivers/net/usb/cdc_ncm.c`): NTB encoder and decoder

A shallow embedding of the transmit aggregation path (`cdc_ncm_fill_tx_frame`),
the receive path (`cdc_ncm_rx_fixup`) and the parameter negotiation
(`cdc_ncm_setup`) of the driver, followed by theorems about them.

Conventions.
* A byte buffer is a `List Nat`; every byte read is reduced `% 256`, every
  `u16` store `% 65536`, every `u32` sum that can wrap `% 2^32`.
* A socket buffer holding an Ethernet frame is the list of its `len` bytes.
* `alloc_skb` and `skb_clone` can fail; their outcome is an argument of the
  function that calls them.
-/

namespace CdcNcm

/-! ## Constants of `linux/usb/cdc.h`, `linux/if_ether.h` and of the driver -/

/-- Modelled from the spec: `sizeof(struct usb_cdc_ncm_nth16)`, the 12-byte NTH16
(the struct is declared in `linux/usb/cdc.h`, which is not part of the source file). -/
def SIZEOF_NTH16 : Nat := 12

/-- Modelled from the spec: `sizeof(struct usb_cdc_ncm_ndp16)`, the 8 bytes of an
NDP16 before its DPE16 array (declared in `linux/usb/cdc.h`). -/
def SIZEOF_NDP16 : Nat := 8

/-- Modelled from the spec: `sizeof(struct usb_cdc_ncm_dpe16)`, a 4-byte
(index, length) pair (declared in `linux/usb/cdc.h`). -/
def SIZEOF_DPE16 : Nat := 4

/-- Modelled from the spec: `USB_CDC_NCM_NTH16_SIGN`, the bytes "NCMH" read as a
little-endian u32 (defined in `linux/usb/cdc.h`). -/
def USB_CDC_NCM_NTH16_SIGN : Nat := 0x484D434E

/-- Modelled from the spec: `USB_CDC_NCM_NDP16_NOCRC_SIGN`, the bytes "NCM0" read as
a little-endian u32 (defined in `linux/usb/cdc.h`). -/
def USB_CDC_NCM_NDP16_NOCRC_SIGN : Nat := 0x304D434E

/-- Modelled from the spec: `ETH_HLEN`, the 14-byte Ethernet II header length
(defined in `linux/if_ether.h`). -/
def ETH_HLEN : Nat := 14

/-- Modelled from the spec: `USB_CDC_NCM_NTB_MIN_IN_SIZE`, the lower clamp of
`rx_max` (MIN_IN_SIZE, 2048 in `linux/usb/cdc.h`). -/
def USB_CDC_NCM_NTB_MIN_IN_SIZE : Nat := 2048

/-- Modelled from the spec: `USB_CDC_NCM_NDP_ALIGN_MIN_SIZE`, the default and least
alignment, 4 (defined in `linux/usb/cdc.h`). -/
def USB_CDC_NCM_NDP_ALIGN_MIN_SIZE : Nat := 4

/-- Modelled from the spec: capability bit NTB_INPUT_SIZE of `bmNetworkCapabilities`
(`USB_CDC_NCM_NCAP_NTB_INPUT_SIZE`, bit 5 in `linux/usb/cdc.h`). -/
def USB_CDC_NCM_NCAP_NTB_INPUT_SIZE : Nat := 0x20

/-- Modelled from the spec: capability bit CRC_MODE of `bmNetworkCapabilities`
(`USB_CDC_NCM_NCAP_CRC_MODE`, bit 4 in `linux/usb/cdc.h`). -/
def USB_CDC_NCM_NCAP_CRC_MODE : Nat := 0x10

/-- Modelled from the spec: capability bit MAX_DATAGRAM_SIZE of
`bmNetworkCapabilities` (`USB_CDC_NCM_NCAP_MAX_DATAGRAM_SIZE`, bit 3). -/
def USB_CDC_NCM_NCAP_MAX_DATAGRAM_SIZE : Nat := 0x08

def USB_CDC_NCM_NDP16_LENGTH_MIN : Nat := 0x10
def CDC_NCM_NTB_MAX_SIZE_TX : Nat := 32768
def CDC_NCM_NTB_MAX_SIZE_RX : Nat := 32768
def CDC_NCM_MIN_DATAGRAM_SIZE : Nat := 1514
def CDC_NCM_MIN_TX_PKT : Nat := 512
def CDC_NCM_MAX_DATAGRAM_SIZE : Nat := 8192
def CDC_NCM_DPT_DATAGRAMS_MAX : Nat := 40
def CDC_NCM_RESTART_TIMER_DATAGRAM_CNT : Nat := 3
def CDC_NCM_TIMER_PENDING_CNT : Nat := 2

def CDC_NCM_MIN_HDR_SIZE : Nat :=
  SIZEOF_NTH16 + SIZEOF_NDP16 + (CDC_NCM_DPT_DATAGRAMS_MAX + 1) * SIZEOF_DPE16

/-- The modulus of 32-bit unsigned arithmetic. -/
def U32 : Nat := 4294967296

/-- The modulus of 16-bit unsigned arithmetic. -/
def U16 : Nat := 65536

/-- Modelled from the spec: the kernel macro `ALIGN(x, a)` (`linux/kernel.h`, not part
of the source file), which rounds `x` up to the next multiple of the power of two `a`
as `(x + (a - 1)) & ~(a - 1)`, here in 32-bit unsigned arithmetic. -/
def ALIGN (x a : Nat) : Nat :=
  ((x + (a + U32 - 1) % U32) % U32) &&& (U32 - 1 - (a + U32 - 1) % U32)

/-! ## Byte buffers -/

/-- The C `memcpy(buf + off, src, src.length)` restricted to the buffer: bytes
that would land past the end of `buf` do not appear in the result. -/
def memcpy : List Nat → Nat → List Nat → List Nat
  | [], _, _ => []
  | b :: bs, 0, [] => b :: bs
  | _ :: bs, 0, s :: ss => s :: memcpy bs 0 ss
  | b :: bs, off + 1, src => b :: memcpy bs off src

/-- The C `memset(buf + off, 0, cnt)` restricted to the buffer. -/
def memset0 (buf : List Nat) (off cnt : Nat) : List Nat :=
  memcpy buf off (List.replicate cnt 0)

def cdc_ncm_zero_fill (ptr : List Nat) (first e max : Nat) : List Nat :=
  if first ≥ max then ptr
  else if first ≥ e then ptr
  else memset0 ptr first ((if e > max then max else e) - first)

/-- A fresh buffer of `size` bytes whose (uninitialised) contents are given by `g`. -/
def alloc_skb (size : Nat) (g : Nat → Nat) : List Nat :=
  (List.range' 0 size).map g

/-- Read of one byte; `none` when the index is outside the buffer. -/
def rd8 (buf : List Nat) (i : Nat) : Option Nat :=
  (buf.get? i).map (fun b => b % 256)

/-- The `le16_to_cpu` of the two bytes at `i`; `none` when one is outside the buffer. -/
def le16_at (buf : List Nat) (i : Nat) : Option Nat :=
  match rd8 buf i, rd8 buf (i + 1) with
  | some b0, some b1 => some (b0 + 256 * b1)
  | _, _ => none

/-- The `le32_to_cpu` of the four bytes at `i`; `none` when one is outside the buffer. -/
def le32_at (buf : List Nat) (i : Nat) : Option Nat :=
  match le16_at buf i, le16_at buf (i + 2) with
  | some lo, some hi => some (lo + 65536 * hi)
  | _, _ => none

/-- The two bytes of `cpu_to_le16 v` (the value is first truncated to 16 bits). -/
def cpu_to_le16 (v : Nat) : List Nat :=
  [v % 256, v / 256 % 256]

/-- The four bytes of `cpu_to_le32 v` (the value is first truncated to 32 bits). -/
def cpu_to_le32 (v : Nat) : List Nat :=
  [v % 256, v / 256 % 256, v / 65536 % 256, v / 16777216 % 256]

/-- The bytes `[off, off + len)` of a buffer: the view handed on for a datagram. -/
def slice (buf : List Nat) (off len : Nat) : List Nat :=
  (buf.drop off).take len

/-! ## Wire structures and the driver context -/

structure usb_cdc_ncm_nth16 where
  dwSignature : Nat
  wHeaderLength : Nat
  wSequence : Nat
  wBlockLength : Nat
  wNdpIndex : Nat
deriving DecidableEq, Repr

structure usb_cdc_ncm_ndp16 where
  dwSignature : Nat
  wLength : Nat
  wNextNdpIndex : Nat
deriving DecidableEq, Repr

structure usb_cdc_ncm_dpe16 where
  wDatagramIndex : Nat
  wDatagramLength : Nat
deriving DecidableEq, Repr

structure usb_cdc_ncm_ntb_parameters where
  wLength : Nat
  bmNtbFormatsSupported : Nat
  dwNtbInMaxSize : Nat
  wNdpInDivisor : Nat
  wNdpInPayloadRemainder : Nat
  wNdpInAlignment : Nat
  wPadding1 : Nat
  dwNtbOutMaxSize : Nat
  wNdpOutDivisor : Nat
  wNdpOutPayloadRemainder : Nat
  wNdpOutAlignment : Nat
  wNtbOutMaxDatagrams : Nat
deriving DecidableEq, Repr

structure cdc_ncm_data where
  nth16 : usb_cdc_ncm_nth16
  ndp16 : usb_cdc_ncm_ndp16
  dpe16 : List usb_cdc_ncm_dpe16
deriving DecidableEq, Repr

/-- The fields of `struct cdc_ncm_ctx` that the modelled functions use, together with
the few fields of the objects it points to: `func_desc` holds
`func_desc->bmNetworkCapabilities`, `ether_desc` holds `ether_desc->wMaxSegmentSize`,
`out_ep` holds `out_ep->desc.wMaxPacketSize`, `tx_timer` holds `hrtimer_active`,
and `tx_dropped`, `tx_packets`, `mtu` are the `netdev` counters and MTU. -/
structure cdc_ncm_ctx where
  tx_ncm : cdc_ncm_data
  ncm_parm : usb_cdc_ncm_ntb_parameters
  tx_timer : Bool
  func_desc : Option Nat
  ether_desc : Nat
  out_ep : Nat
  tx_curr_skb : Option (List Nat)
  tx_rem_skb : Option (List Nat)
  stop : Bool
  tx_timer_pending : Nat
  tx_curr_offset : Nat
  tx_curr_last_offset : Nat
  tx_curr_frame_num : Nat
  rx_speed : Nat
  tx_speed : Nat
  rx_max : Nat
  tx_max : Nat
  max_datagram_size : Nat
  tx_max_datagrams : Nat
  tx_remainder : Nat
  tx_modulus : Nat
  tx_ndp_modulus : Nat
  tx_seq : Nat
  rx_seq : Nat
  connected : Nat
  tx_dropped : Nat
  tx_packets : Nat
  mtu : Nat
deriving DecidableEq, Repr

/-! ## Parameter negotiation: `cdc_ncm_setup` -/

/-- Modelled from the spec: `USB_CDC_NCM_NTH32_SIGN` ("ncmh", `linux/usb/cdc.h`), the
constant that `cdc_ncm_setup` tests `bmNtbFormatsSupported` against before it sends
SET_NTB_FORMAT. -/
def USB_CDC_NCM_NTH32_SIGN : Nat := 0x686D636E

/-- Modelled from the spec: request code of SET_NTB_INPUT_SIZE (0x86). -/
def USB_CDC_SET_NTB_INPUT_SIZE : Nat := 0x86

/-- Modelled from the spec: request code of SET_CRC_MODE (0x8A). -/
def USB_CDC_SET_CRC_MODE : Nat := 0x8A

/-- Modelled from the spec: request code of SET_NTB_FORMAT (0x84). -/
def USB_CDC_SET_NTB_FORMAT : Nat := 0x84

/-- Modelled from the spec: request code of SET_MAX_DATAGRAM_SIZE (0x83). -/
def USB_CDC_SET_MAX_DATAGRAM_SIZE : Nat := 0x83

/-- Modelled from the spec: `wValue` of SET_CRC_MODE for "CRC not appended" (0). -/
def USB_CDC_NCM_CRC_NOT_APPENDED : Nat := 0

/-- Modelled from the spec: `wValue` of SET_NTB_FORMAT for the 16-bit format (0). -/
def USB_CDC_NCM_NTB16_FORMAT : Nat := 0

/-- What the device and the allocator answer during `cdc_ncm_setup`: the parameter
block of GET_NTB_PARAMETERS (`none` when the request fails), whether the `kzalloc`
of the SET_NTB_INPUT_SIZE payload succeeds, whether the `kzalloc` of the
GET_MAX_DATAGRAM_SIZE buffer succeeds, and the reply to GET_MAX_DATAGRAM_SIZE
(`none` when the request fails). -/
structure setup_env where
  parm : Option usb_cdc_ncm_ntb_parameters
  in_size_alloc : Bool
  max_dgram_alloc : Bool
  max_dgram_reply : Option Nat

/-- An OUT class request issued by `cdc_ncm_setup`: request code, `wValue`, payload. -/
structure ctrl_msg where
  request : Nat
  value : Nat
  payload : List Nat
deriving DecidableEq, Repr

/-- The test `(val < 4) || (val != ((-val) & val)) || (val >= tx_max)` on a `u32`. -/
def bad_modulus (val tx_max : Nat) : Bool :=
  val < USB_CDC_NCM_NDP_ALIGN_MIN_SIZE ∨ val ≠ (((U32 - val) % U32) &&& val) ∨ val ≥ tx_max

/-- The function `cdc_ncm_setup`: the return value, the context, and the OUT requests
sent, in order. -/
def cdc_ncm_setup (ctx : cdc_ncm_ctx) (env : setup_env) : Nat × cdc_ncm_ctx × List ctrl_msg :=
  match env.parm with
  | none => (1, ctx, [])
  | some parm =>
    let ctx : cdc_ncm_ctx :=
      { ctx with
        ncm_parm := parm
        rx_max := parm.dwNtbInMaxSize % U32
        tx_max := parm.dwNtbOutMaxSize % U32
        tx_remainder := parm.wNdpOutPayloadRemainder % U16
        tx_modulus := parm.wNdpOutDivisor % U16
        tx_ndp_modulus := parm.wNdpOutAlignment % U16
        tx_max_datagrams := parm.wNtbOutMaxDatagrams % U16 }
    let ntb_fmt_supported := parm.bmNtbFormatsSupported % U16
    let flags : Nat := match ctx.func_desc with
      | some f => f % 256
      | none => 0
    let ctx : cdc_ncm_ctx :=
      if ctx.tx_max_datagrams = 0 ∨ ctx.tx_max_datagrams > CDC_NCM_DPT_DATAGRAMS_MAX then
        { ctx with tx_max_datagrams := CDC_NCM_DPT_DATAGRAMS_MAX }
      else ctx
    let ctx : cdc_ncm_ctx :=
      if ctx.rx_max < USB_CDC_NCM_NTB_MIN_IN_SIZE then
        { ctx with rx_max := USB_CDC_NCM_NTB_MIN_IN_SIZE }
      else ctx
    let ctx : cdc_ncm_ctx :=
      if ctx.rx_max > CDC_NCM_NTB_MAX_SIZE_RX then
        { ctx with rx_max := CDC_NCM_NTB_MAX_SIZE_RX }
      else ctx
    let msgs : List ctrl_msg :=
      if ctx.rx_max ≠ parm.dwNtbInMaxSize % U32 then
        if flags &&& USB_CDC_NCM_NCAP_NTB_INPUT_SIZE ≠ 0 then
          -- ndp_in_sz = kzalloc(8): sent as allocated, all bytes zero
          (if env.in_size_alloc then
            [⟨USB_CDC_SET_NTB_INPUT_SIZE, 0, List.replicate 8 0⟩] else [])
        else
          (if env.in_size_alloc then
            [⟨USB_CDC_SET_NTB_INPUT_SIZE, 0, cpu_to_le32 ctx.rx_max⟩] else [])
      else []
    let ctx : cdc_ncm_ctx :=
      if ctx.tx_max < CDC_NCM_MIN_HDR_SIZE + CDC_NCM_MIN_DATAGRAM_SIZE ∨
          ctx.tx_max > CDC_NCM_NTB_MAX_SIZE_TX then
        { ctx with tx_max := CDC_NCM_NTB_MAX_SIZE_TX }
      else ctx
    let ctx : cdc_ncm_ctx :=
      if bad_modulus ctx.tx_ndp_modulus ctx.tx_max then
        { ctx with tx_ndp_modulus := USB_CDC_NCM_NDP_ALIGN_MIN_SIZE }
      else ctx
    let ctx : cdc_ncm_ctx :=
      if bad_modulus ctx.tx_modulus ctx.tx_max then
        { ctx with tx_modulus := USB_CDC_NCM_NDP_ALIGN_MIN_SIZE }
      else ctx
    let ctx : cdc_ncm_ctx :=
      if ctx.tx_remainder ≥ ctx.tx_modulus then { ctx with tx_remainder := 0 } else ctx
    -- (tx_remainder - ETH_HLEN) & (tx_modulus - 1) on 32-bit int, stored in a u16
    let ctx : cdc_ncm_ctx :=
      { ctx with
        tx_remainder :=
          (((ctx.tx_remainder + U32 - ETH_HLEN) % U32) &&&
            ((ctx.tx_modulus + U32 - 1) % U32)) % U16 }
    let msgs : List ctrl_msg :=
      if flags &&& USB_CDC_NCM_NCAP_CRC_MODE ≠ 0 then
        msgs ++ [⟨USB_CDC_SET_CRC_MODE, USB_CDC_NCM_CRC_NOT_APPENDED, []⟩]
      else msgs
    let msgs : List ctrl_msg :=
      if ntb_fmt_supported &&& USB_CDC_NCM_NTH32_SIGN ≠ 0 then
        msgs ++ [⟨USB_CDC_SET_NTB_FORMAT, USB_CDC_NCM_NTB16_FORMAT, []⟩]
      else msgs
    let ctx : cdc_ncm_ctx := { ctx with max_datagram_size := CDC_NCM_MIN_DATAGRAM_SIZE }
    let r : cdc_ncm_ctx × List ctrl_msg :=
      if flags &&& USB_CDC_NCM_NCAP_MAX_DATAGRAM_SIZE ≠ 0 then
        let eth_max_sz := ctx.ether_desc % U16
        if env.max_dgram_alloc then
          match env.max_dgram_reply with
          | none => (ctx, msgs)
          | some reply =>
            let reply := reply % U16
            let m := reply
            let m := if m > eth_max_sz then eth_max_sz else m
            let m := if m > CDC_NCM_MAX_DATAGRAM_SIZE then CDC_NCM_MAX_DATAGRAM_SIZE else m
            let m := if m < CDC_NCM_MIN_DATAGRAM_SIZE then CDC_NCM_MIN_DATAGRAM_SIZE else m
            ({ ctx with max_datagram_size := m },
              if m ≠ reply then
                -- the buffer sent back still holds the device's reply
                msgs ++ [⟨USB_CDC_SET_MAX_DATAGRAM_SIZE, 0, cpu_to_le16 reply⟩]
              else msgs)
        else (ctx, msgs)
      else (ctx, msgs)
    let ctx := r.1
    (0, { ctx with mtu := (ctx.max_datagram_size + U32 - ETH_HLEN) % U32 }, r.2)

/-- A context as `cdc_ncm_bind` has it before `cdc_ncm_setup`: zeroed by `kzalloc`,
with the capabilities byte of the NCM functional descriptor, `wMaxSegmentSize` of
the Ethernet descriptor and `wMaxPacketSize` of the bulk-OUT endpoint filled in. -/
def ctx_zero (func_desc : Option Nat) (ether_desc out_ep : Nat) : cdc_ncm_ctx :=
  { tx_ncm :=
      { nth16 := ⟨0, 0, 0, 0, 0⟩, ndp16 := ⟨0, 0, 0⟩
        dpe16 := List.replicate (CDC_NCM_DPT_DATAGRAMS_MAX + 1) ⟨0, 0⟩ }
    ncm_parm := ⟨0, 0, 0, 0, 0, 0, 0, 0, 0, 0, 0, 0⟩
    tx_timer := false, func_desc := func_desc, ether_desc := ether_desc, out_ep := out_ep
    tx_curr_skb := none, tx_rem_skb := none, stop := false, tx_timer_pending := 0
    tx_curr_offset := 0, tx_curr_last_offset := 0, tx_curr_frame_num := 0
    rx_speed := 0, tx_speed := 0, rx_max := 0, tx_max := 0, max_datagram_size := 0
    tx_max_datagrams := 0, tx_remainder := 0, tx_modulus := 0, tx_ndp_modulus := 0
    tx_seq := 0, rx_seq := 0, connected := 0, tx_dropped := 0, tx_packets := 0, mtu := 0 }

/-! ## The decoder: `cdc_ncm_rx_fixup` -/

/-- What one call of `cdc_ncm_rx_fixup` did: its return value, the `rx_seq` it left in
the context, and the datagram views `(offset, len)` passed to `usbnet_skb_return`,
in order. -/
structure rx_result where
  ret : Nat
  rx_seq : Nat
  delivered : List (Nat × Nat)
deriving DecidableEq, Repr

/-- The loop `for (x = 0; x < nframes; x++, dpe16++)` of `cdc_ncm_rx_fixup`, with
`k = nframes - x` iterations left. The result is the return value and the views
delivered from iteration `x` on; `none` means a read outside `skb_in`. -/
def rx_dpe_loop (skb_in : List Nat) (rx_max : Nat) (clone_ok : Nat → Bool) (dpe16 : Nat) :
    Nat → Nat → Option (Nat × List (Nat × Nat))
  | 0, _ => some (1, [])
  | k + 1, x =>
    match le16_at skb_in (dpe16 + SIZEOF_DPE16 * x),
          le16_at skb_in (dpe16 + SIZEOF_DPE16 * x + 2) with
    | some offset, some len =>
      if offset = 0 ∨ len = 0 then
        (if x = 0 then some (0, []) else some (1, []))
      else if offset + len > skb_in.length ∨ len > rx_max ∨ len < ETH_HLEN then
        (if x = 0 then some (0, []) else some (1, []))
      else if clone_ok x = false then some (0, [])
      else
        match rx_dpe_loop skb_in rx_max clone_ok dpe16 k (x + 1) with
        | some (r, ds) => some (r, (offset, len) :: ds)
        | none => none
    | _, _ => none

/-- The function `cdc_ncm_rx_fixup` on the received bytes `skb_in` (for a non-NULL
context, of which it uses `rx_max` and `rx_seq`); `clone_ok x` tells whether the
`skb_clone` of loop iteration `x` succeeds. `none` means that the function read a
byte outside `skb_in`. -/
def cdc_ncm_rx_fixup (rx_max rx_seq : Nat) (clone_ok : Nat → Bool) (skb_in : List Nat) :
    Option rx_result :=
  if skb_in.length < SIZEOF_NTH16 + SIZEOF_NDP16 then some ⟨0, rx_seq, []⟩
  else
    match le32_at skb_in 0 with
    | none => none
    | some dwSignature =>
    if dwSignature ≠ USB_CDC_NCM_NTH16_SIGN then some ⟨0, rx_seq, []⟩
    else
      match le16_at skb_in 8 with
      | none => none
      | some wBlockLength =>
      if wBlockLength > rx_max then some ⟨0, rx_seq, []⟩
      else
        match le16_at skb_in 6 with
        | none => none
        | some wSequence =>
        match le16_at skb_in 10 with
        | none => none
        | some len =>
        if len + SIZEOF_NDP16 > skb_in.length then some ⟨0, wSequence, []⟩
        else
          match le32_at skb_in len with
          | none => none
          | some ndpSignature =>
          if ndpSignature ≠ USB_CDC_NCM_NDP16_NOCRC_SIGN then some ⟨0, wSequence, []⟩
          else
            match le16_at skb_in (len + 4) with
            | none => none
            | some wLength =>
            if wLength < USB_CDC_NCM_NDP16_LENGTH_MIN then some ⟨0, wSequence, []⟩
            else
              let nframes := (wLength - SIZEOF_NDP16) / SIZEOF_DPE16 - 1
              let len := len + SIZEOF_NDP16
              if len + nframes * SIZEOF_DPE16 > skb_in.length then some ⟨0, wSequence, []⟩
              else
                match rx_dpe_loop skb_in rx_max clone_ok len nframes 0 with
                | none => none
                | some (r, ds) => some ⟨r, wSequence, ds⟩

/-! ## The encoder: `cdc_ncm_fill_tx_frame` -/

def cdc_ncm_tx_timeout_start (ctx : cdc_ncm_ctx) : cdc_ncm_ctx :=
  if ¬ (ctx.tx_timer = true ∨ ctx.stop = true) then { ctx with tx_timer := true } else ctx

/-- The local variables of `cdc_ncm_fill_tx_frame` and the context fields that its
packing loop reads and writes (`tx_rem_skb`, `tx_ncm.dpe16`, `stats.tx_dropped`). -/
structure tx_fill_state where
  skb_out : List Nat
  offset : Nat
  last_offset : Nat
  n : Nat
  ready2send : Nat
  skb : Option (List Nat)
  tx_rem_skb : Option (List Nat)
  dpe16 : List usb_cdc_ncm_dpe16
  tx_dropped : Nat
deriving DecidableEq, Repr

/-- One pass through the body of the loop `for (; n < ctx->tx_max_datagrams; n++)` of
`cdc_ncm_fill_tx_frame`. The second component is `none` when the pass ends in a
`break`; when the pass runs to its end (where the `n++` of the loop head is applied)
it is the offset in the NTB that the frame was copied to, and the frame. -/
def tx_fill_body (tx_max tx_modulus tx_remainder : Nat) (s : tx_fill_state) :
    tx_fill_state × Option (Nat × List Nat) :=
  if s.offset ≥ tx_max then ({ s with ready2send := 1 }, none)
  else
    let rem := tx_max - s.offset
    -- if (skb == NULL) { skb = ctx->tx_rem_skb; ctx->tx_rem_skb = NULL; ... }
    let s1 : tx_fill_state :=
      match s.skb with
      | some _ => s
      | none => { s with skb := s.tx_rem_skb, tx_rem_skb := none }
    match s1.skb with
    | none => (s1, none)
    | some f =>
      if f.length > rem then
        if s1.n = 0 then
          ({ s1 with skb := none, tx_dropped := s1.tx_dropped + 1 }, none)
        else
          ({ s1 with
              tx_dropped := if s1.tx_rem_skb.isSome then s1.tx_dropped + 1 else s1.tx_dropped
              tx_rem_skb := some f
              skb := none
              ready2send := 1 }, none)
      else
        let data := memcpy s1.skb_out s1.offset f
        let dpe16 := s1.dpe16.set s1.n ⟨s1.offset % U16, f.length % U16⟩
        let offset := s1.offset + f.length
        let last_offset := offset
        let offset := (ALIGN offset tx_modulus + tx_remainder) % U32
        let data := cdc_ncm_zero_fill data last_offset offset tx_max
        ({ s1 with
            skb_out := data, dpe16 := dpe16, offset := offset, last_offset := last_offset
            n := s1.n + 1, skb := none }, some (s1.offset, f))

/-- The loop `for (; n < ctx->tx_max_datagrams; n++)` of `cdc_ncm_fill_tx_frame`, with
`k = tx_max_datagrams - n` passes left. -/
def tx_fill_loop (tx_max tx_modulus tx_remainder : Nat) : Nat → tx_fill_state → tx_fill_state
  | 0, s => s
  | k + 1, s =>
    match tx_fill_body tx_max tx_modulus tx_remainder s with
    | (s', none) => s'
    | (s', some _) => tx_fill_loop tx_max tx_modulus tx_remainder k s'

/-- The loop `for (; n <= CDC_NCM_DPT_DATAGRAMS_MAX; n++)` that zeroes the entries
`n .. 40` of the staged pointer table. -/
def tx_zero_dpe (dpe16 : List usb_cdc_ncm_dpe16) (n : Nat) : List usb_cdc_ncm_dpe16 :=
  (List.range' n (CDC_NCM_DPT_DATAGRAMS_MAX + 1 - n)).foldl (fun d i => d.set i ⟨0, 0⟩) dpe16

/-- The bytes of a `struct usb_cdc_ncm_nth16` whose fields hold little-endian values. -/
def nth16_bytes (h : usb_cdc_ncm_nth16) : List Nat :=
  cpu_to_le32 h.dwSignature ++ cpu_to_le16 h.wHeaderLength ++ cpu_to_le16 h.wSequence ++
    cpu_to_le16 h.wBlockLength ++ cpu_to_le16 h.wNdpIndex

/-- The 8 bytes of a `struct usb_cdc_ncm_ndp16` before its DPE array. -/
def ndp16_bytes (h : usb_cdc_ncm_ndp16) : List Nat :=
  cpu_to_le32 h.dwSignature ++ cpu_to_le16 h.wLength ++ cpu_to_le16 h.wNextNdpIndex

/-- The bytes of an array of `struct usb_cdc_ncm_dpe16`. -/
def dpe16_bytes : List usb_cdc_ncm_dpe16 → List Nat
  | [] => []
  | d :: ds => cpu_to_le16 d.wDatagramIndex ++ cpu_to_le16 d.wDatagramLength ++ dpe16_bytes ds

/-- The part of `cdc_ncm_fill_tx_frame` from the comment-less line
`if (last_offset > ctx->tx_max)` to `return skb_out`: padding, the short-packet byte,
the sentinel entries, the NTH16, the NDP16 and the pointer table. `ctx` already has
`tx_curr_frame_num`, `tx_rem_skb`, the staged `dpe16` and `tx_dropped` of the loop.
The result is the context and the `skb_out->len` bytes of `skb_out`. For
`wMaxPacketSize = 0` the C code divides by zero; `%` then returns its left operand. -/
def tx_finalize (ctx : cdc_ncm_ctx) (skb_out : List Nat) (last_offset : Nat) :
    cdc_ncm_ctx × List Nat :=
  let last_offset := if last_offset > ctx.tx_max then ctx.tx_max else last_offset
  let offset := last_offset
  let offset := if offset > CDC_NCM_MIN_TX_PKT then ctx.tx_max else offset
  let data := cdc_ncm_zero_fill skb_out last_offset offset ctx.tx_max
  let last_offset := offset
  let pad : Bool :=
    ((last_offset < ctx.tx_max ∧ last_offset % ctx.out_ep = 0) ∨
     ((last_offset = ctx.tx_max ∧ ctx.tx_max % ctx.out_ep = 0) ∧
       ctx.tx_max < ctx.ncm_parm.dwNtbOutMaxSize))
  let data := if pad then memcpy data last_offset [0] else data
  let last_offset := if pad then (last_offset + 1) % U32 else last_offset
  let dpe16 := tx_zero_dpe ctx.tx_ncm.dpe16 ctx.tx_curr_frame_num
  let index := ALIGN SIZEOF_NTH16 ctx.tx_ndp_modulus % U16
  let nth16 : usb_cdc_ncm_nth16 :=
    { dwSignature := USB_CDC_NCM_NTH16_SIGN
      wHeaderLength := SIZEOF_NTH16
      wSequence := ctx.tx_seq
      wBlockLength := last_offset % U16
      wNdpIndex := index }
  let data := memcpy data 0 (nth16_bytes nth16)
  let rem := (SIZEOF_NDP16 + (ctx.tx_curr_frame_num + 1) * SIZEOF_DPE16) % U32
  let ndp16 : usb_cdc_ncm_ndp16 :=
    { dwSignature := USB_CDC_NCM_NDP16_NOCRC_SIGN
      wLength := rem % U16
      wNextNdpIndex := 0 }
  let data := memcpy data index (ndp16_bytes ndp16)
  let data := memcpy data (index + SIZEOF_NDP16)
    (dpe16_bytes (dpe16.take (ctx.tx_curr_frame_num + 1)))
  ({ ctx with
      tx_ncm := { nth16 := nth16, ndp16 := ndp16, dpe16 := dpe16 }
      tx_seq := (ctx.tx_seq + 1) % U16
      tx_curr_skb := none
      tx_packets := ctx.tx_packets + ctx.tx_curr_frame_num },
   data.take last_offset)

/-- The part of `cdc_ncm_fill_tx_frame` before its packing loop: the swap of `skb`
with `ctx->tx_rem_skb`, and the pending NTB or a new one. The result is the context
and the loop variables at the loop head; `none` when `alloc_skb` is called and fails
(then the function goes to `exit_no_skb`; see `cdc_ncm_fill_tx_frame`). -/
def tx_enter (ctx : cdc_ncm_ctx) (skb : Option (List Nat)) (alloc : Option (Nat → Nat)) :
    Option (cdc_ncm_ctx × tx_fill_state) :=
  -- if (skb != NULL) swap(skb, ctx->tx_rem_skb); else ready2send = 1;
  let ready2send : Nat := if skb.isSome then 0 else 1
  let skb0 : Option (List Nat) := if skb.isSome then ctx.tx_rem_skb else none
  let ctx : cdc_ncm_ctx := if skb.isSome then { ctx with tx_rem_skb := skb } else ctx
  match ctx.tx_curr_skb with
  | some skb_out =>
    some (ctx,
      { skb_out := skb_out, offset := ctx.tx_curr_offset
        last_offset := ctx.tx_curr_last_offset, n := ctx.tx_curr_frame_num % U16
        ready2send := ready2send, skb := skb0, tx_rem_skb := ctx.tx_rem_skb
        dpe16 := ctx.tx_ncm.dpe16, tx_dropped := ctx.tx_dropped })
  | none =>
    match alloc with
    | none => none
    | some g =>
      let skb_out := alloc_skb (ctx.tx_max + 1) g
      let offset := (ALIGN SIZEOF_NTH16 ctx.tx_ndp_modulus + SIZEOF_NDP16 +
        (ctx.tx_max_datagrams + 1) * SIZEOF_DPE16) % U32
      let last_offset := offset
      let offset := (ALIGN offset ctx.tx_modulus + ctx.tx_remainder) % U32
      let skb_out := cdc_ncm_zero_fill skb_out 0 offset offset
      some ({ ctx with tx_curr_frame_num := 0 },
        { skb_out := skb_out, offset := offset, last_offset := last_offset, n := 0
          ready2send := ready2send, skb := skb0, tx_rem_skb := ctx.tx_rem_skb
          dpe16 := ctx.tx_ncm.dpe16, tx_dropped := ctx.tx_dropped })

/-- The part of `cdc_ncm_fill_tx_frame` after its packing loop, from
`if (skb != NULL)` on: `ctx` is the context at the loop head and `s` the loop
variables after the loop. -/
def tx_leave (ctx : cdc_ncm_ctx) (s : tx_fill_state) : cdc_ncm_ctx × Option (List Nat) :=
  -- if (skb != NULL) { dev_kfree_skb_any(skb); skb = NULL; tx_dropped++; }
  let tx_dropped := if s.skb.isSome then s.tx_dropped + 1 else s.tx_dropped
  let ctx : cdc_ncm_ctx :=
    { ctx with
      tx_rem_skb := s.tx_rem_skb
      tx_ncm := { ctx.tx_ncm with dpe16 := s.dpe16 }
      tx_dropped := tx_dropped
      tx_curr_frame_num := s.n }
  if s.n = 0 then
    let ctx : cdc_ncm_ctx :=
      { ctx with
        tx_curr_skb := some s.skb_out
        tx_curr_offset := s.offset
        tx_curr_last_offset := s.last_offset }
    (cdc_ncm_tx_timeout_start ctx, none)
  else if s.n < ctx.tx_max_datagrams ∧ s.ready2send = 0 then
    let ctx : cdc_ncm_ctx :=
      { ctx with
        tx_curr_skb := some s.skb_out
        tx_curr_offset := s.offset
        tx_curr_last_offset := s.last_offset
        tx_timer_pending :=
          if s.n < CDC_NCM_RESTART_TIMER_DATAGRAM_CNT then CDC_NCM_TIMER_PENDING_CNT
          else ctx.tx_timer_pending }
    (cdc_ncm_tx_timeout_start ctx, none)
  else
    let r := tx_finalize ctx s.skb_out s.last_offset
    (r.1, some r.2)

/-- The function `cdc_ncm_fill_tx_frame`. `skb` is the frame handed in (`none` for
NULL); `alloc` is what `alloc_skb(ctx->tx_max + 1, GFP_ATOMIC)` gives if it is called:
`none` when it fails, otherwise the initial contents of the new buffer. The result
is the context after the call and the NTB returned (`none` for NULL). The staged
pointer table has the 41 entries of `tx_ncm.dpe16`; the model is exact as long as
`tx_max_datagrams <= 40`, which `cdc_ncm_setup` enforces. -/
def cdc_ncm_fill_tx_frame (ctx : cdc_ncm_ctx) (skb : Option (List Nat))
    (alloc : Option (Nat → Nat)) : cdc_ncm_ctx × Option (List Nat) :=
  match tx_enter ctx skb alloc with
  | none =>
    -- alloc_skb failed: the frame in skb (the former remainder) is freed and counted;
    -- at exit_no_skb there is no pending NTB, so the timer is not started
    let ctx : cdc_ncm_ctx :=
      if skb.isSome then
        { ctx with
          tx_dropped := if ctx.tx_rem_skb.isSome then ctx.tx_dropped + 1 else ctx.tx_dropped
          tx_rem_skb := skb }
      else ctx
    (ctx, none)
  | some (ctx, s) =>
    tx_leave ctx
      (tx_fill_loop ctx.tx_max ctx.tx_modulus ctx.tx_remainder (ctx.tx_max_datagrams - s.n) s)

/-! ## Specification-level definitions -/

/-- The 16-bit little-endian field at byte `i`, 0 when it is not inside the buffer. -/
def fld16 (buf : List Nat) (i : Nat) : Nat := (le16_at buf i).getD 0

/-- The 32-bit little-endian field at byte `i`, 0 when it is not inside the buffer. -/
def fld32 (buf : List Nat) (i : Nat) : Nat := (le32_at buf i).getD 0

/-- The number of DPE16 entries the decoder walks, from the `wLength` of the NDP16 that
`wNdpIndex` points to: `(wLength - 8) / 4 - 1`. -/
def rx_nframes (skb_in : List Nat) : Nat :=
  (fld16 skb_in (fld16 skb_in 10 + 4) - 8) / 4 - 1

/-- The NTH16/NDP16 conditions under which the decoder is to discard the whole NTB:
short input, wrong NTH16 signature, `wBlockLength > rx_max`, NDP16 outside the input,
wrong NDP16 signature, `wLength < 16`, DPE array outside the input. -/
def rx_header_bad (rx_max : Nat) (skb_in : List Nat) : Prop :=
  skb_in.length < 20 ∨
  fld32 skb_in 0 ≠ 0x484D434E ∨
  fld16 skb_in 8 > rx_max ∨
  fld16 skb_in 10 + 8 > skb_in.length ∨
  fld32 skb_in (fld16 skb_in 10) ≠ 0x304D434E ∨
  fld16 skb_in (fld16 skb_in 10 + 4) < 16 ∨
  fld16 skb_in 10 + 8 + 4 * rx_nframes skb_in > skb_in.length

instance (rx_max : Nat) (skb_in : List Nat) : Decidable (rx_header_bad rx_max skb_in) := by
  unfold rx_header_bad
  infer_instance

/-- The DPE16 number `x` of the table that follows the NDP16: (index, length). -/
def rx_dpe (skb_in : List Nat) (x : Nat) : Nat × Nat :=
  (fld16 skb_in (fld16 skb_in 10 + 8 + 4 * x), fld16 skb_in (fld16 skb_in 10 + 8 + 4 * x + 2))

/-- A DPE16 that the decoder is to accept: index and length nonzero, the datagram
inside the input, its length at most `rx_max` and at least 14. -/
def rx_dpe_ok (rx_max : Nat) (skb_in : List Nat) (d : Nat × Nat) : Bool :=
  decide (d.1 ≠ 0 ∧ d.2 ≠ 0 ∧ d.1 + d.2 ≤ skb_in.length ∧ d.2 ≤ rx_max ∧ 14 ≤ d.2)

/-- The datagrams the decoder is to deliver: the longest initial run of acceptable
entries among the first `nframes` DPE16 entries, in table order. -/
def rx_expected (rx_max : Nat) (skb_in : List Nat) : List (Nat × Nat) :=
  ((List.range' 0 (rx_nframes skb_in)).map (rx_dpe skb_in)).takeWhile (rx_dpe_ok rx_max skb_in)

/-- An NTB whose NDP16 carries the CRC signature "NCM1". -/
def ntb_crc : List Nat :=
  [0x4E, 0x43, 0x4D, 0x48, 12, 0, 0, 0, 24, 0, 12, 0,
   0x4E, 0x43, 0x4D, 0x31, 16, 0, 0, 0, 0, 0, 0, 0]

/-- An NTB with a valid header whose first DPE is valid and whose second overflows. -/
def ntb_overflow : List Nat :=
  [0x4E, 0x43, 0x4D, 0x48, 12, 0, 0, 0, 46, 0, 12, 0,
   0x4E, 0x43, 0x4D, 0x30, 20, 0, 0, 0,
   32, 0, 14, 0,  8, 0, 0xFF, 0xFF,  0, 0, 0, 0,
   1, 2, 3, 4, 5, 6, 7, 8, 9, 10, 11, 12, 13, 14]

/-- The buffer `buf` holds the bytes `src` from index `off` on. -/
def bytes_at (buf : List Nat) (off : Nat) (src : List Nat) : Prop :=
  ∀ i, i < src.length → buf[off + i]? = src[i]?

/-- The (offset, frame) pairs that the packing loop copies into the NTB, in order. -/
def tx_fill_packed (tx_max tx_modulus tx_remainder : Nat) :
    Nat → tx_fill_state → List (Nat × List Nat)
  | 0, _ => []
  | k + 1, s =>
    match tx_fill_body tx_max tx_modulus tx_remainder s with
    | (_, none) => []
    | (s', some p) => p :: tx_fill_packed tx_max tx_modulus tx_remainder k s'

/-- The (offset, frame) pairs that one call of `cdc_ncm_fill_tx_frame` copies into the
NTB, in order. -/
def tx_packed (ctx : cdc_ncm_ctx) (skb : Option (List Nat)) (alloc : Option (Nat → Nat)) :
    List (Nat × List Nat) :=
  match tx_enter ctx skb alloc with
  | none => []
  | some (ctx, s) =>
    tx_fill_packed ctx.tx_max ctx.tx_modulus ctx.tx_remainder (ctx.tx_max_datagrams - s.n) s

/-- One call of `cdc_ncm_fill_tx_frame`: the frame (`none` for NULL) and the outcome of
`alloc_skb`, should the call allocate. -/
structure tx_call where
  skb : Option (List Nat)
  alloc : Option (Nat → Nat)

/-- The state of the encoder in the course of a run of calls: the context, the
(offset, frame) pairs copied into the pending NTB so far, and the NTBs returned. -/
structure tx_trace where
  ctx : cdc_ncm_ctx
  pend : List (Nat × List Nat)
  ntbs : List (List Nat)

def tx_call_step (t : tx_trace) (c : tx_call) : tx_trace :=
  let r := cdc_ncm_fill_tx_frame t.ctx c.skb c.alloc
  { ctx := r.1
    pend := if r.2.isSome then [] else t.pend ++ tx_packed t.ctx c.skb c.alloc
    ntbs := t.ntbs ++ r.2.toList }

/-- The run of a list of calls of `cdc_ncm_fill_tx_frame` from the context `ctx`. -/
def tx_run (ctx : cdc_ncm_ctx) (calls : List tx_call) : tx_trace :=
  calls.foldl tx_call_step ⟨ctx, [], []⟩

/-- The parameters of the encoder as `cdc_ncm_setup` leaves them, as far as the
theorems on the encoder need them: both moduli are powers of two that fit a `u16`,
`tx_max <= 32768`, `tx_max_datagrams <= 40`, `tx_remainder` fits a `u16`, and the
staged pointer table has its 41 entries (`cdc_ncm_setup_params_ok` shows that
`cdc_ncm_setup` establishes them). -/
def tx_params_ok (ctx : cdc_ncm_ctx) : Prop :=
  (∃ k, k ≤ 15 ∧ ctx.tx_modulus = 2 ^ k) ∧ (∃ j, j ≤ 15 ∧ ctx.tx_ndp_modulus = 2 ^ j) ∧
  ctx.tx_max ≤ 32768 ∧ ctx.tx_max_datagrams ≤ 40 ∧ ctx.tx_remainder < 65536 ∧
  ctx.tx_ncm.dpe16.length = 41

/-- The end of the space reserved for the NTH16, the NDP16 and the pointer table. -/
def tx_hdr_end (ctx : cdc_ncm_ctx) : Nat :=
  ALIGN SIZEOF_NTH16 ctx.tx_ndp_modulus + SIZEOF_NDP16 +
    (ctx.tx_max_datagrams + 1) * SIZEOF_DPE16

/-- The write cursor that follows a datagram (or the reserved space) ending at `e`. -/
def tx_next (ctx : cdc_ncm_ctx) (e : Nat) : Nat :=
  ALIGN e ctx.tx_modulus + ctx.tx_remainder

/-- The offset of the first datagram of an NTB. -/
def tx_first_offset (ctx : cdc_ncm_ctx) : Nat :=
  tx_next ctx (tx_hdr_end ctx)

/-- Entry `i` of the staged pointer table describes the pair `p`, whose frame lies in
`buf` at its offset, after the reserved space and before `last` and `tx_max`. -/
def tx_pkt_ok (ctx : cdc_ncm_ctx) (buf : List Nat) (dpe16 : List usb_cdc_ncm_dpe16)
    (last : Nat) (i : Nat) (p : Nat × List Nat) : Prop :=
  dpe16[i]? = some ⟨p.1, p.2.length⟩ ∧ bytes_at buf p.1 p.2 ∧ tx_first_offset ctx ≤ p.1 ∧
  p.1 < ctx.tx_max ∧ p.1 + p.2.length ≤ last ∧ last ≤ ctx.tx_max ∧
  p.1 % ctx.tx_modulus = ctx.tx_remainder % ctx.tx_modulus

/-- The pending NTB `buf`, with the staged pointer table, the cursor `offset` and the
end `last` of the last datagram, holds the pairs `pend`. -/
def tx_buf_inv (ctx : cdc_ncm_ctx) (buf : List Nat) (dpe16 : List usb_cdc_ncm_dpe16)
    (offset last : Nat) (pend : List (Nat × List Nat)) : Prop :=
  buf.length = ctx.tx_max + 1 ∧ dpe16.length = 41 ∧
  (∀ i p, pend[i]? = some p → tx_pkt_ok ctx buf dpe16 last i p) ∧
  (pend = [] → last = tx_hdr_end ctx) ∧
  (∀ p, pend.getLast? = some p → last = p.1 + p.2.length) ∧
  offset = tx_next ctx last

/-- The invariant of the encoder between calls: the parameters are in order and the
pending NTB, if there is one, holds the pairs `pend`; with at least one datagram
pending the cursor is below `tx_max` and the datagram cap is not reached. -/
def tx_inv (ctx : cdc_ncm_ctx) (pend : List (Nat × List Nat)) : Prop :=
  tx_params_ok ctx ∧
  match ctx.tx_curr_skb with
  | none => pend = []
  | some buf =>
    tx_buf_inv ctx buf ctx.tx_ncm.dpe16 ctx.tx_curr_offset ctx.tx_curr_last_offset pend ∧
    ctx.tx_curr_frame_num = pend.length ∧
    (pend ≠ [] → ctx.tx_curr_offset < ctx.tx_max ∧ pend.length < ctx.tx_max_datagrams)

/-- The length of an NTB whose last datagram ends at `e`, before the short-packet
rule: `e` clamped to `tx_max`, and `tx_max` when that exceeds `CDC_NCM_MIN_TX_PKT`. -/
def tx_natural_len (ctx : cdc_ncm_ctx) (e : Nat) : Nat :=
  if min e ctx.tx_max > CDC_NCM_MIN_TX_PKT then ctx.tx_max else min e ctx.tx_max

/-- The short-packet rule: a zero byte is appended to an NTB of natural length `p` when
`p` is a multiple of `wMaxPacketSize` and either `p < tx_max`, or `p = tx_max` and
`tx_max < dwNtbOutMaxSize`. -/
def tx_short_pad (ctx : cdc_ncm_ctx) (p : Nat) : Prop :=
  p % ctx.out_ep = 0 ∧
    (p < ctx.tx_max ∨ (p = ctx.tx_max ∧ ctx.tx_max < ctx.ncm_parm.dwNtbOutMaxSize))

instance (ctx : cdc_ncm_ctx) (p : Nat) : Decidable (tx_short_pad ctx p) := by
  unfold tx_short_pad
  infer_instance

/-- The length handed to the transport for an NTB whose last datagram ends at `e`. -/
def tx_final_len (ctx : cdc_ncm_ctx) (e : Nat) : Nat :=
  if tx_short_pad ctx (tx_natural_len ctx e) then tx_natural_len ctx e + 1
  else tx_natural_len ctx e

/-- The bytes `ntb` are an NTB16 with sequence number `seq` that carries the
(offset, frame) pairs `pkts`: an NTH16 at 0 with signature "NCMH", header length 12,
`wSequence = seq mod 2^16`, `wBlockLength` the length of `ntb` and
`wNdpIndex = ALIGN(12, tx_ndp_modulus)`; there an NDP16 with signature "NCM0",
`wLength = 8 + 4 * (n + 1)` and `wNextNdpIndex = 0`; then one DPE16 per pair, in
order, holding its offset and the length of its frame, the frame being the bytes of
`ntb` at that offset; then a DPE16 (0, 0). -/
def ntb_layout (ctx : cdc_ncm_ctx) (seq : Nat) (ntb : List Nat)
    (pkts : List (Nat × List Nat)) : Prop :=
  le32_at ntb 0 = some 0x484D434E ∧ le16_at ntb 4 = some 12 ∧
  le16_at ntb 6 = some (seq % 65536) ∧ le16_at ntb 8 = some ntb.length ∧
  le16_at ntb 10 = some (ALIGN 12 ctx.tx_ndp_modulus) ∧
  12 ≤ ALIGN 12 ctx.tx_ndp_modulus ∧ ALIGN 12 ctx.tx_ndp_modulus % ctx.tx_ndp_modulus = 0 ∧
  le32_at ntb (ALIGN 12 ctx.tx_ndp_modulus) = some 0x304D434E ∧
  le16_at ntb (ALIGN 12 ctx.tx_ndp_modulus + 4) = some (8 + 4 * (pkts.length + 1)) ∧
  le16_at ntb (ALIGN 12 ctx.tx_ndp_modulus + 6) = some 0 ∧
  (∀ i p, pkts[i]? = some p →
    le16_at ntb (ALIGN 12 ctx.tx_ndp_modulus + 8 + 4 * i) = some p.1 ∧
    le16_at ntb (ALIGN 12 ctx.tx_ndp_modulus + 8 + 4 * i + 2) = some p.2.length ∧
    slice ntb p.1 p.2.length = p.2) ∧
  le16_at ntb (ALIGN 12 ctx.tx_ndp_modulus + 8 + 4 * pkts.length) = some 0 ∧
  le16_at ntb (ALIGN 12 ctx.tx_ndp_modulus + 8 + 4 * pkts.length + 2) = some 0

/-- The context `b` has the encoder parameters of the context `a`. -/
def tx_same_params (a b : cdc_ncm_ctx) : Prop :=
  b.tx_max = a.tx_max ∧ b.tx_modulus = a.tx_modulus ∧ b.tx_remainder = a.tx_remainder ∧
  b.tx_ndp_modulus = a.tx_ndp_modulus ∧ b.tx_max_datagrams = a.tx_max_datagrams ∧
  b.out_ep = a.out_ep ∧ b.ncm_parm.dwNtbOutMaxSize = a.ncm_parm.dwNtbOutMaxSize

/-- The bytes `ntb` are what the encoder with the parameters of `ctx` emits for the
(offset, frame) pairs `pkts` and the sequence number `seq`: there is at least one pair
and at most `tx_max_datagrams`; the bytes have the layout `ntb_layout`; every datagram
starts at or after the first payload offset and below `tx_max`, at an offset congruent
to `tx_remainder` modulo `tx_modulus`, and ends at or before the end `last` of the
last one; the length is
`tx_final_len ctx last`; and all bytes from `last` on are zero. -/
def ntb_emitted (ctx : cdc_ncm_ctx) (seq : Nat) (ntb : List Nat)
    (pkts : List (Nat × List Nat)) : Prop :=
  pkts ≠ [] ∧ pkts.length ≤ ctx.tx_max_datagrams ∧ ntb_layout ctx seq ntb pkts ∧
  ∃ last, last ≤ ctx.tx_max ∧
    (∀ p, pkts.getLast? = some p → last = p.1 + p.2.length) ∧
    (∀ (i : Nat) (p : Nat × List Nat), pkts[i]? = some p →
      tx_first_offset ctx ≤ p.1 ∧ p.1 < ctx.tx_max ∧ p.1 + p.2.length ≤ last ∧
      p.1 % ctx.tx_modulus = ctx.tx_remainder % ctx.tx_modulus) ∧
    ntb.length = tx_final_len ctx last ∧
    (∀ i, last ≤ i → i < ntb.length → ntb[i]? = some 0)

/-- The short-packet byte is present in `ntb`: with `e` the end of the datagram of
the last real DPE, the length is one more than the natural length for `e`, the last
byte is zero, and every real DPE describes a range that ends before that byte. -/
def tx_pad_appended (ctx : cdc_ncm_ctx) (ntb : List Nat) : Prop :=
  ntb.length =
    tx_natural_len ctx ((rx_dpe ntb (rx_nframes ntb - 1)).1 +
      (rx_dpe ntb (rx_nframes ntb - 1)).2) + 1 ∧
  ntb.get? (ntb.length - 1) = some 0 ∧
  ∀ i, i < rx_nframes ntb → (rx_dpe ntb i).1 + (rx_dpe ntb i).2 ≤ ntb.length - 1

/-- Short-packet avoidance as the specification states it (P6): if the length of the
NTB is a multiple of `wMaxPacketSize`, then either it equals `tx_max` and `tx_max`
equals `dwNtbOutMaxSize`, or the short-packet byte is present. -/
def short_packet_ok (ctx : cdc_ncm_ctx) (ntb : List Nat) : Prop :=
  ntb.length % ctx.out_ep = 0 →
    (ntb.length = ctx.tx_max ∧ ctx.tx_max = ctx.ncm_parm.dwNtbOutMaxSize) ∨
    tx_pad_appended ctx ntb

/-- A parameter block as GET_NTB_PARAMETERS returns it, with `dwNtbInMaxSize = 4096`,
both 16-bit formats only, and the given `dwNtbOutMaxSize`, `wNdpOutDivisor`,
`wNdpOutPayloadRemainder`, `wNdpOutAlignment` and `wNtbOutMaxDatagrams`. -/
def parm_of (out_max divisor remainder alignment dgrams : Nat) :
    usb_cdc_ncm_ntb_parameters :=
  ⟨28, 1, 4096, 4, 0, 4, 0, out_max, divisor, remainder, alignment, dgrams⟩

/-- The context after `cdc_ncm_setup` for a device that answers GET_NTB_PARAMETERS with
`parm`, advertises no optional capability, and has a bulk-OUT `wMaxPacketSize` of 512. -/
def ctx_of (parm : usb_cdc_ncm_ntb_parameters) : cdc_ncm_ctx :=
  (cdc_ncm_setup (ctx_zero (some 0) 1514 512) ⟨some parm, true, true, none⟩).2.1

/-- Scenario 1 of the specification: `dwNtbOutMaxSize = 2048`, divisor 4, remainder 0,
alignment 4, 32 datagrams. -/
def ctx_s1 : cdc_ncm_ctx := ctx_of (parm_of 2048 4 0 4 32)

/-- A device that advertises `dwNtbOutMaxSize = 40000`, above the driver's 32768. -/
def ctx_big : cdc_ncm_ctx := ctx_of (parm_of 40000 4 0 4 32)

/-- A device that advertises `dwNtbOutMaxSize = 1024`, below the driver's minimum. -/
def ctx_small : cdc_ncm_ctx := ctx_of (parm_of 1024 4 0 4 32)

/-- A device that advertises `dwNtbOutMaxSize = 1698`, divisor 1024 and remainder 13. -/
def ctx_wide : cdc_ncm_ctx := ctx_of (parm_of 1698 1024 13 4 32)

/-- A frame of `n` bytes, each of value `b`. -/
def frame_of (n b : Nat) : List Nat := List.replicate n b

/-- The contents of a newly allocated buffer: every byte 0xAA. -/
def fresh_aa : Nat → Nat := fun _ => 0xAA

/-- The call that submits one frame of `n` bytes to an encoder whose allocations
succeed. -/
def call_frame (n : Nat) : tx_call := ⟨some (frame_of n 7), some fresh_aa⟩

/-- The NTB returned, if any, when the context `ctx` gets one frame of `n` bytes and is
then flushed with a NULL frame. -/
def ntb_one_frame (ctx : cdc_ncm_ctx) (n : Nat) : Option (List Nat) :=
  (cdc_ncm_fill_tx_frame (tx_run ctx [call_frame n]).ctx none (some fresh_aa)).2

/-- The field `wBlockLength` of the NTH16 of an NTB. -/
def ntb_wBlockLength (ntb : List Nat) : Option Nat := le16_at ntb 8

/-- The field `wSequence` of the NTH16 of an NTB. -/
def ntb_wSequence (ntb : List Nat) : Option Nat := le16_at ntb 6

/-- Something is pending in the encoder: a pending NTB with at least one datagram, or a
frame in the remainder slot. -/
def tx_pending (ctx : cdc_ncm_ctx) : Bool :=
  (ctx.tx_curr_skb.isSome && ctx.tx_curr_frame_num != 0) || ctx.tx_rem_skb.isSome

/-- The frames still to be handled by the packing loop, in order: the one in `skb`,
then the one in the remainder slot. -/
def tx_queue (s : tx_fill_state) : List (List Nat) :=
  s.skb.toList ++ s.tx_rem_skb.toList

/-- The calls that submit the frames `fs`, one per call, to an encoder whose allocations
succeed and give buffers with the contents `g`. -/
def tx_submit (g : Nat → Nat) (fs : List (List Nat)) : List tx_call :=
  fs.map (fun f => ⟨some f, some g⟩)

/-- The step of `cdc_ncm_setup` that checks `tx_max`: the value cached for an advertised
`dwNtbOutMaxSize` of `d`. -/
def setup_tx_max (d : Nat) : Nat :=
  if d < CDC_NCM_MIN_HDR_SIZE + CDC_NCM_MIN_DATAGRAM_SIZE ∨ d > CDC_NCM_NTB_MAX_SIZE_TX then
    CDC_NCM_NTB_MAX_SIZE_TX
  else d

/-- The step of `cdc_ncm_setup` that checks an alignment or a divisor `val` against the
checked `tx_max`. -/
def setup_modulus (val tx_max : Nat) : Nat :=
  if bad_modulus val tx_max then USB_CDC_NCM_NDP_ALIGN_MIN_SIZE else val

/-- The step of `cdc_ncm_setup` that checks the advertised remainder `r` against the
checked divisor `m`. -/
def setup_dev_remainder (r m : Nat) : Nat :=
  if r ≥ m then 0 else r

/-- The steps of `cdc_ncm_setup` that check `rx_max`: the value cached for an advertised
`dwNtbInMaxSize` of `d`. -/
def setup_rx_max (d : Nat) : Nat :=
  if (if d < USB_CDC_NCM_NTB_MIN_IN_SIZE then USB_CDC_NCM_NTB_MIN_IN_SIZE else d) >
      CDC_NCM_NTB_MAX_SIZE_RX then CDC_NCM_NTB_MAX_SIZE_RX
  else (if d < USB_CDC_NCM_NTB_MIN_IN_SIZE then USB_CDC_NCM_NTB_MIN_IN_SIZE else d)

/-- The step of `cdc_ncm_setup` that checks `tx_max_datagrams`: the value cached for an
advertised `wNtbOutMaxDatagrams` of `v`. -/
def setup_max_datagrams (v : Nat) : Nat :=
  if v = 0 ∨ v > CDC_NCM_DPT_DATAGRAMS_MAX then CDC_NCM_DPT_DATAGRAMS_MAX else v

/-- Scenario of the specification for the short-packet rule: `tx_max = 1024` with
`dwNtbOutMaxSize = 2048` and `wMaxPacketSize = 512` (the other fields as in scenario 1). -/
def ctx_1k : cdc_ncm_ctx := { ctx_s1 with tx_max := 1024 }

/-- The end of the last datagram of the pending NTB that holds the pairs `pend`; the end
of the reserved space when it holds none. -/
def tx_pend_end (ctx : cdc_ncm_ctx) (pend : List (Nat × List Nat)) : Nat :=
  match pend.getLast? with
  | none => tx_hdr_end ctx
  | some p => p.1 + p.2.length

/-- The write cursor after the frames `fs` have been packed into an empty NTB, one after
the other. -/
def tx_cursor_after (ctx : cdc_ncm_ctx) (fs : List (List Nat)) : Nat :=
  fs.foldl (fun off f => tx_next ctx (off + f.length)) (tx_first_offset ctx)

/-- Scenario of the specification for the oversize drop: `tx_max = 1024` and a header
overhead above 600 (`tx_ndp_modulus = 512` puts the NDP16 at 512, so that the first
payload offset is 654); the other fields as in scenario 1. -/
def ctx_hdr : cdc_ncm_ctx := { ctx_s1 with tx_max := 1024, tx_ndp_modulus := 512 }

/-- The outcome of `cdc_ncm_tx_fixup`: the context behind `dev->data[0]` after the call
(`none` for NULL), the NTB returned (`none` for NULL), and whether the function freed
the frame it was given (the `dev_kfree_skb_any` at its label `error`). -/
structure tx_fixup_result where
  ctx : Option cdc_ncm_ctx
  skb_out : Option (List Nat)
  freed : Bool
deriving DecidableEq

/-- The function `cdc_ncm_tx_fixup`: without a context (`dev->data[0]` is NULL) it frees
the frame and returns NULL; otherwise it returns what `cdc_ncm_fill_tx_frame` returns.
It does not read `ctx->stop`. -/
def cdc_ncm_tx_fixup (ctx : Option cdc_ncm_ctx) (skb : Option (List Nat))
    (alloc : Option (Nat → Nat)) : tx_fixup_result :=
  match ctx with
  | none => ⟨none, none, skb.isSome⟩
  | some c =>
    let r := cdc_ncm_fill_tx_frame c skb alloc
    ⟨some r.1, r.2, false⟩

/-- The context `ctx_1k` after `cdc_ncm_unbind` has set `ctx->stop`. -/
def ctx_stop : cdc_ncm_ctx := { ctx_1k with stop := true }

/-! ## Binding: `cdc_ncm_bind` -/

/-- Modelled from the spec: `USB_DT_CS_INTERFACE` (`linux/usb/ch9.h`), the
`bDescriptorType` of a class-specific interface descriptor. -/
def USB_DT_CS_INTERFACE : Nat := 0x24

/-- Modelled from the spec: `USB_CDC_UNION_TYPE` (`linux/usb/cdc.h`), the
`bDescriptorSubType` of the UNION functional descriptor. -/
def USB_CDC_UNION_TYPE : Nat := 0x06

/-- Modelled from the spec: `USB_CDC_ETHERNET_TYPE` (`linux/usb/cdc.h`), the
`bDescriptorSubType` of the ETHERNET functional descriptor. -/
def USB_CDC_ETHERNET_TYPE : Nat := 0x0f

/-- Modelled from the spec: `USB_CDC_NCM_TYPE` (`linux/usb/cdc.h`), the
`bDescriptorSubType` of the NCM functional descriptor. -/
def USB_CDC_NCM_TYPE : Nat := 0x1a

/-- Modelled from the spec: `sizeof(struct usb_cdc_union_desc)`: `bLength`,
`bDescriptorType`, `bDescriptorSubType`, `bMasterInterface0`, `bSlaveInterface0`. -/
def SIZEOF_UNION_DESC : Nat := 5

/-- Modelled from the spec: `sizeof(struct usb_cdc_ether_desc)`: the three header
bytes, `iMACAddress`, `bmEthernetStatistics` (4 bytes), `wMaxSegmentSize` (bytes 8
and 9), `wNumberMCFilters` (2 bytes), `bNumberPowerFilters`. -/
def SIZEOF_ETHER_DESC : Nat := 13

/-- Modelled from the spec: `sizeof(struct usb_cdc_ncm_desc)`: the three header bytes,
`bcdNcmVersion` (2 bytes), `bmNetworkCapabilities` (byte 5). -/
def SIZEOF_NCM_DESC : Nat := 6

/-- Modelled from the spec: the errno `ENODEV`. -/
def ENODEV : Int := 19

/-- Modelled from the spec: `USB_ENDPOINT_XFERTYPE_MASK` (`linux/usb/ch9.h`). -/
def USB_ENDPOINT_XFERTYPE_MASK : Nat := 0x03

/-- Modelled from the spec: `USB_ENDPOINT_XFER_BULK` (`linux/usb/ch9.h`). -/
def USB_ENDPOINT_XFER_BULK : Nat := 2

/-- Modelled from the spec: `USB_ENDPOINT_XFER_INT` (`linux/usb/ch9.h`). -/
def USB_ENDPOINT_XFER_INT : Nat := 3

/-- Modelled from the spec: `USB_ENDPOINT_DIR_MASK`, equal to `USB_DIR_IN`
(`linux/usb/ch9.h`). -/
def USB_ENDPOINT_DIR_MASK : Nat := 0x80

/-- The byte `buf[i]` of a descriptor buffer, 0 outside it. -/
def u8_at (buf : List Nat) (i : Nat) : Nat := buf.getD i 0 % 256

/-- The fields of `struct usb_endpoint_descriptor` that the driver reads. -/
structure usb_endpoint_descriptor where
  bEndpointAddress : Nat
  bmAttributes : Nat
  wMaxPacketSize : Nat
deriving DecidableEq

/-- Modelled from the spec: `usb_endpoint_dir_in` (`linux/usb/ch9.h`). -/
def usb_endpoint_dir_in (e : usb_endpoint_descriptor) : Bool :=
  e.bEndpointAddress &&& USB_ENDPOINT_DIR_MASK = USB_ENDPOINT_DIR_MASK

/-- The fields of `struct cdc_ncm_ctx` that `cdc_ncm_bind` fills from the descriptors
and the endpoints, and `dev->hard_mtu`. Interfaces are the handles that
`usb_ifnum_to_if` returns; a descriptor pointer is the bytes of the descriptor; `none`
is NULL. -/
structure bind_ctx where
  union_desc : Option (List Nat)
  ether_desc : Option (List Nat)
  func_desc : Option (List Nat)
  control : Option Nat
  data : Option Nat
  in_ep : Option usb_endpoint_descriptor
  out_ep : Option usb_endpoint_descriptor
  status_ep : Option usb_endpoint_descriptor
  hard_mtu : Nat
deriving DecidableEq

/-- The function `cdc_ncm_find_endpoints` on the endpoints `eps` of the current
altsetting of an interface. -/
def cdc_ncm_find_endpoints (ctx : bind_ctx) (eps : List usb_endpoint_descriptor) : bind_ctx :=
  eps.foldl (fun ctx e =>
    if e.bmAttributes &&& USB_ENDPOINT_XFERTYPE_MASK = USB_ENDPOINT_XFER_INT then
      if usb_endpoint_dir_in e then
        (if ctx.status_ep = none then { ctx with status_ep := some e } else ctx)
      else ctx
    else if e.bmAttributes &&& USB_ENDPOINT_XFERTYPE_MASK = USB_ENDPOINT_XFER_BULK then
      if usb_endpoint_dir_in e then
        (if ctx.in_ep = none then { ctx with in_ep := some e } else ctx)
      else
        (if ctx.out_ep = none then { ctx with out_ep := some e } else ctx)
    else ctx) ctx

/-- The body of the descriptor loop of `cdc_ncm_bind` before the label `advance`, for
the descriptor at the head of `buf`. -/
def bind_desc_case (ifnum_to_if : Nat → Option Nat) (ctx : bind_ctx) (buf : List Nat) :
    bind_ctx :=
  if u8_at buf 1 ≠ USB_DT_CS_INTERFACE then ctx
  else if u8_at buf 2 = USB_CDC_UNION_TYPE then
    if u8_at buf 0 < SIZEOF_UNION_DESC then ctx
    else
      { ctx with
        union_desc := some (buf.take SIZEOF_UNION_DESC)
        control := ifnum_to_if (u8_at buf 3)
        data := ifnum_to_if (u8_at buf 4) }
  else if u8_at buf 2 = USB_CDC_ETHERNET_TYPE then
    if u8_at buf 0 < SIZEOF_ETHER_DESC then ctx
    else
      let hard_mtu := u8_at buf 8 + 256 * u8_at buf 9
      { ctx with
        ether_desc := some (buf.take SIZEOF_ETHER_DESC)
        hard_mtu :=
          if hard_mtu < CDC_NCM_MIN_DATAGRAM_SIZE then CDC_NCM_MIN_DATAGRAM_SIZE
          else if hard_mtu > CDC_NCM_MAX_DATAGRAM_SIZE then CDC_NCM_MAX_DATAGRAM_SIZE
          else hard_mtu }
  else if u8_at buf 2 = USB_CDC_NCM_TYPE then
    if u8_at buf 0 < SIZEOF_NCM_DESC then ctx
    else { ctx with func_desc := some (buf.take SIZEOF_NCM_DESC) }
  else ctx

/-- The descriptor loop of `cdc_ncm_bind`,
`while ((len > 0) && (buf[0] > 2) && (buf[0] <= len))`, on the rest `buf` of the
class-specific descriptor block (`len` is its length), for at most the given number of
passes; every pass consumes at least three bytes, so that `buf.length` passes are
enough (`bind_walk_fuel`). -/
def bind_walk (ifnum_to_if : Nat → Option Nat) : Nat → List Nat → bind_ctx → bind_ctx
  | 0, _, ctx => ctx
  | k + 1, buf, ctx =>
    if buf.length > 0 ∧ u8_at buf 0 > 2 ∧ u8_at buf 0 ≤ buf.length then
      bind_walk ifnum_to_if k (buf.drop (u8_at buf 0)) (bind_desc_case ifnum_to_if ctx buf)
    else ctx

/-- What the USB core, the device and the allocator answer during `cdc_ncm_bind`:
whether the `kzalloc` of the context succeeds, `dev->hard_mtu` on entry, the interface
`intf` being bound, the bytes `extra` of its class-specific descriptor block,
`usb_ifnum_to_if`, the return values of `usb_driver_claim_interface` and of the two
calls of `usb_set_interface`, the answers to `cdc_ncm_setup`, the endpoints of an
interface in its current altsetting, and the return value of
`usbnet_get_ethernet_addr`. -/
structure bind_env where
  ctx_alloc : Bool
  hard_mtu : Nat
  intf : Nat
  extra : List Nat
  ifnum_to_if : Nat → Option Nat
  claim : Int
  set_alt0 : Int
  setup : setup_env
  set_alt1 : Int
  endpoints : Nat → List usb_endpoint_descriptor
  get_addr : Int

/-- The outcome of `cdc_ncm_bind`: its return value, and the context behind
`dev->data[0]` afterwards (`none` for 0): the fields filled by the function itself and
the context as the other functions of the driver use it. -/
structure bind_result where
  ret : Int
  ctx : Option (bind_ctx × cdc_ncm_ctx)

/-- The function `cdc_ncm_bind`. Both error labels end in `cdc_ncm_free`,
`dev->data[0] = 0` and `return -ENODEV`. -/
def cdc_ncm_bind (env : bind_env) : bind_result :=
  if env.ctx_alloc = false then ⟨-ENODEV, none⟩
  else
    let b : bind_ctx :=
      bind_walk env.ifnum_to_if env.extra.length env.extra
        ⟨none, none, none, none, none, none, none, none, env.hard_mtu⟩
    match b.control, b.data, b.ether_desc with
    | some control, some data, some ether =>
      if control ≠ env.intf then ⟨-ENODEV, none⟩
      else if env.claim ≠ 0 then ⟨-ENODEV, none⟩
      else if env.set_alt0 ≠ 0 then ⟨-ENODEV, none⟩
      else
        let r := cdc_ncm_setup
          (ctx_zero (b.func_desc.map (fun d => u8_at d 5)) (u8_at ether 8 + 256 * u8_at ether 9) 0)
          env.setup
        if r.1 ≠ 0 then ⟨-ENODEV, none⟩
        else if env.set_alt1 ≠ 0 then ⟨-ENODEV, none⟩
        else
          let b := cdc_ncm_find_endpoints b (env.endpoints data)
          let b := cdc_ncm_find_endpoints b (env.endpoints control)
          match b.in_ep, b.out_ep, b.status_ep with
          | some _, some out_ep, some _ =>
            if env.get_addr ≠ 0 then ⟨-ENODEV, none⟩
            else
              ⟨0, some (b, { r.2.1 with out_ep := out_ep.wMaxPacketSize, tx_speed := 0,
                                         rx_speed := 0 })⟩
          | _, _, _ => ⟨-ENODEV, none⟩
    | _, _, _ => ⟨-ENODEV, none⟩

/-- The descriptors of the class-specific descriptor block `buf` in the words of the
specification: the block is cut at the `bLength` of each descriptor, and the cutting
ends at the end of the block or at a `bLength` below 3 or beyond the end. -/
def cs_descs : Nat → List Nat → List (List Nat)
  | 0, _ => []
  | k + 1, buf =>
    if buf.length > 0 ∧ u8_at buf 0 > 2 ∧ u8_at buf 0 ≤ buf.length then
      buf.take (u8_at buf 0) :: cs_descs k (buf.drop (u8_at buf 0))
    else []

/-- The descriptor `d` is a class-specific interface descriptor of subtype `ty` with a
`bLength` of at least `size`. -/
def is_cs_desc (ty size : Nat) (d : List Nat) : Prop :=
  u8_at d 1 = USB_DT_CS_INTERFACE ∧ u8_at d 2 = ty ∧ size ≤ u8_at d 0

instance (ty size : Nat) (d : List Nat) : Decidable (is_cs_desc ty size d) := by
  unfold is_cs_desc
  infer_instance

/-- A descriptor block with a UNION descriptor (master 0, slave 1) and an ETHERNET
descriptor (`wMaxSegmentSize` 1514), and no NCM functional descriptor. -/
def extra_no_ncm : List Nat :=
  [5, 0x24, 0x06, 0, 1,
   13, 0x24, 0x0f, 3, 0, 0, 0, 0, 0xEA, 0x05, 0, 0, 0]

/-- A descriptor block with a UNION descriptor and an NCM functional descriptor, and no
ETHERNET descriptor. -/
def extra_no_ether : List Nat :=
  [5, 0x24, 0x06, 0, 1,
   6, 0x24, 0x1a, 0x00, 0x01, 0]

/-- A device for which every operation of `cdc_ncm_bind` succeeds: interface `n` exists
for every `n`, interface 0 is being bound, the data interface 1 has a bulk-IN and a
bulk-OUT endpoint (`wMaxPacketSize` 512), the control interface 0 an interrupt-IN
endpoint, and GET_NTB_PARAMETERS is answered as in scenario 1. -/
def bind_env_ok (extra : List Nat) : bind_env :=
  { ctx_alloc := true, hard_mtu := 0, intf := 0, extra := extra
    ifnum_to_if := fun n => some n, claim := 0, set_alt0 := 0
    setup := ⟨some (parm_of 2048 4 0 4 32), true, true, none⟩, set_alt1 := 0
    endpoints := fun n =>
      if n = 1 then [⟨0x81, 2, 512⟩, ⟨0x02, 2, 512⟩] else [⟨0x83, 3, 16⟩]
    get_addr := 0 }

/-- A device that advertises `dwNtbOutMaxSize = 4096`; the other fields as in
scenario 1, so that 32 frames of 100 bytes fit one NTB. -/
def ctx_4k : cdc_ncm_ctx := ctx_of (parm_of 4096 4 0 4 32)

/-- The frames a context accounts for, in the words of the specification:
`tx_packets`, plus `tx_dropped`, plus the number of datagrams in the pending NTB if
there is one, plus 1 if the remainder slot is occupied. -/
def tx_accounted (ctx : cdc_ncm_ctx) : Nat :=
  ctx.tx_packets + ctx.tx_dropped +
    (match ctx.tx_curr_skb with
     | some _ => ctx.tx_curr_frame_num
     | none => 0) +
    (if ctx.tx_rem_skb.isSome then 1 else 0)

/-- The frames the packing loop of `cdc_ncm_fill_tx_frame` accounts for: the
datagrams in the NTB, the frames dropped, the frame in the local `skb` and the one in
the remainder slot. -/
def tx_loop_count (s : tx_fill_state) : Nat :=
  s.n + s.tx_dropped + s.skb.toList.length + s.tx_rem_skb.toList.length

/-- A run with every kind of call: a 100-byte frame, a 900-byte frame that does not fit
behind it, a frame handed in while the allocation of a new NTB fails, a 1500-byte frame
that fits no NTB, and a NULL frame. -/
def calls_mixed : List tx_call :=
  [call_frame 100, call_frame 900, ⟨some (frame_of 100 8), none⟩,
   ⟨some (frame_of 1500 9), some fresh_aa⟩, ⟨none, some fresh_aa⟩]

/-- A parameter block that advertises `dwNtbInMaxSize = 65536`, above the 32768 the
driver accepts; the other fields as in scenario 1. -/
def parm_in_big : usb_cdc_ncm_ntb_parameters :=
  ⟨28, 1, 65536, 4, 0, 4, 0, 2048, 4, 0, 4, 32⟩

/-- A device that answers GET_NTB_PARAMETERS with `parm_in_big`; both allocations of
`cdc_ncm_setup` succeed. -/
def env_in_big : setup_env := ⟨some parm_in_big, true, true, none⟩

/-- The context of a device whose NCM functional descriptor advertises the
NTB_INPUT_SIZE capability (bit 5 of `bmNetworkCapabilities`) and nothing else. -/
def ctx_cap : cdc_ncm_ctx := ctx_zero (some 0x20) 1514 512

/-- The `memset` of `cdc_ncm_zero_fill(ptr, first, end, max)`: the index it starts at and
the number of bytes it writes; `none` when the function returns before the `memset`. -/
def zero_fill_write (first e max : Nat) : Option (Nat × Nat) :=
  if first ≥ max then none
  else if first ≥ e then none
  else some (first, (if e > max then max else e) - first)

/-- The write of the call `cdc_ncm_zero_fill(skb_out->data, 0, offset, offset)` that
`cdc_ncm_fill_tx_frame` makes on a buffer it has just allocated with `tx_max + 1`
bytes: `offset` is passed for `max` as well. -/
def tx_enter_write (ctx : cdc_ncm_ctx) : Option (Nat × Nat) :=
  let offset := (ALIGN SIZEOF_NTH16 ctx.tx_ndp_modulus + SIZEOF_NDP16 +
    (ctx.tx_max_datagrams + 1) * SIZEOF_DPE16) % U32
  let offset := (ALIGN offset ctx.tx_modulus + ctx.tx_remainder) % U32
  zero_fill_write 0 offset offset

/-- A device that advertises `dwNtbOutMaxSize = 1698`, `wNdpOutDivisor = 1024`,
`wNdpOutPayloadRemainder = 13`, `wNdpOutAlignment = 4` and 40 datagrams. -/
def ctx_ovf : cdc_ncm_ctx := ctx_of (parm_of 1698 1024 13 4 40)

/-! ## The status endpoint: `cdc_ncm_status` -/

/-- Modelled from the spec: `sizeof(struct usb_cdc_notification)` (`linux/usb/cdc.h`):
`bmRequestType`, `bNotificationType` (byte 1), `wValue` (bytes 2 and 3), `wIndex`,
`wLength`. -/
def SIZEOF_NOTIFICATION : Nat := 8

/-- Modelled from the spec: `sizeof(struct usb_cdc_speed_change)` (`linux/usb/cdc.h`):
`DLBitRRate` (bytes 0 to 3) and `ULBitRate` (bytes 4 to 7), both `__le32`. -/
def SIZEOF_SPEED_CHANGE : Nat := 8

/-- Modelled from the spec: `USB_CDC_NOTIFY_NETWORK_CONNECTION` (`linux/usb/cdc.h`). -/
def USB_CDC_NOTIFY_NETWORK_CONNECTION : Nat := 0x00

/-- Modelled from the spec: `USB_CDC_NOTIFY_SPEED_CHANGE` (`linux/usb/cdc.h`). -/
def USB_CDC_NOTIFY_SPEED_CHANGE : Nat := 0x2A

/-- The fields of `struct urb` that `cdc_ncm_status` reads. -/
structure urb where
  transfer_buffer : List Nat
  actual_length : Nat

/-- What `cdc_ncm_status` reads and writes: the context, the bit `EVENT_STS_SPLIT` of
`dev->flags`, and the carrier of the network device. -/
structure status_state where
  ctx : cdc_ncm_ctx
  split : Bool
  carrier : Bool
deriving DecidableEq

/-- The function `cdc_ncm_speed_change` on the `struct usb_cdc_speed_change` at index
`off` of the transfer buffer; `none` when a read is outside the buffer. The messages it
logs are left out. -/
def cdc_ncm_speed_change (ctx : cdc_ncm_ctx) (data : List Nat) (off : Nat) :
    Option cdc_ncm_ctx :=
  match le32_at data off, le32_at data (off + 4) with
  | some rx_speed, some tx_speed =>
    if tx_speed ≠ ctx.tx_speed ∨ rx_speed ≠ ctx.rx_speed then
      some { ctx with tx_speed := tx_speed, rx_speed := rx_speed }
    else some ctx
  | _, _ => none

/-- The function `cdc_ncm_status`; `none` when a read is outside the transfer buffer.
`wValue` is stored as the host reads it, here on a little-endian host. -/
def cdc_ncm_status (s : status_state) (u : urb) : Option status_state :=
  if u.actual_length < SIZEOF_NOTIFICATION then some s
  else if s.split then
    -- test_and_clear_bit(EVENT_STS_SPLIT, &dev->flags)
    (cdc_ncm_speed_change s.ctx u.transfer_buffer 0).map
      (fun c => { s with ctx := c, split := false })
  else
    match rd8 u.transfer_buffer 1 with
    | none => none
    | some ty =>
      if ty = USB_CDC_NOTIFY_NETWORK_CONNECTION then
        match le16_at u.transfer_buffer 2 with
        | none => none
        | some wValue =>
          if wValue ≠ 0 then
            some { s with ctx := { s.ctx with connected := wValue }, carrier := true }
          else
            some { s with
              ctx := { s.ctx with connected := wValue, tx_speed := 0, rx_speed := 0 }
              carrier := false }
      else if ty = USB_CDC_NOTIFY_SPEED_CHANGE then
        if u.actual_length < SIZEOF_NOTIFICATION + SIZEOF_SPEED_CHANGE then
          some { s with split := true }
        else
          (cdc_ncm_speed_change s.ctx u.transfer_buffer SIZEOF_NOTIFICATION).map
            (fun c => { s with ctx := c })
      else some s

/-- A SPEED_CHANGE notification of 8 bytes: the header alone. -/
def urb_speed_hdr : urb := ⟨[0xA1, 0x2A, 0, 0, 1, 0, 8, 0], 8⟩

/-- A transfer of 8 bytes that holds 100 000 000 (downlink) and 50 000 000 (uplink),
little-endian; read as a header, its `bNotificationType` would be 0xE1. -/
def urb_speed_data : urb := ⟨[0x00, 0xE1, 0xF5, 0x05, 0x80, 0xF0, 0xFA, 0x02], 8⟩

/-- A SPEED_CHANGE notification of 16 bytes: the header and the two rates of
`urb_speed_data`. -/
def urb_speed_full : urb :=
  ⟨[0xA1, 0x2A, 0, 0, 1, 0, 8, 0, 0x00, 0xE1, 0xF5, 0x05, 0x80, 0xF0, 0xFA, 0x02], 16⟩

/-- A transfer of 4 bytes, shorter than a notification header. -/
def urb_short : urb := ⟨[0xA1, 0x2A, 0, 0], 4⟩

/-- The status state after bind for the context of scenario 1. -/
def status_s1 : status_state := ⟨ctx_s1, false, false⟩

/-! ## The transmit timer: `cdc_ncm_tx_timer_cb` and `cdc_ncm_txpath_bh` -/

/-- The buffers `a` and `b` have the same length and the same bytes below index `k`. -/
def buf_agree (k : Nat) (a b : List Nat) : Prop :=
  a.length = b.length ∧ ∀ i, i < k → a[i]? = b[i]?

/-- The contexts `c` and `c'` differ at most in the bytes of the pending NTB buffer, and
there only from the write cursor on (and, with datagrams packed, from the end of the
last datagram on); both bounds clamped to `tx_max`. -/
def tx_sim (c c' : cdc_ncm_ctx) : Prop :=
  ∃ x, c' = { c with tx_curr_skb := x } ∧
    match c.tx_curr_skb, x with
    | none, none => True
    | some b, some b' =>
      buf_agree (min c.tx_curr_offset c.tx_max) b b' ∧
      (c.tx_curr_frame_num ≠ 0 → buf_agree (min c.tx_curr_last_offset c.tx_max) b b')
    | _, _ => False

/-- Two calls hand in the same frame, and `alloc_skb` fails in both or in neither; the
contents of the new buffers are not related. -/
def tx_same_call (a b : tx_call) : Prop :=
  a.skb = b.skb ∧ (a.alloc = none ↔ b.alloc = none)

/-- A new buffer that holds 0x55 in every byte. -/
def fresh_55 : Nat → Nat := fun _ => 0x55

/-- The run `calls_mixed` with other bytes in every new buffer. -/
def calls_mixed_55 : List tx_call :=
  [⟨some (frame_of 100 7), some fresh_55⟩, ⟨some (frame_of 900 7), some (fun i => i)⟩,
   ⟨some (frame_of 100 8), none⟩, ⟨some (frame_of 1500 9), some fresh_55⟩,
   ⟨none, some (fun i => 2 * i + 1)⟩]

/-- The index `i` lies in the range that one of the (offset, frame) pairs `pkts`
occupies. -/
def in_pkts (pkts : List (Nat × List Nat)) (i : Nat) : Prop :=
  ∃ p ∈ pkts, p.1 ≤ i ∧ i < p.1 + p.2.length

/-- Every byte of `buf` below index `k` lies in the range of one of the pairs `pkts` or
is zero. -/
def buf_clean (k : Nat) (buf : List Nat) (pkts : List (Nat × List Nat)) : Prop :=
  ∀ i, i < k → i < buf.length → in_pkts pkts i ∨ buf[i]? = some 0

/-- The pending NTB of the context, if there is one, is clean below the write cursor
and, with datagrams packed, below the end of the last datagram; both bounds clamped to
`tx_max`. -/
def tx_clean (c : cdc_ncm_ctx) (pkts : List (Nat × List Nat)) : Prop :=
  ∀ buf, c.tx_curr_skb = some buf →
    buf_clean (min c.tx_curr_offset c.tx_max) buf pkts ∧
    (c.tx_curr_frame_num ≠ 0 → buf_clean (min c.tx_curr_last_offset c.tx_max) buf pkts)

/-- Byte `i` of the NTB `ntb` that carries the pairs `pkts` is accounted for: it
belongs to the NTH16, to the NDP16 with its pointer table of `pkts.length + 1` entries,
or to a packed datagram, whose byte it then is, or it is zero. -/
def ntb_byte_known (ctx : cdc_ncm_ctx) (pkts : List (Nat × List Nat)) (ntb : List Nat)
    (i : Nat) : Prop :=
  i < SIZEOF_NTH16 ∨
  (ALIGN SIZEOF_NTH16 ctx.tx_ndp_modulus ≤ i ∧
    i < ALIGN SIZEOF_NTH16 ctx.tx_ndp_modulus + SIZEOF_NDP16 +
      (pkts.length + 1) * SIZEOF_DPE16) ∨
  (∃ p ∈ pkts, p.1 ≤ i ∧ i < p.1 + p.2.length ∧ ntb[i]? = p.2[i - p.1]?) ∨
  ntb[i]? = some 0

/-! # Theorems -/

set_option maxRecDepth 100000

/-! ## Reads -/

theorem rd8_eq (buf : List Nat) (i : Nat) : rd8 buf i = (buf[i]?).map (fun b => b % 256) := by
  simp [rd8]

theorem rd8_some {b : List Nat} {i : Nat} (h : i < b.length) :
    ∃ v, rd8 b i = some v ∧ v < 256 := by
  refine ⟨b[i] % 256, ?_, Nat.mod_lt _ (by norm_num)⟩
  simp [rd8_eq, List.getElem?_eq_getElem h]

theorem le16_at_some {b : List Nat} {i : Nat} (h : i + 2 ≤ b.length) :
    ∃ v, le16_at b i = some v ∧ v < 65536 := by
  obtain ⟨x, hx, hx'⟩ := rd8_some (b := b) (i := i) (by omega)
  obtain ⟨y, hy, hy'⟩ := rd8_some (b := b) (i := i + 1) (by omega)
  refine ⟨x + 256 * y, ?_, by omega⟩
  simp [le16_at, hx, hy]

theorem le32_at_some {b : List Nat} {i : Nat} (h : i + 4 ≤ b.length) :
    ∃ v, le32_at b i = some v := by
  obtain ⟨x, hx, _⟩ := le16_at_some (b := b) (i := i) (by omega)
  obtain ⟨y, hy, _⟩ := le16_at_some (b := b) (i := i + 2) (by omega)
  exact ⟨x + 65536 * y, by simp [le32_at, hx, hy]⟩

theorem fld16_of_some {buf : List Nat} {i v : Nat} (h : le16_at buf i = some v) :
    fld16 buf i = v := by simp [fld16, h]

theorem fld32_of_some {buf : List Nat} {i v : Nat} (h : le32_at buf i = some v) :
    fld32 buf i = v := by simp [fld32, h]

theorem rx_dpe_loop_safe (skb_in : List Nat) (rx_max : Nat) (clone_ok : Nat → Bool)
    (dpe16 : Nat) : ∀ (k x : Nat), dpe16 + SIZEOF_DPE16 * (x + k) ≤ skb_in.length →
    ∃ r ds, rx_dpe_loop skb_in rx_max clone_ok dpe16 k x = some (r, ds) ∧
      ∀ d ∈ ds, d.1 + d.2 ≤ skb_in.length ∧ ETH_HLEN ≤ d.2 := by
  intro k
  induction k with
  | zero => intro x _; exact ⟨1, [], rfl, by simp⟩
  | succ k ih =>
    intro x hx
    simp only [SIZEOF_DPE16] at hx ih
    obtain ⟨o, ho, _⟩ := le16_at_some (b := skb_in) (i := dpe16 + 4 * x) (by omega)
    obtain ⟨l, hl, _⟩ := le16_at_some (b := skb_in) (i := dpe16 + 4 * x + 2) (by omega)
    obtain ⟨r, ds, hr, hds⟩ := ih (x + 1) (by omega)
    simp only [rx_dpe_loop, SIZEOF_DPE16, ho, hl]
    split_ifs with h1 h2 h3 h4 h5
    · exact ⟨0, [], rfl, by simp⟩
    · exact ⟨1, [], rfl, by simp⟩
    · exact ⟨0, [], rfl, by simp⟩
    · exact ⟨1, [], rfl, by simp⟩
    · exact ⟨0, [], rfl, by simp⟩
    · rw [hr]
      refine ⟨r, (o, l) :: ds, rfl, ?_⟩
      intro d hd
      rcases List.mem_cons.1 hd with rfl | hd
      · simp only [not_or, not_lt, Nat.not_lt] at h3
        exact ⟨by omega, by omega⟩
      · exact hds d hd

/-- C2 (decoder safety, P5): on every input, for every `rx_max`, `rx_seq` and every
outcome of the clones, `cdc_ncm_rx_fixup` returns without reading a byte outside the
input (the result is not `none`), and every datagram view `(index, length)` it
delivers has `index + length <= input length` and `length >= ETH_HLEN`. -/
theorem rx_fixup_safe (rx_max rx_seq : Nat) (clone_ok : Nat → Bool) (skb_in : List Nat) :
    ∃ r, cdc_ncm_rx_fixup rx_max rx_seq clone_ok skb_in = some r ∧
      ∀ d ∈ r.delivered, d.1 + d.2 ≤ skb_in.length ∧ ETH_HLEN ≤ d.2 := by
  unfold cdc_ncm_rx_fixup
  simp only [SIZEOF_NTH16, SIZEOF_NDP16, SIZEOF_DPE16]
  split_ifs with h0
  · exact ⟨_, rfl, by simp⟩
  · obtain ⟨sg, hsg⟩ := le32_at_some (b := skb_in) (i := 0) (by omega)
    obtain ⟨bl, hbl, _⟩ := le16_at_some (b := skb_in) (i := 8) (by omega)
    obtain ⟨sq, hsq, _⟩ := le16_at_some (b := skb_in) (i := 6) (by omega)
    obtain ⟨ni, hni, _⟩ := le16_at_some (b := skb_in) (i := 10) (by omega)
    simp only [hsg, hbl, hsq, hni]
    split_ifs with h1 h2 h3
    · exact ⟨_, rfl, by simp⟩
    · exact ⟨_, rfl, by simp⟩
    · exact ⟨_, rfl, by simp⟩
    · obtain ⟨ns, hns⟩ := le32_at_some (b := skb_in) (i := ni) (by omega)
      obtain ⟨wl, hwl, _⟩ := le16_at_some (b := skb_in) (i := ni + 4) (by omega)
      simp only [hns, hwl]
      split_ifs with h4 h5 h6
      · exact ⟨_, rfl, by simp⟩
      · exact ⟨_, rfl, by simp⟩
      · exact ⟨_, rfl, by simp⟩
      · obtain ⟨r, ds, hr, hds⟩ := rx_dpe_loop_safe skb_in rx_max clone_ok (ni + 8)
          ((wl - 8) / 4 - 1) 0 (by simp only [SIZEOF_DPE16]; omega)
        rw [hr]
        exact ⟨_, rfl, hds⟩

/-! ## The decoder -/

theorem rx_fixup_header_reject_aux (rx_max rx_seq : Nat) (clone_ok : Nat → Bool)
    (skb_in : List Nat) (h : rx_header_bad rx_max skb_in) :
    ∃ s, cdc_ncm_rx_fixup rx_max rx_seq clone_ok skb_in = some ⟨0, s, []⟩ := by
  unfold cdc_ncm_rx_fixup
  simp only [SIZEOF_NTH16, SIZEOF_NDP16, SIZEOF_DPE16, USB_CDC_NCM_NTH16_SIGN,
    USB_CDC_NCM_NDP16_NOCRC_SIGN, USB_CDC_NCM_NDP16_LENGTH_MIN]
  split_ifs with h0
  · exact ⟨_, rfl⟩
  · obtain ⟨sg, hsg⟩ := le32_at_some (b := skb_in) (i := 0) (by omega)
    obtain ⟨bl, hbl, _⟩ := le16_at_some (b := skb_in) (i := 8) (by omega)
    obtain ⟨sq, hsq, _⟩ := le16_at_some (b := skb_in) (i := 6) (by omega)
    obtain ⟨ni, hni, _⟩ := le16_at_some (b := skb_in) (i := 10) (by omega)
    simp only [hsg, hbl, hsq, hni]
    split_ifs with h1 h2 h3
    · exact ⟨_, rfl⟩
    · exact ⟨_, rfl⟩
    · exact ⟨_, rfl⟩
    · obtain ⟨ns, hns⟩ := le32_at_some (b := skb_in) (i := ni) (by omega)
      obtain ⟨wl, hwl, _⟩ := le16_at_some (b := skb_in) (i := ni + 4) (by omega)
      simp only [hns, hwl]
      split_ifs with h4 h5 h6
      · exact ⟨_, rfl⟩
      · exact ⟨_, rfl⟩
      · exact ⟨_, rfl⟩
      · exfalso
        unfold rx_header_bad rx_nframes at h
        rw [fld32_of_some hsg, fld16_of_some hbl, fld16_of_some hni, fld32_of_some hns,
          fld16_of_some hwl] at h
        simp only [ne_eq, not_not] at h1 h4
        omega

/-- C3 (decoder header rejection): whenever the input is shorter than 20 bytes, or the
NTH16 signature is not 0x484D434E, or `wBlockLength > rx_max`, or `wNdpIndex + 8`
exceeds the input length, or the NDP16 signature is not 0x304D434E, or `wLength < 16`,
or the `nframes = (wLength - 8)/4 - 1` DPE entries from `wNdpIndex + 8` do not all
lie inside the input, `cdc_ncm_rx_fixup` returns 0 and delivers no datagram. -/
theorem rx_fixup_header_reject (rx_max rx_seq : Nat) (clone_ok : Nat → Bool)
    (skb_in : List Nat) (h : rx_header_bad rx_max skb_in) :
    ∃ r, cdc_ncm_rx_fixup rx_max rx_seq clone_ok skb_in = some r ∧
      r.ret = 0 ∧ r.delivered = [] := by
  obtain ⟨s, hs⟩ := rx_fixup_header_reject_aux rx_max rx_seq clone_ok skb_in h
  exact ⟨_, hs, rfl, rfl⟩

theorem rx_fixup_header_reject_witness :
    rx_header_bad 2048 ntb_crc ∧
    ∃ r, cdc_ncm_rx_fixup 2048 0 (fun _ => true) ntb_crc = some r ∧
      r.ret = 0 ∧ r.delivered = [] :=
  ⟨by decide, rx_fixup_header_reject 2048 0 (fun _ => true) ntb_crc (by decide)⟩

theorem rx_dpe_loop_run (skb_in : List Nat) (rx_max : Nat) :
    ∀ (k x : Nat), fld16 skb_in 10 + 8 + 4 * (x + k) ≤ skb_in.length →
    rx_dpe_loop skb_in rx_max (fun _ => true) (fld16 skb_in 10 + 8) k x =
      some (if x = 0 ∧ k ≠ 0 ∧
              ((List.range' x k).map (rx_dpe skb_in)).takeWhile (rx_dpe_ok rx_max skb_in) = []
            then 0 else 1,
        ((List.range' x k).map (rx_dpe skb_in)).takeWhile (rx_dpe_ok rx_max skb_in)) := by
  intro k
  induction k with
  | zero => intro x _; simp [rx_dpe_loop]
  | succ k ih =>
    intro x hx
    obtain ⟨o, ho, _⟩ := le16_at_some (b := skb_in) (i := fld16 skb_in 10 + 8 + 4 * x)
      (by omega)
    obtain ⟨l, hl, _⟩ := le16_at_some (b := skb_in) (i := fld16 skb_in 10 + 8 + 4 * x + 2)
      (by omega)
    have hd : rx_dpe skb_in x = (o, l) := by
      simp [rx_dpe, fld16_of_some ho, fld16_of_some hl]
    simp only [rx_dpe_loop, SIZEOF_DPE16, ho, hl, List.range'_succ, List.map_cons, hd,
      List.takeWhile_cons, ETH_HLEN]
    by_cases hok : rx_dpe_ok rx_max skb_in (o, l) = true
    · have hok' := hok
      simp only [rx_dpe_ok, decide_eq_true_eq] at hok'
      rw [if_neg (by omega), if_neg (by omega), ih (x + 1) (by omega)]
      simp [hok]
    · have hok' := hok
      simp only [rx_dpe_ok, decide_eq_true_eq] at hok'
      simp only [hok]
      by_cases hz : o = 0 ∨ l = 0
      · rw [if_pos hz]
        by_cases hx0 : x = 0 <;> simp [hx0]
      · rw [if_neg hz, if_pos (by omega)]
        by_cases hx0 : x = 0 <;> simp [hx0]

/-- The outcome of `cdc_ncm_rx_fixup` on an NTB that passes the NTH16/NDP16 checks,
with every clone succeeding. -/
theorem rx_fixup_run (rx_max rx_seq : Nat) (skb_in : List Nat)
    (h : ¬ rx_header_bad rx_max skb_in) :
    cdc_ncm_rx_fixup rx_max rx_seq (fun _ => true) skb_in =
      some ⟨if rx_expected rx_max skb_in = [] then 0 else 1, fld16 skb_in 6,
        rx_expected rx_max skb_in⟩ ∧
    (rx_expected rx_max skb_in = [] ↔
      rx_dpe_ok rx_max skb_in (rx_dpe skb_in 0) = false) := by
  unfold rx_header_bad at h
  simp only [not_or, not_lt, ne_eq, not_not, Nat.not_lt, gt_iff_lt] at h
  obtain ⟨h0, h1, h2, h3, h4, h5, h6⟩ := h
  obtain ⟨sg, hsg⟩ := le32_at_some (b := skb_in) (i := 0) (by omega)
  obtain ⟨bl, hbl, _⟩ := le16_at_some (b := skb_in) (i := 8) (by omega)
  obtain ⟨sq, hsq, _⟩ := le16_at_some (b := skb_in) (i := 6) (by omega)
  obtain ⟨ni, hni, _⟩ := le16_at_some (b := skb_in) (i := 10) (by omega)
  have eni := fld16_of_some hni
  obtain ⟨ns, hns⟩ := le32_at_some (b := skb_in) (i := ni) (by omega)
  obtain ⟨wl, hwl, _⟩ := le16_at_some (b := skb_in) (i := ni + 4) (by omega)
  have enf : rx_nframes skb_in = (wl - 8) / 4 - 1 := by
    simp [rx_nframes, eni, fld16_of_some hwl]
  rw [fld32_of_some hsg] at h1
  rw [fld16_of_some hbl] at h2
  rw [eni, fld32_of_some hns] at h4
  rw [eni, fld16_of_some hwl] at h5
  rw [eni] at h3
  rw [eni, enf] at h6
  have hloop := rx_dpe_loop_run skb_in rx_max ((wl - 8) / 4 - 1) 0 (by rw [eni]; omega)
  rw [eni] at hloop
  have hnf : (wl - 8) / 4 - 1 ≠ 0 := by omega
  refine ⟨?_, ?_⟩
  · rw [fld16_of_some hsq]
    unfold cdc_ncm_rx_fixup
    simp only [SIZEOF_NTH16, SIZEOF_NDP16, SIZEOF_DPE16, USB_CDC_NCM_NTH16_SIGN,
      USB_CDC_NCM_NDP16_NOCRC_SIGN, USB_CDC_NCM_NDP16_LENGTH_MIN, hsg, hbl, hsq, hni, hns, hwl]
    rw [if_neg (by omega), if_neg (by simpa using h1), if_neg (by omega), if_neg (by omega),
      if_neg (by simpa using h4), if_neg (by omega), if_neg (by omega), hloop]
    simp [rx_expected, enf, hnf]
  · obtain ⟨m, hm⟩ : ∃ m, (wl - 8) / 4 - 1 = m + 1 := ⟨(wl - 8) / 4 - 1 - 1, by omega⟩
    simp only [rx_expected, enf, hm, List.range'_succ, List.map_cons, List.takeWhile_cons]
    by_cases hok : rx_dpe_ok rx_max skb_in (rx_dpe skb_in 0) = true <;> simp [hok]

/-- C4 (decoder DPE iteration): for every NTB that passes the NTH16/NDP16 checks, with
every clone succeeding, `cdc_ncm_rx_fixup` delivers exactly the views
`(wDatagramIndex, wDatagramLength)`, in table order, of the longest initial run of the
first `nframes` DPEs whose entries all have index and length nonzero,
`index + length <= input length`, `length <= rx_max` and `length >= 14`; it returns 0
if and only if that run is empty, which is the case exactly when the first DPE is not
acceptable, and returns 1 otherwise. -/
theorem rx_fixup_dpe_run (rx_max rx_seq : Nat) (skb_in : List Nat)
    (h : ¬ rx_header_bad rx_max skb_in) :
    ∃ r, cdc_ncm_rx_fixup rx_max rx_seq (fun _ => true) skb_in = some r ∧
      r.delivered = rx_expected rx_max skb_in ∧
      (r.ret = 0 ∨ r.ret = 1) ∧
      (r.ret = 0 ↔ rx_expected rx_max skb_in = []) ∧
      (rx_expected rx_max skb_in = [] ↔ rx_dpe_ok rx_max skb_in (rx_dpe skb_in 0) = false) := by
  obtain ⟨hfix, hfirst⟩ := rx_fixup_run rx_max rx_seq skb_in h
  refine ⟨_, hfix, rfl, ?_, ?_, hfirst⟩
  · by_cases he : rx_expected rx_max skb_in = [] <;> simp [he]
  · by_cases he : rx_expected rx_max skb_in = [] <;> simp [he]

theorem rx_fixup_dpe_run_witness :
    ¬ rx_header_bad 2048 ntb_overflow ∧ rx_expected 2048 ntb_overflow = [(32, 14)] ∧
    ∃ r, cdc_ncm_rx_fixup 2048 0 (fun _ => true) ntb_overflow = some r ∧
      r.delivered = rx_expected 2048 ntb_overflow ∧
      (r.ret = 0 ∨ r.ret = 1) ∧
      (r.ret = 0 ↔ rx_expected 2048 ntb_overflow = []) ∧
      (rx_expected 2048 ntb_overflow = [] ↔
        rx_dpe_ok 2048 ntb_overflow (rx_dpe ntb_overflow 0) = false) :=
  ⟨by decide, by decide, rx_fixup_dpe_run 2048 0 ntb_overflow (by decide)⟩

/-! ## Buffers -/

theorem memcpy_length (buf : List Nat) : ∀ (off : Nat) (src : List Nat),
    (memcpy buf off src).length = buf.length := by
  induction buf with
  | nil => intro off src; simp [memcpy]
  | cons b bs ih =>
    intro off src
    cases off with
    | zero =>
      cases src with
      | nil => simp [memcpy]
      | cons s ss => simp [memcpy, ih]
    | succ off => simp [memcpy, ih]

theorem memcpy_get_out (buf : List Nat) : ∀ (off : Nat) (src : List Nat) (i : Nat),
    i < off ∨ off + src.length ≤ i → (memcpy buf off src)[i]? = buf[i]? := by
  induction buf with
  | nil => intro off src i _; simp [memcpy]
  | cons b bs ih =>
    intro off src i h
    cases off with
    | zero =>
      cases src with
      | nil => simp [memcpy]
      | cons s ss =>
        cases i with
        | zero => simp at h
        | succ i =>
          simp only [memcpy, List.getElem?_cons_succ]
          exact ih 0 ss i (by simp only [List.length_cons] at h; omega)
    | succ off =>
      cases i with
      | zero => simp [memcpy]
      | succ i =>
        simp only [memcpy, List.getElem?_cons_succ]
        exact ih off src i (by omega)

theorem memcpy_get_in (buf : List Nat) : ∀ (off : Nat) (src : List Nat) (i : Nat),
    off ≤ i → i < off + src.length → i < buf.length →
    (memcpy buf off src)[i]? = src[i - off]? := by
  induction buf with
  | nil => intro off src i _ _ h; simp at h
  | cons b bs ih =>
    intro off src i h1 h2 h3
    cases off with
    | zero =>
      cases src with
      | nil => simp at h2
      | cons s ss =>
        cases i with
        | zero => simp [memcpy]
        | succ i =>
          simp only [memcpy, List.getElem?_cons_succ, Nat.sub_zero]
          have := ih 0 ss i (by omega) (by simp only [List.length_cons] at h2; omega)
            (by simp only [List.length_cons] at h3; omega)
          simpa using this
    | succ off =>
      cases i with
      | zero => omega
      | succ i =>
        simp only [memcpy, List.getElem?_cons_succ]
        have := ih off src i (by omega) (by omega)
          (by simp only [List.length_cons] at h3; omega)
        rw [this]
        congr 1
        omega

theorem memset0_length (buf : List Nat) (off cnt : Nat) :
    (memset0 buf off cnt).length = buf.length := memcpy_length buf off _

theorem memset0_get_out (buf : List Nat) (off cnt i : Nat) (h : i < off ∨ off + cnt ≤ i) :
    (memset0 buf off cnt)[i]? = buf[i]? :=
  memcpy_get_out buf off _ i (by simpa using h)

theorem memset0_get_in (buf : List Nat) (off cnt i : Nat) (h1 : off ≤ i) (h2 : i < off + cnt)
    (h3 : i < buf.length) : (memset0 buf off cnt)[i]? = some 0 := by
  unfold memset0
  rw [memcpy_get_in buf off _ i h1 (by simpa using h2) h3]
  simp [List.getElem?_replicate]
  omega

theorem zero_fill_length (buf : List Nat) (first e max : Nat) :
    (cdc_ncm_zero_fill buf first e max).length = buf.length := by
  unfold cdc_ncm_zero_fill
  split_ifs <;> simp [memset0_length]

theorem zero_fill_get_out (buf : List Nat) (first e max i : Nat) (h : i < first ∨ e ≤ i ∨ max ≤ i) :
    (cdc_ncm_zero_fill buf first e max)[i]? = buf[i]? := by
  unfold cdc_ncm_zero_fill
  split_ifs with h1 h2 h3
  · rfl
  · rfl
  · exact memset0_get_out _ _ _ _ (by omega)
  · exact memset0_get_out _ _ _ _ (by omega)

theorem zero_fill_get_in (buf : List Nat) (first e max i : Nat) (h1 : first ≤ i) (h2 : i < e)
    (h3 : i < max) (h4 : i < buf.length) : (cdc_ncm_zero_fill buf first e max)[i]? = some 0 := by
  unfold cdc_ncm_zero_fill
  split_ifs with h5 h6 h7
  · omega
  · omega
  · exact memset0_get_in _ _ _ _ h1 (by omega) h4
  · exact memset0_get_in _ _ _ _ h1 (by omega) h4

theorem alloc_skb_length (size : Nat) (g : Nat → Nat) : (alloc_skb size g).length = size := by
  simp [alloc_skb]

theorem bytes_at_memcpy_self {buf : List Nat} {off : Nat} {src : List Nat}
    (h : off + src.length ≤ buf.length) : bytes_at (memcpy buf off src) off src := by
  intro i hi
  rw [memcpy_get_in buf off src (off + i) (by omega) (by omega) (by omega)]
  congr 1
  omega

theorem bytes_at_memcpy_other {buf : List Nat} {a : Nat} {x : List Nat} (off : Nat)
    (src : List Nat) (hx : bytes_at buf a x) (h : a + x.length ≤ off ∨ off + src.length ≤ a) :
    bytes_at (memcpy buf off src) a x := by
  intro i hi
  rw [memcpy_get_out buf off src (a + i) (by omega)]
  exact hx i hi

theorem bytes_at_zero_fill_other {buf : List Nat} {a : Nat} {x : List Nat} (first e max : Nat)
    (hx : bytes_at buf a x) (h : a + x.length ≤ first ∨ e ≤ a ∨ max ≤ a) :
    bytes_at (cdc_ncm_zero_fill buf first e max) a x := by
  intro i hi
  rw [zero_fill_get_out buf first e max (a + i) (by omega)]
  exact hx i hi

theorem bytes_at_take {buf : List Nat} {a : Nat} {x : List Nat} (n : Nat)
    (hx : bytes_at buf a x) (h : a + x.length ≤ n) : bytes_at (buf.take n) a x := by
  intro i hi
  rw [List.getElem?_take_of_lt (by omega)]
  exact hx i hi

theorem bytes_at_append {buf : List Nat} {a : Nat} {x y : List Nat} :
    bytes_at buf a (x ++ y) ↔ bytes_at buf a x ∧ bytes_at buf (a + x.length) y := by
  constructor
  · intro h
    refine ⟨fun i hi => ?_, fun i hi => ?_⟩
    · rw [h i (by simp; omega), List.getElem?_append_left hi]
    · have := h (x.length + i) (by simp; omega)
      rw [List.getElem?_append_right (by omega)] at this
      rw [← Nat.add_assoc] at this
      simpa using this
  · rintro ⟨h1, h2⟩ i hi
    by_cases hx : i < x.length
    · rw [List.getElem?_append_left hx]; exact h1 i hx
    · rw [List.getElem?_append_right (by omega)]
      have := h2 (i - x.length) (by simp at hi; omega)
      rw [← this]
      congr 1
      omega

theorem bytes_at_le16 {buf : List Nat} {a v : Nat} (h : bytes_at buf a (cpu_to_le16 v)) :
    le16_at buf a = some (v % 65536) := by
  have h0 := h 0 (by simp [cpu_to_le16])
  have h1 := h 1 (by simp [cpu_to_le16])
  simp only [cpu_to_le16, Nat.add_zero, List.getElem?_cons_zero, List.getElem?_cons_succ] at h0 h1
  simp only [le16_at, rd8_eq, h0, h1, Option.map_some']
  congr 1
  omega

theorem bytes_at_le32 {buf : List Nat} {a v : Nat} (h : bytes_at buf a (cpu_to_le32 v)) :
    le32_at buf a = some (v % 4294967296) := by
  have h0 := h 0 (by simp [cpu_to_le32])
  have h1 := h 1 (by simp [cpu_to_le32])
  have h2 := h 2 (by simp [cpu_to_le32])
  have h3 := h 3 (by simp [cpu_to_le32])
  simp only [cpu_to_le32, Nat.add_zero, List.getElem?_cons_zero, List.getElem?_cons_succ]
    at h0 h1 h2 h3
  simp only [le32_at, le16_at, rd8_eq, h0, h1, h2, h3, Option.map_some', Nat.add_assoc]
  congr 1
  omega

theorem slice_get (buf : List Nat) (a l i : Nat) :
    (slice buf a l)[i]? = if i < l then buf[a + i]? else none := by
  unfold slice
  by_cases h : i < l
  · rw [List.getElem?_take_of_lt h, List.getElem?_drop, if_pos h]
  · rw [if_neg h, List.getElem?_eq_none]
    simp only [List.length_take, List.length_drop]
    omega

theorem bytes_at_slice {buf : List Nat} {a : Nat} {x : List Nat} (h : bytes_at buf a x) :
    slice buf a x.length = x := by
  apply List.ext_getElem?
  intro i
  rw [slice_get]
  by_cases hi : i < x.length
  · rw [if_pos hi]; exact h i hi
  · rw [if_neg hi, List.getElem?_eq_none (by omega)]

/-! ## The macro `ALIGN` -/

theorem land_high_mask (y k : Nat) (hy : y < 2 ^ 32) (hk : k ≤ 32) :
    y &&& (2 ^ 32 - 2 ^ k) = y - y % 2 ^ k := by
  have e1 : 2 ^ 32 - 2 ^ k = 2 ^ k * (2 ^ (32 - k) - 1) := by
    have : 2 ^ 32 = 2 ^ k * 2 ^ (32 - k) := by
      rw [← pow_add]; congr 1; omega
    rw [Nat.mul_sub, Nat.mul_one, ← this]
  have e2 : y - y % 2 ^ k = 2 ^ k * (y / 2 ^ k) := by
    have := Nat.div_add_mod y (2 ^ k)
    omega
  rw [e1, e2]
  apply Nat.eq_of_testBit_eq
  intro i
  rw [Nat.testBit_and, Nat.testBit_mul_pow_two, Nat.testBit_mul_pow_two,
    Nat.testBit_two_pow_sub_one, ← Nat.shiftRight_eq_div_pow, Nat.testBit_shiftRight]
  by_cases hi : k ≤ i
  · have e3 : k + (i - k) = i := by omega
    simp only [ge_iff_le, hi, decide_True, Bool.true_and, e3]
    by_cases h32 : i < 32
    · have : i - k < 32 - k := by omega
      simp [this]
    · have : ¬ (i - k < 32 - k) := by omega
      simp only [this, decide_False, Bool.and_false]
      have h32' : 32 ≤ i := by omega
      exact (Nat.testBit_lt_two_pow
        (lt_of_lt_of_le hy (Nat.pow_le_pow_right (by norm_num) h32'))).symm
  · simp [hi]

theorem ALIGN_pow (x k : Nat) (hk : k ≤ 31) (hx : x + 2 ^ k ≤ 2 ^ 32) :
    ALIGN x (2 ^ k) = (x + 2 ^ k - 1) - (x + 2 ^ k - 1) % 2 ^ k := by
  have hp : 0 < 2 ^ k := Nat.two_pow_pos k
  have hlt : 2 ^ k < 2 ^ 32 := Nat.pow_lt_pow_right (by norm_num) (by omega)
  unfold ALIGN U32
  have e1 : (2 ^ k + 4294967296 - 1) % 4294967296 = 2 ^ k - 1 := by
    have : 2 ^ k + 4294967296 - 1 = (2 ^ k - 1) + 4294967296 := by omega
    rw [this, Nat.add_mod_right, Nat.mod_eq_of_lt (by norm_num at hlt; omega)]
  rw [e1]
  have e2 : (x + (2 ^ k - 1)) % 4294967296 = x + 2 ^ k - 1 := by
    rw [Nat.mod_eq_of_lt (by norm_num at hx; omega)]; omega
  rw [e2]
  have e3 : 4294967296 - 1 - (2 ^ k - 1) = 2 ^ 32 - 2 ^ k := by norm_num; omega
  rw [e3]
  exact land_high_mask _ k (by norm_num at hx ⊢; omega) (by omega)

theorem ALIGN_ge (x k : Nat) (hk : k ≤ 31) (hx : x + 2 ^ k ≤ 2 ^ 32) : x ≤ ALIGN x (2 ^ k) := by
  rw [ALIGN_pow x k hk hx]
  have hp : 0 < 2 ^ k := Nat.two_pow_pos k
  have := Nat.mod_lt (x + 2 ^ k - 1) hp
  omega

theorem ALIGN_lt (x k : Nat) (hk : k ≤ 31) (hx : x + 2 ^ k ≤ 2 ^ 32) :
    ALIGN x (2 ^ k) < x + 2 ^ k := by
  rw [ALIGN_pow x k hk hx]
  have hp : 0 < 2 ^ k := Nat.two_pow_pos k
  omega

theorem ALIGN_mod (x k : Nat) (hk : k ≤ 31) (hx : x + 2 ^ k ≤ 2 ^ 32) :
    ALIGN x (2 ^ k) % 2 ^ k = 0 := by
  rw [ALIGN_pow x k hk hx]
  exact Nat.sub_mod_eq_zero_of_mod_eq (Nat.mod_mod _ _).symm

/-! ## The packing loop -/

theorem tx_hdr_end_bounds {ctx : cdc_ncm_ctx} (hP : tx_params_ok ctx) :
    24 ≤ tx_hdr_end ctx ∧ tx_hdr_end ctx ≤ 32952 ∧
      12 ≤ ALIGN SIZEOF_NTH16 ctx.tx_ndp_modulus ∧
      ALIGN SIZEOF_NTH16 ctx.tx_ndp_modulus < 32780 ∧
      ALIGN SIZEOF_NTH16 ctx.tx_ndp_modulus % ctx.tx_ndp_modulus = 0 := by
  obtain ⟨_, ⟨j, hj, hj'⟩, _, hd, _, _⟩ := hP
  have hpow : 2 ^ j ≤ 2 ^ 15 := Nat.pow_le_pow_right (by norm_num) hj
  have h1 := ALIGN_ge 12 j (by omega) (by norm_num at hpow ⊢; omega)
  have h2 := ALIGN_lt 12 j (by omega) (by norm_num at hpow ⊢; omega)
  have h3 := ALIGN_mod 12 j (by omega) (by norm_num at hpow ⊢; omega)
  unfold tx_hdr_end
  simp only [SIZEOF_NTH16, SIZEOF_NDP16, SIZEOF_DPE16, hj']
  norm_num at hpow
  refine ⟨by omega, by omega, h1, by omega, h3⟩

theorem tx_next_bounds {ctx : cdc_ncm_ctx} (hP : tx_params_ok ctx) (e : Nat) (he : e ≤ 1048576) :
    e ≤ tx_next ctx e ∧ tx_next ctx e < e + 98304 ∧
      tx_next ctx e % ctx.tx_modulus = ctx.tx_remainder % ctx.tx_modulus := by
  obtain ⟨⟨k, hk, hk'⟩, _, _, _, hr, _⟩ := hP
  have hpow : 2 ^ k ≤ 2 ^ 15 := Nat.pow_le_pow_right (by norm_num) hk
  have h1 := ALIGN_ge e k (by omega) (by norm_num at hpow ⊢; omega)
  have h2 := ALIGN_lt e k (by omega) (by norm_num at hpow ⊢; omega)
  have h3 := ALIGN_mod e k (by omega) (by norm_num at hpow ⊢; omega)
  unfold tx_next
  rw [hk']
  norm_num at hpow
  refine ⟨by omega, by omega, ?_⟩
  rw [Nat.add_mod, h3, Nat.zero_add, Nat.mod_mod]

theorem tx_buf_inv_bounds {ctx : cdc_ncm_ctx} (hP : tx_params_ok ctx) {buf : List Nat}
    {dpe16 : List usb_cdc_ncm_dpe16} {offset last : Nat} {pend : List (Nat × List Nat)}
    (h : tx_buf_inv ctx buf dpe16 offset last pend) :
    tx_hdr_end ctx ≤ last ∧ last ≤ 32952 ∧ last ≤ offset ∧ tx_first_offset ctx ≤ offset ∧
      (pend ≠ [] → last ≤ ctx.tx_max) := by
  obtain ⟨_, _, hpk, hnil, hlast, hoff⟩ := h
  have hb := tx_hdr_end_bounds hP
  have hmax : ctx.tx_max ≤ 32768 := hP.2.2.1
  have hl : tx_hdr_end ctx ≤ last ∧ last ≤ 32952 ∧ (pend ≠ [] → last ≤ ctx.tx_max) := by
    rcases List.eq_nil_or_concat pend with hp | ⟨l, p, hp⟩
    · have := hnil hp
      exact ⟨by omega, by omega, fun hne => absurd hp hne⟩
    · have hg : pend[l.length]? = some p := by rw [hp]; simp
      have hk := hpk _ _ hg
      have hle := hlast p (by rw [hp]; simp)
      obtain ⟨_, _, h3, h4, h5, h6, _⟩ := hk
      have h7 := (tx_next_bounds hP (tx_hdr_end ctx) (by omega)).1
      unfold tx_first_offset at h3
      exact ⟨by omega, by omega, fun _ => h6⟩
  have hn := tx_next_bounds hP last (by omega)
  have hn0 := tx_next_bounds hP (tx_hdr_end ctx) (by omega)
  refine ⟨hl.1, hl.2.1, by omega, ?_, hl.2.2⟩
  rw [hoff]
  unfold tx_first_offset tx_next
  obtain ⟨⟨k, hk, hk'⟩, _⟩ := hP
  have hpow : 2 ^ k ≤ 2 ^ 15 := Nat.pow_le_pow_right (by norm_num) hk
  rw [hk', ALIGN_pow _ k (by omega) (by norm_num at hpow ⊢; omega),
    ALIGN_pow _ k (by omega) (by norm_num at hpow ⊢; omega)]
  have hp : 0 < 2 ^ k := Nat.two_pow_pos k
  have hmono : (tx_hdr_end ctx + 2 ^ k - 1) / 2 ^ k ≤ (last + 2 ^ k - 1) / 2 ^ k :=
    Nat.div_le_div_right (by omega)
  have e1 := Nat.div_add_mod (tx_hdr_end ctx + 2 ^ k - 1) (2 ^ k)
  have e2 := Nat.div_add_mod (last + 2 ^ k - 1) (2 ^ k)
  have hmul := Nat.mul_le_mul_left (2 ^ k) hmono
  omega

theorem tx_fill_body_break {ctx : cdc_ncm_ctx} {s s' : tx_fill_state}
    (h : tx_fill_body ctx.tx_max ctx.tx_modulus ctx.tx_remainder s = (s', none)) :
    s'.skb_out = s.skb_out ∧ s'.dpe16 = s.dpe16 ∧ s'.offset = s.offset ∧
      s'.last_offset = s.last_offset ∧ s'.n = s.n ∧
      (s'.ready2send = 0 → s.offset < ctx.tx_max ∧ s.ready2send = 0) := by
  unfold tx_fill_body at h
  rcases hs : s.skb with _ | f <;> rcases hr : s.tx_rem_skb with _ | g <;>
    simp only [hs, hr] at h <;> split_ifs at h <;>
    first
    | (simp at h; done)
    | (simp only [Prod.mk.injEq, and_true] at h
       subst h
       refine ⟨rfl, rfl, rfl, rfl, rfl, ?_⟩
       intro h0
       dsimp only at h0
       omega)

/-- What a pass of the loop body that runs to its end does, in terms of the frame `f`
it takes. -/
theorem tx_fill_body_cont {ctx : cdc_ncm_ctx} {s s' : tx_fill_state} {p : Nat × List Nat}
    (h : tx_fill_body ctx.tx_max ctx.tx_modulus ctx.tx_remainder s = (s', some p)) :
    p.1 = s.offset ∧ s.offset < ctx.tx_max ∧ p.2.length ≤ ctx.tx_max - s.offset ∧
    s'.skb_out = cdc_ncm_zero_fill (memcpy s.skb_out s.offset p.2) (s.offset + p.2.length)
      ((ALIGN (s.offset + p.2.length) ctx.tx_modulus + ctx.tx_remainder) % U32) ctx.tx_max ∧
    s'.dpe16 = s.dpe16.set s.n ⟨s.offset % U16, p.2.length % U16⟩ ∧
    s'.offset = (ALIGN (s.offset + p.2.length) ctx.tx_modulus + ctx.tx_remainder) % U32 ∧
    s'.last_offset = s.offset + p.2.length ∧ s'.n = s.n + 1 ∧
    s'.ready2send = s.ready2send ∧ s'.skb = none ∧
    s'.tx_dropped = s.tx_dropped ∧
    ((s.skb = some p.2 ∧ s'.tx_rem_skb = s.tx_rem_skb) ∨
      (s.skb = none ∧ s.tx_rem_skb = some p.2 ∧ s'.tx_rem_skb = none)) := by
  unfold tx_fill_body at h
  rcases hs : s.skb with _ | f <;> rcases hr : s.tx_rem_skb with _ | g <;>
    simp only [hs, hr] at h <;> split_ifs at h <;>
    first
    | (simp at h; done)
    | (simp only [Prod.mk.injEq, Option.some.injEq] at h
       obtain ⟨h, rfl⟩ := h
       subst h
       refine ⟨rfl, by omega, by dsimp only; omega, rfl, rfl, rfl, rfl, rfl, rfl, rfl, rfl, ?_⟩
       simp)

theorem tx_next_mod_U32 {ctx : cdc_ncm_ctx} (hP : tx_params_ok ctx) (e : Nat) (he : e ≤ 1048576) :
    (ALIGN e ctx.tx_modulus + ctx.tx_remainder) % U32 = tx_next ctx e := by
  have h := tx_next_bounds hP e he
  unfold tx_next at h ⊢
  unfold U32
  exact Nat.mod_eq_of_lt (by omega)

theorem tx_buf_inv_pack {ctx : cdc_ncm_ctx} (hP : tx_params_ok ctx) {buf : List Nat}
    {dpe16 : List usb_cdc_ncm_dpe16} {offset last : Nat} {pend : List (Nat × List Nat)}
    (hinv : tx_buf_inv ctx buf dpe16 offset last pend) (f : List Nat)
    (hoff : offset < ctx.tx_max) (hfit : f.length ≤ ctx.tx_max - offset)
    (hn : pend.length < 41) :
    tx_buf_inv ctx
      (cdc_ncm_zero_fill (memcpy buf offset f) (offset + f.length)
        ((ALIGN (offset + f.length) ctx.tx_modulus + ctx.tx_remainder) % U32) ctx.tx_max)
      (dpe16.set pend.length ⟨offset % U16, f.length % U16⟩)
      ((ALIGN (offset + f.length) ctx.tx_modulus + ctx.tx_remainder) % U32)
      (offset + f.length) (pend ++ [(offset, f)]) := by
  have hb := tx_buf_inv_bounds hP hinv
  obtain ⟨hlen, hdl, hpk, hnil, hlast, hoffeq⟩ := hinv
  have hmax : ctx.tx_max ≤ 32768 := hP.2.2.1
  refine ⟨?_, ?_, ?_, ?_, ?_, ?_⟩
  · rw [zero_fill_length, memcpy_length, hlen]
  · rw [List.length_set, hdl]
  · intro i p hi
    rcases Nat.lt_trichotomy i pend.length with hlt | heq | hgt
    · rw [List.getElem?_append_left hlt] at hi
      obtain ⟨h1, h2, h3, h4, h5, h6, h7⟩ := hpk i p hi
      refine ⟨?_, ?_, h3, h4, by omega, by omega, h7⟩
      · rw [List.getElem?_set_ne (by omega)]; exact h1
      · exact bytes_at_zero_fill_other _ _ _
          (bytes_at_memcpy_other _ _ h2 (Or.inl (by omega))) (Or.inl (by omega))
    · subst heq
      rw [List.getElem?_append_right (le_refl _)] at hi
      simp only [Nat.sub_self, List.getElem?_cons_zero, Option.some.injEq] at hi
      subst hi
      refine ⟨?_, ?_, hb.2.2.2.1, hoff, le_refl _, by omega,
        by rw [hoffeq]; exact (tx_next_bounds hP last (by omega)).2.2⟩
      · rw [List.getElem?_set_self (by omega)]
        simp only [U16]
        rw [Nat.mod_eq_of_lt (by omega), Nat.mod_eq_of_lt (by omega)]
      · exact bytes_at_zero_fill_other _ _ _
          (bytes_at_memcpy_self (by rw [hlen]; omega)) (Or.inl (le_refl _))
    · rw [List.getElem?_eq_none (by simp; omega)] at hi
      exact absurd hi (by simp)
  · intro h; simp at h
  · intro p hp
    rw [List.getLast?_concat] at hp
    simp only [Option.some.injEq] at hp
    subst hp
    rfl
  · exact tx_next_mod_U32 hP _ (by omega)

theorem tx_fill_loop_inv {ctx : cdc_ncm_ctx} (hP : tx_params_ok ctx) :
    ∀ (k : Nat) (s : tx_fill_state) (pend : List (Nat × List Nat)),
    tx_buf_inv ctx s.skb_out s.dpe16 s.offset s.last_offset pend → s.n = pend.length →
    s.n + k ≤ 40 →
    tx_buf_inv ctx (tx_fill_loop ctx.tx_max ctx.tx_modulus ctx.tx_remainder k s).skb_out
      (tx_fill_loop ctx.tx_max ctx.tx_modulus ctx.tx_remainder k s).dpe16
      (tx_fill_loop ctx.tx_max ctx.tx_modulus ctx.tx_remainder k s).offset
      (tx_fill_loop ctx.tx_max ctx.tx_modulus ctx.tx_remainder k s).last_offset
      (pend ++ tx_fill_packed ctx.tx_max ctx.tx_modulus ctx.tx_remainder k s) ∧
    (tx_fill_loop ctx.tx_max ctx.tx_modulus ctx.tx_remainder k s).n =
      (pend ++ tx_fill_packed ctx.tx_max ctx.tx_modulus ctx.tx_remainder k s).length ∧
    (tx_fill_loop ctx.tx_max ctx.tx_modulus ctx.tx_remainder k s).n ≤ s.n + k ∧
    ((tx_fill_loop ctx.tx_max ctx.tx_modulus ctx.tx_remainder k s).ready2send = 0 →
      s.ready2send = 0 ∧
      ((tx_fill_loop ctx.tx_max ctx.tx_modulus ctx.tx_remainder k s).n = s.n + k ∨
       (tx_fill_loop ctx.tx_max ctx.tx_modulus ctx.tx_remainder k s).offset < ctx.tx_max)) := by
  intro k
  induction k with
  | zero =>
    intro s pend hinv hn _
    simp only [tx_fill_loop, tx_fill_packed, List.append_nil, Nat.add_zero]
    exact ⟨hinv, hn, le_refl _, fun h => ⟨h, by simp⟩⟩
  | succ k ih =>
    intro s pend hinv hn hk
    rcases hbody : tx_fill_body ctx.tx_max ctx.tx_modulus ctx.tx_remainder s with ⟨s1, _ | p⟩
    · obtain ⟨h1, h2, h3, h4, h5, h6⟩ := tx_fill_body_break hbody
      simp only [tx_fill_loop, tx_fill_packed, hbody, List.append_nil]
      rw [h1, h2, h3, h4, h5]
      refine ⟨hinv, hn, by omega, fun h => ?_⟩
      have := h6 h
      exact ⟨this.2, Or.inr this.1⟩
    · obtain ⟨h1, h2, h3, h4, h5, h6, h7, h8, h9, _⟩ := tx_fill_body_cont hbody
      have hpack := tx_buf_inv_pack hP hinv p.2 h2 h3 (by omega)
      rw [← hn, ← h5, ← h4, ← h6, ← h7, ← h1] at hpack
      have hih := ih s1 (pend ++ [p]) hpack (by rw [h8, hn]; simp) (by omega)
      simp only [tx_fill_loop, tx_fill_packed, hbody]
      rw [List.append_assoc] at hih
      simp only [List.singleton_append] at hih
      refine ⟨hih.1, hih.2.1, by omega, fun h => ?_⟩
      have := hih.2.2.2 h
      rw [h9, h8] at this
      exact ⟨this.1, by omega⟩

/-! ## Finalisation of an NTB -/

theorem foldl_set_length (z : usb_cdc_ncm_dpe16) : ∀ (l : List Nat) (d : List usb_cdc_ncm_dpe16),
    (l.foldl (fun d i => d.set i z) d).length = d.length := by
  intro l
  induction l with
  | nil => intro d; rfl
  | cons a l ih => intro d; simp only [List.foldl_cons]; rw [ih, List.length_set]

theorem foldl_set_get (z : usb_cdc_ncm_dpe16) : ∀ (l : List Nat) (d : List usb_cdc_ncm_dpe16)
    (j : Nat), (l.foldl (fun d i => d.set i z) d)[j]? =
      if j ∈ l ∧ j < d.length then some z else d[j]? := by
  intro l
  induction l with
  | nil => intro d j; simp
  | cons a l ih =>
    intro d j
    simp only [List.foldl_cons]
    rw [ih, List.length_set]
    by_cases hj : j < d.length
    · by_cases hl : j ∈ l
      · simp [hl, hj]
      · by_cases ha : j = a
        · subst ha
          simp [hl, hj, List.getElem?_set_self hj]
        · have : a ≠ j := fun h => ha h.symm
          simp [hl, hj, ha, List.getElem?_set_ne this]
    · have hn : d[j]? = none := List.getElem?_eq_none (by omega)
      have hn' : (d.set a z)[j]? = none := List.getElem?_eq_none (by rw [List.length_set]; omega)
      simp [hj, hn, hn']

theorem tx_zero_dpe_length (d : List usb_cdc_ncm_dpe16) (n : Nat) :
    (tx_zero_dpe d n).length = d.length := foldl_set_length _ _ _

theorem tx_zero_dpe_get (d : List usb_cdc_ncm_dpe16) (n j : Nat) (hd : d.length = 41) :
    (tx_zero_dpe d n)[j]? = if n ≤ j ∧ j < 41 then some ⟨0, 0⟩ else d[j]? := by
  unfold tx_zero_dpe
  rw [foldl_set_get]
  simp only [CDC_NCM_DPT_DATAGRAMS_MAX, List.mem_range'_1, hd]
  by_cases h : n ≤ j ∧ j < 41
  · rw [if_pos h, if_pos ⟨⟨h.1, by omega⟩, h.2⟩]
  · rw [if_neg h, if_neg (by omega)]

theorem dpe16_bytes_length : ∀ (ds : List usb_cdc_ncm_dpe16), (dpe16_bytes ds).length = 4 * ds.length
  | [] => rfl
  | d :: ds => by
    simp only [dpe16_bytes, List.length_append, cpu_to_le16, List.length_cons, List.length_nil,
      dpe16_bytes_length ds]
    omega

theorem bytes_at_dpe16 {buf : List Nat} : ∀ (ds : List usb_cdc_ncm_dpe16) (base : Nat),
    bytes_at buf base (dpe16_bytes ds) → ∀ i d, ds[i]? = some d →
      le16_at buf (base + 4 * i) = some (d.wDatagramIndex % 65536) ∧
      le16_at buf (base + 4 * i + 2) = some (d.wDatagramLength % 65536)
  | [], _, _, i, d, hi => by simp at hi
  | e :: ds, base, h, i, d, hi => by
    simp only [dpe16_bytes, List.append_assoc] at h
    rw [bytes_at_append, bytes_at_append] at h
    obtain ⟨h1, h2, h3⟩ := h
    simp only [cpu_to_le16, List.length_cons, List.length_nil] at h2 h3
    cases i with
    | zero =>
      simp only [List.getElem?_cons_zero, Option.some.injEq] at hi
      subst hi
      exact ⟨bytes_at_le16 h1, bytes_at_le16 h2⟩
    | succ i =>
      simp only [List.getElem?_cons_succ] at hi
      have := bytes_at_dpe16 ds (base + 2 + 2) h3 i d hi
      have e1 : base + 2 + 2 + 4 * i = base + 4 * (i + 1) := by omega
      rw [e1] at this
      exact this

theorem nth16_bytes_at {buf : List Nat} {a : Nat} {h : usb_cdc_ncm_nth16}
    (hb : bytes_at buf a (nth16_bytes h)) :
    le32_at buf a = some (h.dwSignature % 4294967296) ∧
    le16_at buf (a + 4) = some (h.wHeaderLength % 65536) ∧
    le16_at buf (a + 6) = some (h.wSequence % 65536) ∧
    le16_at buf (a + 8) = some (h.wBlockLength % 65536) ∧
    le16_at buf (a + 10) = some (h.wNdpIndex % 65536) := by
  unfold nth16_bytes at hb
  rw [bytes_at_append, bytes_at_append, bytes_at_append, bytes_at_append] at hb
  obtain ⟨⟨⟨⟨h1, h2⟩, h3⟩, h4⟩, h5⟩ := hb
  simp only [List.length_append, cpu_to_le32, cpu_to_le16, List.length_cons, List.length_nil]
    at h2 h3 h4 h5
  exact ⟨bytes_at_le32 h1, bytes_at_le16 h2, bytes_at_le16 h3, bytes_at_le16 h4,
    bytes_at_le16 h5⟩

theorem ndp16_bytes_at {buf : List Nat} {a : Nat} {h : usb_cdc_ncm_ndp16}
    (hb : bytes_at buf a (ndp16_bytes h)) :
    le32_at buf a = some (h.dwSignature % 4294967296) ∧
    le16_at buf (a + 4) = some (h.wLength % 65536) ∧
    le16_at buf (a + 6) = some (h.wNextNdpIndex % 65536) := by
  unfold ndp16_bytes at hb
  rw [bytes_at_append, bytes_at_append] at hb
  obtain ⟨⟨h1, h2⟩, h3⟩ := hb
  simp only [List.length_append, cpu_to_le32, cpu_to_le16, List.length_cons, List.length_nil]
    at h2 h3
  exact ⟨bytes_at_le32 h1, bytes_at_le16 h2, bytes_at_le16 h3⟩

theorem nth16_bytes_length (h : usb_cdc_ncm_nth16) : (nth16_bytes h).length = 12 := by
  simp [nth16_bytes, cpu_to_le32, cpu_to_le16]

theorem ndp16_bytes_length (h : usb_cdc_ncm_ndp16) : (ndp16_bytes h).length = 8 := by
  simp [ndp16_bytes, cpu_to_le32, cpu_to_le16]

/-- The three header copies at the end of `cdc_ncm_fill_tx_frame`, followed by
`skb_put`: what the resulting bytes hold. -/
theorem ntb_assemble (data : List Nat) (index n L H : Nat) (nth : usb_cdc_ncm_nth16)
    (ndp : usb_cdc_ncm_ndp16) (dpe : List usb_cdc_ncm_dpe16) (pkts : List (Nat × List Nat))
    (h12 : 12 ≤ index) (hH : index + 8 + 4 * (n + 1) ≤ H) (hHL : H ≤ L)
    (hL : L ≤ data.length) (hn : pkts.length = n) (hdl : n + 1 ≤ dpe.length)
    (hpk : ∀ (i : Nat) (p : Nat × List Nat), pkts[i]? = some p →
      dpe[i]? = some ⟨p.1, p.2.length⟩ ∧
      bytes_at data p.1 p.2 ∧ H ≤ p.1 ∧ p.1 + p.2.length ≤ L ∧ p.1 < 65536 ∧
      p.2.length < 65536)
    (hz : dpe[n]? = some ⟨0, 0⟩) :
    (∀ out, out = ((memcpy (memcpy (memcpy data 0 (nth16_bytes nth)) index (ndp16_bytes ndp))
        (index + 8) (dpe16_bytes (dpe.take (n + 1)))).take L) →
      out.length = L ∧
      bytes_at out 0 (nth16_bytes nth) ∧ bytes_at out index (ndp16_bytes ndp) ∧
      (∀ (i : Nat) (p : Nat × List Nat), pkts[i]? = some p →
        le16_at out (index + 8 + 4 * i) = some p.1 ∧
        le16_at out (index + 8 + 4 * i + 2) = some p.2.length ∧
        slice out p.1 p.2.length = p.2) ∧
      le16_at out (index + 8 + 4 * n) = some 0 ∧
      le16_at out (index + 8 + 4 * n + 2) = some 0 ∧
      (∀ i, H ≤ i → i < L → out[i]? = data[i]?)) := by
  intro out hout
  have hl1 : (memcpy data 0 (nth16_bytes nth)).length = data.length := memcpy_length _ _ _
  have hl2 : (memcpy (memcpy data 0 (nth16_bytes nth)) index (ndp16_bytes ndp)).length =
      data.length := by rw [memcpy_length, hl1]
  have hdb : (dpe16_bytes (dpe.take (n + 1))).length = 4 * (n + 1) := by
    rw [dpe16_bytes_length, List.length_take, Nat.min_eq_left hdl]
  have hnl := nth16_bytes_length nth
  have hpl := ndp16_bytes_length ndp
  have b1 : bytes_at out 0 (nth16_bytes nth) := by
    rw [hout]
    refine bytes_at_take _ (bytes_at_memcpy_other _ _ (bytes_at_memcpy_other _ _
      (bytes_at_memcpy_self (by omega)) (Or.inl (by omega))) (Or.inl (by omega))) (by omega)
  have b2 : bytes_at out index (ndp16_bytes ndp) := by
    rw [hout]
    refine bytes_at_take _ (bytes_at_memcpy_other _ _
      (bytes_at_memcpy_self (by omega)) (Or.inl (by omega))) (by omega)
  have b3 : bytes_at out (index + 8) (dpe16_bytes (dpe.take (n + 1))) := by
    rw [hout]
    exact bytes_at_take _ (bytes_at_memcpy_self (by omega)) (by omega)
  have hread := bytes_at_dpe16 _ _ b3
  refine ⟨?_, b1, b2, ?_, ?_, ?_, ?_⟩
  · rw [hout, List.length_take, memcpy_length, hl2]
    omega
  · intro i p hi
    obtain ⟨q1, q2, q3, q4, q5, q6⟩ := hpk i p hi
    have hin : i < n := by
      rw [← hn]
      by_contra hc
      rw [List.getElem?_eq_none (by omega)] at hi
      simp at hi
    have hd : (dpe.take (n + 1))[i]? = some ⟨p.1, p.2.length⟩ := by
      rw [List.getElem?_take_of_lt (by omega)]; exact q1
    have hr := hread i _ hd
    simp only [Nat.mod_eq_of_lt q5, Nat.mod_eq_of_lt q6] at hr
    refine ⟨hr.1, hr.2, ?_⟩
    apply bytes_at_slice
    rw [hout]
    exact bytes_at_take _ (bytes_at_memcpy_other _ _ (bytes_at_memcpy_other _ _
      (bytes_at_memcpy_other _ _ q2 (Or.inr (by omega))) (Or.inr (by omega)))
      (Or.inr (by omega))) q4
  · have hd : (dpe.take (n + 1))[n]? = some ⟨0, 0⟩ := by
      rw [List.getElem?_take_of_lt (by omega)]; exact hz
    exact (hread n _ hd).1
  · have hd : (dpe.take (n + 1))[n]? = some ⟨0, 0⟩ := by
      rw [List.getElem?_take_of_lt (by omega)]; exact hz
    exact (hread n _ hd).2
  · intro i hi hiL
    rw [hout, List.getElem?_take_of_lt hiL, memcpy_get_out _ _ _ _ (Or.inr (by omega)),
      memcpy_get_out _ _ _ _ (Or.inr (by omega)), memcpy_get_out _ _ _ _ (Or.inr (by omega))]

/-- The bytes returned by `tx_finalize` when the end of the last datagram is within
`tx_max`, in terms of the natural length and the short-packet rule. -/
theorem tx_finalize_out (ctx : cdc_ncm_ctx) (buf : List Nat) (last : Nat)
    (hl : last ≤ ctx.tx_max) :
    (tx_finalize ctx buf last).2 =
      ((memcpy (memcpy (memcpy
        (if tx_short_pad ctx (tx_natural_len ctx last) then
          memcpy (cdc_ncm_zero_fill buf last (tx_natural_len ctx last) ctx.tx_max)
            (tx_natural_len ctx last) [0]
         else cdc_ncm_zero_fill buf last (tx_natural_len ctx last) ctx.tx_max)
        0 (nth16_bytes ⟨USB_CDC_NCM_NTH16_SIGN, SIZEOF_NTH16, ctx.tx_seq,
          (if tx_short_pad ctx (tx_natural_len ctx last) then
            (tx_natural_len ctx last + 1) % U32 else tx_natural_len ctx last) % U16,
          ALIGN SIZEOF_NTH16 ctx.tx_ndp_modulus % U16⟩))
        (ALIGN SIZEOF_NTH16 ctx.tx_ndp_modulus % U16)
        (ndp16_bytes ⟨USB_CDC_NCM_NDP16_NOCRC_SIGN,
          (SIZEOF_NDP16 + (ctx.tx_curr_frame_num + 1) * SIZEOF_DPE16) % U32 % U16, 0⟩))
        (ALIGN SIZEOF_NTH16 ctx.tx_ndp_modulus % U16 + SIZEOF_NDP16)
        (dpe16_bytes ((tx_zero_dpe ctx.tx_ncm.dpe16 ctx.tx_curr_frame_num).take
          (ctx.tx_curr_frame_num + 1)))).take
        (if tx_short_pad ctx (tx_natural_len ctx last) then
          (tx_natural_len ctx last + 1) % U32 else tx_natural_len ctx last)) := by
  have e1 : (if last > ctx.tx_max then ctx.tx_max else last) = last := if_neg (by omega)
  have e2 : (if last > CDC_NCM_MIN_TX_PKT then ctx.tx_max else last) =
      tx_natural_len ctx last := by
    unfold tx_natural_len
    rw [Nat.min_eq_left hl]
  have e3 : ∀ p : Nat, decide ((p < ctx.tx_max ∧ p % ctx.out_ep = 0) ∨
      ((p = ctx.tx_max ∧ ctx.tx_max % ctx.out_ep = 0) ∧
        ctx.tx_max < ctx.ncm_parm.dwNtbOutMaxSize)) = decide (tx_short_pad ctx p) := by
    intro p
    congr 1
    unfold tx_short_pad
    apply propext
    constructor
    · rintro (⟨h1, h2⟩ | ⟨⟨h1, h2⟩, h3⟩)
      · exact ⟨h2, Or.inl h1⟩
      · exact ⟨by rw [h1]; exact h2, Or.inr ⟨h1, h3⟩⟩
    · rintro ⟨h1, h2 | ⟨h2, h3⟩⟩
      · exact Or.inl ⟨h2, h1⟩
      · exact Or.inr ⟨⟨h2, by rw [← h2]; exact h1⟩, h3⟩
  unfold tx_finalize
  simp only [e1, e2, e3, decide_eq_true_eq]

theorem tx_natural_len_bounds (ctx : cdc_ncm_ctx) (last : Nat) (hl : last ≤ ctx.tx_max) :
    last ≤ tx_natural_len ctx last ∧ tx_natural_len ctx last ≤ ctx.tx_max := by
  unfold tx_natural_len
  rw [Nat.min_eq_left hl]
  split_ifs <;> omega

theorem tx_final_len_bounds (ctx : cdc_ncm_ctx) (last : Nat) (hl : last ≤ ctx.tx_max) :
    last ≤ tx_final_len ctx last ∧ tx_final_len ctx last ≤ ctx.tx_max + 1 := by
  have := tx_natural_len_bounds ctx last hl
  unfold tx_final_len
  split_ifs <;> omega

/-- What `tx_finalize` returns for a pending NTB that holds the pairs `pkts`, at least
one and at most `tx_max_datagrams`. -/
theorem tx_finalize_spec {ctx : cdc_ncm_ctx} (hP : tx_params_ok ctx) {buf : List Nat}
    {offset last : Nat} {pkts : List (Nat × List Nat)}
    (hinv : tx_buf_inv ctx buf ctx.tx_ncm.dpe16 offset last pkts) (hne : pkts ≠ [])
    (hn : ctx.tx_curr_frame_num = pkts.length) (hcap : pkts.length ≤ ctx.tx_max_datagrams) :
    ntb_layout ctx ctx.tx_seq (tx_finalize ctx buf last).2 pkts ∧
    (tx_finalize ctx buf last).2.length = tx_final_len ctx last ∧
    (∀ i, last ≤ i → i < tx_final_len ctx last → (tx_finalize ctx buf last).2[i]? = some 0) := by
  have hb := tx_buf_inv_bounds hP hinv
  have hh := tx_hdr_end_bounds hP
  obtain ⟨hlen, hdl, hpk, -, -, -⟩ := hinv
  have hmax : ctx.tx_max ≤ 32768 := hP.2.2.1
  have hdg : ctx.tx_max_datagrams ≤ 40 := hP.2.2.2.1
  have hl : last ≤ ctx.tx_max := hb.2.2.2.2 hne
  have hnat := tx_natural_len_bounds ctx last hl
  have hfin := tx_final_len_bounds ctx last hl
  have hfo := (tx_next_bounds hP (tx_hdr_end ctx) (by omega)).1
  -- the buffer after padding
  obtain ⟨data, hdata⟩ : ∃ data, data =
      (if tx_short_pad ctx (tx_natural_len ctx last) then
          memcpy (cdc_ncm_zero_fill buf last (tx_natural_len ctx last) ctx.tx_max)
            (tx_natural_len ctx last) [0]
       else cdc_ncm_zero_fill buf last (tx_natural_len ctx last) ctx.tx_max) := ⟨_, rfl⟩
  have hL : (if tx_short_pad ctx (tx_natural_len ctx last) then
      (tx_natural_len ctx last + 1) % U32 else tx_natural_len ctx last) =
      tx_final_len ctx last := by
    unfold tx_final_len U32
    split_ifs
    · exact Nat.mod_eq_of_lt (by omega)
    · rfl
  have hdlen : data.length = ctx.tx_max + 1 := by
    rw [hdata]
    split_ifs
    · rw [memcpy_length, zero_fill_length, hlen]
    · rw [zero_fill_length, hlen]
  have hdpk : ∀ (i : Nat) (p : Nat × List Nat), pkts[i]? = some p → bytes_at data p.1 p.2 := by
    intro i p hi
    obtain ⟨_, h2, _, _, h5, _, _⟩ := hpk i p hi
    rw [hdata]
    split_ifs
    · exact bytes_at_memcpy_other _ _ (bytes_at_zero_fill_other _ _ _ h2 (Or.inl h5))
        (Or.inl (by omega))
    · exact bytes_at_zero_fill_other _ _ _ h2 (Or.inl h5)
  have hdz : ∀ i, last ≤ i → i < tx_final_len ctx last → data[i]? = some 0 := by
    intro i hi1 hi2
    rw [hdata]
    by_cases hpad : tx_short_pad ctx (tx_natural_len ctx last)
    · rw [if_pos hpad]
      have hfl : tx_final_len ctx last = tx_natural_len ctx last + 1 := by
        unfold tx_final_len; rw [if_pos hpad]
      by_cases hip : i < tx_natural_len ctx last
      · rw [memcpy_get_out _ _ _ _ (Or.inl hip)]
        exact zero_fill_get_in _ _ _ _ _ hi1 hip (by omega) (by omega)
      · rw [memcpy_get_in _ _ _ _ (by omega) (by simp; omega)
          (by rw [zero_fill_length, hlen]; omega)]
        have : i - tx_natural_len ctx last = 0 := by omega
        rw [this]
        rfl
    · rw [if_neg hpad]
      have hfl : tx_final_len ctx last = tx_natural_len ctx last := by
        unfold tx_final_len; rw [if_neg hpad]
      exact zero_fill_get_in _ _ _ _ _ hi1 (by omega) (by omega) (by omega)
  have hidx : ALIGN SIZEOF_NTH16 ctx.tx_ndp_modulus % U16 = ALIGN 12 ctx.tx_ndp_modulus := by
    unfold U16 SIZEOF_NTH16
    exact Nat.mod_eq_of_lt (by have := hh.2.2.2.1; unfold SIZEOF_NTH16 at this; omega)
  have hidx12 : 12 ≤ ALIGN 12 ctx.tx_ndp_modulus := hh.2.2.1
  have hhe : ALIGN 12 ctx.tx_ndp_modulus + 8 + 4 * (pkts.length + 1) ≤ tx_hdr_end ctx := by
    unfold tx_hdr_end SIZEOF_NTH16 SIZEOF_NDP16 SIZEOF_DPE16
    omega
  have hz := tx_zero_dpe_get ctx.tx_ncm.dpe16 pkts.length
  have hasm := ntb_assemble data (ALIGN 12 ctx.tx_ndp_modulus) pkts.length
    (tx_final_len ctx last) (tx_hdr_end ctx)
    ⟨USB_CDC_NCM_NTH16_SIGN, SIZEOF_NTH16, ctx.tx_seq, tx_final_len ctx last % U16,
      ALIGN 12 ctx.tx_ndp_modulus⟩
    ⟨USB_CDC_NCM_NDP16_NOCRC_SIGN,
      (SIZEOF_NDP16 + (pkts.length + 1) * SIZEOF_DPE16) % U32 % U16, 0⟩
    (tx_zero_dpe ctx.tx_ncm.dpe16 pkts.length) pkts hidx12 hhe (by omega) (by omega) rfl
    (by rw [tx_zero_dpe_length, hdl]; omega)
    (by
      intro i p hi
      obtain ⟨h1, _, h3, h4, h5, h6, _⟩ := hpk i p hi
      have hin : i < pkts.length := by
        by_contra hc
        rw [List.getElem?_eq_none (by omega)] at hi
        simp at hi
      refine ⟨?_, hdpk i p hi, by unfold tx_first_offset at h3; omega, by omega, by omega,
        by omega⟩
      rw [hz i hdl, if_neg (by omega)]
      exact h1)
    (by rw [hz _ hdl, if_pos ⟨le_refl _, by omega⟩])
    (tx_finalize ctx buf last).2
    (by
      rw [tx_finalize_out ctx buf last hl, hL, ← hdata, hidx, hn]
      rfl)
  obtain ⟨a1, a2, a3, a4, a5, a6, a7⟩ := hasm
  obtain ⟨n1, n2, n3, n4, n5⟩ := nth16_bytes_at a2
  obtain ⟨d1, d2, d3⟩ := ndp16_bytes_at a3
  simp only [Nat.zero_add] at n2 n3 n4 n5
  refine ⟨⟨?_, ?_, n3, ?_, ?_, hidx12, hh.2.2.2.2, ?_, ?_, ?_, a4, a5, a6⟩, a1, ?_⟩
  · rw [n1]; rfl
  · rw [n2]; rfl
  · rw [n4, a1]
    simp only [U16, Nat.mod_mod]
    rw [Nat.mod_eq_of_lt (by omega)]
  · rw [n5]
    exact congrArg some (Nat.mod_eq_of_lt (by have := hh.2.2.2.1; unfold SIZEOF_NTH16 at this; omega))
  · rw [d1]; rfl
  · rw [d2]
    simp only [U16, U32, SIZEOF_NDP16, SIZEOF_DPE16, Nat.mod_mod]
    rw [Nat.mod_eq_of_lt (by omega), Nat.mod_eq_of_lt (by omega)]
    congr 1
    omega
  · rw [d3]; rfl
  · intro i hi1 hi2
    rw [a7 i (by omega) hi2]
    exact hdz i hi1 hi2

/-! ## One call of `cdc_ncm_fill_tx_frame` -/

theorem tx_same_params_refl (a : cdc_ncm_ctx) : tx_same_params a a :=
  ⟨rfl, rfl, rfl, rfl, rfl, rfl, rfl⟩

theorem tx_same_params_trans {a b c : cdc_ncm_ctx} (h1 : tx_same_params a b)
    (h2 : tx_same_params b c) : tx_same_params a c := by
  obtain ⟨a1, a2, a3, a4, a5, a6, a7⟩ := h1
  obtain ⟨b1, b2, b3, b4, b5, b6, b7⟩ := h2
  exact ⟨b1.trans a1, b2.trans a2, b3.trans a3, b4.trans a4, b5.trans a5, b6.trans a6,
    b7.trans a7⟩

theorem tx_same_params_symm {a b : cdc_ncm_ctx} (h : tx_same_params a b) :
    tx_same_params b a := by
  obtain ⟨a1, a2, a3, a4, a5, a6, a7⟩ := h
  exact ⟨a1.symm, a2.symm, a3.symm, a4.symm, a5.symm, a6.symm, a7.symm⟩

theorem tx_hdr_end_congr {a b : cdc_ncm_ctx} (h : tx_same_params a b) :
    tx_hdr_end b = tx_hdr_end a := by
  obtain ⟨a1, a2, a3, a4, a5, a6, a7⟩ := h
  unfold tx_hdr_end
  rw [a4, a5]

theorem tx_next_congr {a b : cdc_ncm_ctx} (h : tx_same_params a b) (e : Nat) :
    tx_next b e = tx_next a e := by
  obtain ⟨a1, a2, a3, a4, a5, a6, a7⟩ := h
  unfold tx_next
  rw [a2, a3]

theorem tx_first_offset_congr {a b : cdc_ncm_ctx} (h : tx_same_params a b) :
    tx_first_offset b = tx_first_offset a := by
  unfold tx_first_offset
  rw [tx_next_congr h, tx_hdr_end_congr h]

theorem tx_pkt_ok_congr {a b : cdc_ncm_ctx} (h : tx_same_params a b) {buf : List Nat}
    {dpe16 : List usb_cdc_ncm_dpe16} {last i : Nat} {p : Nat × List Nat}
    (hp : tx_pkt_ok a buf dpe16 last i p) : tx_pkt_ok b buf dpe16 last i p := by
  obtain ⟨h1, h2, h3, h4, h5, h6, h7⟩ := hp
  refine ⟨h1, h2, ?_, ?_, h5, ?_, ?_⟩
  · rw [tx_first_offset_congr h]; exact h3
  · rw [h.1]; exact h4
  · rw [h.1]; exact h6
  · rw [h.2.1, h.2.2.1]; exact h7

theorem tx_buf_inv_congr {a b : cdc_ncm_ctx} (h : tx_same_params a b) {buf : List Nat}
    {dpe16 : List usb_cdc_ncm_dpe16} {offset last : Nat} {pend : List (Nat × List Nat)}
    (hp : tx_buf_inv a buf dpe16 offset last pend) : tx_buf_inv b buf dpe16 offset last pend := by
  obtain ⟨h1, h2, h3, h4, h5, h6⟩ := hp
  refine ⟨?_, h2, fun i p hi => tx_pkt_ok_congr h (h3 i p hi), ?_, h5, ?_⟩
  · rw [h.1]; exact h1
  · rw [tx_hdr_end_congr h]; exact h4
  · rw [tx_next_congr h]; exact h6

theorem tx_params_ok_congr {a b : cdc_ncm_ctx} (h : tx_same_params a b)
    (hd : b.tx_ncm.dpe16.length = 41) (hp : tx_params_ok a) : tx_params_ok b := by
  obtain ⟨a1, a2, a3, a4, a5, a6, a7⟩ := h
  obtain ⟨h1, h2, h3, h4, h5, h6⟩ := hp
  unfold tx_params_ok
  rw [a1, a2, a3, a4, a5]
  exact ⟨h1, h2, h3, h4, h5, hd⟩

theorem tx_final_len_congr {a b : cdc_ncm_ctx} (h : tx_same_params a b) (e : Nat) :
    tx_final_len b e = tx_final_len a e := by
  obtain ⟨a1, a2, a3, a4, a5, a6, a7⟩ := h
  unfold tx_final_len tx_short_pad tx_natural_len
  simp only [a1, a6, a7]

theorem ntb_layout_congr {a b : cdc_ncm_ctx} (h : tx_same_params a b) {seq : Nat}
    {ntb : List Nat} {pkts : List (Nat × List Nat)} (hp : ntb_layout a seq ntb pkts) :
    ntb_layout b seq ntb pkts := by
  unfold ntb_layout at hp ⊢
  rw [h.2.2.2.1]
  exact hp

theorem ntb_emitted_congr {a b : cdc_ncm_ctx} (h : tx_same_params a b) {seq : Nat}
    {ntb : List Nat} {pkts : List (Nat × List Nat)} (hp : ntb_emitted a seq ntb pkts) :
    ntb_emitted b seq ntb pkts := by
  obtain ⟨h1, h2, h3, last, h4, h5, h6, h7, h8⟩ := hp
  refine ⟨h1, by rw [h.2.2.2.2.1]; exact h2, ntb_layout_congr h h3, last, by rw [h.1]; exact h4,
    h5, ?_, by rw [tx_final_len_congr h]; exact h7, h8⟩
  intro i p hi
  obtain ⟨q1, q2, q3, q4⟩ := h6 i p hi
  exact ⟨by rw [tx_first_offset_congr h]; exact q1, by rw [h.1]; exact q2, q3,
    by rw [h.2.1, h.2.2.1]; exact q4⟩

theorem tx_enter_spec {ctx : cdc_ncm_ctx} {pend : List (Nat × List Nat)} (h : tx_inv ctx pend)
    {skb : Option (List Nat)} {alloc : Option (Nat → Nat)} {ctx1 : cdc_ncm_ctx}
    {s : tx_fill_state} (he : tx_enter ctx skb alloc = some (ctx1, s)) :
    tx_same_params ctx ctx1 ∧ ctx1.tx_seq = ctx.tx_seq ∧ s.dpe16.length = 41 ∧
    tx_buf_inv ctx s.skb_out s.dpe16 s.offset s.last_offset pend ∧ s.n = pend.length ∧
    (pend ≠ [] → pend.length < ctx.tx_max_datagrams) := by
  obtain ⟨hP, hm⟩ := h
  have hh := tx_hdr_end_bounds hP
  have hdg : ctx.tx_max_datagrams ≤ 40 := hP.2.2.2.1
  have hdl : ctx.tx_ncm.dpe16.length = 41 := hP.2.2.2.2.2
  unfold tx_enter at he
  rcases hcur : ctx.tx_curr_skb with _ | buf
  · -- a new NTB
    rw [hcur] at hm
    have hfresh : ∀ (c : cdc_ncm_ctx) (g : Nat → Nat), tx_same_params ctx c →
        c.tx_ncm.dpe16 = ctx.tx_ncm.dpe16 →
        tx_buf_inv ctx
          (cdc_ncm_zero_fill (alloc_skb (c.tx_max + 1) g) 0
            ((ALIGN ((ALIGN SIZEOF_NTH16 c.tx_ndp_modulus + SIZEOF_NDP16 +
              (c.tx_max_datagrams + 1) * SIZEOF_DPE16) % U32) c.tx_modulus +
              c.tx_remainder) % U32)
            ((ALIGN ((ALIGN SIZEOF_NTH16 c.tx_ndp_modulus + SIZEOF_NDP16 +
              (c.tx_max_datagrams + 1) * SIZEOF_DPE16) % U32) c.tx_modulus +
              c.tx_remainder) % U32))
          c.tx_ncm.dpe16
          ((ALIGN ((ALIGN SIZEOF_NTH16 c.tx_ndp_modulus + SIZEOF_NDP16 +
              (c.tx_max_datagrams + 1) * SIZEOF_DPE16) % U32) c.tx_modulus +
              c.tx_remainder) % U32)
          ((ALIGN SIZEOF_NTH16 c.tx_ndp_modulus + SIZEOF_NDP16 +
              (c.tx_max_datagrams + 1) * SIZEOF_DPE16) % U32) pend := by
      intro c g hc hd
      obtain ⟨c1, c2, c3, c4, c5, _, _⟩ := hc
      have e1 : (ALIGN SIZEOF_NTH16 c.tx_ndp_modulus + SIZEOF_NDP16 +
          (c.tx_max_datagrams + 1) * SIZEOF_DPE16) % U32 = tx_hdr_end ctx := by
        rw [c4, c5]
        unfold U32
        exact Nat.mod_eq_of_lt (by unfold tx_hdr_end at hh; omega)
      rw [e1, c1, c2, c3, tx_next_mod_U32 hP _ (by omega), hd]
      refine ⟨?_, hdl, ?_, fun _ => rfl, ?_, rfl⟩
      · rw [zero_fill_length, alloc_skb_length]
      · intro i p hi; rw [hm] at hi; simp at hi
      · intro p hp; rw [hm] at hp; simp at hp
    rcases skb with _ | f
    · simp only [Option.isSome_none, Bool.false_eq_true, if_false, hcur] at he
      rcases alloc with _ | g
      · simp at he
      · simp only [Option.some.injEq, Prod.mk.injEq] at he
        obtain ⟨rfl, rfl⟩ := he
        refine ⟨tx_same_params_refl _, rfl, hdl, ?_, by rw [hm]; rfl, fun hne => absurd hm hne⟩
        exact hfresh ctx g (tx_same_params_refl _) rfl
    · simp only [Option.isSome_some, if_true, hcur] at he
      rcases alloc with _ | g
      · simp at he
      · simp only [Option.some.injEq, Prod.mk.injEq] at he
        obtain ⟨rfl, rfl⟩ := he
        refine ⟨tx_same_params_refl _, rfl, hdl, ?_, by rw [hm]; rfl, fun hne => absurd hm hne⟩
        exact hfresh { ctx with tx_rem_skb := some f } g (tx_same_params_refl _) rfl
  · -- the pending NTB
    rw [hcur] at hm
    obtain ⟨hinv, hfn, hpn⟩ := hm
    have hnl : ctx.tx_curr_frame_num % U16 = pend.length := by
      rw [hfn]
      unfold U16
      apply Nat.mod_eq_of_lt
      by_cases hp : pend = []
      · rw [hp]; simp
      · have := (hpn hp).2; omega
    rcases skb with _ | f
    · simp only [Option.isSome_none, Bool.false_eq_true, if_false, hcur, Option.some.injEq,
        Prod.mk.injEq] at he
      obtain ⟨rfl, rfl⟩ := he
      exact ⟨tx_same_params_refl _, rfl, hdl, hinv, hnl, fun hne => (hpn hne).2⟩
    · simp only [Option.isSome_some, if_true, hcur, Option.some.injEq, Prod.mk.injEq] at he
      obtain ⟨rfl, rfl⟩ := he
      exact ⟨tx_same_params_refl _, rfl, hdl, hinv, hnl, fun hne => (hpn hne).2⟩

theorem tx_timeout_start_fields (c : cdc_ncm_ctx) :
    tx_same_params c (cdc_ncm_tx_timeout_start c) ∧
    (cdc_ncm_tx_timeout_start c).tx_ncm = c.tx_ncm ∧
    (cdc_ncm_tx_timeout_start c).tx_curr_skb = c.tx_curr_skb ∧
    (cdc_ncm_tx_timeout_start c).tx_curr_offset = c.tx_curr_offset ∧
    (cdc_ncm_tx_timeout_start c).tx_curr_last_offset = c.tx_curr_last_offset ∧
    (cdc_ncm_tx_timeout_start c).tx_curr_frame_num = c.tx_curr_frame_num ∧
    (cdc_ncm_tx_timeout_start c).tx_seq = c.tx_seq ∧
    (cdc_ncm_tx_timeout_start c).tx_rem_skb = c.tx_rem_skb ∧
    (cdc_ncm_tx_timeout_start c).tx_dropped = c.tx_dropped ∧
    (cdc_ncm_tx_timeout_start c).tx_packets = c.tx_packets := by
  unfold cdc_ncm_tx_timeout_start
  split_ifs
  · exact ⟨⟨rfl, rfl, rfl, rfl, rfl, rfl, rfl⟩, rfl, rfl, rfl, rfl, rfl, rfl, rfl, rfl, rfl⟩
  · exact ⟨⟨rfl, rfl, rfl, rfl, rfl, rfl, rfl⟩, rfl, rfl, rfl, rfl, rfl, rfl, rfl, rfl, rfl⟩

/-- The invariant for a context that stores the pending NTB described by `tx_buf_inv`. -/
theorem tx_inv_store {ctx0 c : cdc_ncm_ctx} (hP : tx_params_ok ctx0)
    (hS : tx_same_params ctx0 c) {buf : List Nat} {pend : List (Nat × List Nat)}
    (hcur : c.tx_curr_skb = some buf)
    (hinv : tx_buf_inv ctx0 buf c.tx_ncm.dpe16 c.tx_curr_offset c.tx_curr_last_offset pend)
    (hn : c.tx_curr_frame_num = pend.length)
    (hne : pend ≠ [] → c.tx_curr_offset < ctx0.tx_max ∧ pend.length < ctx0.tx_max_datagrams) :
    tx_inv c pend := by
  refine ⟨tx_params_ok_congr hS hinv.2.1 hP, ?_⟩
  rw [hcur]
  refine ⟨tx_buf_inv_congr hS hinv, hn, fun h => ?_⟩
  rw [hS.1, hS.2.2.2.2.1]
  exact hne h

theorem tx_leave_spec {ctx0 ctx1 : cdc_ncm_ctx} {s : tx_fill_state}
    {pend : List (Nat × List Nat)} (hP : tx_params_ok ctx0) (hS : tx_same_params ctx0 ctx1)
    (hinv : tx_buf_inv ctx0 s.skb_out s.dpe16 s.offset s.last_offset pend)
    (hn : s.n = pend.length) (hcap : s.n ≤ ctx0.tx_max_datagrams)
    (hexit : s.ready2send = 0 → s.n ≥ ctx0.tx_max_datagrams ∨ s.offset < ctx0.tx_max) :
    tx_same_params ctx0 (tx_leave ctx1 s).1 ∧
    ((tx_leave ctx1 s).2 = none →
      tx_inv (tx_leave ctx1 s).1 pend ∧ (tx_leave ctx1 s).1.tx_seq = ctx1.tx_seq) ∧
    (∀ ntb, (tx_leave ctx1 s).2 = some ntb →
      tx_inv (tx_leave ctx1 s).1 [] ∧ (tx_leave ctx1 s).1.tx_seq = (ctx1.tx_seq + 1) % U16 ∧
      ntb_emitted ctx0 ctx1.tx_seq ntb pend) := by
  obtain ⟨c1, c2, c3, c4, c5, c6, c7⟩ := hS
  unfold tx_leave
  simp only
  generalize (if s.skb.isSome = true then s.tx_dropped + 1 else s.tx_dropped) = d
  generalize (if s.n < CDC_NCM_RESTART_TIMER_DATAGRAM_CNT then CDC_NCM_TIMER_PENDING_CNT
    else ctx1.tx_timer_pending) = tp
  split_ifs with h0 h1
  · -- nothing packed: the NTB is kept
    have hf := tx_timeout_start_fields
      { ctx1 with
        tx_rem_skb := s.tx_rem_skb
        tx_ncm := { ctx1.tx_ncm with dpe16 := s.dpe16 }
        tx_dropped := d
        tx_curr_frame_num := s.n
        tx_curr_skb := some s.skb_out
        tx_curr_offset := s.offset
        tx_curr_last_offset := s.last_offset }
    obtain ⟨f1, f2, f3, f4, f5, f6, f7, _⟩ := hf
    have hS' := tx_same_params_trans (b := _) ⟨c1, c2, c3, c4, c5, c6, c7⟩ f1
    refine ⟨hS', fun _ => ⟨?_, f7⟩, fun ntb hc => by simp at hc⟩
    refine tx_inv_store hP hS' f3 ?_ (by rw [f6]; exact hn) ?_
    · rw [f2, f4, f5]; exact hinv
    · intro hne
      exfalso
      apply hne
      apply List.eq_nil_of_length_eq_zero
      omega
  · -- fewer than tx_max_datagrams and not ready to send: the NTB is kept
    have hf := tx_timeout_start_fields
      { ctx1 with
        tx_rem_skb := s.tx_rem_skb
        tx_ncm := { ctx1.tx_ncm with dpe16 := s.dpe16 }
        tx_dropped := d
        tx_curr_frame_num := s.n
        tx_curr_skb := some s.skb_out
        tx_curr_offset := s.offset
        tx_curr_last_offset := s.last_offset
        tx_timer_pending := tp }
    obtain ⟨f1, f2, f3, f4, f5, f6, f7, _⟩ := hf
    have hS' := tx_same_params_trans (b := _) ⟨c1, c2, c3, c4, c5, c6, c7⟩ f1
    refine ⟨hS', fun _ => ⟨?_, f7⟩, fun ntb hc => by simp at hc⟩
    refine tx_inv_store hP hS' f3 ?_ (by rw [f6]; exact hn) ?_
    · rw [f2, f4, f5]; exact hinv
    · intro _
      rw [c5] at h1
      have := hexit h1.2
      rw [← hn, f4]
      refine ⟨?_, h1.1⟩
      show s.offset < ctx0.tx_max
      omega
  · -- the NTB is finalised
    have hne : pend ≠ [] := by
      intro hp; rw [hp] at hn; exact h0 (by simpa using hn)
    have hS2 : tx_same_params ctx0
        { ctx1 with
          tx_rem_skb := s.tx_rem_skb
          tx_ncm := { ctx1.tx_ncm with dpe16 := s.dpe16 }
          tx_dropped := d
          tx_curr_frame_num := s.n } := ⟨c1, c2, c3, c4, c5, c6, c7⟩
    have hP2 := tx_params_ok_congr hS2 hinv.2.1 hP
    have hspec := tx_finalize_spec hP2 (tx_buf_inv_congr hS2 hinv) hne hn
      (by rw [← hn]; show s.n ≤ ctx1.tx_max_datagrams; rw [c5]; exact hcap)
    obtain ⟨l1, l2, l3⟩ := hspec
    have hb := tx_buf_inv_bounds hP hinv
    refine ⟨⟨c1, c2, c3, c4, c5, c6, c7⟩, fun hc => by simp at hc, ?_⟩
    intro ntb hntb
    simp only [Option.some.injEq] at hntb
    subst hntb
    refine ⟨⟨?_, rfl⟩, rfl, ?_⟩
    · refine tx_params_ok_congr (a := ctx0) ⟨c1, c2, c3, c4, c5, c6, c7⟩ ?_ hP
      show (tx_zero_dpe s.dpe16 s.n).length = 41
      rw [tx_zero_dpe_length]
      exact hinv.2.1
    · refine ⟨hne, by rw [← hn]; exact hcap, ntb_layout_congr (tx_same_params_symm hS2) l1,
        s.last_offset, hb.2.2.2.2 hne, hinv.2.2.2.2.1, ?_, ?_, ?_⟩
      · intro i p hi
        obtain ⟨_, _, q3, q4, q5, _, q7⟩ := hinv.2.2.1 i p hi
        exact ⟨q3, q4, q5, q7⟩
      · rw [l2, tx_final_len_congr hS2]
      · intro i hi1 hi2
        rw [l2] at hi2
        exact l3 i hi1 hi2

/-- One call of `cdc_ncm_fill_tx_frame` from a state that satisfies the invariant: the
parameters stay; a call that returns no NTB keeps the invariant, with the frames it
packed appended to the pending ones, and leaves `tx_seq`; a call that returns an NTB
leaves no pending NTB, increments `tx_seq` modulo 2^16, and the NTB is the one
`ntb_emitted` describes for the pending frames followed by those this call packed. -/
theorem tx_step {ctx : cdc_ncm_ctx} {pend : List (Nat × List Nat)} (h : tx_inv ctx pend)
    (skb : Option (List Nat)) (alloc : Option (Nat → Nat)) :
    tx_same_params ctx (cdc_ncm_fill_tx_frame ctx skb alloc).1 ∧
    ((cdc_ncm_fill_tx_frame ctx skb alloc).2 = none →
      tx_inv (cdc_ncm_fill_tx_frame ctx skb alloc).1 (pend ++ tx_packed ctx skb alloc) ∧
      (cdc_ncm_fill_tx_frame ctx skb alloc).1.tx_seq = ctx.tx_seq) ∧
    (∀ ntb, (cdc_ncm_fill_tx_frame ctx skb alloc).2 = some ntb →
      tx_inv (cdc_ncm_fill_tx_frame ctx skb alloc).1 [] ∧
      (cdc_ncm_fill_tx_frame ctx skb alloc).1.tx_seq = (ctx.tx_seq + 1) % U16 ∧
      ntb_emitted ctx ctx.tx_seq ntb (pend ++ tx_packed ctx skb alloc)) := by
  have hP := h.1
  have hdg : ctx.tx_max_datagrams ≤ 40 := hP.2.2.2.1
  unfold cdc_ncm_fill_tx_frame tx_packed
  rcases he : tx_enter ctx skb alloc with _ | ⟨ctx1, s⟩
  · -- alloc_skb failed
    have hcur : ctx.tx_curr_skb = none := by
      unfold tx_enter at he
      rcases hc : ctx.tx_curr_skb with _ | buf
      · rfl
      · rcases skb with _ | f <;> simp [hc] at he
    have hpend : pend = [] := by
      have := h.2
      rw [hcur] at this
      exact this
    simp only [List.append_nil]
    rcases skb with _ | f
    · simp only [Option.isSome_none, Bool.false_eq_true, if_false]
      exact ⟨tx_same_params_refl _, fun _ => ⟨h, trivial⟩, fun ntb hc => by simp at hc⟩
    · simp only [Option.isSome_some, if_true]
      refine ⟨⟨rfl, rfl, rfl, rfl, rfl, rfl, rfl⟩, fun _ => ⟨⟨?_, ?_⟩, trivial⟩,
        fun ntb hc => by simp at hc⟩
      · exact tx_params_ok_congr (a := ctx) ⟨rfl, rfl, rfl, rfl, rfl, rfl, rfl⟩ hP.2.2.2.2.2 hP
      · show (match ctx.tx_curr_skb with
          | none => pend = []
          | some buf => _) 
        rw [hcur]
        exact hpend
  · obtain ⟨hS, hseq, hdl, hinv, hn, hcapp⟩ := tx_enter_spec h he
    obtain ⟨c1, c2, c3, c4, c5, c6, c7⟩ := hS
    simp only
    rw [c1, c2, c3, c5]
    have hk : s.n + (ctx.tx_max_datagrams - s.n) ≤ 40 ∧
        s.n + (ctx.tx_max_datagrams - s.n) = ctx.tx_max_datagrams := by
      by_cases hp : pend = []
      · rw [hp] at hn
        simp only [List.length_nil] at hn
        omega
      · have := hcapp hp
        omega
    obtain ⟨l1, l2, l3, l4⟩ := tx_fill_loop_inv hP (ctx.tx_max_datagrams - s.n) s pend hinv hn hk.1
    have hl := @tx_leave_spec ctx ctx1 _ _ hP ⟨c1, c2, c3, c4, c5, c6, c7⟩ l1 l2 (by omega)
      (fun h0 => by
        rcases (l4 h0).2 with h1 | h1
        · left; omega
        · right; exact h1)
    rw [hseq] at hl
    exact hl

/-! ## Runs of calls -/

theorem tx_run_snoc (ctx0 : cdc_ncm_ctx) (calls : List tx_call) (c : tx_call) :
    tx_run ctx0 (calls ++ [c]) = tx_call_step (tx_run ctx0 calls) c := by
  simp [tx_run, List.foldl_append]

/-- The invariant holds in every state of a run that starts without a pending NTB,
the parameters stay, the NTB number `k` of the run carries the sequence number
`tx_seq + k` modulo 2^16, and `tx_seq` has advanced by the number of NTBs. -/
theorem tx_run_inv {ctx0 : cdc_ncm_ctx} (hP : tx_params_ok ctx0)
    (hI : ctx0.tx_curr_skb = none) (calls : List tx_call) :
    tx_inv (tx_run ctx0 calls).ctx (tx_run ctx0 calls).pend ∧
    tx_same_params ctx0 (tx_run ctx0 calls).ctx ∧
    (∀ (k : Nat) (ntb : List Nat), (tx_run ctx0 calls).ntbs[k]? = some ntb →
      le16_at ntb 6 = some ((ctx0.tx_seq + k) % 65536)) ∧
    (tx_run ctx0 calls).ctx.tx_seq % 65536 =
      (ctx0.tx_seq + (tx_run ctx0 calls).ntbs.length) % 65536 := by
  induction calls using List.reverseRecOn with
  | nil =>
    refine ⟨⟨hP, ?_⟩, tx_same_params_refl _, ?_, rfl⟩
    · show (match ctx0.tx_curr_skb with
        | none => ([] : List (Nat × List Nat)) = []
        | some buf => _)
      rw [hI]
    · intro k ntb hk
      simp [tx_run] at hk
  | append_singleton calls c ih =>
    obtain ⟨h1, h2, h3, h4⟩ := ih
    rw [tx_run_snoc]
    obtain ⟨s1, s2, s3⟩ := tx_step h1 c.skb c.alloc
    unfold tx_call_step
    simp only
    rcases hr : (cdc_ncm_fill_tx_frame (tx_run ctx0 calls).ctx c.skb c.alloc).2 with _ | ntb
    · obtain ⟨i1, i2⟩ := s2 hr
      simp only [Option.isSome_none, Bool.false_eq_true, if_false, Option.toList_none,
        List.append_nil]
      exact ⟨i1, tx_same_params_trans h2 s1, h3, by rw [i2]; exact h4⟩
    · obtain ⟨i1, i2, i3⟩ := s3 ntb hr
      simp only [Option.isSome_some, if_true, Option.toList_some]
      refine ⟨i1, tx_same_params_trans h2 s1, ?_, ?_⟩
      · intro k nb hk
        by_cases hlt : k < (tx_run ctx0 calls).ntbs.length
        · rw [List.getElem?_append_left hlt] at hk
          exact h3 k nb hk
        · rw [List.getElem?_append_right (by omega)] at hk
          have hk0 : k - (tx_run ctx0 calls).ntbs.length = 0 := by
            by_contra hc
            rw [List.getElem?_eq_none (by simp; omega)] at hk
            simp at hk
          rw [hk0] at hk
          simp only [List.getElem?_cons_zero, Option.some.injEq] at hk
          subst hk
          have hkeq : k = (tx_run ctx0 calls).ntbs.length := by omega
          rw [i3.2.2.1.2.2.1, h4, hkeq]
      · rw [i2, List.length_append, List.length_singleton]
        unfold U16
        rw [Nat.mod_mod, Nat.add_mod, h4, ← Nat.add_mod, Nat.add_assoc]

/-- The NTB that a call returns in a state of a run. -/
theorem tx_emit {ctx0 : cdc_ncm_ctx} (hP : tx_params_ok ctx0) (hI : ctx0.tx_curr_skb = none)
    (calls : List tx_call) (skb : Option (List Nat)) (alloc : Option (Nat → Nat))
    (ntb : List Nat)
    (he : (cdc_ncm_fill_tx_frame (tx_run ctx0 calls).ctx skb alloc).2 = some ntb) :
    ntb_emitted ctx0 (tx_run ctx0 calls).ctx.tx_seq ntb
      ((tx_run ctx0 calls).pend ++ tx_packed (tx_run ctx0 calls).ctx skb alloc) := by
  obtain ⟨h1, h2, -, -⟩ := tx_run_inv hP hI calls
  obtain ⟨-, -, s3⟩ := tx_step h1 skb alloc
  exact ntb_emitted_congr (tx_same_params_symm h2) (s3 ntb he).2.2

/-! ## Emitted NTBs -/

/-- The pointer table of an NTB with the layout `ntb_layout`, as the decoder reads it. -/
theorem ntb_layout_dpe {ctx : cdc_ncm_ctx} {seq : Nat} {ntb : List Nat}
    {pkts : List (Nat × List Nat)} (h : ntb_layout ctx seq ntb pkts) :
    fld16 ntb 10 = ALIGN 12 ctx.tx_ndp_modulus ∧ rx_nframes ntb = pkts.length ∧
    ∀ (i : Nat) (p : Nat × List Nat), pkts[i]? = some p → rx_dpe ntb i = (p.1, p.2.length) := by
  obtain ⟨-, -, -, -, h5, -, -, -, h9, -, h11, -, -⟩ := h
  have e10 := fld16_of_some h5
  refine ⟨e10, ?_, ?_⟩
  · unfold rx_nframes
    rw [e10, fld16_of_some h9]
    omega
  · intro i p hi
    obtain ⟨q1, q2, -⟩ := h11 i p hi
    unfold rx_dpe
    rw [e10, fld16_of_some q1, fld16_of_some q2]

theorem tx_next_lt {ctx : cdc_ncm_ctx} (hP : tx_params_ok ctx) (e : Nat) (he : e ≤ 1048576) :
    tx_next ctx e < e + ctx.tx_modulus + ctx.tx_remainder := by
  obtain ⟨⟨k, hk, hk'⟩, _, _, _, hr, _⟩ := hP
  have hpow : 2 ^ k ≤ 2 ^ 15 := Nat.pow_le_pow_right (by norm_num) hk
  have h2 := ALIGN_lt e k (by omega) (by norm_num at hpow ⊢; omega)
  unfold tx_next
  rw [hk']
  omega

/-- C5, as amended (size cap): for every NTB that `cdc_ncm_fill_tx_frame` returns in a
run from a context without pending NTB whose parameters are in order, `wBlockLength`
is the byte length handed to the transport and is at most `tx_max + 1`; it is at most
`tx_max` except when `tx_max` is a multiple of `wMaxPacketSize` and
`tx_max < dwNtbOutMaxSize`, where an NTB padded out to `tx_max` gets the short-packet
byte and `wBlockLength = tx_max + 1`. -/
theorem tx_block_length_bound (ctx0 : cdc_ncm_ctx) (calls : List tx_call)
    (skb : Option (List Nat)) (alloc : Option (Nat → Nat)) (ntb : List Nat)
    (hP : tx_params_ok ctx0) (hI : ctx0.tx_curr_skb = none)
    (he : (cdc_ncm_fill_tx_frame (tx_run ctx0 calls).ctx skb alloc).2 = some ntb) :
    ntb_wBlockLength ntb = some ntb.length ∧ ntb.length ≤ ctx0.tx_max + 1 ∧
    (ntb.length ≤ ctx0.tx_max ∨
      (ntb.length = ctx0.tx_max + 1 ∧ ctx0.tx_max % ctx0.out_ep = 0 ∧
        ctx0.tx_max < ctx0.ncm_parm.dwNtbOutMaxSize)) := by
  obtain ⟨-, -, hl, last, h1, -, -, h4, -⟩ := tx_emit hP hI calls skb alloc ntb he
  have hn := tx_natural_len_bounds ctx0 last h1
  refine ⟨hl.2.2.2.1, ?_, ?_⟩
  · rw [h4]; exact (tx_final_len_bounds ctx0 last h1).2
  · rw [h4]
    unfold tx_final_len
    by_cases hp : tx_short_pad ctx0 (tx_natural_len ctx0 last)
    · rw [if_pos hp]
      obtain ⟨p1, p2 | ⟨p2, p3⟩⟩ := hp
      · left; omega
      · right
        rw [p2] at p1
        exact ⟨by omega, p1, p3⟩
    · rw [if_neg hp]
      left; exact hn.2

theorem ctx_4k_ok : tx_params_ok ctx_4k :=
  ⟨⟨2, by decide, by decide⟩, ⟨2, by decide, by decide⟩, by decide, by decide, by decide,
    by decide⟩

theorem ctx_s1_ok : tx_params_ok ctx_s1 :=
  ⟨⟨2, by decide, by decide⟩, ⟨2, by decide, by decide⟩, by decide, by decide, by decide,
    by decide⟩

theorem ctx_big_ok : tx_params_ok ctx_big :=
  ⟨⟨2, by decide, by decide⟩, ⟨2, by decide, by decide⟩, by decide, by decide, by decide,
    by decide⟩

theorem ctx_small_ok : tx_params_ok ctx_small :=
  ⟨⟨2, by decide, by decide⟩, ⟨2, by decide, by decide⟩, by decide, by decide, by decide,
    by decide⟩

theorem tx_block_length_bound_witness :
    tx_params_ok ctx_s1 ∧ ctx_s1.tx_curr_skb = none ∧
    (cdc_ncm_fill_tx_frame (tx_run ctx_s1 [call_frame 64]).ctx none (some fresh_aa)).2 =
      some ((ntb_one_frame ctx_s1 64).getD []) ∧
    (ntb_wBlockLength ((ntb_one_frame ctx_s1 64).getD []) =
        some ((ntb_one_frame ctx_s1 64).getD []).length ∧
      ((ntb_one_frame ctx_s1 64).getD []).length ≤ ctx_s1.tx_max + 1 ∧
      (((ntb_one_frame ctx_s1 64).getD []).length ≤ ctx_s1.tx_max ∨
        (((ntb_one_frame ctx_s1 64).getD []).length = ctx_s1.tx_max + 1 ∧
          ctx_s1.tx_max % ctx_s1.out_ep = 0 ∧
          ctx_s1.tx_max < ctx_s1.ncm_parm.dwNtbOutMaxSize))) :=
  ⟨ctx_s1_ok, by decide, by rfl,
    tx_block_length_bound ctx_s1 [call_frame 64] none (some fresh_aa) _ ctx_s1_ok (by decide)
      (by rfl)⟩

/-- C5, counterexample: a device advertises `dwNtbOutMaxSize = 40000`, so that
negotiation leaves `tx_max = 32768`; one 600-byte frame is submitted and the encoder
flushed. The NTB returned has `wBlockLength = 32769`, above `tx_max`. -/
theorem tx_block_length_cex :
    ctx_big = ctx_of (parm_of 40000 4 0 4 32) ∧ ctx_big.tx_max = 32768 ∧
    (ntb_one_frame ctx_big 600).bind ntb_wBlockLength = some 32769 :=
  ⟨rfl, by decide, by decide⟩

/-- The short-packet property of an NTB that the encoder emits, by the two cases of
the short-packet rule. -/
theorem ntb_emitted_short_packet {ctx : cdc_ncm_ctx} {seq : Nat} {ntb : List Nat}
    {pkts : List (Nat × List Nat)} (h : ntb_emitted ctx seq ntb pkts)
    (hmod : ntb.length % ctx.out_ep = 0) :
    (ntb.length = ctx.tx_max ∧ ctx.ncm_parm.dwNtbOutMaxSize ≤ ctx.tx_max) ∨
      tx_pad_appended ctx ntb := by
  obtain ⟨hne, -, hl, last, h1, h2, h3, h4, h5⟩ := h
  obtain ⟨-, hnf, hdpe⟩ := ntb_layout_dpe hl
  have hn := tx_natural_len_bounds ctx last h1
  have hpos : 0 < pkts.length := List.length_pos.2 hne
  by_cases hp : tx_short_pad ctx (tx_natural_len ctx last)
  · right
    have hL : ntb.length = tx_natural_len ctx last + 1 := by
      rw [h4]; unfold tx_final_len; rw [if_pos hp]
    obtain ⟨p, hpl⟩ : ∃ p, pkts.getLast? = some p := by
      rcases hg : pkts.getLast? with _ | p
      · exact absurd (List.getLast?_eq_none_iff.1 hg) hne
      · exact ⟨p, rfl⟩
    have hidx : pkts[pkts.length - 1]? = some p := by
      rw [← hpl, List.getLast?_eq_getElem?]
    have hlast := h2 p hpl
    refine ⟨?_, ?_, ?_⟩
    · rw [hnf, hdpe _ p hidx, ← hlast]
      exact hL
    · rw [List.get?_eq_getElem?]
      exact h5 _ (by omega) (by omega)
    · intro i hi
      rw [hnf] at hi
      obtain ⟨q, hq⟩ : ∃ q, pkts[i]? = some q := ⟨pkts[i], List.getElem?_eq_getElem hi⟩
      rw [hdpe i q hq]
      have := (h3 i q hq).2.2.1
      show q.1 + q.2.length ≤ ntb.length - 1
      omega
  · left
    have hL : ntb.length = tx_natural_len ctx last := by
      rw [h4]; unfold tx_final_len; rw [if_neg hp]
    rw [hL] at hmod ⊢
    unfold tx_short_pad at hp
    have hnot : ¬ (tx_natural_len ctx last < ctx.tx_max ∨
        (tx_natural_len ctx last = ctx.tx_max ∧ ctx.tx_max < ctx.ncm_parm.dwNtbOutMaxSize)) :=
      fun hc => hp ⟨hmod, hc⟩
    omega

/-- C6, as amended (short-packet avoidance): for every NTB that
`cdc_ncm_fill_tx_frame` returns in a run from a context without pending NTB whose
parameters are in order, if its length `L` is a multiple of `wMaxPacketSize`, then
either `L = tx_max` and `dwNtbOutMaxSize <= tx_max`, or the NTB ends in the appended
short-packet byte: `L` is one more than the natural length, the last byte is zero and
every real DPE describes a range that ends before it. -/
theorem tx_short_packet (ctx0 : cdc_ncm_ctx) (calls : List tx_call)
    (skb : Option (List Nat)) (alloc : Option (Nat → Nat)) (ntb : List Nat)
    (hP : tx_params_ok ctx0) (hI : ctx0.tx_curr_skb = none)
    (he : (cdc_ncm_fill_tx_frame (tx_run ctx0 calls).ctx skb alloc).2 = some ntb)
    (hmod : ntb.length % ctx0.out_ep = 0) :
    (ntb.length = ctx0.tx_max ∧ ctx0.ncm_parm.dwNtbOutMaxSize ≤ ctx0.tx_max) ∨
      tx_pad_appended ctx0 ntb :=
  ntb_emitted_short_packet (tx_emit hP hI calls skb alloc ntb he) hmod

/-- The length of the NTB of `ntb_one_frame`, from its `wBlockLength`. -/
theorem ntb_one_frame_length {ctx : cdc_ncm_ctx} (hP : tx_params_ok ctx)
    (hI : ctx.tx_curr_skb = none) {n L : Nat} {ntb : List Nat}
    (h : ntb_one_frame ctx n = some ntb) (hL : ntb_wBlockLength ntb = some L) :
    ntb.length = L := by
  have hem := tx_emit hP hI [call_frame n] none (some fresh_aa) ntb h
  have h8 : le16_at ntb 8 = some ntb.length := hem.2.2.1.2.2.2.1
  unfold ntb_wBlockLength at hL
  rw [h8] at hL
  exact Option.some.inj hL

theorem tx_short_packet_witness :
    tx_params_ok ctx_s1 ∧ ctx_s1.tx_curr_skb = none ∧
    (cdc_ncm_fill_tx_frame (tx_run ctx_s1 [call_frame 600]).ctx none (some fresh_aa)).2 =
      some ((ntb_one_frame ctx_s1 600).getD []) ∧
    ((ntb_one_frame ctx_s1 600).getD []).length % ctx_s1.out_ep = 0 ∧
    ((((ntb_one_frame ctx_s1 600).getD []).length = ctx_s1.tx_max ∧
        ctx_s1.ncm_parm.dwNtbOutMaxSize ≤ ctx_s1.tx_max) ∨
      tx_pad_appended ctx_s1 ((ntb_one_frame ctx_s1 600).getD [])) :=
  have hl : ((ntb_one_frame ctx_s1 600).getD []).length % ctx_s1.out_ep = 0 := by
    rw [ntb_one_frame_length ctx_s1_ok (by decide) (n := 600) (L := 2048) (by rfl) (by decide)]
    decide
  ⟨ctx_s1_ok, by decide, by rfl, hl,
    tx_short_packet ctx_s1 [call_frame 600] none (some fresh_aa) _ ctx_s1_ok (by decide)
      (by rfl) hl⟩

/-- C6, counterexample: a device advertises `dwNtbOutMaxSize = 1024`, below the
driver's minimum, so that negotiation leaves `tx_max = 32768`; `wMaxPacketSize` is 512;
one 600-byte frame is submitted and the encoder flushed. The NTB returned has length
32768, a multiple of 512, while `tx_max` differs from `dwNtbOutMaxSize` and no
short-packet byte is appended: the property P6 fails for it. -/
theorem tx_short_packet_cex :
    ctx_small = ctx_of (parm_of 1024 4 0 4 32) ∧
    (ntb_one_frame ctx_small 600).isSome = true ∧
    ¬ short_packet_ok ctx_small ((ntb_one_frame ctx_small 600).getD []) := by
  refine ⟨rfl, by decide, ?_⟩
  have hlen := @ntb_one_frame_length ctx_small ctx_small_ok (by decide) 600 32768
    ((ntb_one_frame ctx_small 600).getD []) (by rfl) (by decide)
  intro h
  unfold short_packet_ok at h
  rw [hlen] at h
  rcases h (by decide) with ⟨-, h2⟩ | h3
  · exact absurd h2 (by decide)
  · have h1 := h3.1
    rw [hlen] at h1
    have : tx_natural_len ctx_small
        ((rx_dpe ((ntb_one_frame ctx_small 600).getD [])
            (rx_nframes ((ntb_one_frame ctx_small 600).getD []) - 1)).1 +
          (rx_dpe ((ntb_one_frame ctx_small 600).getD [])
            (rx_nframes ((ntb_one_frame ctx_small 600).getD []) - 1)).2) = 32768 := by
      decide
    rw [this] at h1
    omega

/-- C7, as amended (encoder alignment): for every NTB that `cdc_ncm_fill_tx_frame`
returns in a run from a context without pending NTB whose parameters are in order,
and for every real DPE of it, `wDatagramIndex mod tx_modulus` equals
`tx_remainder mod tx_modulus`, with the `tx_modulus` and `tx_remainder` that the
context holds after negotiation: the index itself is congruent to `tx_remainder`, not
the index minus `ETH_HLEN`. -/
theorem tx_alignment (ctx0 : cdc_ncm_ctx) (calls : List tx_call)
    (skb : Option (List Nat)) (alloc : Option (Nat → Nat)) (ntb : List Nat) (i : Nat)
    (hP : tx_params_ok ctx0) (hI : ctx0.tx_curr_skb = none)
    (he : (cdc_ncm_fill_tx_frame (tx_run ctx0 calls).ctx skb alloc).2 = some ntb)
    (hi : i < rx_nframes ntb) :
    (rx_dpe ntb i).1 % ctx0.tx_modulus = ctx0.tx_remainder % ctx0.tx_modulus := by
  obtain ⟨-, -, hl, last, -, -, h3, -, -⟩ := tx_emit hP hI calls skb alloc ntb he
  obtain ⟨-, hnf, hdpe⟩ := ntb_layout_dpe hl
  rw [hnf] at hi
  obtain ⟨q, hq⟩ : ∃ q, ((tx_run ctx0 calls).pend ++
      tx_packed (tx_run ctx0 calls).ctx skb alloc)[i]? = some q :=
    ⟨_, List.getElem?_eq_getElem hi⟩
  rw [hdpe i q hq]
  exact (h3 i q hq).2.2.2

theorem tx_alignment_witness :
    tx_params_ok ctx_s1 ∧ ctx_s1.tx_curr_skb = none ∧
    (cdc_ncm_fill_tx_frame (tx_run ctx_s1 [call_frame 64]).ctx none (some fresh_aa)).2 =
      some ((ntb_one_frame ctx_s1 64).getD []) ∧
    0 < rx_nframes ((ntb_one_frame ctx_s1 64).getD []) ∧
    (rx_dpe ((ntb_one_frame ctx_s1 64).getD []) 0).1 % ctx_s1.tx_modulus =
      ctx_s1.tx_remainder % ctx_s1.tx_modulus :=
  ⟨ctx_s1_ok, by decide, by rfl, by decide,
    tx_alignment ctx_s1 [call_frame 64] none (some fresh_aa) _ 0 ctx_s1_ok (by decide)
      (by rfl) (by decide)⟩

/-- C7, counterexample: scenario 1 of the specification (negotiated `tx_modulus = 4`,
device remainder 0, hence `tx_remainder = 2` in the context), one 64-byte frame, then a
flush. The NTB returned has one real DPE, with `wDatagramIndex = 154`, and
`(154 - ETH_HLEN) mod 4 = 0` differs from `tx_remainder mod 4 = 2`. -/
theorem tx_alignment_cex :
    ctx_s1.tx_modulus = 4 ∧ ctx_s1.tx_remainder = 2 ∧
    rx_nframes ((ntb_one_frame ctx_s1 64).getD []) = 1 ∧
    (rx_dpe ((ntb_one_frame ctx_s1 64).getD []) 0).1 = 154 ∧
    ((rx_dpe ((ntb_one_frame ctx_s1 64).getD []) 0).1 - ETH_HLEN) % ctx_s1.tx_modulus ≠
      ctx_s1.tx_remainder % ctx_s1.tx_modulus :=
  ⟨by decide, by decide, by decide, by decide, by decide⟩

/-- C8 (sequence numbers, P4): in a run of calls from a context without pending NTB
whose parameters are in order and whose `tx_seq` is `s`, the NTB number `k` of the run
(`k = 0, 1, ...`) carries `wSequence = (s + k) mod 2^16`; after the run `tx_seq` is
`s` advanced by the number of NTBs, modulo 2^16; and a further call that returns no
NTB leaves `tx_seq` unchanged. -/
theorem tx_sequence (ctx0 : cdc_ncm_ctx) (calls : List tx_call) (hP : tx_params_ok ctx0)
    (hI : ctx0.tx_curr_skb = none) :
    (∀ (k : Nat) (ntb : List Nat), (tx_run ctx0 calls).ntbs[k]? = some ntb →
      le16_at ntb 6 = some ((ctx0.tx_seq + k) % 65536)) ∧
    (tx_run ctx0 calls).ctx.tx_seq % 65536 =
      (ctx0.tx_seq + (tx_run ctx0 calls).ntbs.length) % 65536 ∧
    (∀ (skb : Option (List Nat)) (alloc : Option (Nat → Nat)),
      (cdc_ncm_fill_tx_frame (tx_run ctx0 calls).ctx skb alloc).2 = none →
      (cdc_ncm_fill_tx_frame (tx_run ctx0 calls).ctx skb alloc).1.tx_seq =
        (tx_run ctx0 calls).ctx.tx_seq) := by
  obtain ⟨h1, -, h3, h4⟩ := tx_run_inv hP hI calls
  refine ⟨h3, h4, fun skb alloc hn => ?_⟩
  exact ((tx_step h1 skb alloc).2.1 hn).2

theorem tx_sequence_witness :
    tx_params_ok ctx_s1 ∧ ctx_s1.tx_curr_skb = none ∧
    (tx_run ctx_s1 [call_frame 64, ⟨none, none⟩, call_frame 64, ⟨none, none⟩]).ntbs.length = 2 ∧
    ((tx_run ctx_s1 [call_frame 64, ⟨none, none⟩, call_frame 64, ⟨none, none⟩]).ntbs.get? 1).bind
      ntb_wSequence = some 1 ∧
    (tx_run ctx_s1 [call_frame 64, ⟨none, none⟩, call_frame 64, ⟨none, none⟩]).ctx.tx_seq % 65536 =
      (ctx_s1.tx_seq +
        (tx_run ctx_s1 [call_frame 64, ⟨none, none⟩, call_frame 64, ⟨none, none⟩]).ntbs.length)
        % 65536 :=
  ⟨ctx_s1_ok, by decide, by decide, by decide,
    (tx_sequence ctx_s1 [call_frame 64, ⟨none, none⟩, call_frame 64, ⟨none, none⟩] ctx_s1_ok
      (by decide)).2.1⟩

/-- C9, as amended (offset invariant): in every state reachable from a context without
pending NTB whose parameters are in order, by any sequence of calls of
`cdc_ncm_fill_tx_frame`, if there is a pending NTB then: with no datagram in it the
cursor `tx_curr_offset` is the first payload offset
`ALIGN(header end, tx_modulus) + tx_remainder` (which negotiation does not bound by
`tx_max`); with at least one datagram in it the cursor is below `tx_max` and the end
of the last datagram is at most `tx_max`; and the cursor is the realigned end,
`tx_curr_last_offset <= tx_curr_offset < tx_curr_last_offset + tx_modulus + tx_remainder`. -/
theorem tx_cursor_bound (ctx0 : cdc_ncm_ctx) (calls : List tx_call) (hP : tx_params_ok ctx0)
    (hI : ctx0.tx_curr_skb = none) (hp : (tx_run ctx0 calls).ctx.tx_curr_skb ≠ none) :
    ((tx_run ctx0 calls).ctx.tx_curr_frame_num = 0 →
      (tx_run ctx0 calls).ctx.tx_curr_offset = tx_first_offset ctx0) ∧
    (0 < (tx_run ctx0 calls).ctx.tx_curr_frame_num →
      (tx_run ctx0 calls).ctx.tx_curr_offset < ctx0.tx_max ∧
      (tx_run ctx0 calls).ctx.tx_curr_last_offset ≤ ctx0.tx_max) ∧
    (tx_run ctx0 calls).ctx.tx_curr_last_offset ≤ (tx_run ctx0 calls).ctx.tx_curr_offset ∧
    (tx_run ctx0 calls).ctx.tx_curr_offset <
      (tx_run ctx0 calls).ctx.tx_curr_last_offset + ctx0.tx_modulus + ctx0.tx_remainder := by
  obtain ⟨⟨hPc, hm⟩, hS, -, -⟩ := tx_run_inv hP hI calls
  rcases hcur : (tx_run ctx0 calls).ctx.tx_curr_skb with _ | buf
  · exact absurd hcur hp
  · rw [hcur] at hm
    obtain ⟨hinv, hn, hne⟩ := hm
    have hb := tx_buf_inv_bounds hPc hinv
    have hlt := tx_next_lt hPc (tx_run ctx0 calls).ctx.tx_curr_last_offset (by omega)
    obtain ⟨-, -, -, hnil, -, hoff⟩ := hinv
    rw [← hS.1, ← hS.2.1, ← hS.2.2.1]
    refine ⟨fun h0 => ?_, fun h0 => ?_, hb.2.2.1, by rw [← hoff] at hlt; exact hlt⟩
    · rw [hn] at h0
      have hnl := List.eq_nil_of_length_eq_zero h0
      rw [hoff, hnil hnl, ← tx_first_offset_congr hS]
      rfl
    · rw [hn] at h0
      have hnl : (tx_run ctx0 calls).pend ≠ [] := List.length_pos.1 h0
      exact ⟨(hne hnl).1, hb.2.2.2.2 hnl⟩

theorem tx_cursor_bound_witness :
    tx_params_ok ctx_s1 ∧ ctx_s1.tx_curr_skb = none ∧
    (tx_run ctx_s1 [call_frame 64]).ctx.tx_curr_skb ≠ none ∧
    (tx_run ctx_s1 [call_frame 64]).ctx.tx_curr_frame_num = 1 ∧
    (tx_run ctx_s1 [call_frame 64]).ctx.tx_curr_offset < ctx_s1.tx_max ∧
    (tx_run ctx_s1 [call_frame 64]).ctx.tx_curr_last_offset ≤ ctx_s1.tx_max :=
  ⟨ctx_s1_ok, by decide, by decide, by decide,
    (tx_cursor_bound ctx_s1 [call_frame 64] ctx_s1_ok (by decide) (by decide)).2.1
      (by decide)⟩

/-- C9, counterexample: a device advertises `dwNtbOutMaxSize = 1698`, divisor 1024 and
remainder 13, which negotiation accepts (`tx_max = 1698`, `tx_modulus = 1024`,
`tx_remainder = 1023`). After one call of `cdc_ncm_fill_tx_frame` with a NULL frame
there is a pending NTB whose cursor `tx_curr_offset` is 2047, above `tx_max`. -/
theorem tx_cursor_bound_cex :
    ctx_wide = ctx_of (parm_of 1698 1024 13 4 32) ∧ ctx_wide.tx_max = 1698 ∧
    ctx_wide.tx_curr_skb = none ∧
    (tx_run ctx_wide [⟨none, some fresh_aa⟩]).ctx.tx_curr_skb ≠ none ∧
    (tx_run ctx_wide [⟨none, some fresh_aa⟩]).ctx.tx_curr_offset = 2047 :=
  ⟨rfl, by decide, by decide, by decide, by decide⟩

/-- C10 (emitted header layout): for every NTB that `cdc_ncm_fill_tx_frame` returns
in a run from a context without pending NTB whose parameters are in order, with `n`
the number of datagrams packed into it (the pending ones and those of the call,
`1 <= n <= tx_max_datagrams`): bytes [0, 12) are a little-endian NTH16 with
`dwSignature = 0x484D434E`, `wHeaderLength = 12`, `wSequence = tx_seq mod 2^16`,
`wBlockLength` the byte length handed to the transport and
`wNdpIndex = ALIGN(12, tx_ndp_modulus)`, which is at least 12 and a multiple of
`tx_ndp_modulus`; at `wNdpIndex` there is an NDP16 with `dwSignature = 0x304D434E`,
`wLength = 8 + 4 * (n + 1)` and `wNextNdpIndex = 0`, followed by `n` DPE16 entries
that hold, in packing order, the offset each frame was copied to and its length (the
frame being the bytes of the NTB at that offset), and then one (0, 0) entry. -/
theorem tx_header_layout (ctx0 : cdc_ncm_ctx) (calls : List tx_call)
    (skb : Option (List Nat)) (alloc : Option (Nat → Nat)) (ntb : List Nat)
    (hP : tx_params_ok ctx0) (hI : ctx0.tx_curr_skb = none)
    (he : (cdc_ncm_fill_tx_frame (tx_run ctx0 calls).ctx skb alloc).2 = some ntb) :
    ntb_layout ctx0 (tx_run ctx0 calls).ctx.tx_seq ntb
      ((tx_run ctx0 calls).pend ++ tx_packed (tx_run ctx0 calls).ctx skb alloc) ∧
    1 ≤ ((tx_run ctx0 calls).pend ++ tx_packed (tx_run ctx0 calls).ctx skb alloc).length ∧
    ((tx_run ctx0 calls).pend ++ tx_packed (tx_run ctx0 calls).ctx skb alloc).length ≤
      ctx0.tx_max_datagrams := by
  obtain ⟨hne, hcap, hl, -⟩ := tx_emit hP hI calls skb alloc ntb he
  exact ⟨hl, List.length_pos.2 hne, hcap⟩

theorem tx_header_layout_witness :
    tx_params_ok ctx_s1 ∧ ctx_s1.tx_curr_skb = none ∧
    (cdc_ncm_fill_tx_frame (tx_run ctx_s1 [call_frame 64]).ctx none (some fresh_aa)).2 =
      some ((ntb_one_frame ctx_s1 64).getD []) ∧
    (tx_run ctx_s1 [call_frame 64]).pend ++
      tx_packed (tx_run ctx_s1 [call_frame 64]).ctx none (some fresh_aa) =
      [(154, frame_of 64 7)] ∧
    ntb_layout ctx_s1 (tx_run ctx_s1 [call_frame 64]).ctx.tx_seq
      ((ntb_one_frame ctx_s1 64).getD [])
      ((tx_run ctx_s1 [call_frame 64]).pend ++
        tx_packed (tx_run ctx_s1 [call_frame 64]).ctx none (some fresh_aa)) :=
  ⟨ctx_s1_ok, by decide, by rfl, by decide,
    (tx_header_layout ctx_s1 [call_frame 64] none (some fresh_aa) _ ctx_s1_ok (by decide)
      (by rfl)).1⟩

/-! ## Decoding an emitted NTB -/

theorem le16_at_some_le {b : List Nat} {i v : Nat} (h : le16_at b i = some v) :
    i + 2 ≤ b.length := by
  unfold le16_at at h
  rcases h1 : rd8 b (i + 1) with _ | y
  · rcases h0 : rd8 b i with _ | x <;> simp [h0, h1] at h
  · rw [rd8_eq] at h1
    by_contra hc
    rw [List.getElem?_eq_none (by omega)] at h1
    simp at h1

/-- The decoder on an NTB that the encoder emits, when every frame in it has at least
`ETH_HLEN` bytes and the NTB is no longer than `rx_max`: it returns 1 and delivers the
frames of the NTB, in order. -/
theorem rx_fixup_emitted {ctx : cdc_ncm_ctx} (hP : tx_params_ok ctx) {seq : Nat}
    {ntb : List Nat} {pkts : List (Nat × List Nat)} (h : ntb_emitted ctx seq ntb pkts)
    (h14 : ∀ p ∈ pkts, 14 ≤ p.2.length) (rx_max rx_seq : Nat) (hrx : ntb.length ≤ rx_max) :
    ∃ r, cdc_ncm_rx_fixup rx_max rx_seq (fun _ => true) ntb = some r ∧ r.ret = 1 ∧
      r.delivered.map (fun d => slice ntb d.1 d.2) = pkts.map Prod.snd := by
  obtain ⟨hne, hcap, hl, last, h1, h2, h3, h4, h5⟩ := h
  obtain ⟨e10, hnf, hdpe⟩ := ntb_layout_dpe hl
  have hh := tx_hdr_end_bounds hP
  have hfo := (tx_next_bounds hP (tx_hdr_end ctx) (by omega)).1
  have hfin := tx_final_len_bounds ctx last h1
  obtain ⟨l1, l2, l3, l4, l5, l6, l7, l8, l9, l10, l11, l12, l13⟩ := hl
  have hsent := le16_at_some_le l13
  have hpos : 0 < pkts.length := List.length_pos.2 hne
  -- every entry of the table is acceptable
  have hok : ∀ (i : Nat) (p : Nat × List Nat), pkts[i]? = some p →
      rx_dpe_ok rx_max ntb (p.1, p.2.length) = true := by
    intro i p hi
    obtain ⟨q1, q2, q3, q4⟩ := h3 i p hi
    have hmem : p ∈ pkts := List.mem_iff_getElem?.2 ⟨i, hi⟩
    have := h14 p hmem
    unfold tx_first_offset at q1
    simp only [rx_dpe_ok, decide_eq_true_eq]
    refine ⟨by omega, by omega, by omega, by omega, this⟩
  have hexp : rx_expected rx_max ntb = pkts.map (fun p => (p.1, p.2.length)) := by
    unfold rx_expected
    have hmap : (List.range' 0 (rx_nframes ntb)).map (rx_dpe ntb) =
        pkts.map (fun p => (p.1, p.2.length)) := by
      apply List.ext_getElem?
      intro i
      rw [hnf]
      by_cases hi : i < pkts.length
      · have hg : pkts[i]? = some pkts[i] := List.getElem?_eq_getElem hi
        have hr : (List.range' 0 pkts.length)[i]? = some i := by
          rw [List.getElem?_range' 0 1 hi]
          simp
        rw [List.getElem?_map, List.getElem?_map, hg, hr]
        simp only [Option.map_some']
        rw [hdpe i _ hg]
      · rw [List.getElem?_eq_none (by simp; omega), List.getElem?_eq_none (by simp; omega)]
    rw [hmap, List.takeWhile_eq_self_iff]
    intro d hd
    obtain ⟨p, hp, rfl⟩ := List.mem_map.1 hd
    obtain ⟨i, hi⟩ := List.mem_iff_getElem?.1 hp
    exact hok i p hi
  have hbad : ¬ rx_header_bad rx_max ntb := by
    unfold rx_header_bad
    rw [fld32_of_some l1, fld16_of_some l4, e10, fld32_of_some l8, fld16_of_some l9, hnf]
    omega
  obtain ⟨hfix, -⟩ := rx_fixup_run rx_max rx_seq ntb hbad
  refine ⟨_, hfix, ?_, ?_⟩
  · have : rx_expected rx_max ntb ≠ [] := by
      rw [hexp]
      intro hc
      exact hne (List.map_eq_nil_iff.1 hc)
    simp [this]
  · show (rx_expected rx_max ntb).map (fun d => slice ntb d.1 d.2) = pkts.map Prod.snd
    rw [hexp, List.map_map]
    apply List.map_congr_left
    intro p hp
    obtain ⟨i, hi⟩ := List.mem_iff_getElem?.1 hp
    exact (l11 i p hi).2.2

/-! ## Accounting of the frames that pass through the encoder -/

/-- A pass of the loop body that runs to its end takes the first frame of the queue. -/
theorem tx_fill_body_cont_acct {tx_max m r : Nat} {s s' : tx_fill_state} {p : Nat × List Nat}
    (h : tx_fill_body tx_max m r s = (s', some p)) :
    tx_queue s = p.2 :: tx_queue s' ∧ s'.skb = none ∧ s'.n = s.n + 1 ∧
    s'.ready2send = s.ready2send ∧ s'.tx_dropped = s.tx_dropped := by
  unfold tx_fill_body at h
  rcases hs : s.skb with _ | f <;> rcases hr : s.tx_rem_skb with _ | g <;>
    simp only [hs, hr, tx_queue] at h ⊢ <;> split_ifs at h <;>
    first
    | (simp at h; done)
    | (simp only [Prod.mk.injEq, Option.some.injEq] at h
       obtain ⟨h, rfl⟩ := h
       subst h
       simp)

/-- The frames at the head of the packing loop: the former remainder, then the frame
handed in. -/
theorem tx_enter_acct {ctx ctx1 : cdc_ncm_ctx} {skb : Option (List Nat)}
    {alloc : Option (Nat → Nat)} {s : tx_fill_state}
    (he : tx_enter ctx skb alloc = some (ctx1, s)) :
    tx_queue s = ctx.tx_rem_skb.toList ++ skb.toList ∧
    (s.skb ≠ none → ctx.tx_rem_skb ≠ none) ∧ (skb = none → s.ready2send = 1) ∧
    (ctx.tx_curr_skb = none → s.n = 0) ∧ s.tx_dropped = ctx.tx_dropped := by
  unfold tx_enter at he
  rcases hk : skb with _ | f <;> rcases hc : ctx.tx_curr_skb with _ | buf <;>
    rcases ha : alloc with _ | g <;>
    simp only [hk, hc, ha, Option.isSome_none, Option.isSome_some, Bool.false_eq_true,
      if_false, if_true, Option.some.injEq, Prod.mk.injEq] at he <;>
    first
    | (simp at he)
    | (obtain ⟨-, rfl⟩ := he
       simp [tx_queue])

/-- What the part after the packing loop does with the remainder slot, the drop
counter and the pending NTB. -/
theorem tx_leave_acct (ctx1 : cdc_ncm_ctx) (s : tx_fill_state) :
    (tx_leave ctx1 s).1.tx_rem_skb = s.tx_rem_skb ∧
    ((tx_leave ctx1 s).2 = none →
      s.n = 0 ∨ (s.n < ctx1.tx_max_datagrams ∧ s.ready2send = 0)) ∧
    ((tx_leave ctx1 s).2 ≠ none → (tx_leave ctx1 s).1.tx_curr_skb = none) ∧
    (s.skb = none → (tx_leave ctx1 s).1.tx_dropped = s.tx_dropped) := by
  unfold tx_leave
  simp only
  generalize hd : (if s.skb.isSome = true then s.tx_dropped + 1 else s.tx_dropped) = d
  have hd2 : s.skb = none → d = s.tx_dropped := by
    intro hs
    rw [← hd, hs]
    rfl
  generalize (if s.n < CDC_NCM_RESTART_TIMER_DATAGRAM_CNT then CDC_NCM_TIMER_PENDING_CNT
    else ctx1.tx_timer_pending) = tp
  split_ifs with h0 h1
  · have hf := tx_timeout_start_fields
      { ctx1 with
        tx_rem_skb := s.tx_rem_skb
        tx_ncm := { ctx1.tx_ncm with dpe16 := s.dpe16 }
        tx_dropped := d
        tx_curr_frame_num := s.n
        tx_curr_skb := some s.skb_out
        tx_curr_offset := s.offset
        tx_curr_last_offset := s.last_offset }
    obtain ⟨-, -, -, -, -, -, -, f8, f9, -⟩ := hf
    exact ⟨f8, fun _ => Or.inl h0, fun h => absurd rfl h, fun hs => by rw [← hd2 hs]; exact f9⟩
  · have hf := tx_timeout_start_fields
      { ctx1 with
        tx_rem_skb := s.tx_rem_skb
        tx_ncm := { ctx1.tx_ncm with dpe16 := s.dpe16 }
        tx_dropped := d
        tx_curr_frame_num := s.n
        tx_curr_skb := some s.skb_out
        tx_curr_offset := s.offset
        tx_curr_last_offset := s.last_offset
        tx_timer_pending := tp }
    obtain ⟨-, -, -, -, -, -, -, f8, f9, -⟩ := hf
    exact ⟨f8, fun _ => Or.inr h1, fun h => absurd rfl h, fun hs => by rw [← hd2 hs]; exact f9⟩
  · refine ⟨rfl, fun h => by simp at h, fun _ => rfl, ?_⟩
    intro hs
    rw [← hd2 hs]
    rfl

theorem tx_inv_none {ctx : cdc_ncm_ctx} {pend : List (Nat × List Nat)} (h : tx_inv ctx pend)
    (hc : ctx.tx_curr_skb = none) : pend = [] := by
  obtain ⟨-, hm⟩ := h
  rw [hc] at hm
  exact hm

theorem tx_inv_some {ctx : cdc_ncm_ctx} {pend : List (Nat × List Nat)} (h : tx_inv ctx pend)
    (hc : ctx.tx_curr_skb ≠ none) : ctx.tx_curr_frame_num = pend.length := by
  obtain ⟨-, hm⟩ := h
  rcases hb : ctx.tx_curr_skb with _ | buf
  · exact absurd hb hc
  · rw [hb] at hm
    exact hm.2.1

/-- A nonzero `u32` that equals its own lowest set bit, `val == ((-val) & val)`, is a
power of two. -/
theorem neg_land_pow (v : Nat) (h0 : 0 < v) (hv : v < U32)
    (h : v = ((U32 - v) % U32) &&& v) : ∃ k, v = 2 ^ k := by
  obtain ⟨k, m, ⟨q, rfl⟩, hkm⟩ := Nat.exists_eq_two_pow_mul_odd (by omega : v ≠ 0)
  refine ⟨k, ?_⟩
  have hq : q = 0 := by
    apply Nat.eq_of_testBit_eq
    intro n
    rw [Nat.zero_testBit]
    have hpk := Nat.two_pow_pos k
    have hv1 : v = 2 ^ (k + 1) * q + 2 ^ k := by
      rw [hkm]
      ring
    have hv2 : v - 1 = 2 ^ (k + 1) * q + (2 ^ k - 1) := by omega
    have hlt : 2 ^ k < 2 ^ (k + 1) := by
      rw [pow_succ]
      omega
    have b1 : v.testBit (n + (k + 1)) = q.testBit n := by
      rw [hv1, Nat.testBit_mul_pow_two_add q hlt]
      simp
    have b2 : (v - 1).testBit (n + (k + 1)) = q.testBit n := by
      rw [hv2, Nat.testBit_mul_pow_two_add q (by omega : 2 ^ k - 1 < 2 ^ (k + 1))]
      simp
    have hneg : (U32 - v) % U32 = 2 ^ 32 - ((v - 1) + 1) := by
      unfold U32 at hv ⊢
      omega
    have hb := congrArg (fun x => x.testBit (n + (k + 1))) h
    simp only at hb
    rw [Nat.testBit_and, hneg, Nat.testBit_two_pow_sub_succ (by unfold U32 at hv; omega), b1,
      b2] at hb
    cases hqn : q.testBit n
    · rfl
    · rw [hqn] at hb
      simp at hb
  rw [hkm, hq]
  simp

/-- A modulus that passes the test of `cdc_ncm_setup` is a power of two below 2^15. -/
theorem good_modulus_pow {val tx_max : Nat} (hb : bad_modulus val tx_max = false)
    (hm : tx_max ≤ 32768) : ∃ k, k ≤ 15 ∧ val = 2 ^ k := by
  unfold bad_modulus at hb
  simp only [decide_eq_false_iff_not, not_or, not_lt, ge_iff_le, not_le, ne_eq, not_not] at hb
  obtain ⟨h4, he, hl⟩ := hb
  unfold USB_CDC_NCM_NDP_ALIGN_MIN_SIZE at h4
  obtain ⟨k, rfl⟩ := neg_land_pow val (by omega) (by unfold U32; omega) he
  refine ⟨k, ?_, rfl⟩
  by_contra hc
  have : 2 ^ 16 ≤ 2 ^ k := Nat.pow_le_pow_right (by decide) (by omega)
  omega

/-- What `cdc_ncm_setup` leaves in the context when GET_NTB_PARAMETERS succeeds: the
encoder parameters are in order (`tx_params_ok`, for a context whose staged pointer
table has its 41 entries), there is at least one datagram per NTB, `rx_max` lies in
[2048, 32768], and the pending NTB, the remainder slot and `tx_seq` are untouched. -/
theorem cdc_ncm_setup_params_ok (ctx : cdc_ncm_ctx) (env : setup_env)
    (hd : ctx.tx_ncm.dpe16.length = 41) (hr : (cdc_ncm_setup ctx env).1 = 0) :
    tx_params_ok (cdc_ncm_setup ctx env).2.1 ∧
    1 ≤ (cdc_ncm_setup ctx env).2.1.tx_max_datagrams ∧
    2048 ≤ (cdc_ncm_setup ctx env).2.1.rx_max ∧ (cdc_ncm_setup ctx env).2.1.rx_max ≤ 32768 ∧
    (cdc_ncm_setup ctx env).2.1.tx_curr_skb = ctx.tx_curr_skb ∧
    (cdc_ncm_setup ctx env).2.1.tx_rem_skb = ctx.tx_rem_skb ∧
    (cdc_ncm_setup ctx env).2.1.tx_seq = ctx.tx_seq := by
  rcases hp : env.parm with _ | parm
  · unfold cdc_ncm_setup at hr
    rw [hp] at hr
    simp at hr
  · generalize hc : (cdc_ncm_setup ctx env).2.1 = c
    unfold cdc_ncm_setup at hc
    split at hc
    · rename_i hn
      rw [hp] at hn
      exact absurd hn (by simp)
    · rename_i parm2 hn
      rw [hp] at hn
      obtain rfl : parm = parm2 := Option.some.inj hn
      lift_lets at hc
      extract_lets s0 fmt flags s1 s2 s3 msgs s4 s5 s6 s7 s8 msgs2 msgs3 s9 eth r s10 at hc
      have a0 : s0.tx_curr_skb = ctx.tx_curr_skb ∧ s0.tx_rem_skb = ctx.tx_rem_skb ∧
          s0.tx_seq = ctx.tx_seq ∧ s0.tx_ncm = ctx.tx_ncm := ⟨rfl, rfl, rfl, rfl⟩
      have a1 : (s1.tx_curr_skb = ctx.tx_curr_skb ∧ s1.tx_rem_skb = ctx.tx_rem_skb ∧
          s1.tx_seq = ctx.tx_seq ∧ s1.tx_ncm = ctx.tx_ncm) ∧
          1 ≤ s1.tx_max_datagrams ∧ s1.tx_max_datagrams ≤ 40 := by
        by_cases h : s0.tx_max_datagrams = 0 ∨ s0.tx_max_datagrams > CDC_NCM_DPT_DATAGRAMS_MAX
        · have e : s1 = { s0 with tx_max_datagrams := CDC_NCM_DPT_DATAGRAMS_MAX } := if_pos h
          rw [e]
          exact ⟨a0, Nat.le_of_ble_eq_true rfl, Nat.le_of_ble_eq_true rfl⟩
        · have e : s1 = s0 := if_neg h
          rw [e]
          unfold CDC_NCM_DPT_DATAGRAMS_MAX at h
          exact ⟨a0, by omega, by omega⟩
      have a2 : ((s2.tx_curr_skb = ctx.tx_curr_skb ∧ s2.tx_rem_skb = ctx.tx_rem_skb ∧
          s2.tx_seq = ctx.tx_seq ∧ s2.tx_ncm = ctx.tx_ncm) ∧
          1 ≤ s2.tx_max_datagrams ∧ s2.tx_max_datagrams ≤ 40) ∧ 2048 ≤ s2.rx_max := by
        by_cases h : s1.rx_max < USB_CDC_NCM_NTB_MIN_IN_SIZE
        · have e : s2 = { s1 with rx_max := USB_CDC_NCM_NTB_MIN_IN_SIZE } := if_pos h
          rw [e]
          exact ⟨a1, Nat.le_of_ble_eq_true rfl⟩
        · have e : s2 = s1 := if_neg h
          rw [e]
          unfold USB_CDC_NCM_NTB_MIN_IN_SIZE at h
          exact ⟨a1, by omega⟩
      have a3 : ((s3.tx_curr_skb = ctx.tx_curr_skb ∧ s3.tx_rem_skb = ctx.tx_rem_skb ∧
          s3.tx_seq = ctx.tx_seq ∧ s3.tx_ncm = ctx.tx_ncm) ∧
          1 ≤ s3.tx_max_datagrams ∧ s3.tx_max_datagrams ≤ 40) ∧
          2048 ≤ s3.rx_max ∧ s3.rx_max ≤ 32768 := by
        by_cases h : s2.rx_max > CDC_NCM_NTB_MAX_SIZE_RX
        · have e : s3 = { s2 with rx_max := CDC_NCM_NTB_MAX_SIZE_RX } := if_pos h
          rw [e]
          exact ⟨a2.1, Nat.le_of_ble_eq_true rfl, Nat.le_of_ble_eq_true rfl⟩
        · have e : s3 = s2 := if_neg h
          rw [e]
          unfold CDC_NCM_NTB_MAX_SIZE_RX at h
          exact ⟨a2.1, a2.2, by omega⟩
      have a4 : (((s4.tx_curr_skb = ctx.tx_curr_skb ∧ s4.tx_rem_skb = ctx.tx_rem_skb ∧
          s4.tx_seq = ctx.tx_seq ∧ s4.tx_ncm = ctx.tx_ncm) ∧
          1 ≤ s4.tx_max_datagrams ∧ s4.tx_max_datagrams ≤ 40) ∧
          2048 ≤ s4.rx_max ∧ s4.rx_max ≤ 32768) ∧ s4.tx_max ≤ 32768 := by
        by_cases h : s3.tx_max < CDC_NCM_MIN_HDR_SIZE + CDC_NCM_MIN_DATAGRAM_SIZE ∨
            s3.tx_max > CDC_NCM_NTB_MAX_SIZE_TX
        · have e : s4 = { s3 with tx_max := CDC_NCM_NTB_MAX_SIZE_TX } := if_pos h
          rw [e]
          exact ⟨a3, Nat.le_of_ble_eq_true rfl⟩
        · have e : s4 = s3 := if_neg h
          rw [e]
          unfold CDC_NCM_NTB_MAX_SIZE_TX at h
          exact ⟨a3, by omega⟩
      have a5 : ((((s5.tx_curr_skb = ctx.tx_curr_skb ∧ s5.tx_rem_skb = ctx.tx_rem_skb ∧
          s5.tx_seq = ctx.tx_seq ∧ s5.tx_ncm = ctx.tx_ncm) ∧
          1 ≤ s5.tx_max_datagrams ∧ s5.tx_max_datagrams ≤ 40) ∧
          2048 ≤ s5.rx_max ∧ s5.rx_max ≤ 32768) ∧ s5.tx_max ≤ 32768) ∧
          ∃ j, j ≤ 15 ∧ s5.tx_ndp_modulus = 2 ^ j := by
        by_cases h : bad_modulus s4.tx_ndp_modulus s4.tx_max = true
        · have e : s5 = { s4 with tx_ndp_modulus := USB_CDC_NCM_NDP_ALIGN_MIN_SIZE } := if_pos h
          rw [e]
          exact ⟨a4, 2, Nat.le_of_ble_eq_true rfl, rfl⟩
        · have e : s5 = s4 := if_neg h
          rw [e]
          exact ⟨a4, good_modulus_pow (Bool.eq_false_iff.2 h) a4.2⟩
      have a6 : (((((s6.tx_curr_skb = ctx.tx_curr_skb ∧ s6.tx_rem_skb = ctx.tx_rem_skb ∧
          s6.tx_seq = ctx.tx_seq ∧ s6.tx_ncm = ctx.tx_ncm) ∧
          1 ≤ s6.tx_max_datagrams ∧ s6.tx_max_datagrams ≤ 40) ∧
          2048 ≤ s6.rx_max ∧ s6.rx_max ≤ 32768) ∧ s6.tx_max ≤ 32768) ∧
          ∃ j, j ≤ 15 ∧ s6.tx_ndp_modulus = 2 ^ j) ∧
          ∃ k, k ≤ 15 ∧ s6.tx_modulus = 2 ^ k := by
        by_cases h : bad_modulus s5.tx_modulus s5.tx_max = true
        · have e : s6 = { s5 with tx_modulus := USB_CDC_NCM_NDP_ALIGN_MIN_SIZE } := if_pos h
          rw [e]
          exact ⟨a5, 2, Nat.le_of_ble_eq_true rfl, rfl⟩
        · have e : s6 = s5 := if_neg h
          rw [e]
          exact ⟨a5, good_modulus_pow (Bool.eq_false_iff.2 h) a5.1.2⟩
      have a7 : (((((s7.tx_curr_skb = ctx.tx_curr_skb ∧ s7.tx_rem_skb = ctx.tx_rem_skb ∧
          s7.tx_seq = ctx.tx_seq ∧ s7.tx_ncm = ctx.tx_ncm) ∧
          1 ≤ s7.tx_max_datagrams ∧ s7.tx_max_datagrams ≤ 40) ∧
          2048 ≤ s7.rx_max ∧ s7.rx_max ≤ 32768) ∧ s7.tx_max ≤ 32768) ∧
          ∃ j, j ≤ 15 ∧ s7.tx_ndp_modulus = 2 ^ j) ∧
          ∃ k, k ≤ 15 ∧ s7.tx_modulus = 2 ^ k := by
        by_cases h : s6.tx_remainder ≥ s6.tx_modulus
        · have e : s7 = { s6 with tx_remainder := 0 } := if_pos h
          rw [e]
          exact a6
        · have e : s7 = s6 := if_neg h
          rw [e]
          exact a6
      have cg : ∀ a b : cdc_ncm_ctx, b.tx_curr_skb = a.tx_curr_skb →
          b.tx_rem_skb = a.tx_rem_skb → b.tx_seq = a.tx_seq → b.tx_ncm = a.tx_ncm →
          b.tx_max_datagrams = a.tx_max_datagrams → b.rx_max = a.rx_max →
          b.tx_max = a.tx_max → b.tx_ndp_modulus = a.tx_ndp_modulus →
          b.tx_modulus = a.tx_modulus →
          ((((((a.tx_curr_skb = ctx.tx_curr_skb ∧ a.tx_rem_skb = ctx.tx_rem_skb ∧
            a.tx_seq = ctx.tx_seq ∧ a.tx_ncm = ctx.tx_ncm) ∧
            1 ≤ a.tx_max_datagrams ∧ a.tx_max_datagrams ≤ 40) ∧
            2048 ≤ a.rx_max ∧ a.rx_max ≤ 32768) ∧ a.tx_max ≤ 32768) ∧
            ∃ j, j ≤ 15 ∧ a.tx_ndp_modulus = 2 ^ j) ∧
            ∃ k, k ≤ 15 ∧ a.tx_modulus = 2 ^ k) →
          ((((((b.tx_curr_skb = ctx.tx_curr_skb ∧ b.tx_rem_skb = ctx.tx_rem_skb ∧
            b.tx_seq = ctx.tx_seq ∧ b.tx_ncm = ctx.tx_ncm) ∧
            1 ≤ b.tx_max_datagrams ∧ b.tx_max_datagrams ≤ 40) ∧
            2048 ≤ b.rx_max ∧ b.rx_max ≤ 32768) ∧ b.tx_max ≤ 32768) ∧
            ∃ j, j ≤ 15 ∧ b.tx_ndp_modulus = 2 ^ j) ∧
            ∃ k, k ≤ 15 ∧ b.tx_modulus = 2 ^ k) := by
        intro a b h1 h2 h3 h4 h5 h6 h7 h8 h9 h
        rw [h1, h2, h3, h4, h5, h6, h7, h8, h9]
        exact h
      have hlt : s8.tx_remainder < 65536 := by
        dsimp only [s8]
        exact Nat.mod_lt _ (Nat.lt_of_sub_eq_succ rfl)
      have a8 := cg s7 s8 (by dsimp only [s8]) (by dsimp only [s8]) (by dsimp only [s8])
        (by dsimp only [s8]) (by dsimp only [s8]) (by dsimp only [s8]) (by dsimp only [s8])
        (by dsimp only [s8]) (by dsimp only [s8]) a7
      have a9 := cg s8 s9 (by dsimp only [s9]) (by dsimp only [s9]) (by dsimp only [s9])
        (by dsimp only [s9]) (by dsimp only [s9]) (by dsimp only [s9]) (by dsimp only [s9])
        (by dsimp only [s9]) (by dsimp only [s9]) a8
      have hlt9 : s9.tx_remainder < 65536 := by
        have : s9.tx_remainder = s8.tx_remainder := by dsimp only [s9]
        rw [this]
        exact hlt
      have e10 : r.1 = s9 ∨ ∃ m, r.1 = { s9 with max_datagram_size := m } := by
        by_cases h1 : flags &&& USB_CDC_NCM_NCAP_MAX_DATAGRAM_SIZE ≠ 0
        · by_cases h2 : env.max_dgram_alloc = true
          · rcases h3 : env.max_dgram_reply with _ | reply
            · left
              have er : r = (s9, msgs3) := (if_pos h1).trans ((if_pos h2).trans (by rw [h3]))
              rw [er]
            · right
              have er : ∃ m l, r = ({ s9 with max_datagram_size := m }, l) :=
                ⟨_, _, (if_pos h1).trans ((if_pos h2).trans (by rw [h3]))⟩
              obtain ⟨m, l, er⟩ := er
              exact ⟨m, by rw [er]⟩
          · left
            have er : r = (s9, msgs3) := (if_pos h1).trans (if_neg h2)
            rw [er]
        · left
          have er : r = (s9, msgs3) := if_neg h1
          rw [er]
      clear_value r s9
      have a10 := cg s9 r.1 (by rcases e10 with e | ⟨m, e⟩ <;> rw [e])
        (by rcases e10 with e | ⟨m, e⟩ <;> rw [e]) (by rcases e10 with e | ⟨m, e⟩ <;> rw [e])
        (by rcases e10 with e | ⟨m, e⟩ <;> rw [e]) (by rcases e10 with e | ⟨m, e⟩ <;> rw [e])
        (by rcases e10 with e | ⟨m, e⟩ <;> rw [e]) (by rcases e10 with e | ⟨m, e⟩ <;> rw [e])
        (by rcases e10 with e | ⟨m, e⟩ <;> rw [e]) (by rcases e10 with e | ⟨m, e⟩ <;> rw [e]) a9
      have hlt10 : r.1.tx_remainder < 65536 := by
        rcases e10 with e | ⟨m, e⟩ <;> rw [e] <;> exact hlt9
      dsimp only at hc
      have a11 := cg r.1 c (by rw [← hc]) (by rw [← hc]) (by rw [← hc]) (by rw [← hc])
        (by rw [← hc]) (by rw [← hc]) (by rw [← hc]) (by rw [← hc]) (by rw [← hc]) a10
      have hlt11 : c.tx_remainder < 65536 := by
        rw [← hc]
        exact hlt10
      obtain ⟨⟨⟨⟨⟨⟨e1, e2, e3, e4⟩, d1, d2⟩, r1, r2⟩, t1⟩, n1⟩, m1⟩ := a11
      exact ⟨⟨m1, n1, t1, d2, hlt11, by rw [e4]; exact hd⟩, d1, r1, r2, e1, e2, e3⟩

/-- The context that `cdc_ncm_bind` hands to `cdc_ncm_setup` comes out, when
GET_NTB_PARAMETERS succeeds, with the encoder parameters in order, at least one
datagram per NTB, no pending NTB and no frame in the remainder slot. -/
theorem cdc_ncm_setup_zero_ok (func_desc : Option Nat) (ether_desc out_ep : Nat)
    (env : setup_env) (hr : (cdc_ncm_setup (ctx_zero func_desc ether_desc out_ep) env).1 = 0) :
    tx_params_ok (cdc_ncm_setup (ctx_zero func_desc ether_desc out_ep) env).2.1 ∧
    1 ≤ (cdc_ncm_setup (ctx_zero func_desc ether_desc out_ep) env).2.1.tx_max_datagrams ∧
    (cdc_ncm_setup (ctx_zero func_desc ether_desc out_ep) env).2.1.tx_curr_skb = none ∧
    (cdc_ncm_setup (ctx_zero func_desc ether_desc out_ep) env).2.1.tx_rem_skb = none := by
  obtain ⟨h1, h2, -, -, h5, h6, -⟩ :=
    cdc_ncm_setup_params_ok (ctx_zero func_desc ether_desc out_ep) env (by rfl) hr
  exact ⟨h1, h2, h5, h6⟩

/-- The values that `cdc_ncm_setup` caches when GET_NTB_PARAMETERS succeeds with the
block `parm`: it returns 0, and `tx_max`, both moduli and `tx_remainder` are what the
checks of the function make of the advertised values; `max_datagram_size` lies in
[1514, 8192]; the parameter block is stored and `out_ep` is untouched; `rx_max` and
`tx_max_datagrams` are what the checks make of the advertised values. -/
theorem cdc_ncm_setup_fields (ctx : cdc_ncm_ctx) (env : setup_env)
    (parm : usb_cdc_ncm_ntb_parameters) (hp : env.parm = some parm) :
    (cdc_ncm_setup ctx env).1 = 0 ∧
    (cdc_ncm_setup ctx env).2.1.tx_max = setup_tx_max (parm.dwNtbOutMaxSize % U32) ∧
    (cdc_ncm_setup ctx env).2.1.tx_ndp_modulus =
      setup_modulus (parm.wNdpOutAlignment % U16) (setup_tx_max (parm.dwNtbOutMaxSize % U32)) ∧
    (cdc_ncm_setup ctx env).2.1.tx_modulus =
      setup_modulus (parm.wNdpOutDivisor % U16) (setup_tx_max (parm.dwNtbOutMaxSize % U32)) ∧
    (cdc_ncm_setup ctx env).2.1.tx_remainder =
      (((setup_dev_remainder (parm.wNdpOutPayloadRemainder % U16)
            (cdc_ncm_setup ctx env).2.1.tx_modulus + U32 - ETH_HLEN) % U32) &&&
        (((cdc_ncm_setup ctx env).2.1.tx_modulus + U32 - 1) % U32)) % U16 ∧
    (cdc_ncm_setup ctx env).2.1.ncm_parm = parm ∧
    (cdc_ncm_setup ctx env).2.1.out_ep = ctx.out_ep ∧
    (cdc_ncm_setup ctx env).2.1.rx_max = setup_rx_max (parm.dwNtbInMaxSize % U32) ∧
    (cdc_ncm_setup ctx env).2.1.tx_max_datagrams =
      setup_max_datagrams (parm.wNtbOutMaxDatagrams % U16) ∧
    1514 ≤ (cdc_ncm_setup ctx env).2.1.max_datagram_size ∧
    (cdc_ncm_setup ctx env).2.1.max_datagram_size ≤ 8192 := by
  have hret : (cdc_ncm_setup ctx env).1 = 0 := by
    unfold cdc_ncm_setup
    rw [hp]
  refine ⟨hret, ?_⟩
  generalize hc : (cdc_ncm_setup ctx env).2.1 = c
  unfold cdc_ncm_setup at hc
  split at hc
  · rename_i hn
    rw [hp] at hn
    exact absurd hn (by simp)
  · rename_i parm2 hn
    rw [hp] at hn
    obtain rfl : parm = parm2 := Option.some.inj hn
    lift_lets at hc
    extract_lets s0 fmt flags s1 s2 s3 msgs s4 s5 s6 s7 s8 msgs2 msgs3 s9 eth r s10 at hc
    have t0 : s0.tx_max = parm.dwNtbOutMaxSize % U32 ∧
        s0.tx_ndp_modulus = parm.wNdpOutAlignment % U16 ∧
        s0.tx_modulus = parm.wNdpOutDivisor % U16 ∧
        s0.tx_remainder = parm.wNdpOutPayloadRemainder % U16 ∧
        s0.ncm_parm = parm ∧
        s0.out_ep = ctx.out_ep ∧
        s0.rx_max = parm.dwNtbInMaxSize % U32 ∧
        s0.tx_max_datagrams = parm.wNtbOutMaxDatagrams % U16 :=
      ⟨rfl, rfl, rfl, rfl, rfl, rfl, rfl, rfl⟩
    have t1 : s1.tx_max = parm.dwNtbOutMaxSize % U32 ∧
        s1.tx_ndp_modulus = parm.wNdpOutAlignment % U16 ∧
        s1.tx_modulus = parm.wNdpOutDivisor % U16 ∧
        s1.tx_remainder = parm.wNdpOutPayloadRemainder % U16 ∧
        s1.ncm_parm = parm ∧
        s1.out_ep = ctx.out_ep ∧
        s1.rx_max = parm.dwNtbInMaxSize % U32 ∧
        s1.tx_max_datagrams = setup_max_datagrams (parm.wNtbOutMaxDatagrams % U16) := by
      obtain ⟨p1, p2, p3, p4, p5, p6, p7, p8⟩ := t0
      by_cases h : s0.tx_max_datagrams = 0 ∨ s0.tx_max_datagrams > CDC_NCM_DPT_DATAGRAMS_MAX
      · rw [show s1 = { s0 with tx_max_datagrams := CDC_NCM_DPT_DATAGRAMS_MAX } from if_pos h]
        refine ⟨p1, p2, p3, p4, p5, p6, p7, ?_⟩
        rw [p8] at h
        exact (if_pos h).symm
      · rw [show s1 = s0 from if_neg h]
        refine ⟨p1, p2, p3, p4, p5, p6, p7, ?_⟩
        rw [p8] at h
        rw [p8]
        exact (if_neg h).symm
    have t2 : s2.tx_max = parm.dwNtbOutMaxSize % U32 ∧
        s2.tx_ndp_modulus = parm.wNdpOutAlignment % U16 ∧
        s2.tx_modulus = parm.wNdpOutDivisor % U16 ∧
        s2.tx_remainder = parm.wNdpOutPayloadRemainder % U16 ∧
        s2.ncm_parm = parm ∧
        s2.out_ep = ctx.out_ep ∧
        s2.rx_max = (if parm.dwNtbInMaxSize % U32 < USB_CDC_NCM_NTB_MIN_IN_SIZE then USB_CDC_NCM_NTB_MIN_IN_SIZE else parm.dwNtbInMaxSize % U32) ∧
        s2.tx_max_datagrams = setup_max_datagrams (parm.wNtbOutMaxDatagrams % U16) := by
      obtain ⟨p1, p2, p3, p4, p5, p6, p7, p8⟩ := t1
      by_cases h : s1.rx_max < USB_CDC_NCM_NTB_MIN_IN_SIZE
      · rw [show s2 = { s1 with rx_max := USB_CDC_NCM_NTB_MIN_IN_SIZE } from if_pos h]
        refine ⟨p1, p2, p3, p4, p5, p6, ?_, p8⟩
        rw [p7] at h
        exact (if_pos h).symm
      · rw [show s2 = s1 from if_neg h]
        refine ⟨p1, p2, p3, p4, p5, p6, ?_, p8⟩
        rw [p7] at h
        rw [p7]
        exact (if_neg h).symm
    have t3 : s3.tx_max = parm.dwNtbOutMaxSize % U32 ∧
        s3.tx_ndp_modulus = parm.wNdpOutAlignment % U16 ∧
        s3.tx_modulus = parm.wNdpOutDivisor % U16 ∧
        s3.tx_remainder = parm.wNdpOutPayloadRemainder % U16 ∧
        s3.ncm_parm = parm ∧
        s3.out_ep = ctx.out_ep ∧
        s3.rx_max = setup_rx_max (parm.dwNtbInMaxSize % U32) ∧
        s3.tx_max_datagrams = setup_max_datagrams (parm.wNtbOutMaxDatagrams % U16) := by
      obtain ⟨p1, p2, p3, p4, p5, p6, p7, p8⟩ := t2
      by_cases h : s2.rx_max > CDC_NCM_NTB_MAX_SIZE_RX
      · rw [show s3 = { s2 with rx_max := CDC_NCM_NTB_MAX_SIZE_RX } from if_pos h]
        refine ⟨p1, p2, p3, p4, p5, p6, ?_, p8⟩
        rw [p7] at h
        exact (if_pos h).symm
      · rw [show s3 = s2 from if_neg h]
        refine ⟨p1, p2, p3, p4, p5, p6, ?_, p8⟩
        rw [p7] at h
        rw [p7]
        exact (if_neg h).symm
    have t4 : s4.tx_max = setup_tx_max (parm.dwNtbOutMaxSize % U32) ∧
        s4.tx_ndp_modulus = parm.wNdpOutAlignment % U16 ∧
        s4.tx_modulus = parm.wNdpOutDivisor % U16 ∧
        s4.tx_remainder = parm.wNdpOutPayloadRemainder % U16 ∧
        s4.ncm_parm = parm ∧
        s4.out_ep = ctx.out_ep ∧
        s4.rx_max = setup_rx_max (parm.dwNtbInMaxSize % U32) ∧
        s4.tx_max_datagrams = setup_max_datagrams (parm.wNtbOutMaxDatagrams % U16) := by
      obtain ⟨p1, p2, p3, p4, p5, p6, p7, p8⟩ := t3
      by_cases h : s3.tx_max < CDC_NCM_MIN_HDR_SIZE + CDC_NCM_MIN_DATAGRAM_SIZE ∨
          s3.tx_max > CDC_NCM_NTB_MAX_SIZE_TX
      · rw [show s4 = { s3 with tx_max := CDC_NCM_NTB_MAX_SIZE_TX } from if_pos h]
        refine ⟨?_, p2, p3, p4, p5, p6, p7, p8⟩
        rw [p1] at h
        exact (if_pos h).symm
      · rw [show s4 = s3 from if_neg h]
        refine ⟨?_, p2, p3, p4, p5, p6, p7, p8⟩
        rw [p1] at h
        rw [p1]
        exact (if_neg h).symm
    have t5 : s5.tx_max = setup_tx_max (parm.dwNtbOutMaxSize % U32) ∧
        s5.tx_ndp_modulus = setup_modulus (parm.wNdpOutAlignment % U16) (setup_tx_max (parm.dwNtbOutMaxSize % U32)) ∧
        s5.tx_modulus = parm.wNdpOutDivisor % U16 ∧
        s5.tx_remainder = parm.wNdpOutPayloadRemainder % U16 ∧
        s5.ncm_parm = parm ∧
        s5.out_ep = ctx.out_ep ∧
        s5.rx_max = setup_rx_max (parm.dwNtbInMaxSize % U32) ∧
        s5.tx_max_datagrams = setup_max_datagrams (parm.wNtbOutMaxDatagrams % U16) := by
      obtain ⟨p1, p2, p3, p4, p5, p6, p7, p8⟩ := t4
      by_cases h : bad_modulus s4.tx_ndp_modulus s4.tx_max = true
      · rw [show s5 = { s4 with tx_ndp_modulus := USB_CDC_NCM_NDP_ALIGN_MIN_SIZE } from if_pos h]
        refine ⟨p1, ?_, p3, p4, p5, p6, p7, p8⟩
        rw [p1, p2] at h
        exact (if_pos h).symm
      · rw [show s5 = s4 from if_neg h]
        refine ⟨p1, ?_, p3, p4, p5, p6, p7, p8⟩
        rw [p1, p2] at h
        rw [p2]
        exact (if_neg h).symm
    have t6 : s6.tx_max = setup_tx_max (parm.dwNtbOutMaxSize % U32) ∧
        s6.tx_ndp_modulus = setup_modulus (parm.wNdpOutAlignment % U16) (setup_tx_max (parm.dwNtbOutMaxSize % U32)) ∧
        s6.tx_modulus = setup_modulus (parm.wNdpOutDivisor % U16) (setup_tx_max (parm.dwNtbOutMaxSize % U32)) ∧
        s6.tx_remainder = parm.wNdpOutPayloadRemainder % U16 ∧
        s6.ncm_parm = parm ∧
        s6.out_ep = ctx.out_ep ∧
        s6.rx_max = setup_rx_max (parm.dwNtbInMaxSize % U32) ∧
        s6.tx_max_datagrams = setup_max_datagrams (parm.wNtbOutMaxDatagrams % U16) := by
      obtain ⟨p1, p2, p3, p4, p5, p6, p7, p8⟩ := t5
      by_cases h : bad_modulus s5.tx_modulus s5.tx_max = true
      · rw [show s6 = { s5 with tx_modulus := USB_CDC_NCM_NDP_ALIGN_MIN_SIZE } from if_pos h]
        refine ⟨p1, p2, ?_, p4, p5, p6, p7, p8⟩
        rw [p1, p3] at h
        exact (if_pos h).symm
      · rw [show s6 = s5 from if_neg h]
        refine ⟨p1, p2, ?_, p4, p5, p6, p7, p8⟩
        rw [p1, p3] at h
        rw [p3]
        exact (if_neg h).symm
    have t7 : s7.tx_max = setup_tx_max (parm.dwNtbOutMaxSize % U32) ∧
        s7.tx_ndp_modulus = setup_modulus (parm.wNdpOutAlignment % U16) (setup_tx_max (parm.dwNtbOutMaxSize % U32)) ∧
        s7.tx_modulus = setup_modulus (parm.wNdpOutDivisor % U16) (setup_tx_max (parm.dwNtbOutMaxSize % U32)) ∧
        s7.tx_remainder = setup_dev_remainder (parm.wNdpOutPayloadRemainder % U16) (setup_modulus (parm.wNdpOutDivisor % U16) (setup_tx_max (parm.dwNtbOutMaxSize % U32))) ∧
        s7.ncm_parm = parm ∧
        s7.out_ep = ctx.out_ep ∧
        s7.rx_max = setup_rx_max (parm.dwNtbInMaxSize % U32) ∧
        s7.tx_max_datagrams = setup_max_datagrams (parm.wNtbOutMaxDatagrams % U16) := by
      obtain ⟨p1, p2, p3, p4, p5, p6, p7, p8⟩ := t6
      by_cases h : s6.tx_remainder ≥ s6.tx_modulus
      · rw [show s7 = { s6 with tx_remainder := 0 } from if_pos h]
        refine ⟨p1, p2, p3, ?_, p5, p6, p7, p8⟩
        rw [p3, p4] at h
        exact (if_pos h).symm
      · rw [show s7 = s6 from if_neg h]
        refine ⟨p1, p2, p3, ?_, p5, p6, p7, p8⟩
        rw [p3, p4] at h
        rw [p4]
        exact (if_neg h).symm
    have t8r : s8.tx_remainder =
        (((s7.tx_remainder + U32 - ETH_HLEN) % U32) &&& ((s7.tx_modulus + U32 - 1) % U32)) %
          U16 := by
      dsimp only [s8]
    have t8 : s8.tx_max = s7.tx_max ∧ s8.tx_ndp_modulus = s7.tx_ndp_modulus ∧
        s8.tx_modulus = s7.tx_modulus ∧ s8.ncm_parm = s7.ncm_parm ∧ s8.out_ep = s7.out_ep ∧
        s8.rx_max = s7.rx_max ∧ s8.tx_max_datagrams = s7.tx_max_datagrams :=
      ⟨by dsimp only [s8], by dsimp only [s8], by dsimp only [s8], by dsimp only [s8],
        by dsimp only [s8], by dsimp only [s8], by dsimp only [s8]⟩
    have t9 : s9.tx_max = s8.tx_max ∧ s9.tx_ndp_modulus = s8.tx_ndp_modulus ∧
        s9.tx_modulus = s8.tx_modulus ∧ s9.ncm_parm = s8.ncm_parm ∧ s9.out_ep = s8.out_ep ∧
        s9.tx_remainder = s8.tx_remainder ∧ s9.rx_max = s8.rx_max ∧
        s9.tx_max_datagrams = s8.tx_max_datagrams :=
      ⟨by dsimp only [s9], by dsimp only [s9], by dsimp only [s9], by dsimp only [s9],
        by dsimp only [s9], by dsimp only [s9], by dsimp only [s9], by dsimp only [s9]⟩
    have e10 : ∃ m, 1514 ≤ m ∧ m ≤ 8192 ∧ r.1 = { s9 with max_datagram_size := m } := by
      have triv : s9 = { s9 with max_datagram_size := 1514 } := by
        dsimp only [s9]
        rfl
      by_cases h1 : flags &&& USB_CDC_NCM_NCAP_MAX_DATAGRAM_SIZE ≠ 0
      · by_cases h2 : env.max_dgram_alloc = true
        · rcases h3 : env.max_dgram_reply with _ | reply
          · have er : r = (s9, msgs3) := (if_pos h1).trans ((if_pos h2).trans (by rw [h3]))
            exact ⟨1514, by decide, by decide, by rw [er]; exact triv⟩
          · have er : ∃ m l, (1514 ≤ m ∧ m ≤ 8192) ∧
                r = ({ s9 with max_datagram_size := m }, l) := by
              refine ⟨_, _, ?_, (if_pos h1).trans ((if_pos h2).trans (by rw [h3]))⟩
              dsimp only
              unfold CDC_NCM_MAX_DATAGRAM_SIZE CDC_NCM_MIN_DATAGRAM_SIZE
              split_ifs <;> omega
            obtain ⟨m, l, hb, er⟩ := er
            exact ⟨m, hb.1, hb.2, by rw [er]⟩
        · have er : r = (s9, msgs3) := (if_pos h1).trans (if_neg h2)
          exact ⟨1514, by decide, by decide, by rw [er]; exact triv⟩
      · have er : r = (s9, msgs3) := if_neg h1
        exact ⟨1514, by decide, by decide, by rw [er]; exact triv⟩
    obtain ⟨m, hm1, hm2, er⟩ := e10
    clear_value r s9 s8
    dsimp only at hc
    have hcf : c.tx_max = r.1.tx_max ∧ c.tx_ndp_modulus = r.1.tx_ndp_modulus ∧
        c.tx_modulus = r.1.tx_modulus ∧ c.tx_remainder = r.1.tx_remainder ∧
        c.ncm_parm = r.1.ncm_parm ∧ c.out_ep = r.1.out_ep ∧
        c.max_datagram_size = r.1.max_datagram_size ∧ c.rx_max = r.1.rx_max ∧
        c.tx_max_datagrams = r.1.tx_max_datagrams :=
      ⟨by rw [← hc], by rw [← hc], by rw [← hc], by rw [← hc], by rw [← hc], by rw [← hc],
        by rw [← hc], by rw [← hc], by rw [← hc]⟩
    obtain ⟨c1, c2, c3, c4, c5, c6, c7, c8, c9⟩ := hcf
    rw [er] at c1 c2 c3 c4 c5 c6 c7 c8 c9
    dsimp only at c1 c2 c3 c4 c5 c6 c7 c8 c9
    obtain ⟨u1, u2, u3, u4, u5, u6, u7, u8⟩ := t9
    obtain ⟨v1, v2, v3, v4, v5, v6, v7⟩ := t8
    obtain ⟨w1, w2, w3, w4, w5, w6, w7, w8⟩ := t7
    rw [c1, c2, c3, c4, c5, c6, c7, c8, c9, u1, u2, u3, u4, u5, u6, u7, u8, v1, v2, v3, v4, v5,
      v6, v7, t8r, w1, w2, w3, w4, w5, w6, w7, w8]
    exact ⟨rfl, rfl, rfl, rfl, rfl, rfl, rfl, rfl, hm1, hm2⟩

theorem setup_tx_max_bounds (d : Nat) : 1698 ≤ setup_tx_max d ∧ setup_tx_max d ≤ 32768 := by
  unfold setup_tx_max CDC_NCM_MIN_HDR_SIZE CDC_NCM_MIN_DATAGRAM_SIZE CDC_NCM_NTB_MAX_SIZE_TX
    SIZEOF_NTH16 SIZEOF_NDP16 SIZEOF_DPE16 CDC_NCM_DPT_DATAGRAMS_MAX
  split_ifs with h <;> omega

theorem setup_rx_max_bounds (d : Nat) : 2048 ≤ setup_rx_max d ∧ setup_rx_max d ≤ 32768 := by
  unfold setup_rx_max USB_CDC_NCM_NTB_MIN_IN_SIZE CDC_NCM_NTB_MAX_SIZE_RX
  split_ifs <;> omega

theorem setup_max_datagrams_bounds (v : Nat) :
    1 ≤ setup_max_datagrams v ∧ setup_max_datagrams v ≤ 40 := by
  unfold setup_max_datagrams CDC_NCM_DPT_DATAGRAMS_MAX
  split_ifs <;> omega

/-- A checked modulus is a power of two, at least 4 and below the checked `tx_max`. -/
theorem setup_modulus_spec (val tx_max : Nat) (h1 : 1698 ≤ tx_max) (h2 : tx_max ≤ 32768) :
    (∃ k, 2 ≤ k ∧ k ≤ 15 ∧ setup_modulus val tx_max = 2 ^ k) ∧
    4 ≤ setup_modulus val tx_max ∧ setup_modulus val tx_max < tx_max := by
  unfold setup_modulus
  by_cases h : bad_modulus val tx_max = true
  · rw [if_pos h]
    unfold USB_CDC_NCM_NDP_ALIGN_MIN_SIZE
    exact ⟨⟨2, by decide, by decide, rfl⟩, by decide, by omega⟩
  · rw [if_neg h]
    have hb : bad_modulus val tx_max = false := Bool.eq_false_iff.2 h
    obtain ⟨k, hk, rfl⟩ := good_modulus_pow hb h2
    unfold bad_modulus at hb
    simp only [decide_eq_false_iff_not, not_or, not_lt, ge_iff_le, not_le] at hb
    obtain ⟨h4, -, hl⟩ := hb
    unfold USB_CDC_NCM_NDP_ALIGN_MIN_SIZE at h4
    refine ⟨⟨k, ?_, hk, rfl⟩, h4, hl⟩
    by_contra hc
    have : 2 ^ k ≤ 2 ^ 1 := Nat.pow_le_pow_right (by decide) (by omega)
    omega

/-- The masked expression `(r - ETH_HLEN) & (m - 1)` of `cdc_ncm_setup`, truncated to a
`u16`, for a modulus `m = 2^k` with `2 <= k <= 15`. -/
theorem setup_remainder_eq (r k : Nat) (h2 : 2 ≤ k) (h15 : k ≤ 15) :
    (((r + U32 - ETH_HLEN) % U32) &&& ((2 ^ k + U32 - 1) % U32)) % U16 =
      (r + 2 ^ k - 14 % 2 ^ k) % 2 ^ k := by
  have hm4 : 2 ^ 2 ≤ 2 ^ k := Nat.pow_le_pow_right (by decide) h2
  have hm15 : 2 ^ k ≤ 2 ^ 15 := Nat.pow_le_pow_right (by decide) h15
  have hdvd : 2 ^ k ∣ 2 ^ 32 := Nat.pow_dvd_pow 2 (by omega)
  obtain ⟨t, ht⟩ := hdvd
  have e1 : (2 ^ k + U32 - 1) % U32 = 2 ^ k - 1 := by
    unfold U32
    omega
  have e2 : (r + U32 - ETH_HLEN) % U32 % 2 ^ k = (r + U32 - ETH_HLEN) % 2 ^ k := by
    unfold U32
    exact Nat.mod_mod_of_dvd _ ⟨t, ht⟩
  have hlt : (r + 2 ^ k - 14 % 2 ^ k) % 2 ^ k < 2 ^ k := Nat.mod_lt _ (by omega)
  rw [e1, Nat.and_pow_two_sub_one_eq_mod, e2]
  have hq : 14 = 2 ^ k * (14 / 2 ^ k) + 14 % 2 ^ k := (Nat.div_add_mod 14 (2 ^ k)).symm
  have hq1 : 14 / 2 ^ k ≤ 3 := by
    calc 14 / 2 ^ k ≤ 14 / 4 := Nat.div_le_div_left (by simpa using hm4) (by decide)
      _ = 3 := by decide
  have ht17 : 5 ≤ t := by
    by_contra hc
    have : 2 ^ k * t ≤ 2 ^ 15 * 4 := Nat.mul_le_mul hm15 (by omega)
    omega
  have hmod := Nat.mod_lt 14 (by omega : 0 < 2 ^ k)
  have e3 : r + U32 - ETH_HLEN = (r + 2 ^ k - 14 % 2 ^ k) + 2 ^ k * (t - 1 - 14 / 2 ^ k) := by
    unfold U32 ETH_HLEN
    have hexp : 2 ^ k * (t - 1 - 14 / 2 ^ k) = 2 ^ k * t - 2 ^ k - 2 ^ k * (14 / 2 ^ k) := by
      rw [Nat.mul_sub, Nat.mul_sub, Nat.mul_one]
    have hle : 2 ^ k * (14 / 2 ^ k) ≤ 14 := by omega
    have hbig : 2 ^ k * 5 ≤ 2 ^ k * t := Nat.mul_le_mul_left _ ht17
    rw [hexp]
    omega
  rw [e3, Nat.add_mul_mod_self_left]
  unfold U16
  omega

theorem cdc_ncm_setup_parm {ctx : cdc_ncm_ctx} {env : setup_env}
    (hr : (cdc_ncm_setup ctx env).1 = 0) : ∃ parm, env.parm = some parm := by
  rcases hp : env.parm with _ | parm
  · unfold cdc_ncm_setup at hr
    rw [hp] at hr
    simp at hr
  · exact ⟨parm, rfl⟩

/-- C14 (negotiated parameter validity): whenever `cdc_ncm_setup` succeeds (returns 0),
for every parameter block, GET_MAX_DATAGRAM_SIZE reply and `wMaxSegmentSize`, the cached
values satisfy `2048 <= rx_max <= 32768`, `1698 <= tx_max <= 32768`, `tx_modulus` and
`tx_ndp_modulus` are powers of two, at least 4 and below `tx_max`,
`tx_remainder < tx_modulus`, `1 <= tx_max_datagrams <= 40` and
`1514 <= max_datagram_size <= 8192`. -/
theorem cdc_ncm_setup_valid (ctx : cdc_ncm_ctx) (env : setup_env)
    (hr : (cdc_ncm_setup ctx env).1 = 0) :
    (2048 ≤ (cdc_ncm_setup ctx env).2.1.rx_max ∧ (cdc_ncm_setup ctx env).2.1.rx_max ≤ 32768) ∧
    (CDC_NCM_MIN_HDR_SIZE + 1514 = 1698 ∧ 1698 ≤ (cdc_ncm_setup ctx env).2.1.tx_max ∧
      (cdc_ncm_setup ctx env).2.1.tx_max ≤ 32768) ∧
    ((∃ k, (cdc_ncm_setup ctx env).2.1.tx_modulus = 2 ^ k) ∧
      4 ≤ (cdc_ncm_setup ctx env).2.1.tx_modulus ∧
      (cdc_ncm_setup ctx env).2.1.tx_modulus < (cdc_ncm_setup ctx env).2.1.tx_max) ∧
    ((∃ j, (cdc_ncm_setup ctx env).2.1.tx_ndp_modulus = 2 ^ j) ∧
      4 ≤ (cdc_ncm_setup ctx env).2.1.tx_ndp_modulus ∧
      (cdc_ncm_setup ctx env).2.1.tx_ndp_modulus < (cdc_ncm_setup ctx env).2.1.tx_max) ∧
    (cdc_ncm_setup ctx env).2.1.tx_remainder < (cdc_ncm_setup ctx env).2.1.tx_modulus ∧
    (1 ≤ (cdc_ncm_setup ctx env).2.1.tx_max_datagrams ∧
      (cdc_ncm_setup ctx env).2.1.tx_max_datagrams ≤ 40) ∧
    (1514 ≤ (cdc_ncm_setup ctx env).2.1.max_datagram_size ∧
      (cdc_ncm_setup ctx env).2.1.max_datagram_size ≤ 8192) := by
  obtain ⟨parm, hp⟩ := cdc_ncm_setup_parm hr
  obtain ⟨-, f1, f2, f3, f4, -, -, f7, f8, f9, f10⟩ := cdc_ncm_setup_fields ctx env parm hp
  have ht := setup_tx_max_bounds (parm.dwNtbOutMaxSize % U32)
  obtain ⟨⟨k, hk2, hk15, hk⟩, m4, ml⟩ :=
    setup_modulus_spec (parm.wNdpOutDivisor % U16) _ ht.1 ht.2
  obtain ⟨⟨j, -, -, hj⟩, n4, nl⟩ :=
    setup_modulus_spec (parm.wNdpOutAlignment % U16) _ ht.1 ht.2
  rw [← f3] at ml m4 hk
  rw [← f1] at ml
  rw [← f2] at nl n4 hj
  rw [← f1] at nl
  rw [← f1] at ht
  refine ⟨by rw [f7]; exact setup_rx_max_bounds _, ⟨by decide, ht.1, ht.2⟩, ⟨⟨k, hk⟩, m4, ml⟩,
    ⟨⟨j, hj⟩, n4, nl⟩, ?_, by rw [f8]; exact setup_max_datagrams_bounds _, f9, f10⟩
  rw [f4, hk, setup_remainder_eq _ k hk2 hk15]
  exact Nat.mod_lt _ (Nat.two_pow_pos k)

theorem cdc_ncm_setup_valid_witness :
    (cdc_ncm_setup (ctx_zero (some 0) 1514 512) ⟨some (parm_of 2048 4 0 4 32), true, true, none⟩).1 =
      0 ∧
    ctx_s1.tx_max = 2048 ∧ ctx_s1.rx_max = 4096 ∧ ctx_s1.tx_modulus = 4 ∧
    ctx_s1.tx_remainder < ctx_s1.tx_modulus :=
  ⟨by decide, by decide, by decide, by decide,
    (cdc_ncm_setup_valid (ctx_zero (some 0) 1514 512)
      ⟨some (parm_of 2048 4 0 4 32), true, true, none⟩ (by decide)).2.2.2.2.1⟩

/-- C15, as amended (`tx_max` check): after a `cdc_ncm_setup` that gets the parameter
block `parm`, `tx_max` is the advertised `dwNtbOutMaxSize` when that lies in
[1698, 32768], and 32768 otherwise, both for a value above 32768 and for a value below
1698 (`CDC_NCM_MIN_HDR_SIZE + 1514 = 1698`). -/
theorem cdc_ncm_setup_tx_max (ctx : cdc_ncm_ctx) (env : setup_env)
    (parm : usb_cdc_ncm_ntb_parameters) (hp : env.parm = some parm) :
    CDC_NCM_MIN_HDR_SIZE + 1514 = 1698 ∧
    (cdc_ncm_setup ctx env).2.1.tx_max =
      (if 1698 ≤ parm.dwNtbOutMaxSize % U32 ∧ parm.dwNtbOutMaxSize % U32 ≤ 32768 then
        parm.dwNtbOutMaxSize % U32
      else 32768) := by
  obtain ⟨-, f1, -⟩ := cdc_ncm_setup_fields ctx env parm hp
  refine ⟨by decide, ?_⟩
  rw [f1]
  unfold setup_tx_max CDC_NCM_MIN_HDR_SIZE CDC_NCM_MIN_DATAGRAM_SIZE CDC_NCM_NTB_MAX_SIZE_TX
    SIZEOF_NTH16 SIZEOF_NDP16 SIZEOF_DPE16 CDC_NCM_DPT_DATAGRAMS_MAX
  split_ifs <;> omega

theorem cdc_ncm_setup_tx_max_witness :
    (⟨some (parm_of 2048 4 0 4 32), true, true, none⟩ : setup_env).parm =
      some (parm_of 2048 4 0 4 32) ∧
    (CDC_NCM_MIN_HDR_SIZE + 1514 = 1698 ∧
      (cdc_ncm_setup (ctx_zero (some 0) 1514 512)
          ⟨some (parm_of 2048 4 0 4 32), true, true, none⟩).2.1.tx_max =
        (if 1698 ≤ (parm_of 2048 4 0 4 32).dwNtbOutMaxSize % U32 ∧
            (parm_of 2048 4 0 4 32).dwNtbOutMaxSize % U32 ≤ 32768 then
          (parm_of 2048 4 0 4 32).dwNtbOutMaxSize % U32
        else 32768)) :=
  ⟨rfl, cdc_ncm_setup_tx_max (ctx_zero (some 0) 1514 512)
    ⟨some (parm_of 2048 4 0 4 32), true, true, none⟩ (parm_of 2048 4 0 4 32) rfl⟩

/-- C15, counterexample: a device advertises `dwNtbOutMaxSize = 1024`, below 1698.
`cdc_ncm_setup` succeeds and caches `tx_max = 32768`, while the clamp
`max(1698, min(32768, 1024))` of the claim is 1698. -/
theorem cdc_ncm_setup_tx_max_cex :
    (parm_of 1024 4 0 4 32).dwNtbOutMaxSize = 1024 ∧
    (cdc_ncm_setup (ctx_zero (some 0) 1514 512)
      ⟨some (parm_of 1024 4 0 4 32), true, true, none⟩).1 = 0 ∧
    (cdc_ncm_setup (ctx_zero (some 0) 1514 512)
      ⟨some (parm_of 1024 4 0 4 32), true, true, none⟩).2.1.tx_max = 32768 ∧
    max 1698 (min 32768 (parm_of 1024 4 0 4 32).dwNtbOutMaxSize) = 1698 ∧
    (cdc_ncm_setup (ctx_zero (some 0) 1514 512)
      ⟨some (parm_of 1024 4 0 4 32), true, true, none⟩).2.1.tx_max ≠
      max 1698 (min 32768 (parm_of 1024 4 0 4 32).dwNtbOutMaxSize) :=
  ⟨rfl, by decide, by decide, by decide, by decide⟩

theorem setup_dev_remainder_lt (r m : Nat) (hm : 0 < m) : setup_dev_remainder r m < m := by
  unfold setup_dev_remainder
  split_ifs <;> omega

/-- Adding `ETH_HLEN` to the cached remainder gives back the device remainder. -/
theorem setup_remainder_back (r m : Nat) (hr : r < m) :
    ((r + m - 14 % m) % m + 14) % m = r := by
  have hm : 0 < m := by omega
  have hq : 14 = m * (14 / m) + 14 % m := (Nat.div_add_mod 14 m).symm
  have hlt := Nat.mod_lt 14 hm
  have e : r + m - 14 % m + 14 = r + m * (1 + 14 / m) := by
    rw [Nat.mul_add, Nat.mul_one]
    omega
  rw [Nat.add_mod, Nat.mod_mod, ← Nat.add_mod, e, Nat.add_mul_mod_self_left]
  exact Nat.mod_eq_of_lt hr

theorem setup_remainder_int (r m : Nat) (hm : 0 < m) :
    (((r + m - 14 % m) % m : Nat) : Int) = ((r : Int) - 14) % (m : Int) := by
  have hq : 14 = m * (14 / m) + 14 % m := (Nat.div_add_mod 14 m).symm
  have hlt := Nat.mod_lt 14 hm
  have e : ((r : Int) - 14) = ((r + m - 14 % m : Nat) : Int) + (m : Int) * (-1 - ((14 / m : Nat) : Int)) := by
    have h1 : ((r + m - 14 % m : Nat) : Int) = (r : Int) + (m : Int) - ((14 % m : Nat) : Int) := by
      omega
    have h2 : (14 : Int) = (m : Int) * ((14 / m : Nat) : Int) + ((14 % m : Nat) : Int) := by
      exact_mod_cast hq
    rw [h1]
    linarith
  rw [e, Int.add_mul_emod_self_left, Int.natCast_mod]

/-- C20 (payload lands on the device-requested remainder): let `m` be the `tx_modulus`
that `cdc_ncm_setup` caches and `r` the advertised `wNdpOutPayloadRemainder`, replaced
by 0 when it is `>= m`. Then the cached `tx_remainder` is below `m`, it is
`(r - 14) mod m` (the non-negative residue), which is `(r + m - 14 % m) % m`; and in
every NTB that `cdc_ncm_fill_tx_frame` returns in a run from the context after setup,
every real DPE has `(wDatagramIndex + ETH_HLEN) mod m = r`. -/
theorem tx_payload_remainder (ctx : cdc_ncm_ctx) (env : setup_env)
    (parm : usb_cdc_ncm_ntb_parameters) (hp : env.parm = some parm)
    (hd : ctx.tx_ncm.dpe16.length = 41) (hI : ctx.tx_curr_skb = none) :
    (cdc_ncm_setup ctx env).2.1.tx_remainder < (cdc_ncm_setup ctx env).2.1.tx_modulus ∧
    (((cdc_ncm_setup ctx env).2.1.tx_remainder : Nat) : Int) =
      ((setup_dev_remainder (parm.wNdpOutPayloadRemainder % U16)
          (cdc_ncm_setup ctx env).2.1.tx_modulus : Nat) - 14 : Int) %
        ((cdc_ncm_setup ctx env).2.1.tx_modulus : Int) ∧
    (cdc_ncm_setup ctx env).2.1.tx_remainder =
      (setup_dev_remainder (parm.wNdpOutPayloadRemainder % U16)
          (cdc_ncm_setup ctx env).2.1.tx_modulus + (cdc_ncm_setup ctx env).2.1.tx_modulus -
        14 % (cdc_ncm_setup ctx env).2.1.tx_modulus) %
        (cdc_ncm_setup ctx env).2.1.tx_modulus ∧
    ∀ (calls : List tx_call) (skb : Option (List Nat)) (alloc : Option (Nat → Nat))
      (ntb : List Nat) (i : Nat),
      (cdc_ncm_fill_tx_frame (tx_run (cdc_ncm_setup ctx env).2.1 calls).ctx skb alloc).2 =
        some ntb →
      i < rx_nframes ntb →
      ((rx_dpe ntb i).1 + ETH_HLEN) % (cdc_ncm_setup ctx env).2.1.tx_modulus =
        setup_dev_remainder (parm.wNdpOutPayloadRemainder % U16)
          (cdc_ncm_setup ctx env).2.1.tx_modulus := by
  obtain ⟨hret, f1, -, f3, f4, -⟩ := cdc_ncm_setup_fields ctx env parm hp
  obtain ⟨hP, -, -, -, hcur, -, -⟩ := cdc_ncm_setup_params_ok ctx env hd hret
  have ht := setup_tx_max_bounds (parm.dwNtbOutMaxSize % U32)
  obtain ⟨⟨k, hk2, hk15, hk⟩, -, -⟩ :=
    setup_modulus_spec (parm.wNdpOutDivisor % U16) _ ht.1 ht.2
  rw [← f3] at hk
  generalize (cdc_ncm_setup ctx env).2.1 = c0 at *
  have hm : 0 < c0.tx_modulus := by
    rw [hk]
    exact Nat.two_pow_pos k
  have hrl := setup_dev_remainder_lt (parm.wNdpOutPayloadRemainder % U16) c0.tx_modulus hm
  generalize setup_dev_remainder (parm.wNdpOutPayloadRemainder % U16) c0.tx_modulus = r at *
  have hrem : c0.tx_remainder = (r + c0.tx_modulus - 14 % c0.tx_modulus) % c0.tx_modulus := by
    rw [f4, hk]
    exact setup_remainder_eq r k hk2 hk15
  refine ⟨by rw [hrem]; exact Nat.mod_lt _ hm, ?_, hrem, ?_⟩
  · rw [hrem]
    exact setup_remainder_int r c0.tx_modulus hm
  · intro calls skb alloc ntb i he hi
    obtain ⟨-, -, hl, last, -, -, h3, -, -⟩ := tx_emit hP (hcur.trans hI) calls skb alloc ntb he
    obtain ⟨-, hnf, hdpe⟩ := ntb_layout_dpe hl
    rw [hnf] at hi
    obtain ⟨q, hq⟩ : ∃ q, ((tx_run c0 calls).pend ++
        tx_packed (tx_run c0 calls).ctx skb alloc)[i]? = some q :=
      ⟨_, List.getElem?_eq_getElem hi⟩
    rw [hdpe i q hq]
    have hmod := (h3 i q hq).2.2.2
    show (q.1 + ETH_HLEN) % c0.tx_modulus = r
    unfold ETH_HLEN
    rw [Nat.add_mod, hmod, ← Nat.add_mod, hrem]
    exact setup_remainder_back r c0.tx_modulus hrl

theorem tx_payload_remainder_witness :
    (⟨some (parm_of 2048 8 3 4 32), true, true, none⟩ : setup_env).parm =
      some (parm_of 2048 8 3 4 32) ∧
    (ctx_zero (some 0) 1514 512).tx_ncm.dpe16.length = 41 ∧
    (ctx_zero (some 0) 1514 512).tx_curr_skb = none ∧
    (ctx_of (parm_of 2048 8 3 4 32)).tx_modulus = 8 ∧
    (ctx_of (parm_of 2048 8 3 4 32)).tx_remainder = 5 ∧
    setup_dev_remainder ((parm_of 2048 8 3 4 32).wNdpOutPayloadRemainder % U16)
      (ctx_of (parm_of 2048 8 3 4 32)).tx_modulus = 3 ∧
    (rx_dpe ((ntb_one_frame (ctx_of (parm_of 2048 8 3 4 32)) 64).getD []) 0).1 = 157 ∧
    ((rx_dpe ((ntb_one_frame (ctx_of (parm_of 2048 8 3 4 32)) 64).getD []) 0).1 + ETH_HLEN) %
        (cdc_ncm_setup (ctx_zero (some 0) 1514 512)
          ⟨some (parm_of 2048 8 3 4 32), true, true, none⟩).2.1.tx_modulus =
      setup_dev_remainder ((parm_of 2048 8 3 4 32).wNdpOutPayloadRemainder % U16)
        (cdc_ncm_setup (ctx_zero (some 0) 1514 512)
          ⟨some (parm_of 2048 8 3 4 32), true, true, none⟩).2.1.tx_modulus :=
  ⟨rfl, by decide, by decide, by decide, by decide, by decide, by decide,
    (tx_payload_remainder (ctx_zero (some 0) 1514 512)
      ⟨some (parm_of 2048 8 3 4 32), true, true, none⟩ (parm_of 2048 8 3 4 32) rfl (by decide)
      (by decide)).2.2.2 [call_frame 64] none (some fresh_aa)
      ((ntb_one_frame (ctx_of (parm_of 2048 8 3 4 32)) 64).getD []) 0 (by rfl) (by decide)⟩

/-- C18 (single-NTB decode inverts encode): for every NTB that `cdc_ncm_fill_tx_frame`
returns in a run from a context without pending NTB whose parameters are in order, when
every frame packed into it has at least 14 bytes, and for every decoder `rx_max` that is
at least the `wBlockLength` of the NTB (and every `rx_seq`), `cdc_ncm_rx_fixup` on the
bytes of the NTB, with its clones succeeding, returns 1 and delivers exactly the packed
frames, byte-identical and in packing order. -/
theorem tx_rx_single (ctx0 : cdc_ncm_ctx) (calls : List tx_call)
    (skb : Option (List Nat)) (alloc : Option (Nat → Nat)) (ntb : List Nat)
    (rx_max rx_seq w : Nat) (hP : tx_params_ok ctx0) (hI : ctx0.tx_curr_skb = none)
    (he : (cdc_ncm_fill_tx_frame (tx_run ctx0 calls).ctx skb alloc).2 = some ntb)
    (h14 : ∀ p ∈ (tx_run ctx0 calls).pend ++ tx_packed (tx_run ctx0 calls).ctx skb alloc,
      14 ≤ p.2.length)
    (hw : ntb_wBlockLength ntb = some w) (hrx : w ≤ rx_max) :
    ∃ r, cdc_ncm_rx_fixup rx_max rx_seq (fun _ => true) ntb = some r ∧ r.ret = 1 ∧
      r.delivered.map (fun d => slice ntb d.1 d.2) =
        ((tx_run ctx0 calls).pend ++ tx_packed (tx_run ctx0 calls).ctx skb alloc).map
          Prod.snd := by
  have hem := tx_emit hP hI calls skb alloc ntb he
  have hlen : ntb.length ≤ rx_max := by
    have h4 := hem.2.2.1.2.2.2.1
    unfold ntb_wBlockLength at hw
    rw [h4] at hw
    simp only [Option.some.injEq] at hw
    omega
  exact rx_fixup_emitted hP hem h14 rx_max rx_seq hlen

theorem tx_rx_single_witness :
    tx_params_ok ctx_s1 ∧ ctx_s1.tx_curr_skb = none ∧
    (cdc_ncm_fill_tx_frame (tx_run ctx_s1 [call_frame 64]).ctx none (some fresh_aa)).2 =
      some ((ntb_one_frame ctx_s1 64).getD []) ∧
    (tx_run ctx_s1 [call_frame 64]).pend ++
      tx_packed (tx_run ctx_s1 [call_frame 64]).ctx none (some fresh_aa) =
      [(154, frame_of 64 7)] ∧
    ntb_wBlockLength ((ntb_one_frame ctx_s1 64).getD []) = some 218 ∧
    ∃ r, cdc_ncm_rx_fixup 4096 0 (fun _ => true) ((ntb_one_frame ctx_s1 64).getD []) = some r ∧
      r.ret = 1 ∧
      r.delivered.map (fun d => slice ((ntb_one_frame ctx_s1 64).getD []) d.1 d.2) =
        ((tx_run ctx_s1 [call_frame 64]).pend ++
          tx_packed (tx_run ctx_s1 [call_frame 64]).ctx none (some fresh_aa)).map Prod.snd :=
  ⟨ctx_s1_ok, by decide, by rfl, by decide, by decide,
    tx_rx_single ctx_s1 [call_frame 64] none (some fresh_aa) _ 4096 0 218 ctx_s1_ok (by decide)
      (by rfl)
      (by
        intro p hp
        rw [show (tx_run ctx_s1 [call_frame 64]).pend ++
          tx_packed (tx_run ctx_s1 [call_frame 64]).ctx none (some fresh_aa) =
          [(154, frame_of 64 7)] from by decide] at hp
        simp only [List.mem_singleton] at hp
        subst hp
        decide)
      (by decide) (by decide)⟩

theorem ctx_1k_ok : tx_params_ok ctx_1k :=
  ⟨⟨2, by decide, by decide⟩, ⟨2, by decide, by decide⟩, by decide, by decide, by decide,
    by decide⟩

/-- C19 (finalization length rule): for every NTB that `cdc_ncm_fill_tx_frame` returns
in a run from a context without pending NTB whose parameters are in order, let `q` be the
last datagram packed into it, `e` its end clamped to `tx_max`, and `p = tx_max` if
`e > 512` (`CDC_NCM_MIN_TX_PKT`), else `p = e`. When `p % wMaxPacketSize = 0` and
(`p < tx_max`, or `p = tx_max` and `tx_max < dwNtbOutMaxSize`), the NTB has `p + 1` bytes
and byte `p` is zero; otherwise it has `p` bytes. All bytes from `e` on are zero. In
both cases the NTH16, the NDP16 and the pointer table are those of `ntb_layout`, which
are determined by the parameters, `tx_seq` and the packed datagrams, with
`wBlockLength` the number of bytes. -/
theorem tx_final_length (ctx0 : cdc_ncm_ctx) (calls : List tx_call)
    (skb : Option (List Nat)) (alloc : Option (Nat → Nat)) (ntb : List Nat)
    (q : Nat × List Nat) (e p : Nat) (hP : tx_params_ok ctx0) (hI : ctx0.tx_curr_skb = none)
    (he : (cdc_ncm_fill_tx_frame (tx_run ctx0 calls).ctx skb alloc).2 = some ntb)
    (hq : ((tx_run ctx0 calls).pend ++
      tx_packed (tx_run ctx0 calls).ctx skb alloc).getLast? = some q)
    (hE : e = min (q.1 + q.2.length) ctx0.tx_max)
    (hp : p = if e > CDC_NCM_MIN_TX_PKT then ctx0.tx_max else e) :
    ((p % ctx0.out_ep = 0 ∧
        (p < ctx0.tx_max ∨ (p = ctx0.tx_max ∧ ctx0.tx_max < ctx0.ncm_parm.dwNtbOutMaxSize))) →
      ntb.length = p + 1 ∧ ntb[p]? = some 0) ∧
    (¬ (p % ctx0.out_ep = 0 ∧
        (p < ctx0.tx_max ∨ (p = ctx0.tx_max ∧ ctx0.tx_max < ctx0.ncm_parm.dwNtbOutMaxSize))) →
      ntb.length = p) ∧
    (∀ i, e ≤ i → i < ntb.length → ntb[i]? = some 0) ∧
    ntb_layout ctx0 (tx_run ctx0 calls).ctx.tx_seq ntb
      ((tx_run ctx0 calls).pend ++ tx_packed (tx_run ctx0 calls).ctx skb alloc) := by
  obtain ⟨-, -, hl, last, h1, h2, -, h4, h5⟩ := tx_emit hP hI calls skb alloc ntb he
  have hlast := h2 q hq
  have he' : e = last := by
    rw [hE, ← hlast]
    exact Nat.min_eq_left h1
  subst he'
  have hnat : tx_natural_len ctx0 e = p := by
    unfold tx_natural_len
    rw [Nat.min_eq_left h1, hp]
  have hb := tx_natural_len_bounds ctx0 e h1
  rw [hnat] at hb
  unfold tx_final_len at h4
  rw [hnat] at h4
  refine ⟨?_, ?_, h5, hl⟩
  · intro hc
    have hpad : tx_short_pad ctx0 p := hc
    rw [if_pos hpad] at h4
    exact ⟨h4, h5 p hb.1 (by omega)⟩
  · intro hc
    have hpad : ¬ tx_short_pad ctx0 p := hc
    rw [if_neg hpad] at h4
    exact h4

theorem tx_final_length_witness :
    tx_params_ok ctx_1k ∧ ctx_1k.tx_curr_skb = none ∧
    ctx_1k.tx_max = 1024 ∧ ctx_1k.out_ep = 512 ∧ ctx_1k.ncm_parm.dwNtbOutMaxSize = 2048 ∧
    (cdc_ncm_fill_tx_frame (tx_run ctx_1k [call_frame 600]).ctx none (some fresh_aa)).2 =
      some ((ntb_one_frame ctx_1k 600).getD []) ∧
    ((tx_run ctx_1k [call_frame 600]).pend ++
      tx_packed (tx_run ctx_1k [call_frame 600]).ctx none (some fresh_aa)).getLast? =
      some (154, frame_of 600 7) ∧
    754 = min ((154, frame_of 600 7).1 + (154, frame_of 600 7).2.length) ctx_1k.tx_max ∧
    1024 = (if 754 > CDC_NCM_MIN_TX_PKT then ctx_1k.tx_max else 754) ∧
    (((ntb_one_frame ctx_1k 600).getD []).length = 1024 + 1 ∧
      ((ntb_one_frame ctx_1k 600).getD [])[1024]? = some 0) :=
  ⟨ctx_1k_ok, by decide, by decide, by decide, by decide, by rfl, by decide, by decide,
    by decide,
    (tx_final_length ctx_1k [call_frame 600] none (some fresh_aa) _ (154, frame_of 600 7) 754
      1024 ctx_1k_ok (by decide) (by rfl) (by decide) (by decide) (by decide)).1
      ⟨by decide, Or.inr ⟨by decide, by decide⟩⟩⟩

/-! ## Single passes and single calls, case by case -/

/-- A pass of the loop body on a state whose next frame `f` fits: the frame is copied to
the cursor. -/
theorem tx_fill_body_take {tx_max m r : Nat} {s : tx_fill_state} {f : List Nat}
    (ho : s.offset < tx_max) (hq : (tx_queue s).head? = some f)
    (hf : f.length ≤ tx_max - s.offset) :
    ∃ s1, tx_fill_body tx_max m r s = (s1, some (s.offset, f)) ∧ s1.n = s.n + 1 ∧
      s1.skb = none ∧ tx_queue s = f :: tx_queue s1 ∧ s1.ready2send = s.ready2send ∧
      s1.tx_dropped = s.tx_dropped ∧
      s1.offset = (ALIGN (s.offset + f.length) m + r) % U32 := by
  unfold tx_fill_body
  rw [if_neg (not_le.2 ho)]
  rcases hs : s.skb with _ | a <;> rcases hr : s.tx_rem_skb with _ | b <;>
    simp only [tx_queue, hs, hr, Option.toList_none, Option.toList_some, List.nil_append,
      List.head?_nil, List.singleton_append, List.head?_cons, List.cons_append,
      Option.some.injEq] at hq
  · exact absurd hq (by simp)
  · subst hq
    simp only [hs, hr]
    rw [if_neg (not_lt.2 hf)]
    exact ⟨_, rfl, rfl, rfl, by simp [tx_queue, hs, hr], rfl, rfl, rfl⟩
  · subst hq
    simp only [hs, hr]
    rw [if_neg (not_lt.2 hf)]
    exact ⟨_, rfl, rfl, rfl, by simp [tx_queue, hs, hr], rfl, rfl, rfl⟩
  · subst hq
    simp only [hs, hr]
    rw [if_neg (not_lt.2 hf)]
    exact ⟨_, rfl, rfl, rfl, by simp [tx_queue, hs, hr], rfl, rfl, rfl⟩

/-- A pass of the loop body on a state with no frame packed whose next frame, taken
from the remainder slot, does not fit: the frame is freed and counted as dropped. -/
theorem tx_fill_body_drop {tx_max m r : Nat} {s : tx_fill_state} {f : List Nat}
    (ho : s.offset < tx_max) (hs : s.skb = none) (hr : s.tx_rem_skb = some f)
    (hf : f.length > tx_max - s.offset) (hn : s.n = 0) :
    ∃ s1, tx_fill_body tx_max m r s = (s1, none) ∧ s1.n = 0 ∧ s1.skb = none ∧
      s1.tx_rem_skb = none ∧ s1.tx_dropped = s.tx_dropped + 1 ∧
      s1.ready2send = s.ready2send ∧ s1.skb_out = s.skb_out ∧ s1.offset = s.offset ∧
      s1.last_offset = s.last_offset ∧ s1.dpe16 = s.dpe16 := by
  unfold tx_fill_body
  rw [if_neg (not_le.2 ho)]
  simp only [hs, hr]
  rw [if_pos hf, if_pos hn]
  exact ⟨_, rfl, hn, rfl, rfl, rfl, rfl, rfl, rfl, rfl, rfl⟩

/-- A pass of the loop body on a state with frames packed whose next frame, taken from
the remainder slot, does not fit: the frame goes back to the remainder slot and the NTB
is marked ready to send. -/
theorem tx_fill_body_hold {tx_max m r : Nat} {s : tx_fill_state} {f : List Nat}
    (ho : s.offset < tx_max) (hs : s.skb = none) (hr : s.tx_rem_skb = some f)
    (hf : f.length > tx_max - s.offset) (hn : s.n ≠ 0) :
    ∃ s1, tx_fill_body tx_max m r s = (s1, none) ∧ s1.n = s.n ∧ s1.skb = none ∧
      s1.tx_rem_skb = some f ∧ s1.tx_dropped = s.tx_dropped ∧ s1.ready2send = 1 ∧
      s1.skb_out = s.skb_out ∧ s1.offset = s.offset ∧ s1.last_offset = s.last_offset ∧
      s1.dpe16 = s.dpe16 := by
  unfold tx_fill_body
  rw [if_neg (not_le.2 ho)]
  simp only [hs, hr]
  rw [if_pos hf, if_neg hn]
  exact ⟨_, rfl, rfl, rfl, rfl, rfl, rfl, rfl, rfl, rfl, rfl⟩

/-- The loop on a state with nothing left to pack: nothing changes, except that the NTB
is marked ready to send when a pass finds the cursor at or beyond `tx_max`. -/
theorem tx_fill_loop_idle {tx_max m r : Nat} (k : Nat) {s : tx_fill_state}
    (hs : s.skb = none) (hr : s.tx_rem_skb = none) :
    tx_fill_packed tx_max m r k s = [] ∧
    (tx_fill_loop tx_max m r k s).n = s.n ∧ (tx_fill_loop tx_max m r k s).skb = none ∧
    (tx_fill_loop tx_max m r k s).tx_rem_skb = none ∧
    (tx_fill_loop tx_max m r k s).tx_dropped = s.tx_dropped ∧
    (tx_fill_loop tx_max m r k s).offset = s.offset ∧
    (tx_fill_loop tx_max m r k s).ready2send =
      (if 0 < k ∧ s.offset ≥ tx_max then 1 else s.ready2send) := by
  cases k with
  | zero =>
    simp only [tx_fill_packed, tx_fill_loop, Nat.lt_irrefl, false_and, if_false]
    exact ⟨trivial, trivial, hs, hr, trivial, trivial, trivial⟩
  | succ k =>
    by_cases ho : s.offset ≥ tx_max
    · have hb : tx_fill_body tx_max m r s = ({ s with ready2send := 1 }, none) := by
        unfold tx_fill_body
        rw [if_pos ho]
      simp [tx_fill_packed, tx_fill_loop, hb, ho, hs, hr]
    · have hb : tx_fill_body tx_max m r s =
          ({ s with skb := s.tx_rem_skb, tx_rem_skb := none }, none) := by
        unfold tx_fill_body
        rw [if_neg ho]
        simp only [hs, hr]
      simp [tx_fill_packed, tx_fill_loop, hb, ho, hs, hr]

/-- A call that reaches the packing loop is the part after the loop applied to the
result of the loop. -/
theorem tx_fill_eq {ctx ctx1 : cdc_ncm_ctx} {skb : Option (List Nat)}
    {alloc : Option (Nat → Nat)} {s : tx_fill_state}
    (he : tx_enter ctx skb alloc = some (ctx1, s)) :
    cdc_ncm_fill_tx_frame ctx skb alloc =
      tx_leave ctx1 (tx_fill_loop ctx1.tx_max ctx1.tx_modulus ctx1.tx_remainder
        (ctx1.tx_max_datagrams - s.n) s) ∧
    tx_packed ctx skb alloc =
      tx_fill_packed ctx1.tx_max ctx1.tx_modulus ctx1.tx_remainder
        (ctx1.tx_max_datagrams - s.n) s := by
  unfold cdc_ncm_fill_tx_frame tx_packed
  rw [he]
  exact ⟨rfl, rfl⟩

/-- A call whose allocation, if any, succeeds reaches the packing loop. -/
theorem tx_enter_some (ctx : cdc_ncm_ctx) (skb : Option (List Nat))
    (alloc : Option (Nat → Nat)) (ha : ctx.tx_curr_skb = none → alloc ≠ none) :
    ∃ ctx1 s, tx_enter ctx skb alloc = some (ctx1, s) := by
  unfold tx_enter
  rcases hc : ctx.tx_curr_skb with _ | buf
  · obtain ⟨g, hg⟩ := Option.ne_none_iff_exists'.1 (ha hc)
    rcases hk : skb with _ | f <;> simp [hc, hg]
  · rcases hk : skb with _ | f <;> simp [hc]

/-- The loop variables and the counters at the head of the packing loop. -/
theorem tx_enter_fields {ctx ctx1 : cdc_ncm_ctx} {skb : Option (List Nat)}
    {alloc : Option (Nat → Nat)} {s : tx_fill_state}
    (he : tx_enter ctx skb alloc = some (ctx1, s)) :
    s.skb = (if skb.isSome then ctx.tx_rem_skb else none) ∧
    s.tx_rem_skb = (if skb.isSome then skb else ctx.tx_rem_skb) ∧
    s.ready2send = (if skb.isSome then 0 else 1) ∧
    ctx1.tx_packets = ctx.tx_packets ∧ ctx1.stop = ctx.stop ∧ ctx1.tx_timer = ctx.tx_timer := by
  unfold tx_enter at he
  rcases hk : skb with _ | f <;> rcases hc : ctx.tx_curr_skb with _ | buf <;>
    rcases ha : alloc with _ | g <;>
    simp only [hk, hc, ha, Option.isSome_none, Option.isSome_some, Bool.false_eq_true,
      if_false, if_true, Option.some.injEq, Prod.mk.injEq] at he <;>
    first
    | (simp at he)
    | (obtain ⟨rfl, rfl⟩ := he
       simp)

/-- What the part after the packing loop returns and leaves in the context. -/
theorem tx_leave_fields (ctx1 : cdc_ncm_ctx) (s : tx_fill_state) :
    ((tx_leave ctx1 s).2 = none ↔
      (s.n = 0 ∨ (s.n < ctx1.tx_max_datagrams ∧ s.ready2send = 0))) ∧
    (tx_leave ctx1 s).1.tx_curr_frame_num = s.n ∧
    ((tx_leave ctx1 s).2 = none →
      (tx_leave ctx1 s).1.tx_packets = ctx1.tx_packets ∧
      (tx_leave ctx1 s).1.tx_curr_skb = some s.skb_out ∧
      (tx_leave ctx1 s).1.tx_curr_offset = s.offset) ∧
    ((tx_leave ctx1 s).2 ≠ none →
      (tx_leave ctx1 s).1.tx_packets = ctx1.tx_packets + s.n) := by
  unfold tx_leave
  simp only
  generalize (if s.skb.isSome = true then s.tx_dropped + 1 else s.tx_dropped) = d
  generalize (if s.n < CDC_NCM_RESTART_TIMER_DATAGRAM_CNT then CDC_NCM_TIMER_PENDING_CNT
    else ctx1.tx_timer_pending) = tp
  split_ifs with h0 h1
  · have hf := tx_timeout_start_fields
      { ctx1 with
        tx_rem_skb := s.tx_rem_skb
        tx_ncm := { ctx1.tx_ncm with dpe16 := s.dpe16 }
        tx_dropped := d
        tx_curr_frame_num := s.n
        tx_curr_skb := some s.skb_out
        tx_curr_offset := s.offset
        tx_curr_last_offset := s.last_offset }
    obtain ⟨-, -, f3, f4, -, f6, -, -, -, f10⟩ := hf
    exact ⟨⟨fun _ => Or.inl h0, fun _ => rfl⟩, f6, fun _ => ⟨f10, f3, f4⟩,
      fun h => absurd rfl h⟩
  · have hf := tx_timeout_start_fields
      { ctx1 with
        tx_rem_skb := s.tx_rem_skb
        tx_ncm := { ctx1.tx_ncm with dpe16 := s.dpe16 }
        tx_dropped := d
        tx_curr_frame_num := s.n
        tx_curr_skb := some s.skb_out
        tx_curr_offset := s.offset
        tx_curr_last_offset := s.last_offset
        tx_timer_pending := tp }
    obtain ⟨-, -, f3, f4, -, f6, -, -, -, f10⟩ := hf
    exact ⟨⟨fun _ => Or.inr h1, fun _ => rfl⟩, f6, fun _ => ⟨f10, f3, f4⟩,
      fun h => absurd rfl h⟩
  · refine ⟨⟨fun h => by simp at h, ?_⟩, rfl, fun h => by simp at h, fun _ => rfl⟩
    intro h
    rcases h with h | h
    · exact absurd h h0
    · exact absurd h h1

/-- The cursor and the datagram count at the head of the packing loop, in terms of the
pairs in the pending NTB. -/
theorem tx_enter_cursor {ctx : cdc_ncm_ctx} {pend : List (Nat × List Nat)} (h : tx_inv ctx pend)
    {skb : Option (List Nat)} {alloc : Option (Nat → Nat)} {ctx1 : cdc_ncm_ctx}
    {s : tx_fill_state} (he : tx_enter ctx skb alloc = some (ctx1, s)) :
    s.offset = tx_next ctx (tx_pend_end ctx pend) ∧ s.n = pend.length ∧
    s.n + (ctx.tx_max_datagrams - s.n) = ctx.tx_max_datagrams ∧
    (pend ≠ [] → s.offset < ctx.tx_max) ∧
    (ctx.tx_curr_skb ≠ none → s.offset = ctx.tx_curr_offset) := by
  obtain ⟨-, -, -, hbuf, hn, hcapp⟩ := tx_enter_spec h he
  obtain ⟨-, -, -, b4, b5, b6⟩ := hbuf
  have hoff : s.offset = tx_next ctx (tx_pend_end ctx pend) := by
    rw [b6]
    unfold tx_pend_end
    rcases hl : pend.getLast? with _ | p
    · rw [b4 (List.getLast?_eq_none_iff.1 hl)]
    · rw [b5 p hl]
  have hcur : ctx.tx_curr_skb ≠ none → s.offset = ctx.tx_curr_offset := by
    intro hne
    obtain ⟨-, hm⟩ := h
    rcases hc : ctx.tx_curr_skb with _ | buf
    · exact absurd hc hne
    · rw [hc] at hm
      obtain ⟨⟨-, -, -, c4, c5, c6⟩, -, -⟩ := hm
      rw [hoff, c6]
      unfold tx_pend_end
      rcases hl : pend.getLast? with _ | p
      · rw [c4 (List.getLast?_eq_none_iff.1 hl)]
      · rw [c5 p hl]
  refine ⟨hoff, hn, ?_, ?_, hcur⟩
  · by_cases hp : pend = []
    · rw [hn, hp]
      simp
    · have := hcapp hp
      omega
  · intro hp
    have hne : ctx.tx_curr_skb ≠ none := fun hc => hp (tx_inv_none h hc)
    rw [hcur hne]
    obtain ⟨-, hm⟩ := h
    rcases hc : ctx.tx_curr_skb with _ | buf
    · exact absurd hc hne
    · rw [hc] at hm
      exact (hm.2.2 hp).1

/-- C12's call: with no datagram packed, an empty remainder slot and the first payload
offset below `tx_max`, a frame longer than `tx_max` minus that offset is dropped. -/
theorem tx_call_drop {ctx : cdc_ncm_ctx} {pend : List (Nat × List Nat)} (h : tx_inv ctx pend)
    (hp : pend = []) (hrem : ctx.tx_rem_skb = none) (h1 : 1 ≤ ctx.tx_max_datagrams)
    (hfo : tx_first_offset ctx < ctx.tx_max) (f : List Nat)
    (hf : f.length > ctx.tx_max - tx_first_offset ctx) (alloc : Option (Nat → Nat))
    (ha : ctx.tx_curr_skb = none → alloc ≠ none) :
    (cdc_ncm_fill_tx_frame ctx (some f) alloc).2 = none ∧
    (cdc_ncm_fill_tx_frame ctx (some f) alloc).1.tx_dropped = ctx.tx_dropped + 1 ∧
    (cdc_ncm_fill_tx_frame ctx (some f) alloc).1.tx_packets = ctx.tx_packets ∧
    (cdc_ncm_fill_tx_frame ctx (some f) alloc).1.tx_seq = ctx.tx_seq ∧
    (cdc_ncm_fill_tx_frame ctx (some f) alloc).1.tx_rem_skb = none ∧
    (cdc_ncm_fill_tx_frame ctx (some f) alloc).1.tx_curr_frame_num = 0 ∧
    tx_packed ctx (some f) alloc = [] := by
  obtain ⟨ctx1, s, he⟩ := tx_enter_some ctx (some f) alloc ha
  obtain ⟨hS, -, -, -, -, -⟩ := tx_enter_spec h he
  obtain ⟨c1, c2, c3, -, c5, -, -⟩ := hS
  obtain ⟨k1, k2, k3, -, -⟩ := tx_enter_cursor h he
  obtain ⟨q1, q2, q3, q4, -, -⟩ := tx_enter_fields he
  obtain ⟨-, -, -, -, q5⟩ := tx_enter_acct he
  obtain ⟨-, s2, -⟩ := tx_step h (some f) alloc
  obtain ⟨e1, e2⟩ := tx_fill_eq he
  rw [hp] at k1 k2
  simp only [Option.isSome_some, if_true] at q1 q2 q3
  rw [hrem] at q1
  have hoff : s.offset = tx_first_offset ctx := k1
  have hn : s.n = 0 := k2
  obtain ⟨s1, hb, b1, b2, b3, b4, b5, -⟩ := @tx_fill_body_drop ctx.tx_max ctx.tx_modulus
    ctx.tx_remainder s f (by omega) q1 q2 (by rw [hoff]; exact hf) hn
  obtain ⟨k, hk⟩ : ∃ k, ctx.tx_max_datagrams - s.n = k + 1 := ⟨ctx.tx_max_datagrams - 1, by omega⟩
  rw [c1, c2, c3, c5, hk] at e1 e2
  have hloop : tx_fill_loop ctx.tx_max ctx.tx_modulus ctx.tx_remainder (k + 1) s = s1 := by
    simp only [tx_fill_loop, hb]
  have hpk : tx_fill_packed ctx.tx_max ctx.tx_modulus ctx.tx_remainder (k + 1) s = [] := by
    simp only [tx_fill_packed, hb]
  rw [hloop] at e1
  rw [hpk] at e2
  obtain ⟨v1, -, -, v4⟩ := tx_leave_acct ctx1 s1
  obtain ⟨w1, w2, w3, -⟩ := tx_leave_fields ctx1 s1
  have hnone : (tx_leave ctx1 s1).2 = none := w1.2 (Or.inl b1)
  rw [e1]
  refine ⟨hnone, by rw [v4 b2, b4, q5], by rw [(w3 hnone).1, q4], ?_, by rw [v1, b3],
    by rw [w2, b1], e2⟩
  rw [← e1]
  exact (s2 (by rw [e1]; exact hnone)).2

theorem ctx_hdr_ok : tx_params_ok ctx_hdr :=
  ⟨⟨2, by decide, by decide⟩, ⟨9, by decide, by decide⟩, by decide, by decide, by decide,
    by decide⟩

/-- A call with a frame, without pending NTB, whose `alloc_skb` fails: the frame that
was in the remainder slot, if any, is freed and counted; the frame handed in is left in
the remainder slot; no NTB is returned and nothing else changes (the timer is not
started). -/
theorem tx_call_alloc_fail (ctx : cdc_ncm_ctx) (f : List Nat) (hc : ctx.tx_curr_skb = none) :
    cdc_ncm_fill_tx_frame ctx (some f) none =
      ({ ctx with
          tx_dropped := if ctx.tx_rem_skb.isSome then ctx.tx_dropped + 1 else ctx.tx_dropped
          tx_rem_skb := some f }, none) := by
  have he : tx_enter ctx (some f) none = none := by
    unfold tx_enter
    simp [hc]
  unfold cdc_ncm_fill_tx_frame
  rw [he]
  simp

/-- C12, as amended (oversize frame drop): in a state of a run from a context
without pending NTB whose parameters are in order (with at least one datagram per NTB),
when no datagram is packed (there is no pending NTB, or it holds none), the remainder
slot is empty and the header reservation, which ends at the first payload offset, is
below `tx_max`, take a call of `cdc_ncm_fill_tx_frame` with a frame longer than `tx_max`
minus the first payload offset. If an NTB is pending or `alloc_skb` succeeds, the call
returns no NTB, adds exactly 1 to `tx_dropped`, leaves `tx_packets` and `tx_seq`
unchanged, and leaves the remainder slot empty and no datagram packed. If no NTB is
pending and `alloc_skb` fails, the call returns no NTB and leaves `tx_packets` and
`tx_seq` unchanged, but `tx_dropped` is unchanged too and the frame is held in the
remainder slot, with no pending NTB and the timer as it was. -/
theorem tx_oversize_drop (ctx0 : cdc_ncm_ctx) (calls : List tx_call) (f : List Nat)
    (alloc : Option (Nat → Nat)) (hP : tx_params_ok ctx0) (hI : ctx0.tx_curr_skb = none)
    (h1 : 1 ≤ ctx0.tx_max_datagrams)
    (hn : (tx_run ctx0 calls).ctx.tx_curr_skb = none ∨
      (tx_run ctx0 calls).ctx.tx_curr_frame_num = 0)
    (hrem : (tx_run ctx0 calls).ctx.tx_rem_skb = none)
    (hfo : tx_first_offset ctx0 < ctx0.tx_max)
    (hf : f.length > ctx0.tx_max - tx_first_offset ctx0) :
    (((tx_run ctx0 calls).ctx.tx_curr_skb = none → alloc ≠ none) →
      (cdc_ncm_fill_tx_frame (tx_run ctx0 calls).ctx (some f) alloc).2 = none ∧
      (cdc_ncm_fill_tx_frame (tx_run ctx0 calls).ctx (some f) alloc).1.tx_dropped =
        (tx_run ctx0 calls).ctx.tx_dropped + 1 ∧
      (cdc_ncm_fill_tx_frame (tx_run ctx0 calls).ctx (some f) alloc).1.tx_packets =
        (tx_run ctx0 calls).ctx.tx_packets ∧
      (cdc_ncm_fill_tx_frame (tx_run ctx0 calls).ctx (some f) alloc).1.tx_seq =
        (tx_run ctx0 calls).ctx.tx_seq ∧
      (cdc_ncm_fill_tx_frame (tx_run ctx0 calls).ctx (some f) alloc).1.tx_rem_skb = none ∧
      (cdc_ncm_fill_tx_frame (tx_run ctx0 calls).ctx (some f) alloc).1.tx_curr_frame_num =
        0) ∧
    ((tx_run ctx0 calls).ctx.tx_curr_skb = none →
      (cdc_ncm_fill_tx_frame (tx_run ctx0 calls).ctx (some f) none).2 = none ∧
      (cdc_ncm_fill_tx_frame (tx_run ctx0 calls).ctx (some f) none).1.tx_dropped =
        (tx_run ctx0 calls).ctx.tx_dropped ∧
      (cdc_ncm_fill_tx_frame (tx_run ctx0 calls).ctx (some f) none).1.tx_rem_skb = some f ∧
      (cdc_ncm_fill_tx_frame (tx_run ctx0 calls).ctx (some f) none).1.tx_packets =
        (tx_run ctx0 calls).ctx.tx_packets ∧
      (cdc_ncm_fill_tx_frame (tx_run ctx0 calls).ctx (some f) none).1.tx_seq =
        (tx_run ctx0 calls).ctx.tx_seq ∧
      (cdc_ncm_fill_tx_frame (tx_run ctx0 calls).ctx (some f) none).1.tx_curr_skb = none ∧
      (cdc_ncm_fill_tx_frame (tx_run ctx0 calls).ctx (some f) none).1.tx_timer =
        (tx_run ctx0 calls).ctx.tx_timer) := by
  refine ⟨fun ha => ?_, fun hc => ?_⟩
  · obtain ⟨i1, i2, -, -⟩ := tx_run_inv hP hI calls
    have hp : (tx_run ctx0 calls).pend = [] := by
      rcases hn with hn | hn
      · exact tx_inv_none i1 hn
      · by_cases hc : (tx_run ctx0 calls).ctx.tx_curr_skb = none
        · exact tx_inv_none i1 hc
        · have := tx_inv_some i1 hc
          exact List.length_eq_zero.1 (by omega)
    have hfo' : tx_first_offset (tx_run ctx0 calls).ctx < (tx_run ctx0 calls).ctx.tx_max := by
      rw [tx_first_offset_congr i2, i2.1]
      exact hfo
    obtain ⟨d1, d2, d3, d4, d5, d6, -⟩ := tx_call_drop i1 hp hrem
      (by rw [i2.2.2.2.2.1]; exact h1) hfo' f
      (by rw [tx_first_offset_congr i2, i2.1]; exact hf) alloc ha
    exact ⟨d1, d2, d3, d4, d5, d6⟩
  · rw [tx_call_alloc_fail _ f hc]
    refine ⟨rfl, ?_, rfl, rfl, rfl, hc, rfl⟩
    show (if (tx_run ctx0 calls).ctx.tx_rem_skb.isSome then
      (tx_run ctx0 calls).ctx.tx_dropped + 1 else (tx_run ctx0 calls).ctx.tx_dropped) = _
    rw [hrem]
    rfl

/-- Scenario 3 of the specification (`tx_max = 1024`, 654 bytes of header reservation,
a frame of 1500 bytes handed to the idle encoder): with a buffer the frame is dropped
and counted; when `alloc_skb` fails the frame is held in the remainder slot and
`tx_dropped` stays 0. -/
theorem tx_oversize_drop_witness :
    (tx_params_ok ctx_hdr ∧ ctx_hdr.tx_curr_skb = none ∧ 1 ≤ ctx_hdr.tx_max_datagrams ∧
      (tx_run ctx_hdr []).ctx.tx_curr_skb = none ∧
      (tx_run ctx_hdr []).ctx.tx_rem_skb = none ∧ ctx_hdr.tx_max = 1024 ∧
      tx_first_offset ctx_hdr = 654 ∧
      (frame_of 1500 7).length > ctx_hdr.tx_max - tx_first_offset ctx_hdr ∧
      (tx_run ctx_hdr []).ctx.tx_dropped = 0) ∧
    ((cdc_ncm_fill_tx_frame (tx_run ctx_hdr []).ctx (some (frame_of 1500 7))
        (some fresh_aa)).2 = none ∧
      (cdc_ncm_fill_tx_frame (tx_run ctx_hdr []).ctx (some (frame_of 1500 7))
        (some fresh_aa)).1.tx_dropped = (tx_run ctx_hdr []).ctx.tx_dropped + 1 ∧
      (cdc_ncm_fill_tx_frame (tx_run ctx_hdr []).ctx (some (frame_of 1500 7))
        (some fresh_aa)).1.tx_rem_skb = none) ∧
    ((cdc_ncm_fill_tx_frame (tx_run ctx_hdr []).ctx (some (frame_of 1500 7)) none).2 = none ∧
      (cdc_ncm_fill_tx_frame (tx_run ctx_hdr []).ctx (some (frame_of 1500 7))
        none).1.tx_dropped = (tx_run ctx_hdr []).ctx.tx_dropped ∧
      (cdc_ncm_fill_tx_frame (tx_run ctx_hdr []).ctx (some (frame_of 1500 7))
        none).1.tx_rem_skb = some (frame_of 1500 7)) :=
  ⟨⟨ctx_hdr_ok, by decide, by decide, by decide, by decide, by decide, by decide, by decide,
      by decide⟩,
    ⟨((tx_oversize_drop ctx_hdr [] (frame_of 1500 7) (some fresh_aa) ctx_hdr_ok (by decide)
        (by decide) (Or.inl (by decide)) (by decide) (by decide) (by decide)).1
        (fun _ => by simp)).1,
      ((tx_oversize_drop ctx_hdr [] (frame_of 1500 7) (some fresh_aa) ctx_hdr_ok (by decide)
        (by decide) (Or.inl (by decide)) (by decide) (by decide) (by decide)).1
        (fun _ => by simp)).2.1,
      ((tx_oversize_drop ctx_hdr [] (frame_of 1500 7) (some fresh_aa) ctx_hdr_ok (by decide)
        (by decide) (Or.inl (by decide)) (by decide) (by decide) (by decide)).1
        (fun _ => by simp)).2.2.2.2.1⟩,
    ⟨((tx_oversize_drop ctx_hdr [] (frame_of 1500 7) none ctx_hdr_ok (by decide)
        (by decide) (Or.inl (by decide)) (by decide) (by decide) (by decide)).2
        (by decide)).1,
      ((tx_oversize_drop ctx_hdr [] (frame_of 1500 7) none ctx_hdr_ok (by decide)
        (by decide) (Or.inl (by decide)) (by decide) (by decide) (by decide)).2
        (by decide)).2.1,
      ((tx_oversize_drop ctx_hdr [] (frame_of 1500 7) none ctx_hdr_ok (by decide)
        (by decide) (Or.inl (by decide)) (by decide) (by decide) (by decide)).2
        (by decide)).2.2.1⟩⟩

/-- C12, counterexample: scenario 3 of the specification with a failing allocation.
The idle encoder with `tx_max = 1024` and a first payload offset of 654 is handed a
frame of 1500 bytes while `alloc_skb` fails: no NTB is returned, `tx_dropped` stays 0
and the frame is in the remainder slot. The next call that gets a buffer, here a flush,
drops it and counts it. -/
theorem tx_oversize_drop_cex :
    ctx_hdr.tx_max = 1024 ∧ tx_first_offset ctx_hdr = 654 ∧ ctx_hdr.tx_curr_skb = none ∧
    ctx_hdr.tx_rem_skb = none ∧ ctx_hdr.tx_dropped = 0 ∧
    (frame_of 1500 7).length > ctx_hdr.tx_max - tx_first_offset ctx_hdr ∧
    (cdc_ncm_fill_tx_frame ctx_hdr (some (frame_of 1500 7)) none).2 = none ∧
    (cdc_ncm_fill_tx_frame ctx_hdr (some (frame_of 1500 7)) none).1.tx_dropped = 0 ∧
    (cdc_ncm_fill_tx_frame ctx_hdr (some (frame_of 1500 7)) none).1.tx_rem_skb =
      some (frame_of 1500 7) ∧
    (tx_run ctx_hdr [⟨some (frame_of 1500 7), none⟩, ⟨none, some fresh_aa⟩]).ctx.tx_dropped =
      1 ∧
    (tx_run ctx_hdr [⟨some (frame_of 1500 7), none⟩, ⟨none, some fresh_aa⟩]).ctx.tx_rem_skb =
      none ∧
    (tx_run ctx_hdr [⟨some (frame_of 1500 7), none⟩, ⟨none, some fresh_aa⟩]).ntbs = [] :=
  ⟨by decide, by decide, by decide, by decide, by decide, by decide, by decide, by decide,
    by rfl, by decide, by decide, by decide⟩

/-- After a pass of the loop body that ends in a `break`, a frame in the remainder slot
goes with no datagram packed or with an NTB that is ready to send. -/
theorem tx_fill_body_break_rem {tx_max m r : Nat} {s s' : tx_fill_state}
    (h : tx_fill_body tx_max m r s = (s', none)) :
    s'.n = s.n ∧ (s'.tx_rem_skb ≠ none → s'.n = 0 ∨ s'.ready2send ≠ 0) := by
  unfold tx_fill_body at h
  rcases hs : s.skb with _ | f <;> rcases hr : s.tx_rem_skb with _ | g <;>
    simp only [hs, hr] at h <;> split_ifs at h <;>
    first
    | (simp at h; done)
    | (simp only [Prod.mk.injEq, and_true] at h
       subst h
       simp_all)

/-- After the packing loop, a frame in the remainder slot goes with no datagram packed,
with an NTB that is ready to send, or with a loop that ran through all its passes. -/
theorem tx_fill_loop_rem {tx_max m r : Nat} :
    ∀ (k : Nat) (s : tx_fill_state),
    (tx_fill_loop tx_max m r k s).tx_rem_skb ≠ none →
      (tx_fill_loop tx_max m r k s).n = 0 ∨ (tx_fill_loop tx_max m r k s).ready2send ≠ 0 ∨
      (tx_fill_loop tx_max m r k s).n = s.n + k := by
  intro k
  induction k with
  | zero =>
    intro s _
    exact Or.inr (Or.inr rfl)
  | succ k ih =>
    intro s
    rcases hbody : tx_fill_body tx_max m r s with ⟨s1, _ | p⟩
    · obtain ⟨b1, b2⟩ := tx_fill_body_break_rem hbody
      simp only [tx_fill_loop, hbody]
      intro h
      rcases b2 h with h | h
      · exact Or.inl h
      · exact Or.inr (Or.inl h)
    · obtain ⟨-, -, c8, -, -⟩ := tx_fill_body_cont_acct hbody
      simp only [tx_fill_loop, hbody]
      intro h
      rcases ih s1 h with h | h | h
      · exact Or.inl h
      · exact Or.inr (Or.inl h)
      · exact Or.inr (Or.inr (by omega))

/-- A call that does not reach the packing loop found no pending NTB and leaves none. -/
theorem tx_enter_none {ctx : cdc_ncm_ctx} {skb : Option (List Nat)}
    {alloc : Option (Nat → Nat)} (he : tx_enter ctx skb alloc = none) :
    ctx.tx_curr_skb = none ∧ alloc = none ∧
    (cdc_ncm_fill_tx_frame ctx skb alloc).1.tx_curr_skb = none ∧
    (cdc_ncm_fill_tx_frame ctx skb alloc).1.tx_curr_frame_num = ctx.tx_curr_frame_num ∧
    (cdc_ncm_fill_tx_frame ctx skb alloc).2 = none := by
  have hc : ctx.tx_curr_skb = none ∧ alloc = none := by
    unfold tx_enter at he
    rcases hk : skb with _ | f <;> rcases hc : ctx.tx_curr_skb with _ | buf <;>
      rcases ha : alloc with _ | g <;> simp [hk, hc, ha] at he <;> exact ⟨rfl, rfl⟩
  refine ⟨hc.1, hc.2, ?_⟩
  unfold cdc_ncm_fill_tx_frame
  rw [he]
  rcases hk : skb with _ | f <;> simp [hc.1]

/-- After any call, a frame in the remainder slot does not go with a pending NTB that
holds datagrams, and the datagram count is at most `tx_max_datagrams`. -/
theorem tx_step_rem {ctx : cdc_ncm_ctx} {pend : List (Nat × List Nat)} (h : tx_inv ctx pend)
    (h0 : ctx.tx_curr_frame_num ≤ ctx.tx_max_datagrams)
    (skb : Option (List Nat)) (alloc : Option (Nat → Nat)) :
    ((cdc_ncm_fill_tx_frame ctx skb alloc).1.tx_rem_skb ≠ none →
      (cdc_ncm_fill_tx_frame ctx skb alloc).1.tx_curr_skb ≠ none →
      (cdc_ncm_fill_tx_frame ctx skb alloc).1.tx_curr_frame_num = 0) ∧
    (cdc_ncm_fill_tx_frame ctx skb alloc).1.tx_curr_frame_num ≤ ctx.tx_max_datagrams := by
  rcases he : tx_enter ctx skb alloc with _ | ⟨ctx1, s⟩
  · obtain ⟨-, -, e3, e4, -⟩ := tx_enter_none he
    exact ⟨fun _ hc => absurd e3 hc, by rw [e4]; exact h0⟩
  · obtain ⟨hS, -, -, hbuf, hn, -⟩ := tx_enter_spec h he
    obtain ⟨c1, c2, c3, -, c5, -, -⟩ := hS
    obtain ⟨-, -, k3, -, -⟩ := tx_enter_cursor h he
    obtain ⟨e1, -⟩ := tx_fill_eq he
    rw [c1, c2, c3, c5] at e1
    have hP := h.1
    have hdg : ctx.tx_max_datagrams ≤ 40 := hP.2.2.2.1
    obtain ⟨-, -, I3, -⟩ := tx_fill_loop_inv hP (ctx.tx_max_datagrams - s.n) s pend hbuf hn
      (by omega)
    have L := @tx_fill_loop_rem ctx.tx_max ctx.tx_modulus ctx.tx_remainder
      (ctx.tx_max_datagrams - s.n) s
    generalize tx_fill_loop ctx.tx_max ctx.tx_modulus ctx.tx_remainder
      (ctx.tx_max_datagrams - s.n) s = s' at e1 I3 L
    obtain ⟨v1, -, v3, -⟩ := tx_leave_acct ctx1 s'
    obtain ⟨w1, w2, -, -⟩ := tx_leave_fields ctx1 s'
    rw [c5] at w1
    rw [e1]
    refine ⟨?_, by rw [w2]; omega⟩
    intro hr hc
    rw [w2]
    rw [v1] at hr
    have hnone : (tx_leave ctx1 s').2 = none := by
      by_contra hx
      exact hc (v3 hx)
    rcases w1.1 hnone with hw | hw
    · exact hw
    · rcases L hr with hl | hl | hl
      · exact hl
      · exact absurd hw.2 hl
      · omega

/-- In every state of a run that starts without a pending NTB and with a datagram count
within `tx_max_datagrams`: a frame in the remainder slot does not go with a pending NTB
that holds datagrams, and the datagram count is at most `tx_max_datagrams`. -/
theorem tx_run_rem {ctx0 : cdc_ncm_ctx} (hP : tx_params_ok ctx0)
    (hI : ctx0.tx_curr_skb = none) (h0 : ctx0.tx_curr_frame_num ≤ ctx0.tx_max_datagrams)
    (calls : List tx_call) :
    ((tx_run ctx0 calls).ctx.tx_rem_skb ≠ none → (tx_run ctx0 calls).ctx.tx_curr_skb ≠ none →
      (tx_run ctx0 calls).ctx.tx_curr_frame_num = 0) ∧
    (tx_run ctx0 calls).ctx.tx_curr_frame_num ≤ ctx0.tx_max_datagrams := by
  induction calls using List.reverseRecOn with
  | nil =>
    exact ⟨fun _ hc => absurd hI hc, h0⟩
  | append_singleton calls c ih =>
    obtain ⟨i1, i2, -, -⟩ := tx_run_inv hP hI calls
    rw [tx_run_snoc]
    have hs := tx_step_rem i1 (by rw [i2.2.2.2.2.1]; exact ih.2) c.skb c.alloc
    rw [i2.2.2.2.2.1] at hs
    exact hs

/-- C13's call: with datagrams packed and an empty remainder slot, a frame longer than
the space left after the cursor is put into the remainder slot, and the NTB is returned
with the datagrams it had. -/
theorem tx_call_hold {ctx : cdc_ncm_ctx} {pend : List (Nat × List Nat)} (h : tx_inv ctx pend)
    (hp : pend ≠ []) (hrem : ctx.tx_rem_skb = none) (f : List Nat)
    (hf : f.length > ctx.tx_max - ctx.tx_curr_offset) (alloc : Option (Nat → Nat)) :
    ∃ ntb, (cdc_ncm_fill_tx_frame ctx (some f) alloc).2 = some ntb ∧
      ntb_emitted ctx ctx.tx_seq ntb pend ∧
      (cdc_ncm_fill_tx_frame ctx (some f) alloc).1.tx_rem_skb = some f ∧
      (cdc_ncm_fill_tx_frame ctx (some f) alloc).1.tx_dropped = ctx.tx_dropped ∧
      (cdc_ncm_fill_tx_frame ctx (some f) alloc).1.tx_curr_skb = none ∧
      tx_inv (cdc_ncm_fill_tx_frame ctx (some f) alloc).1 [] ∧
      tx_same_params ctx (cdc_ncm_fill_tx_frame ctx (some f) alloc).1 := by
  have hcur : ctx.tx_curr_skb ≠ none := fun hc => hp (tx_inv_none h hc)
  obtain ⟨ctx1, s, he⟩ := tx_enter_some ctx (some f) alloc (fun hc => absurd hc hcur)
  obtain ⟨hS, -, -, -, -, hcapp⟩ := tx_enter_spec h he
  obtain ⟨c1, c2, c3, -, c5, -, -⟩ := hS
  obtain ⟨-, k2, -, k4, k5⟩ := tx_enter_cursor h he
  obtain ⟨q1, q2, q3, -, -, -⟩ := tx_enter_fields he
  obtain ⟨-, -, -, -, q5⟩ := tx_enter_acct he
  obtain ⟨s1', -, s3⟩ := tx_step h (some f) alloc
  obtain ⟨e1, e2⟩ := tx_fill_eq he
  simp only [Option.isSome_some, if_true] at q1 q2 q3
  rw [hrem] at q1
  have hlen : 0 < pend.length := List.length_pos.2 hp
  obtain ⟨s1, hb, b1, b2, b3, b4, b5, -⟩ := @tx_fill_body_hold ctx.tx_max ctx.tx_modulus
    ctx.tx_remainder s f (k4 hp) q1 q2 (by rw [k5 hcur]; exact hf) (by omega)
  have hcap := hcapp hp
  obtain ⟨k, hk⟩ : ∃ k, ctx.tx_max_datagrams - s.n = k + 1 :=
    ⟨ctx.tx_max_datagrams - s.n - 1, by omega⟩
  rw [c1, c2, c3, c5, hk] at e1 e2
  have hloop : tx_fill_loop ctx.tx_max ctx.tx_modulus ctx.tx_remainder (k + 1) s = s1 := by
    simp only [tx_fill_loop, hb]
  have hpk : tx_fill_packed ctx.tx_max ctx.tx_modulus ctx.tx_remainder (k + 1) s = [] := by
    simp only [tx_fill_packed, hb]
  rw [hloop] at e1
  rw [hpk] at e2
  obtain ⟨v1, -, v3, v4⟩ := tx_leave_acct ctx1 s1
  obtain ⟨w1, -, -, -⟩ := tx_leave_fields ctx1 s1
  have hsome : (tx_leave ctx1 s1).2 ≠ none := by
    intro hx
    rcases w1.1 hx with hw | hw
    · omega
    · rw [b5] at hw
      exact absurd hw.2 (by decide)
  obtain ⟨ntb, hntb⟩ := Option.ne_none_iff_exists'.1 hsome
  have hem := s3 ntb (by rw [e1]; exact hntb)
  rw [e2, List.append_nil] at hem
  rw [e1] at s1' hem ⊢
  exact ⟨ntb, hntb, hem.2.2, by rw [v1, b3], by rw [v4 b2, b4, q5], v3 hsome, hem.1, s1'⟩

/-- With no datagram packed and a frame `F` in the remainder slot that fits an empty NTB, a
call whose allocation succeeds packs `F` first, at the first payload offset. -/
theorem tx_call_head {ctx : cdc_ncm_ctx} (h : tx_inv ctx [])
    (F : List Nat) (hrem : ctx.tx_rem_skb = some F) (h1 : 1 ≤ ctx.tx_max_datagrams)
    (hfo : tx_first_offset ctx < ctx.tx_max)
    (hfit : F.length ≤ ctx.tx_max - tx_first_offset ctx)
    (skb : Option (List Nat)) (g : Nat → Nat) :
    ∃ rest, tx_packed ctx skb (some g) = (tx_first_offset ctx, F) :: rest := by
  obtain ⟨ctx1, s, he⟩ := tx_enter_some ctx skb (some g) (fun _ => by simp)
  obtain ⟨hS, -, -, -, -, -⟩ := tx_enter_spec h he
  obtain ⟨c1, c2, c3, -, c5, -, -⟩ := hS
  obtain ⟨k1, k2, -, -, -⟩ := tx_enter_cursor h he
  obtain ⟨q1, -, -, -, -⟩ := tx_enter_acct he
  obtain ⟨-, e2⟩ := tx_fill_eq he
  have hoff : s.offset = tx_first_offset ctx := k1
  have hn : s.n = 0 := k2
  have hq : (tx_queue s).head? = some F := by
    rw [q1, hrem]
    rfl
  obtain ⟨s1, hb, -⟩ := @tx_fill_body_take ctx.tx_max ctx.tx_modulus ctx.tx_remainder s F
    (by omega) hq (by rw [hoff]; exact hfit)
  obtain ⟨k, hk⟩ : ∃ k, ctx.tx_max_datagrams - s.n = k + 1 := ⟨ctx.tx_max_datagrams - 1, by omega⟩
  rw [c1, c2, c3, c5, hk] at e2
  rw [e2, ← hoff]
  exact ⟨tx_fill_packed ctx.tx_max ctx.tx_modulus ctx.tx_remainder k s1,
    by simp only [tx_fill_packed, hb]⟩

/-- A call with a NULL frame, without pending NTB, whose `alloc_skb` fails changes
nothing. -/
theorem tx_call_noop (t : tx_trace) (hc : t.ctx.tx_curr_skb = none) :
    tx_call_step t ⟨none, none⟩ = t := by
  have he : tx_enter t.ctx none none = none := by
    unfold tx_enter
    simp [hc]
  unfold tx_call_step cdc_ncm_fill_tx_frame tx_packed
  simp [he]

/-- Calls with a NULL frame whose `alloc_skb` fails, made without pending NTB, leave the
run where it was. -/
theorem tx_run_noop (c1 : cdc_ncm_ctx) (hI : c1.tx_curr_skb = none) :
    ∀ (pre : List tx_call), (∀ x ∈ pre, x.skb = none ∧ x.alloc = none) →
    ∀ (cs : List tx_call), tx_run c1 (pre ++ cs) = tx_run c1 cs := by
  intro pre
  induction pre with
  | nil =>
    intro _ cs
    rfl
  | cons x pre ih =>
    intro h cs
    obtain ⟨hx1, hx2⟩ := h x (List.mem_cons_self _ _)
    have hx : x = ⟨none, none⟩ := by
      rcases x with ⟨k, a⟩
      simp only at hx1 hx2
      rw [hx1, hx2]
    have hstep : tx_call_step ⟨c1, [], []⟩ x = ⟨c1, [], []⟩ := by
      rw [hx]
      exact tx_call_noop ⟨c1, [], []⟩ hI
    have := ih (fun y hy => h y (List.mem_cons_of_mem _ hy)) cs
    unfold tx_run at this ⊢
    rw [List.cons_append, List.foldl_cons, hstep]
    exact this

/-- After a frame `F` has been left in the remainder slot of an encoder without pending
NTB, in every later state of the run whose first call gets its buffer: `F` is the first
datagram of the pending NTB, or `F` is the first datagram of the first NTB returned.
The allocations of the later calls do not matter. -/
theorem tx_run_head {ctx1 : cdc_ncm_ctx} (hP : tx_params_ok ctx1)
    (hI : ctx1.tx_curr_skb = none) (F : List Nat) (hrem : ctx1.tx_rem_skb = some F)
    (h1 : 1 ≤ ctx1.tx_max_datagrams) (hfo : tx_first_offset ctx1 < ctx1.tx_max)
    (hfit : F.length ≤ ctx1.tx_max - tx_first_offset ctx1)
    (cs : List tx_call) (ha : ∀ c, cs.head? = some c → c.alloc ≠ none) :
    cs = [] ∨
    ((tx_run ctx1 cs).ntbs = [] ∧ ∃ o rest, (tx_run ctx1 cs).pend = (o, F) :: rest) ∨
    (∃ nb rest cx seq o pk, (tx_run ctx1 cs).ntbs = nb :: rest ∧
      ntb_layout cx seq nb ((o, F) :: pk)) := by
  induction cs using List.reverseRecOn with
  | nil =>
    exact Or.inl rfl
  | append_singleton cs c ih =>
    have ih := ih (fun c' hc' => ha c' (by
      rcases cs with _ | ⟨x, xs⟩
      · simp at hc'
      · simpa using hc'))
    obtain ⟨i1, i2, -, -⟩ := tx_run_inv hP hI cs
    obtain ⟨-, -, s3⟩ := tx_step i1 c.skb c.alloc
    rw [tx_run_snoc]
    unfold tx_call_step
    simp only
    right
    rcases ih with hnil | ⟨b1, o, rest, b2⟩ | ⟨nb, rest, cx, seq, o, pk, c1, c2⟩
    · subst hnil
      obtain ⟨g, hg⟩ := Option.ne_none_iff_exists'.1 (ha c (by simp))
      have a1 : (tx_run ctx1 []).ntbs = [] := rfl
      have a2 : (tx_run ctx1 []).pend = [] := rfl
      have a3 : (tx_run ctx1 []).ctx.tx_rem_skb = some F := hrem
      rw [a2] at i1
      obtain ⟨r, hr⟩ := tx_call_head i1 F a3 (by rw [i2.2.2.2.2.1]; exact h1)
        (by rw [tx_first_offset_congr i2, i2.1]; exact hfo)
        (by rw [tx_first_offset_congr i2, i2.1]; exact hfit) c.skb g
      rw [← hg] at hr
      rcases hres : (cdc_ncm_fill_tx_frame (tx_run ctx1 []).ctx c.skb c.alloc).2 with _ | ntb
      · left
        simp only [Option.isSome_none, Bool.false_eq_true, if_false, Option.toList_none,
          List.append_nil]
        exact ⟨a1, _, r, by rw [a2, hr]; rfl⟩
      · right
        have hem := (s3 ntb hres).2.2
        rw [a2, hr] at hem
        simp only [Option.isSome_some, if_true, Option.toList_some]
        exact ⟨ntb, [], _, _, _, r, by rw [a1]; rfl, hem.2.2.1⟩
    · rcases hres : (cdc_ncm_fill_tx_frame (tx_run ctx1 cs).ctx c.skb c.alloc).2 with _ | ntb
      · left
        simp only [Option.isSome_none, Bool.false_eq_true, if_false, Option.toList_none,
          List.append_nil]
        exact ⟨b1, o, rest ++ tx_packed (tx_run ctx1 cs).ctx c.skb c.alloc, by rw [b2]; rfl⟩
      · right
        have hem := (s3 ntb hres).2.2
        rw [b2] at hem
        simp only [Option.isSome_some, if_true, Option.toList_some]
        exact ⟨ntb, [], _, _, o, rest ++ tx_packed (tx_run ctx1 cs).ctx c.skb c.alloc,
          by rw [b1]; rfl, hem.2.2.1⟩
    · right
      exact ⟨nb, rest ++ (cdc_ncm_fill_tx_frame (tx_run ctx1 cs).ctx c.skb c.alloc).2.toList,
        cx, seq, o, pk, by rw [c1]; rfl, c2⟩

/-- C13, as amended (remainder carry-over): in a state of a run from a context without
pending NTB whose parameters are in order (`wMaxPacketSize` not zero), when the pending
NTB holds `n >= 1` datagrams and a frame `F` is submitted that is longer than the space
left (`tx_max` minus the cursor) but fits an empty NTB: the call returns an NTB with
exactly the `n` earlier datagrams, `F` is in the remainder slot and `tx_dropped` is
unchanged. Calls with a NULL frame whose `alloc_skb` fails change nothing. When the
first call after them (with a frame or with a NULL frame) gets its buffer, then,
whatever calls follow, the first NTB returned has `F`, byte-identical, as its first
DPE. When instead that call hands in a frame `G` and its `alloc_skb` fails, it frees `F`
and counts it in `tx_dropped`, and leaves `G` in the remainder slot; if `G` fits an
empty NTB, the first NTB returned after it has `G` as its first DPE, under the same
condition on the calls. -/
theorem tx_carry_over (ctx0 : cdc_ncm_ctx) (calls : List tx_call) (F : List Nat)
    (alloc : Option (Nat → Nat)) (hP : tx_params_ok ctx0) (hI : ctx0.tx_curr_skb = none)
    (h0 : ctx0.tx_curr_frame_num ≤ ctx0.tx_max_datagrams) (hep : 0 < ctx0.out_ep)
    (hpend : (tx_run ctx0 calls).ctx.tx_curr_skb ≠ none)
    (hn : 1 ≤ (tx_run ctx0 calls).ctx.tx_curr_frame_num)
    (hlong : F.length > ctx0.tx_max - (tx_run ctx0 calls).ctx.tx_curr_offset)
    (hfit : F.length ≤ ctx0.tx_max - tx_first_offset ctx0) :
    ∃ ntb, (cdc_ncm_fill_tx_frame (tx_run ctx0 calls).ctx (some F) alloc).2 = some ntb ∧
      ntb_layout ctx0 (tx_run ctx0 calls).ctx.tx_seq ntb (tx_run ctx0 calls).pend ∧
      (tx_run ctx0 calls).pend.length = (tx_run ctx0 calls).ctx.tx_curr_frame_num ∧
      (cdc_ncm_fill_tx_frame (tx_run ctx0 calls).ctx (some F) alloc).1.tx_rem_skb = some F ∧
      (cdc_ncm_fill_tx_frame (tx_run ctx0 calls).ctx (some F) alloc).1.tx_dropped =
        (tx_run ctx0 calls).ctx.tx_dropped ∧
      (∀ (pre : List tx_call), (∀ x ∈ pre, x.skb = none ∧ x.alloc = none) →
        (tx_run (cdc_ncm_fill_tx_frame (tx_run ctx0 calls).ctx (some F) alloc).1 pre).ctx =
          (cdc_ncm_fill_tx_frame (tx_run ctx0 calls).ctx (some F) alloc).1 ∧
        (tx_run (cdc_ncm_fill_tx_frame (tx_run ctx0 calls).ctx (some F) alloc).1 pre).ntbs =
          [] ∧
        ∀ (c : tx_call) (post : List tx_call), c.alloc ≠ none → ∀ (nb : List Nat),
          (tx_run (cdc_ncm_fill_tx_frame (tx_run ctx0 calls).ctx (some F) alloc).1
            (pre ++ c :: post)).ntbs.head? = some nb →
          0 < rx_nframes nb ∧ (rx_dpe nb 0).2 = F.length ∧
            slice nb (rx_dpe nb 0).1 (rx_dpe nb 0).2 = F) ∧
      ∀ (G : List Nat),
        (cdc_ncm_fill_tx_frame
          (cdc_ncm_fill_tx_frame (tx_run ctx0 calls).ctx (some F) alloc).1 (some G) none).2 =
          none ∧
        (cdc_ncm_fill_tx_frame
          (cdc_ncm_fill_tx_frame (tx_run ctx0 calls).ctx (some F) alloc).1 (some G)
          none).1.tx_rem_skb = some G ∧
        (cdc_ncm_fill_tx_frame
          (cdc_ncm_fill_tx_frame (tx_run ctx0 calls).ctx (some F) alloc).1 (some G)
          none).1.tx_dropped = (tx_run ctx0 calls).ctx.tx_dropped + 1 ∧
        (cdc_ncm_fill_tx_frame
          (cdc_ncm_fill_tx_frame (tx_run ctx0 calls).ctx (some F) alloc).1 (some G)
          none).1.tx_curr_skb = none ∧
        ∀ (pre : List tx_call), G.length ≤ ctx0.tx_max - tx_first_offset ctx0 →
          (∀ x ∈ pre, x.skb = none ∧ x.alloc = none) →
          ∀ (c : tx_call) (post : List tx_call), c.alloc ≠ none → ∀ (nb : List Nat),
          (tx_run (cdc_ncm_fill_tx_frame
            (cdc_ncm_fill_tx_frame (tx_run ctx0 calls).ctx (some F) alloc).1 (some G)
            none).1 (pre ++ c :: post)).ntbs.head? = some nb →
          0 < rx_nframes nb ∧ (rx_dpe nb 0).2 = G.length ∧
            slice nb (rx_dpe nb 0).1 (rx_dpe nb 0).2 = G := by
  have _ := hep
  obtain ⟨i1, i2, -, -⟩ := tx_run_inv hP hI calls
  obtain ⟨r1, -⟩ := tx_run_rem hP hI h0 calls
  have hfn := tx_inv_some i1 hpend
  have hp : (tx_run ctx0 calls).pend ≠ [] := by
    intro hx
    rw [hx] at hfn
    simp at hfn
    omega
  have hrem : (tx_run ctx0 calls).ctx.tx_rem_skb = none := by
    by_contra hx
    have := r1 hx hpend
    omega
  have hcap : (tx_run ctx0 calls).pend.length < (tx_run ctx0 calls).ctx.tx_max_datagrams := by
    obtain ⟨-, hm⟩ := i1
    rcases hc : (tx_run ctx0 calls).ctx.tx_curr_skb with _ | buf
    · exact absurd hc hpend
    · rw [hc] at hm
      exact (hm.2.2 hp).2
  obtain ⟨ntb, t1, t2, t3, t4, t5, t6, t7⟩ := tx_call_hold i1 hp hrem F
    (by rw [i2.1]; exact hlong) alloc
  have i3 := tx_same_params_trans i2 t7
  have hlen : 0 < F.length := by omega
  have hhead : ∀ (c1 : cdc_ncm_ctx) (X : List Nat), tx_params_ok c1 → c1.tx_curr_skb = none →
      c1.tx_rem_skb = some X → tx_same_params ctx0 c1 →
      X.length ≤ ctx0.tx_max - tx_first_offset ctx0 →
      ∀ (pre : List tx_call), (∀ x ∈ pre, x.skb = none ∧ x.alloc = none) →
      ∀ (c : tx_call) (post : List tx_call), c.alloc ≠ none → ∀ (nb : List Nat),
        (tx_run c1 (pre ++ c :: post)).ntbs.head? = some nb →
        0 < rx_nframes nb ∧ (rx_dpe nb 0).2 = X.length ∧
          slice nb (rx_dpe nb 0).1 (rx_dpe nb 0).2 = X := by
    intro c1 X hP1 hI1 hR1 hS1 hX pre hpre c post hca nb hnb
    rw [tx_run_noop c1 hI1 pre hpre] at hnb
    have hJ := tx_run_head hP1 hI1 X hR1 (by rw [hS1.2.2.2.2.1, ← i2.2.2.2.2.1]; omega)
      (by rw [tx_first_offset_congr hS1, hS1.1]; omega)
      (by rw [tx_first_offset_congr hS1, hS1.1]; exact hX) (c :: post)
      (fun c' hc' => by
        simp only [List.head?_cons, Option.some.injEq] at hc'
        rw [← hc']
        exact hca)
    rcases hJ with hnil | ⟨b1, -⟩ | ⟨nb', rest, cx, seq, o, pk, c1', c2⟩
    · exact absurd hnil (List.cons_ne_nil _ _)
    · rw [b1] at hnb
      simp at hnb
    · rw [c1'] at hnb
      simp only [List.head?_cons, Option.some.injEq] at hnb
      subst hnb
      obtain ⟨-, hnf, hdpe⟩ := ntb_layout_dpe c2
      have h0e : ((o, X) :: pk)[0]? = some (o, X) := by simp
      have hd0 := hdpe 0 (o, X) h0e
      have hsl := (c2.2.2.2.2.2.2.2.2.2.2.1 0 (o, X) h0e).2.2
      rw [hd0]
      exact ⟨by rw [hnf]; simp, rfl, hsl⟩
  refine ⟨ntb, t1, (ntb_emitted_congr (tx_same_params_symm i2) t2).2.2.1, hfn.symm, t3, t4,
    ?_, ?_⟩
  · intro pre hpre
    have hno := tx_run_noop _ t5 pre hpre []
    rw [List.append_nil] at hno
    rw [hno]
    exact ⟨rfl, rfl, hhead _ F t6.1 t5 t3 i3 hfit pre hpre⟩
  · intro G
    rw [tx_call_alloc_fail _ G t5]
    refine ⟨rfl, rfl, ?_, t5, fun pre hG => ?_⟩
    · show (if
          (cdc_ncm_fill_tx_frame (tx_run ctx0 calls).ctx (some F) alloc).1.tx_rem_skb.isSome
        then (cdc_ncm_fill_tx_frame (tx_run ctx0 calls).ctx (some F) alloc).1.tx_dropped + 1
        else (cdc_ncm_fill_tx_frame (tx_run ctx0 calls).ctx (some F) alloc).1.tx_dropped) = _
      rw [t3, t4]
      rfl
    · exact hhead
        { (cdc_ncm_fill_tx_frame (tx_run ctx0 calls).ctx (some F) alloc).1 with
          tx_dropped :=
            if (cdc_ncm_fill_tx_frame (tx_run ctx0 calls).ctx (some F)
                alloc).1.tx_rem_skb.isSome then
              (cdc_ncm_fill_tx_frame (tx_run ctx0 calls).ctx (some F) alloc).1.tx_dropped + 1
            else (cdc_ncm_fill_tx_frame (tx_run ctx0 calls).ctx (some F) alloc).1.tx_dropped
          tx_rem_skb := some G } G
        (tx_params_ok_congr
          (a := (cdc_ncm_fill_tx_frame (tx_run ctx0 calls).ctx (some F) alloc).1)
          ⟨rfl, rfl, rfl, rfl, rfl, rfl, rfl⟩ t6.1.2.2.2.2.2 t6.1)
        t5 rfl (tx_same_params_trans i3 ⟨rfl, rfl, rfl, rfl, rfl, rfl, rfl⟩) hG pre

/-- Scenario 4 of the specification (`tx_max = 2048`, room for three frames of 500
bytes): the fourth frame is held while the NTB with the first three is returned, and
it is the first datagram of the NTB that a flush returns. When instead a fifth frame is
handed in and `alloc_skb` fails, the held frame is freed and counted, and the NTB
returned by a flush after that starts with the fifth frame. -/
theorem tx_carry_over_witness :
    (tx_params_ok ctx_s1 ∧ ctx_s1.tx_curr_skb = none ∧
      ctx_s1.tx_curr_frame_num ≤ ctx_s1.tx_max_datagrams ∧ 0 < ctx_s1.out_ep ∧
      (tx_run ctx_s1 [call_frame 500, call_frame 500, call_frame 500]).ctx.tx_curr_skb ≠
        none ∧
      (tx_run ctx_s1 [call_frame 500, call_frame 500, call_frame 500]).ctx.tx_curr_frame_num =
        3 ∧
      (tx_run ctx_s1 [call_frame 500, call_frame 500, call_frame 500]).ctx.tx_curr_offset =
        1666 ∧
      (frame_of 500 9).length >
        ctx_s1.tx_max -
          (tx_run ctx_s1 [call_frame 500, call_frame 500, call_frame 500]).ctx.tx_curr_offset ∧
      (frame_of 500 9).length ≤ ctx_s1.tx_max - tx_first_offset ctx_s1 ∧
      (frame_of 500 5).length ≤ ctx_s1.tx_max - tx_first_offset ctx_s1) ∧
    ∃ ntb, (cdc_ncm_fill_tx_frame
        (tx_run ctx_s1 [call_frame 500, call_frame 500, call_frame 500]).ctx
        (some (frame_of 500 9)) (some fresh_aa)).2 = some ntb ∧
      ntb_layout ctx_s1
        (tx_run ctx_s1 [call_frame 500, call_frame 500, call_frame 500]).ctx.tx_seq ntb
        (tx_run ctx_s1 [call_frame 500, call_frame 500, call_frame 500]).pend ∧
      (cdc_ncm_fill_tx_frame
        (tx_run ctx_s1 [call_frame 500, call_frame 500, call_frame 500]).ctx
        (some (frame_of 500 9)) (some fresh_aa)).1.tx_rem_skb = some (frame_of 500 9) ∧
      (cdc_ncm_fill_tx_frame
        (tx_run ctx_s1 [call_frame 500, call_frame 500, call_frame 500]).ctx
        (some (frame_of 500 9)) (some fresh_aa)).1.tx_dropped =
        (tx_run ctx_s1 [call_frame 500, call_frame 500, call_frame 500]).ctx.tx_dropped ∧
      (∀ (nb : List Nat),
        (tx_run (cdc_ncm_fill_tx_frame
          (tx_run ctx_s1 [call_frame 500, call_frame 500, call_frame 500]).ctx
          (some (frame_of 500 9)) (some fresh_aa)).1
          ([⟨none, none⟩] ++ ⟨none, some fresh_aa⟩ :: [])).ntbs.head? = some nb →
        0 < rx_nframes nb ∧ (rx_dpe nb 0).2 = (frame_of 500 9).length ∧
          slice nb (rx_dpe nb 0).1 (rx_dpe nb 0).2 = frame_of 500 9) ∧
      (cdc_ncm_fill_tx_frame
        (cdc_ncm_fill_tx_frame
          (tx_run ctx_s1 [call_frame 500, call_frame 500, call_frame 500]).ctx
          (some (frame_of 500 9)) (some fresh_aa)).1 (some (frame_of 500 5)) none).2 = none ∧
      (cdc_ncm_fill_tx_frame
        (cdc_ncm_fill_tx_frame
          (tx_run ctx_s1 [call_frame 500, call_frame 500, call_frame 500]).ctx
          (some (frame_of 500 9)) (some fresh_aa)).1 (some (frame_of 500 5))
        none).1.tx_rem_skb = some (frame_of 500 5) ∧
      (cdc_ncm_fill_tx_frame
        (cdc_ncm_fill_tx_frame
          (tx_run ctx_s1 [call_frame 500, call_frame 500, call_frame 500]).ctx
          (some (frame_of 500 9)) (some fresh_aa)).1 (some (frame_of 500 5))
        none).1.tx_dropped =
        (tx_run ctx_s1 [call_frame 500, call_frame 500, call_frame 500]).ctx.tx_dropped + 1 ∧
      ∀ (nb : List Nat),
        (tx_run (cdc_ncm_fill_tx_frame
          (cdc_ncm_fill_tx_frame
            (tx_run ctx_s1 [call_frame 500, call_frame 500, call_frame 500]).ctx
            (some (frame_of 500 9)) (some fresh_aa)).1 (some (frame_of 500 5))
          none).1 ([] ++ ⟨none, some fresh_aa⟩ :: [])).ntbs.head? = some nb →
        0 < rx_nframes nb ∧ (rx_dpe nb 0).2 = (frame_of 500 5).length ∧
          slice nb (rx_dpe nb 0).1 (rx_dpe nb 0).2 = frame_of 500 5 := by
  refine ⟨⟨ctx_s1_ok, by decide, by decide, by decide, by decide, by decide, by decide,
    by decide, by decide, by decide⟩, ?_⟩
  obtain ⟨ntb, w1, w2, -, w4, w5, w6, w7⟩ :=
    tx_carry_over ctx_s1 [call_frame 500, call_frame 500, call_frame 500] (frame_of 500 9)
      (some fresh_aa) ctx_s1_ok (by decide) (by decide) (by decide) (by decide) (by decide)
      (by decide) (by decide)
  obtain ⟨v1, v2, v3, -, v5⟩ := w7 (frame_of 500 5)
  exact ⟨ntb, w1, w2, w4, w5,
    (w6 [⟨none, none⟩] (by simp)).2.2 ⟨none, some fresh_aa⟩ [] (by simp), v1, v2, v3,
    v5 [] (by decide) (by simp) ⟨none, some fresh_aa⟩ [] (by simp)⟩

/-- C13, counterexample: scenario 4 of the specification continued by a call whose
`alloc_skb` fails: three frames of 500 bytes, a fourth (filled with 9) that is held, a
fifth (filled with 5) handed in while `alloc_skb` fails, and a flush. Two NTBs are
returned; `tx_dropped` is 1; the second NTB has one datagram, the fifth frame; the
fourth frame is in no NTB and nothing is pending. -/
theorem tx_carry_over_lost :
    (tx_run ctx_s1 [call_frame 500, call_frame 500, call_frame 500,
      ⟨some (frame_of 500 9), some fresh_aa⟩, ⟨some (frame_of 500 5), none⟩,
      ⟨none, some fresh_aa⟩]).ntbs.map
        (fun nb => (rx_nframes nb, slice nb (rx_dpe nb 0).1 (rx_dpe nb 0).2)) =
      [(3, frame_of 500 7), (1, frame_of 500 5)] ∧
    (tx_run ctx_s1 [call_frame 500, call_frame 500, call_frame 500,
      ⟨some (frame_of 500 9), some fresh_aa⟩, ⟨some (frame_of 500 5), none⟩,
      ⟨none, some fresh_aa⟩]).ctx.tx_dropped = 1 ∧
    tx_pending (tx_run ctx_s1 [call_frame 500, call_frame 500, call_frame 500,
      ⟨some (frame_of 500 9), some fresh_aa⟩, ⟨some (frame_of 500 5), none⟩,
      ⟨none, some fresh_aa⟩]).ctx = false :=
  ⟨by decide, by decide, by decide⟩

/-- C11's call: with an empty remainder slot and room in the pointer table, a frame that
fits after the cursor `cur` is packed there; the NTB is returned exactly when it then
holds `tx_max_datagrams` datagrams, provided the cursor stays below `tx_max`
otherwise. -/
theorem tx_call_fit {ctx : cdc_ncm_ctx} {pend : List (Nat × List Nat)} (h : tx_inv ctx pend)
    (hrem : ctx.tx_rem_skb = none) (hcap : pend.length < ctx.tx_max_datagrams)
    (f : List Nat) (g : Nat → Nat) (cur : Nat)
    (hc : tx_next ctx (tx_pend_end ctx pend) = cur) (hcur : cur < ctx.tx_max)
    (hfit : f.length ≤ ctx.tx_max - cur)
    (hnext : pend.length + 1 < ctx.tx_max_datagrams →
      tx_next ctx (cur + f.length) < ctx.tx_max) :
    tx_packed ctx (some f) (some g) = [(cur, f)] ∧
    (cdc_ncm_fill_tx_frame ctx (some f) (some g)).1.tx_rem_skb = none ∧
    (cdc_ncm_fill_tx_frame ctx (some f) (some g)).1.tx_dropped = ctx.tx_dropped ∧
    (pend.length + 1 < ctx.tx_max_datagrams →
      (cdc_ncm_fill_tx_frame ctx (some f) (some g)).2 = none ∧
      (cdc_ncm_fill_tx_frame ctx (some f) (some g)).1.tx_packets = ctx.tx_packets) ∧
    (pend.length + 1 = ctx.tx_max_datagrams →
      (cdc_ncm_fill_tx_frame ctx (some f) (some g)).2 ≠ none ∧
      (cdc_ncm_fill_tx_frame ctx (some f) (some g)).1.tx_packets =
        ctx.tx_packets + ctx.tx_max_datagrams) := by
  have hP := h.1
  obtain ⟨ctx1, s, he⟩ := tx_enter_some ctx (some f) (some g) (fun _ => by simp)
  obtain ⟨hS, -, -, -, -, -⟩ := tx_enter_spec h he
  obtain ⟨c1, c2, c3, -, c5, -, -⟩ := hS
  obtain ⟨k1, k2, -, -, -⟩ := tx_enter_cursor h he
  obtain ⟨q1, q2, q3, q4, -, -⟩ := tx_enter_fields he
  obtain ⟨-, -, -, -, q5⟩ := tx_enter_acct he
  obtain ⟨e1, e2⟩ := tx_fill_eq he
  simp only [Option.isSome_some, if_true] at q1 q2 q3
  rw [hrem] at q1
  rw [hc] at k1
  have hq : (tx_queue s).head? = some f := by
    unfold tx_queue
    rw [q1, q2]
    rfl
  obtain ⟨s1, hb, b1, b2, b3, b4, b5, b6⟩ := @tx_fill_body_take ctx.tx_max ctx.tx_modulus
    ctx.tx_remainder s f (by omega) hq (by rw [k1]; exact hfit)
  have hr1 : s1.tx_rem_skb = none := by
    unfold tx_queue at b3
    rw [q1, q2, b2] at b3
    simp only [Option.toList_none, Option.toList_some, List.nil_append, List.cons.injEq,
      true_and] at b3
    rcases hx : s1.tx_rem_skb with _ | x
    · rfl
    · rw [hx] at b3
      simp at b3
  have ho1 : s1.offset = tx_next ctx (cur + f.length) := by
    rw [b6, k1]
    exact tx_next_mod_U32 hP _ (by have := hP.2.2.1; omega)
  obtain ⟨k, hk⟩ : ∃ k, ctx.tx_max_datagrams - s.n = k + 1 :=
    ⟨ctx.tx_max_datagrams - s.n - 1, by omega⟩
  rw [c1, c2, c3, c5, hk] at e1 e2
  obtain ⟨d1, d2, d3, d4, d5, -, d7⟩ := @tx_fill_loop_idle ctx.tx_max ctx.tx_modulus
    ctx.tx_remainder k s1 b2 hr1
  have hloop : tx_fill_loop ctx.tx_max ctx.tx_modulus ctx.tx_remainder (k + 1) s =
      tx_fill_loop ctx.tx_max ctx.tx_modulus ctx.tx_remainder k s1 := by
    simp only [tx_fill_loop, hb]
  have hpk : tx_fill_packed ctx.tx_max ctx.tx_modulus ctx.tx_remainder (k + 1) s =
      [(cur, f)] := by
    simp only [tx_fill_packed, hb, d1, k1]
  rw [hloop] at e1
  rw [hpk] at e2
  generalize tx_fill_loop ctx.tx_max ctx.tx_modulus ctx.tx_remainder k s1 = s' at e1 d2 d3 d4 d5 d7
  obtain ⟨v1, -, -, v4⟩ := tx_leave_acct ctx1 s'
  obtain ⟨w1, -, w3, w4⟩ := tx_leave_fields ctx1 s'
  rw [c5] at w1
  rw [e1]
  refine ⟨e2, by rw [v1, d4], by rw [v4 d3, d5, b5, q5], ?_, ?_⟩
  · intro hlt
    have hr0 : s'.ready2send = 0 := by
      rw [d7, b4, q3, if_neg]
      intro hx
      have := hnext hlt
      omega
    have hnone : (tx_leave ctx1 s').2 = none := w1.2 (Or.inr ⟨by omega, hr0⟩)
    exact ⟨hnone, by rw [(w3 hnone).1, q4]⟩
  · intro heq
    have hsome : (tx_leave ctx1 s').2 ≠ none := by
      intro hx
      rcases w1.1 hx with hw | hw <;> omega
    exact ⟨hsome, by rw [w4 hsome, q4, d2, b1, k2, heq]⟩


theorem tx_pend_end_snoc (ctx : cdc_ncm_ctx) (pend : List (Nat × List Nat)) (o : Nat)
    (f : List Nat) : tx_pend_end ctx (pend ++ [(o, f)]) = o + f.length := by
  unfold tx_pend_end
  rw [List.getLast?_concat]

theorem tx_pend_end_congr {a b : cdc_ncm_ctx} (h : tx_same_params a b)
    (pend : List (Nat × List Nat)) : tx_pend_end b pend = tx_pend_end a pend := by
  unfold tx_pend_end
  rw [tx_hdr_end_congr h]

theorem tx_cursor_after_snoc (ctx : cdc_ncm_ctx) (fs : List (List Nat)) (f : List Nat) :
    tx_cursor_after ctx (fs ++ [f]) = tx_next ctx (tx_cursor_after ctx fs + f.length) := by
  unfold tx_cursor_after
  rw [List.foldl_append]
  rfl

theorem take_succ_getD (fs : List (List Nat)) (j : Nat) (hj : j < fs.length) :
    fs.take (j + 1) = fs.take j ++ [fs.getD j []] := by
  rw [List.take_succ, List.getD_eq_getElem?_getD, List.getElem?_eq_getElem hj]
  rfl

/-- The run of the calls that submit the first `j` of the frames `fs`, fewer than
`tx_max_datagrams`, each of which fits after the cursor: no NTB has been returned, the
frames are pending in their order, and the cursor is `tx_cursor_after`. -/
theorem tx_run_fit {ctx0 : cdc_ncm_ctx} (hP : tx_params_ok ctx0)
    (hI : ctx0.tx_curr_skb = none) (hR : ctx0.tx_rem_skb = none) (g : Nat → Nat)
    (fs : List (List Nat))
    (hfits : ∀ j, j < fs.length → tx_cursor_after ctx0 (fs.take j) < ctx0.tx_max ∧
      tx_cursor_after ctx0 (fs.take j) + (fs.getD j []).length ≤ ctx0.tx_max)
    (hl : ctx0.tx_max_datagrams ≤ fs.length) (j : Nat) (hj : j < ctx0.tx_max_datagrams) :
    (tx_run ctx0 (tx_submit g (fs.take j))).ntbs = [] ∧
    (tx_run ctx0 (tx_submit g (fs.take j))).pend.map Prod.snd = fs.take j ∧
    (tx_run ctx0 (tx_submit g (fs.take j))).ctx.tx_rem_skb = none ∧
    tx_next ctx0 (tx_pend_end ctx0 (tx_run ctx0 (tx_submit g (fs.take j))).pend) =
      tx_cursor_after ctx0 (fs.take j) ∧
    (tx_run ctx0 (tx_submit g (fs.take j))).ctx.tx_packets = ctx0.tx_packets ∧
    (tx_run ctx0 (tx_submit g (fs.take j))).ctx.tx_seq = ctx0.tx_seq := by
  induction j with
  | zero =>
    refine ⟨by simp [tx_submit, tx_run], by simp [tx_submit, tx_run],
      by simpa [tx_submit, tx_run] using hR, ?_, by simp [tx_submit, tx_run],
      by simp [tx_submit, tx_run]⟩
    simp [tx_submit, tx_run, tx_pend_end, tx_cursor_after, tx_first_offset]
  | succ j ih =>
    obtain ⟨a1, a2, a3, a4, a5, a6⟩ := ih (by omega)
    obtain ⟨i1, i2, -, -⟩ := tx_run_inv hP hI (tx_submit g (fs.take j))
    have hjl : j < fs.length := by omega
    obtain ⟨f1, f2⟩ := hfits j hjl
    have hlen : (tx_run ctx0 (tx_submit g (fs.take j))).pend.length = j := by
      have := congrArg List.length a2
      rw [List.length_map, List.length_take] at this
      omega
    have hnx : j + 1 < fs.length → tx_next ctx0 (tx_cursor_after ctx0 (fs.take j) +
        (fs.getD j []).length) < ctx0.tx_max := by
      intro hx
      have := (hfits (j + 1) hx).1
      rw [take_succ_getD fs j hjl, tx_cursor_after_snoc] at this
      exact this
    have hsub : tx_submit g (fs.take (j + 1)) =
        tx_submit g (fs.take j) ++ [⟨some (fs.getD j []), some g⟩] := by
      rw [take_succ_getD fs j hjl]
      simp [tx_submit]
    rw [hsub, tx_run_snoc]
    generalize tx_run ctx0 (tx_submit g (fs.take j)) = t at a1 a2 a3 a4 a5 a6 i1 i2 hlen
    obtain ⟨p1, p2, -, p4, -⟩ := tx_call_fit i1 a3 (by rw [hlen, i2.2.2.2.2.1]; omega)
      (fs.getD j []) g (tx_cursor_after ctx0 (fs.take j))
      (by rw [tx_next_congr i2, tx_pend_end_congr i2]; exact a4)
      (by rw [i2.1]; exact f1) (by rw [i2.1]; omega)
      (fun _ => by
        rw [tx_next_congr i2, i2.1]
        exact hnx (by omega))
    obtain ⟨q1, q2⟩ := p4 (by rw [hlen, i2.2.2.2.2.1]; omega)
    obtain ⟨-, s2, -⟩ := tx_step i1 (some (fs.getD j [])) (some g)
    simp only [tx_call_step, q1, Option.isSome_none, Bool.false_eq_true, if_false,
      Option.toList_none, List.append_nil, p1]
    refine ⟨a1, ?_, p2, ?_, by rw [q2, a5], by rw [(s2 q1).2, a6]⟩
    · rw [List.map_append, a2, take_succ_getD fs j hjl]
      rfl
    · rw [tx_pend_end_snoc, take_succ_getD fs j hjl, tx_cursor_after_snoc]


theorem ctx_wide_ok : tx_params_ok ctx_wide :=
  ⟨⟨10, by decide, by decide⟩, ⟨2, by decide, by decide⟩, by decide, by decide, by decide,
    by decide⟩

/-- C11 (datagram cap and emit-on-full): in every state of a run of calls of
`cdc_ncm_fill_tx_frame` from a context without pending NTB whose parameters are in
order, whatever the calls, the NTB being built holds at most `tx_max_datagrams`
datagrams, and `tx_max_datagrams` is at most 40. And when the encoder is idle (nothing
in the remainder slot), `wMaxPacketSize` is not zero, `tx_max_datagrams` frames are
submitted one by one with allocations succeeding, and each of them fits (the cursor it
is packed at is below `tx_max`, and so is its end), then none of the calls before the
last returns an NTB, and the last call returns one NTB: it carries exactly
`tx_max_datagrams` datagrams, the submitted frames in their order, behind the layout of
`ntb_layout` (pointer entries followed by the terminating zero entry), and `tx_packets`
has grown by `tx_max_datagrams`. -/
theorem tx_emit_on_full (ctx0 : cdc_ncm_ctx) (hP : tx_params_ok ctx0)
    (hI : ctx0.tx_curr_skb = none) (h0 : ctx0.tx_curr_frame_num ≤ ctx0.tx_max_datagrams) :
    (∀ calls, (tx_run ctx0 calls).ctx.tx_curr_frame_num ≤ ctx0.tx_max_datagrams) ∧
    ctx0.tx_max_datagrams ≤ 40 ∧
    ∀ (g : Nat → Nat) (fs : List (List Nat)), ctx0.tx_rem_skb = none →
      1 ≤ ctx0.tx_max_datagrams → 0 < ctx0.out_ep → fs.length = ctx0.tx_max_datagrams →
      (∀ j, j < fs.length → tx_cursor_after ctx0 (fs.take j) < ctx0.tx_max ∧
        tx_cursor_after ctx0 (fs.take j) + (fs.getD j []).length ≤ ctx0.tx_max) →
      (∀ j, j < ctx0.tx_max_datagrams → (tx_run ctx0 (tx_submit g (fs.take j))).ntbs = []) ∧
      ∃ ntb pkts, (tx_run ctx0 (tx_submit g fs)).ntbs = [ntb] ∧ pkts.map Prod.snd = fs ∧
        ntb_layout ctx0 ctx0.tx_seq ntb pkts ∧ rx_nframes ntb = ctx0.tx_max_datagrams ∧
        (tx_run ctx0 (tx_submit g fs)).ctx.tx_packets =
          ctx0.tx_packets + ctx0.tx_max_datagrams := by
  refine ⟨fun calls => (tx_run_rem hP hI h0 calls).2, hP.2.2.2.1, ?_⟩
  intro g fs hR h1 _ hlen hfits
  refine ⟨fun j hj => (tx_run_fit hP hI hR g fs hfits (by omega) j hj).1, ?_⟩
  obtain ⟨j, hj⟩ : ∃ j, ctx0.tx_max_datagrams = j + 1 := ⟨ctx0.tx_max_datagrams - 1, by omega⟩
  have hjl : j < fs.length := by omega
  obtain ⟨a1, a2, a3, a4, a5, a6⟩ := tx_run_fit hP hI hR g fs hfits (by omega) j (by omega)
  obtain ⟨i1, i2, -, -⟩ := tx_run_inv hP hI (tx_submit g (fs.take j))
  obtain ⟨f1, f2⟩ := hfits j hjl
  have hpl : (tx_run ctx0 (tx_submit g (fs.take j))).pend.length = j := by
    have := congrArg List.length a2
    rw [List.length_map, List.length_take] at this
    omega
  have hfs : fs = fs.take j ++ [fs.getD j []] := by
    rw [← take_succ_getD fs j hjl, List.take_of_length_le (by omega)]
  have hsub : tx_submit g fs =
      tx_submit g (fs.take j) ++ [⟨some (fs.getD j []), some g⟩] := by
    conv_lhs => rw [hfs]
    simp [tx_submit]
  rw [hsub, tx_run_snoc]
  generalize tx_run ctx0 (tx_submit g (fs.take j)) = t at a1 a2 a3 a4 a5 a6 i1 i2 hpl
  obtain ⟨p1, -, -, -, p5⟩ := tx_call_fit i1 a3 (by rw [hpl, i2.2.2.2.2.1]; omega)
    (fs.getD j []) g (tx_cursor_after ctx0 (fs.take j))
    (by rw [tx_next_congr i2, tx_pend_end_congr i2]; exact a4)
    (by rw [i2.1]; exact f1) (by rw [i2.1]; omega)
    (fun hx => by rw [hpl, i2.2.2.2.2.1] at hx; omega)
  obtain ⟨q1, q2⟩ := p5 (by rw [hpl, i2.2.2.2.2.1]; omega)
  obtain ⟨-, -, s3⟩ := tx_step i1 (some (fs.getD j [])) (some g)
  rcases hr : (cdc_ncm_fill_tx_frame t.ctx (some (fs.getD j [])) (some g)).2 with _ | ntb
  · exact absurd hr q1
  · obtain ⟨-, -, e3⟩ := s3 ntb hr
    rw [p1, a6] at e3
    have hlay := (ntb_emitted_congr (tx_same_params_symm i2) e3).2.2.1
    refine ⟨ntb, t.pend ++ [(tx_cursor_after ctx0 (fs.take j), fs.getD j [])], ?_, ?_, hlay,
      ?_, ?_⟩
    · simp only [tx_call_step, hr, a1, Option.toList_some, List.nil_append]
    · rw [List.map_append, a2]
      exact hfs.symm
    · rw [(ntb_layout_dpe hlay).2.1, List.length_append, hpl, hj]
      rfl
    · simp only [tx_call_step]
      rw [q2, a5, i2.2.2.2.2.1]

/-- The cap holds in every state of a run for the device of the wide-modulus scenario
(`dwNtbOutMaxSize = 1698`, divisor 1024), in which no frame fits an NTB; and for a
device with `dwNtbOutMaxSize = 4096` and 32 datagrams per NTB, 32 frames of 100 bytes
give one NTB at the 32nd call. -/
theorem tx_emit_on_full_witness :
    (tx_params_ok ctx_wide ∧ ctx_wide.tx_curr_skb = none ∧
      ctx_wide.tx_curr_frame_num ≤ ctx_wide.tx_max_datagrams ∧
      (∀ calls, (tx_run ctx_wide calls).ctx.tx_curr_frame_num ≤ ctx_wide.tx_max_datagrams) ∧
      ctx_wide.tx_max_datagrams ≤ 40) ∧
    (tx_params_ok ctx_4k ∧ ctx_4k.tx_curr_skb = none ∧
      ctx_4k.tx_curr_frame_num ≤ ctx_4k.tx_max_datagrams ∧ ctx_4k.tx_rem_skb = none ∧
      1 ≤ ctx_4k.tx_max_datagrams ∧ 0 < ctx_4k.out_ep ∧
      (List.replicate 32 (frame_of 100 7)).length = ctx_4k.tx_max_datagrams ∧
      (∀ calls, (tx_run ctx_4k calls).ctx.tx_curr_frame_num ≤ ctx_4k.tx_max_datagrams) ∧
      ctx_4k.tx_max_datagrams ≤ 40 ∧
      (∀ j, j < ctx_4k.tx_max_datagrams →
        (tx_run ctx_4k
          (tx_submit fresh_aa ((List.replicate 32 (frame_of 100 7)).take j))).ntbs = []) ∧
      ∃ ntb pkts,
        (tx_run ctx_4k (tx_submit fresh_aa (List.replicate 32 (frame_of 100 7)))).ntbs =
          [ntb] ∧ pkts.map Prod.snd = List.replicate 32 (frame_of 100 7) ∧
        ntb_layout ctx_4k ctx_4k.tx_seq ntb pkts ∧ rx_nframes ntb = ctx_4k.tx_max_datagrams ∧
        (tx_run ctx_4k
          (tx_submit fresh_aa (List.replicate 32 (frame_of 100 7)))).ctx.tx_packets =
          ctx_4k.tx_packets + ctx_4k.tx_max_datagrams) :=
  ⟨⟨ctx_wide_ok, by decide, by decide,
      (tx_emit_on_full ctx_wide ctx_wide_ok (by decide) (by decide)).1,
      (tx_emit_on_full ctx_wide ctx_wide_ok (by decide) (by decide)).2.1⟩,
    ctx_4k_ok, by decide, by decide, by decide, by decide, by decide, by decide,
    (tx_emit_on_full ctx_4k ctx_4k_ok (by decide) (by decide)).1,
    (tx_emit_on_full ctx_4k ctx_4k_ok (by decide) (by decide)).2.1,
    (tx_emit_on_full ctx_4k ctx_4k_ok (by decide) (by decide)).2.2 fresh_aa
      (List.replicate 32 (frame_of 100 7)) (by decide) (by decide) (by decide) (by decide)
      (by decide)⟩

theorem tx_enter_stop (ctx : cdc_ncm_ctx) (b : Bool) (skb : Option (List Nat))
    (alloc : Option (Nat → Nat)) :
    tx_enter { ctx with stop := b } skb alloc =
      (tx_enter ctx skb alloc).map (fun p => ({ p.1 with stop := b }, p.2)) := by
  unfold tx_enter
  rcases skb with _ | f <;> rcases hc : ctx.tx_curr_skb with _ | buf <;>
    rcases alloc with _ | g <;> simp [hc]

theorem tx_leave_stop (c : cdc_ncm_ctx) (s : tx_fill_state) (hs : c.stop = true) (t : Bool)
    (ht : c.tx_timer = t) :
    (tx_leave c s).2 = (tx_leave { c with stop := false } s).2 ∧
    (tx_leave c s).1 =
      { (tx_leave { c with stop := false } s).1 with stop := true, tx_timer := t } := by
  subst ht
  unfold tx_leave
  by_cases h1 : s.n = 0
  · simp [h1, cdc_ncm_tx_timeout_start, hs]
    by_cases ht : c.tx_timer = true <;> simp [ht, hs]
  · by_cases h2 : s.n < c.tx_max_datagrams ∧ s.ready2send = 0
    · simp [h1, h2, cdc_ncm_tx_timeout_start, hs]
      by_cases ht : c.tx_timer = true <;> simp [ht, hs]
    · simp [h1, h2, tx_finalize, hs]


/-- C16 (shutdown gate on transmit), as the code has it: for every encoder state in
which the stop flag is set, a call of `cdc_ncm_fill_tx_frame` returns the same NTB (or
none) and leaves the same context as the same call with the flag clear, the pending NTB,
the remainder slot and the counters included, except that the flag stays set and the
transmit timer is left as it was (it is not started); `cdc_ncm_tx_fixup` hands the call
on to `cdc_ncm_fill_tx_frame` whenever the device has a context, and itself frees the
frame and returns no NTB only when there is no context. -/
theorem tx_fixup_stop (ctx : cdc_ncm_ctx) (skb : Option (List Nat))
    (alloc : Option (Nat → Nat)) (hs : ctx.stop = true) :
    (cdc_ncm_fill_tx_frame ctx skb alloc).2 =
      (cdc_ncm_fill_tx_frame { ctx with stop := false } skb alloc).2 ∧
    (cdc_ncm_fill_tx_frame ctx skb alloc).1 =
      { (cdc_ncm_fill_tx_frame { ctx with stop := false } skb alloc).1 with
        stop := true, tx_timer := ctx.tx_timer } ∧
    cdc_ncm_tx_fixup (some ctx) skb alloc =
      ⟨some (cdc_ncm_fill_tx_frame ctx skb alloc).1, (cdc_ncm_fill_tx_frame ctx skb alloc).2,
        false⟩ ∧
    cdc_ncm_tx_fixup none skb alloc = ⟨none, none, skb.isSome⟩ := by
  refine ⟨?_, ?_, rfl, rfl⟩
  · unfold cdc_ncm_fill_tx_frame
    rw [tx_enter_stop ctx false]
    rcases he : tx_enter ctx skb alloc with _ | ⟨c, s⟩
    · rfl
    · obtain ⟨-, -, -, -, hst, -⟩ := tx_enter_fields he
      exact (tx_leave_stop c _ (by rw [hst]; exact hs) _ rfl).1
  · unfold cdc_ncm_fill_tx_frame
    rw [tx_enter_stop ctx false]
    rcases he : tx_enter ctx skb alloc with _ | ⟨c, s⟩
    · rcases skb with _ | f
      · simp only [Option.map_none', Option.isSome_none, Bool.false_eq_true, if_false]
        cases ctx
        simp only at hs
        subst hs
        rfl
      · simp [hs]
    · obtain ⟨-, -, -, -, hst, htm⟩ := tx_enter_fields he
      exact (tx_leave_stop c
        (tx_fill_loop c.tx_max c.tx_modulus c.tx_remainder (c.tx_max_datagrams - s.n) s)
        (by rw [hst]; exact hs) ctx.tx_timer htm).2

theorem tx_fixup_stop_witness :
    (cdc_ncm_fill_tx_frame ctx_stop (some (frame_of 100 7)) (some fresh_aa)).2 =
      (cdc_ncm_fill_tx_frame { ctx_stop with stop := false } (some (frame_of 100 7))
        (some fresh_aa)).2 ∧
    (cdc_ncm_fill_tx_frame ctx_stop (some (frame_of 100 7)) (some fresh_aa)).1 =
      { (cdc_ncm_fill_tx_frame { ctx_stop with stop := false } (some (frame_of 100 7))
          (some fresh_aa)).1 with
        stop := true, tx_timer := ctx_stop.tx_timer } ∧
    cdc_ncm_tx_fixup (some ctx_stop) (some (frame_of 100 7)) (some fresh_aa) =
      ⟨some (cdc_ncm_fill_tx_frame ctx_stop (some (frame_of 100 7)) (some fresh_aa)).1,
        (cdc_ncm_fill_tx_frame ctx_stop (some (frame_of 100 7)) (some fresh_aa)).2, false⟩ ∧
    cdc_ncm_tx_fixup none (some (frame_of 100 7)) (some fresh_aa) =
      ⟨none, none, (some (frame_of 100 7)).isSome⟩ :=
  tx_fixup_stop ctx_stop (some (frame_of 100 7)) (some fresh_aa) (by decide)

/-- With the stop flag set, `cdc_ncm_tx_fixup` does not free a frame it is given: the
frame is packed into a new pending NTB at offset 154 and counted there, nothing is
dropped, and a second frame, too long for the space left, makes the call return the
NTB. -/
theorem tx_fixup_stop_cex :
    ctx_stop.stop = true ∧ ctx_stop.tx_curr_skb = none ∧
    (cdc_ncm_tx_fixup (some ctx_stop) (some (frame_of 100 7)) (some fresh_aa)).freed = false ∧
    tx_packed ctx_stop (some (frame_of 100 7)) (some fresh_aa) = [(154, frame_of 100 7)] ∧
    (cdc_ncm_fill_tx_frame ctx_stop (some (frame_of 100 7)) (some fresh_aa)).1.tx_curr_skb ≠
      none ∧
    (cdc_ncm_fill_tx_frame ctx_stop (some (frame_of 100 7)) (some fresh_aa)).1.tx_curr_frame_num
      = 1 ∧
    (cdc_ncm_fill_tx_frame ctx_stop (some (frame_of 100 7)) (some fresh_aa)).1.tx_dropped =
      ctx_stop.tx_dropped ∧
    (cdc_ncm_fill_tx_frame ctx_stop (some (frame_of 100 7)) (some fresh_aa)).1.stop = true ∧
    (cdc_ncm_tx_fixup
      (some (cdc_ncm_fill_tx_frame ctx_stop (some (frame_of 100 7)) (some fresh_aa)).1)
      (some (frame_of 900 9)) (some fresh_aa)).skb_out ≠ none := by
  refine ⟨by decide, by decide, by decide, by decide, by decide, by decide, by decide,
    by decide, by decide⟩

/-! ## Binding -/

/-- The descriptor loop of `cdc_ncm_bind` has finished after `buf.length` passes: more
passes give the same result. -/
theorem bind_walk_fuel (f : Nat → Option Nat) (k : Nat) :
    ∀ (buf : List Nat) (ctx : bind_ctx), buf.length ≤ k →
      bind_walk f (k + 1) buf ctx = bind_walk f k buf ctx := by
  induction k with
  | zero =>
    intro buf ctx hl
    have : buf.length = 0 := by omega
    simp [bind_walk, this]
  | succ k ih =>
    intro buf ctx hl
    have e1 : bind_walk f (k + 1 + 1) buf ctx =
        if buf.length > 0 ∧ u8_at buf 0 > 2 ∧ u8_at buf 0 ≤ buf.length then
          bind_walk f (k + 1) (buf.drop (u8_at buf 0)) (bind_desc_case f ctx buf)
        else ctx := rfl
    have e2 : bind_walk f (k + 1) buf ctx =
        if buf.length > 0 ∧ u8_at buf 0 > 2 ∧ u8_at buf 0 ≤ buf.length then
          bind_walk f k (buf.drop (u8_at buf 0)) (bind_desc_case f ctx buf)
        else ctx := rfl
    rw [e1, e2]
    by_cases hc : buf.length > 0 ∧ u8_at buf 0 > 2 ∧ u8_at buf 0 ≤ buf.length
    · rw [if_pos hc, if_pos hc]
      exact ih _ _ (by rw [List.length_drop]; omega)
    · rw [if_neg hc, if_neg hc]

theorem u8_at_take (buf : List Nat) (n i : Nat) (h : i < n) :
    u8_at (buf.take n) i = u8_at buf i := by
  unfold u8_at
  rw [List.getD_eq_getElem?_getD, List.getD_eq_getElem?_getD, List.getElem?_take_of_lt h]

theorem bind_desc_case_spec (f : Nat → Option Nat) (ctx : bind_ctx) (buf : List Nat) :
    ((bind_desc_case f ctx buf).control = ctx.control ∧
        (bind_desc_case f ctx buf).data = ctx.data ∨
      (u8_at buf 1 = USB_DT_CS_INTERFACE ∧ u8_at buf 2 = USB_CDC_UNION_TYPE ∧
        SIZEOF_UNION_DESC ≤ u8_at buf 0) ∧
        (bind_desc_case f ctx buf).control = f (u8_at buf 3) ∧
        (bind_desc_case f ctx buf).data = f (u8_at buf 4)) ∧
    ((bind_desc_case f ctx buf).ether_desc = ctx.ether_desc ∨
      (u8_at buf 1 = USB_DT_CS_INTERFACE ∧ u8_at buf 2 = USB_CDC_ETHERNET_TYPE ∧
        SIZEOF_ETHER_DESC ≤ u8_at buf 0)) ∧
    ((bind_desc_case f ctx buf).func_desc = ctx.func_desc ∨
      (u8_at buf 1 = USB_DT_CS_INTERFACE ∧ u8_at buf 2 = USB_CDC_NCM_TYPE ∧
        SIZEOF_NCM_DESC ≤ u8_at buf 0)) := by
  unfold bind_desc_case
  by_cases h1 : u8_at buf 1 ≠ USB_DT_CS_INTERFACE
  · rw [if_pos h1]
    exact ⟨Or.inl ⟨rfl, rfl⟩, Or.inl rfl, Or.inl rfl⟩
  · rw [if_neg h1]
    have h1e : u8_at buf 1 = USB_DT_CS_INTERFACE := not_not.1 h1
    by_cases h2 : u8_at buf 2 = USB_CDC_UNION_TYPE
    · rw [if_pos h2]
      by_cases h3 : u8_at buf 0 < SIZEOF_UNION_DESC
      · rw [if_pos h3]
        exact ⟨Or.inl ⟨rfl, rfl⟩, Or.inl rfl, Or.inl rfl⟩
      · rw [if_neg h3]
        exact ⟨Or.inr ⟨⟨h1e, h2, not_lt.1 h3⟩, rfl, rfl⟩, Or.inl rfl, Or.inl rfl⟩
    · rw [if_neg h2]
      by_cases h4 : u8_at buf 2 = USB_CDC_ETHERNET_TYPE
      · rw [if_pos h4]
        by_cases h3 : u8_at buf 0 < SIZEOF_ETHER_DESC
        · rw [if_pos h3]
          exact ⟨Or.inl ⟨rfl, rfl⟩, Or.inl rfl, Or.inl rfl⟩
        · rw [if_neg h3]
          exact ⟨Or.inl ⟨rfl, rfl⟩, Or.inr ⟨h1e, h4, not_lt.1 h3⟩, Or.inl rfl⟩
      · rw [if_neg h4]
        by_cases h5 : u8_at buf 2 = USB_CDC_NCM_TYPE
        · rw [if_pos h5]
          by_cases h3 : u8_at buf 0 < SIZEOF_NCM_DESC
          · rw [if_pos h3]
            exact ⟨Or.inl ⟨rfl, rfl⟩, Or.inl rfl, Or.inl rfl⟩
          · rw [if_neg h3]
            exact ⟨Or.inl ⟨rfl, rfl⟩, Or.inl rfl, Or.inr ⟨h1e, h5, not_lt.1 h3⟩⟩
        · rw [if_neg h5]
          exact ⟨Or.inl ⟨rfl, rfl⟩, Or.inl rfl, Or.inl rfl⟩

theorem is_cs_desc_take (ty size : Nat) (buf : List Nat) (h0 : 2 < u8_at buf 0)
    (h : u8_at buf 1 = USB_DT_CS_INTERFACE ∧ u8_at buf 2 = ty ∧ size ≤ u8_at buf 0) :
    is_cs_desc ty size (buf.take (u8_at buf 0)) := by
  unfold is_cs_desc
  rw [u8_at_take buf _ 1 (by omega), u8_at_take buf _ 2 (by omega),
    u8_at_take buf _ 0 (by omega)]
  exact h

/-- What the descriptor loop of `cdc_ncm_bind` leaves in the context: `control` and
`data` are as before or come from a UNION descriptor of the block with at least 5
bytes; `ether_desc` and `func_desc` are as before or there is an ETHERNET descriptor
with at least 13 bytes, an NCM descriptor with at least 6 bytes. -/
theorem bind_walk_descs (f : Nat → Option Nat) (k : Nat) :
    ∀ (buf : List Nat) (ctx : bind_ctx),
      ((bind_walk f k buf ctx).control = ctx.control ∧
          (bind_walk f k buf ctx).data = ctx.data ∨
        ∃ d ∈ cs_descs k buf, is_cs_desc USB_CDC_UNION_TYPE SIZEOF_UNION_DESC d ∧
          (bind_walk f k buf ctx).control = f (u8_at d 3) ∧
          (bind_walk f k buf ctx).data = f (u8_at d 4)) ∧
      ((bind_walk f k buf ctx).ether_desc = ctx.ether_desc ∨
        ∃ d ∈ cs_descs k buf, is_cs_desc USB_CDC_ETHERNET_TYPE SIZEOF_ETHER_DESC d) ∧
      ((bind_walk f k buf ctx).func_desc = ctx.func_desc ∨
        ∃ d ∈ cs_descs k buf, is_cs_desc USB_CDC_NCM_TYPE SIZEOF_NCM_DESC d) := by
  induction k with
  | zero =>
    intro buf ctx
    exact ⟨Or.inl ⟨rfl, rfl⟩, Or.inl rfl, Or.inl rfl⟩
  | succ k ih =>
    intro buf ctx
    rw [bind_walk, cs_descs]
    by_cases hc : buf.length > 0 ∧ u8_at buf 0 > 2 ∧ u8_at buf 0 ≤ buf.length
    · rw [if_pos hc, if_pos hc]
      obtain ⟨a1, a2, a3⟩ := ih (buf.drop (u8_at buf 0)) (bind_desc_case f ctx buf)
      obtain ⟨b1, b2, b3⟩ := bind_desc_case_spec f ctx buf
      refine ⟨?_, ?_, ?_⟩
      · rcases a1 with ⟨e1, e2⟩ | ⟨d, hd, hu, e1, e2⟩
        · rcases b1 with ⟨g1, g2⟩ | ⟨hu, g1, g2⟩
          · exact Or.inl ⟨e1.trans g1, e2.trans g2⟩
          · refine Or.inr ⟨_, List.mem_cons_self _ _,
              is_cs_desc_take _ _ buf hc.2.1 hu, ?_, ?_⟩
            · rw [e1, g1, u8_at_take buf _ 3 (by unfold SIZEOF_UNION_DESC at hu; omega)]
            · rw [e2, g2, u8_at_take buf _ 4 (by unfold SIZEOF_UNION_DESC at hu; omega)]
        · exact Or.inr ⟨d, List.mem_cons_of_mem _ hd, hu, e1, e2⟩
      · rcases a2 with e1 | ⟨d, hd, hu⟩
        · rcases b2 with g1 | hu
          · exact Or.inl (e1.trans g1)
          · exact Or.inr ⟨_, List.mem_cons_self _ _, is_cs_desc_take _ _ buf hc.2.1 hu⟩
        · exact Or.inr ⟨d, List.mem_cons_of_mem _ hd, hu⟩
      · rcases a3 with e1 | ⟨d, hd, hu⟩
        · rcases b3 with g1 | hu
          · exact Or.inl (e1.trans g1)
          · exact Or.inr ⟨_, List.mem_cons_self _ _, is_cs_desc_take _ _ buf hc.2.1 hu⟩
        · exact Or.inr ⟨d, List.mem_cons_of_mem _ hd, hu⟩
    · rw [if_neg hc, if_neg hc]
      exact ⟨Or.inl ⟨rfl, rfl⟩, Or.inl rfl, Or.inl rfl⟩


/-- C17 (bind descriptor requirements), as the code has it: `cdc_ncm_bind` returns
`-ENODEV` and leaves no context whenever the class-specific descriptor block of the
interface has no UNION descriptor of at least 5 bytes, or no ETHERNET descriptor of at
least 13 bytes, or no such UNION descriptor whose master interface is the interface
being bound, whatever the USB operations (claim, set-interface, control transfers,
endpoint lookup, MAC read) answer. An NCM functional descriptor is not among the
requirements. -/
theorem cdc_ncm_bind_descs (env : bind_env)
    (h : (∀ d ∈ cs_descs env.extra.length env.extra,
            ¬ is_cs_desc USB_CDC_UNION_TYPE SIZEOF_UNION_DESC d) ∨
         (∀ d ∈ cs_descs env.extra.length env.extra,
            ¬ is_cs_desc USB_CDC_ETHERNET_TYPE SIZEOF_ETHER_DESC d) ∨
         (∀ d ∈ cs_descs env.extra.length env.extra,
            is_cs_desc USB_CDC_UNION_TYPE SIZEOF_UNION_DESC d →
              env.ifnum_to_if (u8_at d 3) ≠ some env.intf)) :
    (cdc_ncm_bind env).ret = -ENODEV ∧ (cdc_ncm_bind env).ctx = none := by
  obtain ⟨a1, a2, -⟩ := bind_walk_descs env.ifnum_to_if env.extra.length env.extra
    ⟨none, none, none, none, none, none, none, none, env.hard_mtu⟩
  unfold cdc_ncm_bind
  split
  · exact ⟨rfl, rfl⟩
  · simp only
    split
    · rename_i control data ether hc hd he
      split
      · exact ⟨rfl, rfl⟩
      · rename_i hci
        exfalso
        have hci : control = env.intf := not_not.1 hci
        rcases h with h | h | h
        · rcases a1 with ⟨e1, -⟩ | ⟨d, hd, hu, -, -⟩
          · rw [hc] at e1
            simp at e1
          · exact h d hd hu
        · rcases a2 with e1 | ⟨d, hd, hu⟩
          · rw [he] at e1
            simp at e1
          · exact h d hd hu
        · rcases a1 with ⟨e1, -⟩ | ⟨d, hd, hu, e1, -⟩
          · rw [hc] at e1
            simp at e1
          · rw [hc, hci] at e1
            exact h d hd hu e1.symm
    · exact ⟨rfl, rfl⟩

theorem cdc_ncm_bind_descs_witness :
    (∀ d ∈ cs_descs (bind_env_ok extra_no_ether).extra.length (bind_env_ok extra_no_ether).extra,
      ¬ is_cs_desc USB_CDC_ETHERNET_TYPE SIZEOF_ETHER_DESC d) ∧
    (cdc_ncm_bind (bind_env_ok extra_no_ether)).ret = -ENODEV ∧
    (cdc_ncm_bind (bind_env_ok extra_no_ether)).ctx = none :=
  ⟨by decide, cdc_ncm_bind_descs (bind_env_ok extra_no_ether) (Or.inr (Or.inl (by decide)))⟩

/-- A descriptor block with a UNION and an ETHERNET descriptor and no descriptor of the
NCM subtype, on a device for which every operation succeeds: `cdc_ncm_bind` returns 0,
with the context that `cdc_ncm_setup` negotiated for capabilities 0. -/
theorem cdc_ncm_bind_descs_cex :
    (∀ d ∈ cs_descs extra_no_ncm.length extra_no_ncm, u8_at d 2 ≠ USB_CDC_NCM_TYPE) ∧
    (∀ d ∈ cs_descs extra_no_ncm.length extra_no_ncm,
      ¬ is_cs_desc USB_CDC_NCM_TYPE SIZEOF_NCM_DESC d) ∧
    (cdc_ncm_bind (bind_env_ok extra_no_ncm)).ret = 0 ∧
    (cdc_ncm_bind (bind_env_ok extra_no_ncm)).ret ≠ -ENODEV ∧
    ((cdc_ncm_bind (bind_env_ok extra_no_ncm)).ctx.map (fun c => c.1.func_desc)) =
      some none ∧
    ((cdc_ncm_bind (bind_env_ok extra_no_ncm)).ctx.map (fun c => c.2.tx_max)) =
      some 2048 := by
  refine ⟨by decide, by decide, by decide, by decide, by decide, by decide⟩

/-! ## Frame conservation -/

theorem tx_fill_body_count (tx_max tx_modulus tx_remainder : Nat) (s : tx_fill_state) :
    tx_loop_count (tx_fill_body tx_max tx_modulus tx_remainder s).1 = tx_loop_count s := by
  unfold tx_fill_body
  by_cases ho : s.offset ≥ tx_max
  · rw [if_pos ho]
    rfl
  · rw [if_neg ho]
    rcases hs : s.skb with _ | f <;> rcases hr : s.tx_rem_skb with _ | r
    · simp [hs, hr, tx_loop_count]
    · simp only [hs, hr]
      split_ifs with h1 h2 h3
      · simp [tx_loop_count, hs, hr]
        omega
      · simp at h3
      · simp [tx_loop_count, hs, hr]
      · simp [tx_loop_count, hs, hr]
        omega
    · simp only [hs, hr]
      split_ifs with h1 h2 h3
      · simp [tx_loop_count, hs, hr]
        omega
      · simp at h3
      · simp [tx_loop_count, hs, hr]
      · simp [tx_loop_count, hs, hr]
        omega
    · simp only [hs, hr]
      split_ifs with h1 h2 h3
      · simp [tx_loop_count, hs, hr]
        omega
      · simp [tx_loop_count, hs, hr]
        omega
      · simp at h3
      · simp [tx_loop_count, hs, hr]
        omega

theorem tx_fill_loop_count (tx_max tx_modulus tx_remainder : Nat) :
    ∀ (k : Nat) (s : tx_fill_state),
      tx_loop_count (tx_fill_loop tx_max tx_modulus tx_remainder k s) = tx_loop_count s := by
  intro k
  induction k with
  | zero =>
    intro s
    rfl
  | succ k ih =>
    intro s
    have hb := tx_fill_body_count tx_max tx_modulus tx_remainder s
    unfold tx_fill_loop
    rcases hbody : tx_fill_body tx_max tx_modulus tx_remainder s with ⟨s1, _ | p⟩
    · rw [hbody] at hb
      exact hb
    · rw [hbody] at hb
      simp only
      rw [ih s1]
      exact hb

theorem tx_accounted_timeout_start (c : cdc_ncm_ctx) :
    tx_accounted (cdc_ncm_tx_timeout_start c) = tx_accounted c := by
  obtain ⟨-, -, f3, -, -, f6, -, f8, f9, f10⟩ := tx_timeout_start_fields c
  unfold tx_accounted
  rw [f3, f6, f8, f9, f10]

theorem tx_leave_count (c : cdc_ncm_ctx) (s : tx_fill_state) :
    tx_accounted (tx_leave c s).1 = c.tx_packets + tx_loop_count s := by
  unfold tx_leave
  simp only
  have hd : (if s.skb.isSome = true then s.tx_dropped + 1 else s.tx_dropped) =
      s.tx_dropped + s.skb.toList.length := by
    rcases s.skb with _ | f <;> simp
  rw [hd]
  have hr : (if s.tx_rem_skb.isSome = true then 1 else 0) = s.tx_rem_skb.toList.length := by
    rcases s.tx_rem_skb with _ | f <;> simp
  generalize (if s.n < CDC_NCM_RESTART_TIMER_DATAGRAM_CNT then CDC_NCM_TIMER_PENDING_CNT
    else c.tx_timer_pending) = tp
  split_ifs with h0 h1
  · rw [tx_accounted_timeout_start]
    unfold tx_accounted tx_loop_count
    simp only
    rw [hr]
    omega
  · rw [tx_accounted_timeout_start]
    unfold tx_accounted tx_loop_count
    simp only
    rw [hr]
    omega
  · unfold tx_accounted tx_loop_count tx_finalize
    simp only
    rw [hr]
    omega

theorem tx_enter_count {ctx ctx1 : cdc_ncm_ctx} {skb : Option (List Nat)}
    {alloc : Option (Nat → Nat)} {s : tx_fill_state}
    (he : tx_enter ctx skb alloc = some (ctx1, s))
    (hn : ctx.tx_curr_skb ≠ none → ctx.tx_curr_frame_num < U16) :
    ctx1.tx_packets + tx_loop_count s = tx_accounted ctx + skb.toList.length := by
  unfold tx_enter at he
  unfold tx_accounted tx_loop_count
  rcases hk : skb with _ | f <;> rcases hc : ctx.tx_curr_skb with _ | buf <;>
    rcases ha : alloc with _ | g <;> rcases hr : ctx.tx_rem_skb with _ | r <;>
    simp only [hk, hc, ha, hr, Option.isSome_none, Option.isSome_some, Bool.false_eq_true,
      if_false, if_true, Option.some.injEq, Prod.mk.injEq] at he <;>
    first
    | (simp at he)
    | (obtain ⟨rfl, rfl⟩ := he
       simp [hr]
       first | done | omega)
    | (obtain ⟨rfl, rfl⟩ := he
       have := Nat.mod_eq_of_lt (hn (by rw [hc]; exact Option.some_ne_none _))
       simp [hr, this]
       try omega)

/-- One call of `cdc_ncm_fill_tx_frame`, whether its allocation succeeds or not: the
frames accounted for grow by the frame handed in. -/
theorem tx_call_count (ctx : cdc_ncm_ctx) (skb : Option (List Nat))
    (alloc : Option (Nat → Nat))
    (hn : ctx.tx_curr_skb ≠ none → ctx.tx_curr_frame_num < U16) :
    tx_accounted (cdc_ncm_fill_tx_frame ctx skb alloc).1 =
      tx_accounted ctx + skb.toList.length := by
  rcases he : tx_enter ctx skb alloc with _ | ⟨ctx1, s⟩
  · obtain ⟨hc, -, -, -, -⟩ := tx_enter_none he
    unfold cdc_ncm_fill_tx_frame
    rw [he]
    unfold tx_accounted
    rcases hk : skb with _ | f <;> rcases hr : ctx.tx_rem_skb with _ | r <;>
      simp [hc, hr]
    omega
  · rw [(tx_fill_eq he).1, tx_leave_count, tx_fill_loop_count]
    exact tx_enter_count he hn


/-- C26 (frame conservation): in every state of a run of calls of
`cdc_ncm_fill_tx_frame` (with or without a frame, allocations succeeding or failing)
from an encoder whose parameters are in order, with no pending NTB, an empty remainder
slot and zeroed counters, the number of frames submitted so far is `tx_packets` plus
`tx_dropped` plus the number of datagrams in the pending NTB, if there is one, plus 1 if
the remainder slot is occupied; the datagram count of the pending NTB is the number of
frames copied into it. With counters that do not start at zero the same holds for their
growth. -/
theorem tx_frame_conservation (ctx0 : cdc_ncm_ctx) (calls : List tx_call)
    (hP : tx_params_ok ctx0) (hI : ctx0.tx_curr_skb = none) (hR : ctx0.tx_rem_skb = none) :
    ((calls.filterMap (fun c => c.skb)).length + ctx0.tx_packets + ctx0.tx_dropped =
      (tx_run ctx0 calls).ctx.tx_packets + (tx_run ctx0 calls).ctx.tx_dropped +
        (match (tx_run ctx0 calls).ctx.tx_curr_skb with
         | some _ => (tx_run ctx0 calls).ctx.tx_curr_frame_num
         | none => 0) +
        (if (tx_run ctx0 calls).ctx.tx_rem_skb.isSome then 1 else 0)) ∧
    (ctx0.tx_packets = 0 → ctx0.tx_dropped = 0 →
      (calls.filterMap (fun c => c.skb)).length =
        (tx_run ctx0 calls).ctx.tx_packets + (tx_run ctx0 calls).ctx.tx_dropped +
          (match (tx_run ctx0 calls).ctx.tx_curr_skb with
           | some _ => (tx_run ctx0 calls).ctx.tx_curr_frame_num
           | none => 0) +
          (if (tx_run ctx0 calls).ctx.tx_rem_skb.isSome then 1 else 0)) ∧
    (match (tx_run ctx0 calls).ctx.tx_curr_skb with
     | some _ => (tx_run ctx0 calls).ctx.tx_curr_frame_num
     | none => 0) = (tx_run ctx0 calls).pend.length := by
  have key : (calls.filterMap (fun c => c.skb)).length + ctx0.tx_packets + ctx0.tx_dropped =
      tx_accounted (tx_run ctx0 calls).ctx := by
    induction calls using List.reverseRecOn with
    | nil =>
      simp [tx_run, tx_accounted, hI, hR]
    | append_singleton calls c ih =>
      obtain ⟨i1, -, -, -⟩ := tx_run_inv hP hI calls
      rw [tx_run_snoc]
      unfold tx_call_step
      simp only
      rw [tx_call_count _ _ _ (fun hne => by
        have h1 := tx_inv_some i1 hne
        have h2 : (tx_run ctx0 calls).pend.length ≤ 40 := by
          obtain ⟨hp, hm⟩ := i1
          rcases hb : (tx_run ctx0 calls).ctx.tx_curr_skb with _ | buf
          · exact absurd hb hne
          · rw [hb] at hm
            by_cases he : (tx_run ctx0 calls).pend = []
            · rw [he]
              simp
            · have := (hm.2.2 he).2
              have := hp.2.2.2.1
              omega
        unfold U16
        omega), ← ih, List.filterMap_append]
      rcases hs : c.skb with _ | f <;> simp [hs]
      omega
  have hpend : (match (tx_run ctx0 calls).ctx.tx_curr_skb with
     | some _ => (tx_run ctx0 calls).ctx.tx_curr_frame_num
     | none => 0) = (tx_run ctx0 calls).pend.length := by
    obtain ⟨i1, -, -, -⟩ := tx_run_inv hP hI calls
    rcases hb : (tx_run ctx0 calls).ctx.tx_curr_skb with _ | buf
    · rw [tx_inv_none i1 hb]
      rfl
    · exact tx_inv_some i1 (by rw [hb]; exact Option.some_ne_none _)
  unfold tx_accounted at key
  refine ⟨key, fun h1 h2 => ?_, hpend⟩
  rw [h1, h2] at key
  exact key

theorem tx_frame_conservation_witness :
    tx_params_ok ctx_1k ∧ ctx_1k.tx_curr_skb = none ∧ ctx_1k.tx_rem_skb = none ∧
    (((calls_mixed.filterMap (fun c => c.skb)).length + ctx_1k.tx_packets + ctx_1k.tx_dropped =
      (tx_run ctx_1k calls_mixed).ctx.tx_packets + (tx_run ctx_1k calls_mixed).ctx.tx_dropped +
        (match (tx_run ctx_1k calls_mixed).ctx.tx_curr_skb with
         | some _ => (tx_run ctx_1k calls_mixed).ctx.tx_curr_frame_num
         | none => 0) +
        (if (tx_run ctx_1k calls_mixed).ctx.tx_rem_skb.isSome then 1 else 0)) ∧
    (ctx_1k.tx_packets = 0 → ctx_1k.tx_dropped = 0 →
      (calls_mixed.filterMap (fun c => c.skb)).length =
        (tx_run ctx_1k calls_mixed).ctx.tx_packets + (tx_run ctx_1k calls_mixed).ctx.tx_dropped +
          (match (tx_run ctx_1k calls_mixed).ctx.tx_curr_skb with
           | some _ => (tx_run ctx_1k calls_mixed).ctx.tx_curr_frame_num
           | none => 0) +
          (if (tx_run ctx_1k calls_mixed).ctx.tx_rem_skb.isSome then 1 else 0)) ∧
    (match (tx_run ctx_1k calls_mixed).ctx.tx_curr_skb with
     | some _ => (tx_run ctx_1k calls_mixed).ctx.tx_curr_frame_num
     | none => 0) = (tx_run ctx_1k calls_mixed).pend.length) :=
  ⟨ctx_1k_ok, by decide, by decide,
    tx_frame_conservation ctx_1k calls_mixed ctx_1k_ok (by decide) (by decide)⟩

/-! ## The SET_NTB_INPUT_SIZE request -/

theorem filter_append_none {α : Type} (p : α → Bool) (a l : List α)
    (h : ∀ m ∈ l, p m = false) : (a ++ l).filter p = a.filter p := by
  have hl : l.filter p = [] := List.filter_eq_nil_iff.2 (fun m hm => by rw [h m hm]; simp)
  rw [List.filter_append, hl, List.append_nil]

theorem snd_snd_mk {α β γ : Type} (a : α) (b : β) (c : γ) : (a, b, c).2.2 = c := rfl

theorem cpu_to_le32_rx_max_ne (d : Nat) :
    (List.replicate 8 0).take 4 ≠ cpu_to_le32 (setup_rx_max d) := by
  have hb := setup_rx_max_bounds d
  intro h
  unfold cpu_to_le32 at h
  simp only [List.replicate, List.take, List.cons.injEq, and_true] at h
  omega

/-- C23 (SET_NTB_INPUT_SIZE request), as the code has it: `cdc_ncm_setup` issues
SET_NTB_INPUT_SIZE exactly when the checks changed `rx_max` from the advertised
`dwNtbInMaxSize` and the `kzalloc` of the payload succeeds, and then once, with
`wValue` 0. Without the NTB_INPUT_SIZE capability the payload is the 4 bytes of
`cpu_to_le32(rx_max)`. With the capability the payload is the 8 bytes of the structure as
`kzalloc` left it, all zero: its first four bytes are not the encoding of `rx_max`,
which is at least 2048. -/
theorem cdc_ncm_setup_input_size (ctx : cdc_ncm_ctx) (env : setup_env)
    (parm : usb_cdc_ncm_ntb_parameters) (hp : env.parm = some parm) :
    (cdc_ncm_setup ctx env).2.2.filter
        (fun m => decide (m.request = USB_CDC_SET_NTB_INPUT_SIZE)) =
      (if setup_rx_max (parm.dwNtbInMaxSize % U32) ≠ parm.dwNtbInMaxSize % U32 ∧
          env.in_size_alloc = true then
        [⟨USB_CDC_SET_NTB_INPUT_SIZE, 0,
          if (match ctx.func_desc with
              | some f => f % 256
              | none => 0) &&& USB_CDC_NCM_NCAP_NTB_INPUT_SIZE ≠ 0 then List.replicate 8 0
          else cpu_to_le32 (setup_rx_max (parm.dwNtbInMaxSize % U32))⟩]
      else []) ∧
    (List.replicate 8 0).take 4 ≠ cpu_to_le32 (setup_rx_max (parm.dwNtbInMaxSize % U32)) := by
  refine ⟨?_, cpu_to_le32_rx_max_ne _⟩
  generalize hc : (cdc_ncm_setup ctx env).2.2 = ml
  unfold cdc_ncm_setup at hc
  split at hc
  · rename_i hn
    rw [hp] at hn
    exact absurd hn (by simp)
  · rename_i parm2 hn
    rw [hp] at hn
    obtain rfl : parm = parm2 := Option.some.inj hn
    lift_lets at hc
    extract_lets s0 fmt flags s1 s2 s3 msgs s4 s5 s6 s7 s8 msgs2 msgs3 s9 eth r s10 at hc
    have r0 : s0.rx_max = parm.dwNtbInMaxSize % U32 := rfl
    have r1 : s1.rx_max = parm.dwNtbInMaxSize % U32 := by
      by_cases h : s0.tx_max_datagrams = 0 ∨ s0.tx_max_datagrams > CDC_NCM_DPT_DATAGRAMS_MAX
      · rw [show s1 = { s0 with tx_max_datagrams := CDC_NCM_DPT_DATAGRAMS_MAX } from if_pos h]
      · rw [show s1 = s0 from if_neg h]
    have r2 : s2.rx_max = (if parm.dwNtbInMaxSize % U32 < USB_CDC_NCM_NTB_MIN_IN_SIZE then
        USB_CDC_NCM_NTB_MIN_IN_SIZE else parm.dwNtbInMaxSize % U32) := by
      by_cases h : s1.rx_max < USB_CDC_NCM_NTB_MIN_IN_SIZE
      · rw [show s2 = { s1 with rx_max := USB_CDC_NCM_NTB_MIN_IN_SIZE } from if_pos h]
        rw [r1] at h
        exact (if_pos h).symm
      · rw [show s2 = s1 from if_neg h]
        rw [r1] at h
        rw [r1]
        exact (if_neg h).symm
    have r3 : s3.rx_max = setup_rx_max (parm.dwNtbInMaxSize % U32) := by
      by_cases h : s2.rx_max > CDC_NCM_NTB_MAX_SIZE_RX
      · rw [show s3 = { s2 with rx_max := CDC_NCM_NTB_MAX_SIZE_RX } from if_pos h]
        rw [r2] at h
        exact (if_pos h).symm
      · rw [show s3 = s2 from if_neg h]
        rw [r2] at h
        rw [r2]
        exact (if_neg h).symm
    have hfl : flags = (match ctx.func_desc with
        | some f => f % 256
        | none => 0) := rfl
    have hm1 : msgs =
        (if s3.rx_max ≠ parm.dwNtbInMaxSize % U32 then
          if flags &&& USB_CDC_NCM_NCAP_NTB_INPUT_SIZE ≠ 0 then
            (if env.in_size_alloc then
              [⟨USB_CDC_SET_NTB_INPUT_SIZE, 0, List.replicate 8 0⟩] else [])
          else
            (if env.in_size_alloc then
              [⟨USB_CDC_SET_NTB_INPUT_SIZE, 0, cpu_to_le32 s3.rx_max⟩] else [])
        else []) := rfl
    have hm2 : ∃ l, msgs2 = msgs ++ l ∧
        ∀ m ∈ l, decide (m.request = USB_CDC_SET_NTB_INPUT_SIZE) = false := by
      by_cases h : flags &&& USB_CDC_NCM_NCAP_CRC_MODE ≠ 0
      · exact ⟨_, if_pos h, by simp [USB_CDC_SET_CRC_MODE, USB_CDC_SET_NTB_INPUT_SIZE]⟩
      · exact ⟨[], (if_neg h).trans (List.append_nil _).symm, by simp⟩
    have hm3 : ∃ l, msgs3 = msgs2 ++ l ∧
        ∀ m ∈ l, decide (m.request = USB_CDC_SET_NTB_INPUT_SIZE) = false := by
      by_cases h : fmt &&& USB_CDC_NCM_NTH32_SIGN ≠ 0
      · exact ⟨_, if_pos h, by simp [USB_CDC_SET_NTB_FORMAT, USB_CDC_SET_NTB_INPUT_SIZE]⟩
      · exact ⟨[], (if_neg h).trans (List.append_nil _).symm, by simp⟩
    have hm4 : ∃ l, r.2 = msgs3 ++ l ∧
        ∀ m ∈ l, decide (m.request = USB_CDC_SET_NTB_INPUT_SIZE) = false := by
      by_cases h1 : flags &&& USB_CDC_NCM_NCAP_MAX_DATAGRAM_SIZE ≠ 0
      · by_cases h2 : env.max_dgram_alloc = true
        · rcases h3 : env.max_dgram_reply with _ | reply
          · have er : r = (s9, msgs3) := (if_pos h1).trans ((if_pos h2).trans (by rw [h3]))
            exact ⟨[], by rw [er, List.append_nil], by simp⟩
          · have er : ∃ c k, r = (c, k) ∧ ∃ l, k = msgs3 ++ l ∧
                ∀ m ∈ l, decide (m.request = USB_CDC_SET_NTB_INPUT_SIZE) = false := by
              refine ⟨_, _, (if_pos h1).trans ((if_pos h2).trans (by rw [h3])), ?_⟩
              dsimp only
              split_ifs <;>
                first
                | exact ⟨_, rfl,
                    by simp [USB_CDC_SET_MAX_DATAGRAM_SIZE, USB_CDC_SET_NTB_INPUT_SIZE]⟩
                | exact ⟨[], (List.append_nil _).symm, by simp⟩
            obtain ⟨c, k, er, l, hk, hl⟩ := er
            exact ⟨l, by rw [er, hk], hl⟩
        · have er : r = (s9, msgs3) := (if_pos h1).trans (if_neg h2)
          exact ⟨[], by rw [er, List.append_nil], by simp⟩
      · have er : r = (s9, msgs3) := if_neg h1
        exact ⟨[], by rw [er, List.append_nil], by simp⟩
    obtain ⟨l2, e2, q2⟩ := hm2
    obtain ⟨l3, e3, q3⟩ := hm3
    obtain ⟨l4, e4, q4⟩ := hm4
    clear_value r s9 s8
    rw [snd_snd_mk] at hc
    rw [← hc, e4, e3, e2, filter_append_none _ _ _ q4, filter_append_none _ _ _ q3,
      filter_append_none _ _ _ q2, hm1, r3, hfl]
    by_cases ha : setup_rx_max (parm.dwNtbInMaxSize % U32) ≠ parm.dwNtbInMaxSize % U32
    · rw [if_pos ha]
      rcases hal : env.in_size_alloc with _ | _
      · simp
      · split_ifs <;> simp_all
    · rw [if_neg ha, if_neg (fun h => ha h.1)]
      rfl

theorem cdc_ncm_setup_input_size_witness :
    env_in_big.parm = some parm_in_big ∧
    ((cdc_ncm_setup ctx_cap env_in_big).2.2.filter
        (fun m => decide (m.request = USB_CDC_SET_NTB_INPUT_SIZE)) =
      (if setup_rx_max (parm_in_big.dwNtbInMaxSize % U32) ≠ parm_in_big.dwNtbInMaxSize % U32 ∧
          env_in_big.in_size_alloc = true then
        [⟨USB_CDC_SET_NTB_INPUT_SIZE, 0,
          if (match ctx_cap.func_desc with
              | some f => f % 256
              | none => 0) &&& USB_CDC_NCM_NCAP_NTB_INPUT_SIZE ≠ 0 then List.replicate 8 0
          else cpu_to_le32 (setup_rx_max (parm_in_big.dwNtbInMaxSize % U32))⟩]
      else []) ∧
    (List.replicate 8 0).take 4 ≠
      cpu_to_le32 (setup_rx_max (parm_in_big.dwNtbInMaxSize % U32))) :=
  ⟨rfl, cdc_ncm_setup_input_size ctx_cap env_in_big parm_in_big rfl⟩

/-- A device with the NTB_INPUT_SIZE capability that advertises `dwNtbInMaxSize = 65536`:
`cdc_ncm_setup` caches `rx_max = 32768`, whose encoding is `00 80 00 00`, and the only
request it sends is SET_NTB_INPUT_SIZE with eight zero bytes. -/
theorem cdc_ncm_setup_input_size_zero :
    (cdc_ncm_setup ctx_cap env_in_big).2.1.rx_max = 32768 ∧
    cpu_to_le32 32768 = [0, 128, 0, 0] ∧
    (cdc_ncm_setup ctx_cap env_in_big).2.2 =
      [⟨USB_CDC_SET_NTB_INPUT_SIZE, 0, [0, 0, 0, 0, 0, 0, 0, 0]⟩] := by
  refine ⟨by decide, by decide, by decide⟩

/-! ## The writes of the encoder -/

/-- The function `cdc_ncm_zero_fill` is the `memset` that `zero_fill_write` describes. -/
theorem zero_fill_write_spec (ptr : List Nat) (first e max : Nat) :
    cdc_ncm_zero_fill ptr first e max =
      match zero_fill_write first e max with
      | none => ptr
      | some w => memset0 ptr w.1 w.2 := by
  unfold cdc_ncm_zero_fill zero_fill_write
  split_ifs <;> rfl

theorem tx_enter_write_eq {ctx : cdc_ncm_ctx} (hP : tx_params_ok ctx) :
    tx_enter_write ctx = zero_fill_write 0 (tx_first_offset ctx) (tx_first_offset ctx) := by
  have hh := tx_hdr_end_bounds hP
  have e1 : (ALIGN SIZEOF_NTH16 ctx.tx_ndp_modulus + SIZEOF_NDP16 +
      (ctx.tx_max_datagrams + 1) * SIZEOF_DPE16) % U32 = tx_hdr_end ctx := by
    unfold tx_hdr_end at hh ⊢
    unfold U32
    exact Nat.mod_eq_of_lt (by omega)
  unfold tx_enter_write
  simp only
  rw [e1, tx_next_mod_U32 hP _ (by omega)]
  rfl

/-- C25 (encoder writes stay inside the buffer), as the code has it: when the parameters
are in order and the first payload offset exceeds `tx_max + 1`, the zero-fill that
`cdc_ncm_fill_tx_frame` applies to a buffer it has just allocated is a `memset` of the
bytes `[0, first payload offset)`, while the buffer has `tx_max + 1` bytes: the bytes
from `tx_max + 1` on are written outside the buffer. -/
theorem tx_enter_write_overflow (ctx : cdc_ncm_ctx) (g : Nat → Nat) (hP : tx_params_ok ctx)
    (h : ctx.tx_max + 1 < tx_first_offset ctx) :
    tx_enter_write ctx = some (0, tx_first_offset ctx) ∧
    (alloc_skb (ctx.tx_max + 1) g).length = ctx.tx_max + 1 ∧
    (alloc_skb (ctx.tx_max + 1) g).length < 0 + tx_first_offset ctx := by
  have hl : (alloc_skb (ctx.tx_max + 1) g).length = ctx.tx_max + 1 := alloc_skb_length _ _
  refine ⟨?_, hl, by rw [hl]; omega⟩
  rw [tx_enter_write_eq hP]
  unfold zero_fill_write
  rw [if_neg (by omega), if_neg (by omega), if_neg (by omega)]
  rfl

/-- The context `ctx_ovf` comes from `cdc_ncm_setup` and meets every condition on the
negotiated parameters: `tx_max = 1698`, both moduli are powers of two, at least 4 and
below `tx_max`, `tx_remainder < tx_modulus`, 40 datagrams. Its first payload offset is
2047, and the buffer has 1699 bytes. -/
theorem tx_enter_write_overflow_witness :
    (tx_params_ok ctx_ovf ∧ ctx_ovf.tx_max + 1 < tx_first_offset ctx_ovf) ∧
    (ctx_ovf.tx_max = 1698 ∧ ctx_ovf.tx_modulus = 1024 ∧ ctx_ovf.tx_ndp_modulus = 4 ∧
      ctx_ovf.tx_remainder = 1023 ∧ ctx_ovf.tx_max_datagrams = 40 ∧
      tx_first_offset ctx_ovf = 2047) ∧
    (tx_enter_write ctx_ovf = some (0, tx_first_offset ctx_ovf) ∧
      (alloc_skb (ctx_ovf.tx_max + 1) fresh_aa).length = ctx_ovf.tx_max + 1 ∧
      (alloc_skb (ctx_ovf.tx_max + 1) fresh_aa).length < 0 + tx_first_offset ctx_ovf) :=
  ⟨⟨⟨⟨10, by decide, by decide⟩, ⟨2, by decide, by decide⟩, by decide, by decide, by decide,
      by decide⟩, by decide⟩,
    ⟨by decide, by decide, by decide, by decide, by decide, by decide⟩,
    tx_enter_write_overflow ctx_ovf fresh_aa
      ⟨⟨10, by decide, by decide⟩, ⟨2, by decide, by decide⟩, by decide, by decide, by decide,
        by decide⟩ (by decide)⟩

/-! ## Status notifications -/

theorem speed_change_spec (ctx : cdc_ncm_ctx) (data : List Nat) (off dl ul : Nat)
    (h1 : le32_at data off = some dl) (h2 : le32_at data (off + 4) = some ul) :
    cdc_ncm_speed_change ctx data off = some { ctx with rx_speed := dl, tx_speed := ul } := by
  unfold cdc_ncm_speed_change
  rw [h1, h2]
  simp only
  by_cases h : ul ≠ ctx.tx_speed ∨ dl ≠ ctx.rx_speed
  · rw [if_pos h]
  · rw [if_neg h]
    simp only [not_or, not_not] at h
    rw [h.1, h.2]

/-- C22 (split speed-change notification): with the split flag clear, a SPEED_CHANGE
notification whose transfer has at least 8 and fewer than 16 bytes leaves the context,
`rx_speed` and `tx_speed` included, unchanged and sets the split flag. With the flag set,
a transfer of fewer than 8 bytes changes nothing, and a transfer of at least 8 bytes is
read from its first byte as two little-endian `u32` values: afterwards `rx_speed` is
the first, `tx_speed` the second, the flag is clear and nothing else has changed,
whatever the bytes would mean as a notification header. With the flag clear, a
SPEED_CHANGE transfer of at least 16 bytes sets `rx_speed` and `tx_speed` from the bytes
8 to 15 and leaves the flag clear. The transfer buffers hold the bytes delivered. -/
theorem cdc_ncm_status_split (s : status_state) (u1 u0 u2 u3 : urb) (hs : s.split = false)
    (h1 : SIZEOF_NOTIFICATION ≤ u1.actual_length) (h1u : u1.actual_length < 16)
    (ht1 : rd8 u1.transfer_buffer 1 = some USB_CDC_NOTIFY_SPEED_CHANGE)
    (h0 : u0.actual_length < 8)
    (h2 : 8 ≤ u2.actual_length) (hb2 : u2.actual_length ≤ u2.transfer_buffer.length)
    (h3 : 16 ≤ u3.actual_length) (hb3 : u3.actual_length ≤ u3.transfer_buffer.length)
    (ht3 : rd8 u3.transfer_buffer 1 = some USB_CDC_NOTIFY_SPEED_CHANGE) :
    cdc_ncm_status s u1 = some { s with split := true } ∧
    cdc_ncm_status { s with split := true } u0 = some { s with split := true } ∧
    (∃ dl ul, le32_at u2.transfer_buffer 0 = some dl ∧ le32_at u2.transfer_buffer 4 = some ul ∧
      cdc_ncm_status { s with split := true } u2 =
        some { s with ctx := { s.ctx with rx_speed := dl, tx_speed := ul }, split := false }) ∧
    (∃ dl ul, le32_at u3.transfer_buffer 8 = some dl ∧ le32_at u3.transfer_buffer 12 = some ul ∧
      cdc_ncm_status s u3 =
        some { s with ctx := { s.ctx with rx_speed := dl, tx_speed := ul }, split := false }) := by
  unfold SIZEOF_NOTIFICATION at h1
  refine ⟨?_, ?_, ?_, ?_⟩
  · unfold cdc_ncm_status
    rw [if_neg (by unfold SIZEOF_NOTIFICATION; omega), hs, ht1]
    simp [USB_CDC_NOTIFY_SPEED_CHANGE, USB_CDC_NOTIFY_NETWORK_CONNECTION, SIZEOF_NOTIFICATION,
      SIZEOF_SPEED_CHANGE, h1u]
  · unfold cdc_ncm_status
    rw [if_pos (by unfold SIZEOF_NOTIFICATION; omega)]
  · obtain ⟨dl, hdl⟩ := le32_at_some (b := u2.transfer_buffer) (i := 0) (by omega)
    obtain ⟨ul, hul⟩ := le32_at_some (b := u2.transfer_buffer) (i := 4) (by omega)
    refine ⟨dl, ul, hdl, hul, ?_⟩
    unfold cdc_ncm_status
    rw [if_neg (by unfold SIZEOF_NOTIFICATION; omega)]
    simp only [if_true]
    rw [speed_change_spec _ _ 0 dl ul hdl hul]
    rfl
  · obtain ⟨dl, hdl⟩ := le32_at_some (b := u3.transfer_buffer) (i := 8) (by omega)
    obtain ⟨ul, hul⟩ := le32_at_some (b := u3.transfer_buffer) (i := 12) (by omega)
    refine ⟨dl, ul, hdl, hul, ?_⟩
    unfold cdc_ncm_status
    rw [if_neg (by unfold SIZEOF_NOTIFICATION; omega), hs, ht3]
    simp only [Bool.false_eq_true, if_false]
    rw [if_neg (by decide)]
    simp only [if_true]
    rw [if_neg (by unfold SIZEOF_NOTIFICATION SIZEOF_SPEED_CHANGE; omega)]
    unfold SIZEOF_NOTIFICATION
    rw [speed_change_spec _ _ 8 dl ul hdl hul]
    rfl

theorem cdc_ncm_status_split_witness :
    (status_s1.split = false ∧ SIZEOF_NOTIFICATION ≤ urb_speed_hdr.actual_length ∧
      urb_speed_hdr.actual_length < 16 ∧
      rd8 urb_speed_hdr.transfer_buffer 1 = some USB_CDC_NOTIFY_SPEED_CHANGE ∧
      urb_short.actual_length < 8 ∧ 8 ≤ urb_speed_data.actual_length ∧
      urb_speed_data.actual_length ≤ urb_speed_data.transfer_buffer.length ∧
      16 ≤ urb_speed_full.actual_length ∧
      urb_speed_full.actual_length ≤ urb_speed_full.transfer_buffer.length ∧
      rd8 urb_speed_full.transfer_buffer 1 = some USB_CDC_NOTIFY_SPEED_CHANGE) ∧
    (cdc_ncm_status status_s1 urb_speed_hdr = some { status_s1 with split := true } ∧
    cdc_ncm_status { status_s1 with split := true } urb_short =
      some { status_s1 with split := true } ∧
    (∃ dl ul, le32_at urb_speed_data.transfer_buffer 0 = some dl ∧
      le32_at urb_speed_data.transfer_buffer 4 = some ul ∧
      cdc_ncm_status { status_s1 with split := true } urb_speed_data =
        some { status_s1 with
          ctx := { status_s1.ctx with rx_speed := dl, tx_speed := ul }, split := false }) ∧
    (∃ dl ul, le32_at urb_speed_full.transfer_buffer 8 = some dl ∧
      le32_at urb_speed_full.transfer_buffer 12 = some ul ∧
      cdc_ncm_status status_s1 urb_speed_full =
        some { status_s1 with
          ctx := { status_s1.ctx with rx_speed := dl, tx_speed := ul }, split := false })) :=
  ⟨⟨by decide, by decide, by decide, by decide, by decide, by decide, by decide, by decide,
      by decide, by decide⟩,
    cdc_ncm_status_split status_s1 urb_speed_hdr urb_short urb_speed_data urb_speed_full
      (by decide) (by decide) (by decide) (by decide) (by decide) (by decide) (by decide)
      (by decide) (by decide) (by decide)⟩

/-- The rates of the transfers `urb_speed_data` and `urb_speed_full`: 100 000 000 bit/s
downlink and 50 000 000 bit/s uplink. -/
theorem urb_speed_rates :
    le32_at urb_speed_data.transfer_buffer 0 = some 100000000 ∧
    le32_at urb_speed_data.transfer_buffer 4 = some 50000000 ∧
    le32_at urb_speed_full.transfer_buffer 8 = some 100000000 ∧
    le32_at urb_speed_full.transfer_buffer 12 = some 50000000 := by
  refine ⟨by decide, by decide, by decide, by decide⟩

/-! ## The flush by the timer -/

theorem buf_agree_refl (k : Nat) (a : List Nat) : buf_agree k a a := ⟨rfl, fun _ _ => rfl⟩

theorem buf_agree_symm {k : Nat} {a b : List Nat} (h : buf_agree k a b) : buf_agree k b a :=
  ⟨h.1.symm, fun i hi => (h.2 i hi).symm⟩

theorem buf_agree_mono {k j : Nat} {a b : List Nat} (h : buf_agree k a b) (hj : j ≤ k) :
    buf_agree j a b := ⟨h.1, fun i hi => h.2 i (by omega)⟩

theorem memcpy_get (buf : List Nat) (off : Nat) (src : List Nat) (i : Nat) :
    (memcpy buf off src)[i]? =
      if off ≤ i ∧ i < off + src.length ∧ i < buf.length then src[i - off]? else buf[i]? := by
  by_cases h : off ≤ i ∧ i < off + src.length ∧ i < buf.length
  · rw [if_pos h]
    exact memcpy_get_in buf off src i h.1 h.2.1 h.2.2
  · rw [if_neg h]
    by_cases h1 : i < off ∨ off + src.length ≤ i
    · exact memcpy_get_out buf off src i h1
    · have hl : buf.length ≤ i := by omega
      rw [List.getElem?_eq_none (by rw [memcpy_length]; exact hl), List.getElem?_eq_none hl]

/-- Copying the same bytes to the same place keeps two buffers in agreement. -/
theorem buf_agree_memcpy {k : Nat} {a b : List Nat} (h : buf_agree k a b) (off : Nat)
    (src : List Nat) : buf_agree k (memcpy a off src) (memcpy b off src) := by
  refine ⟨by rw [memcpy_length, memcpy_length]; exact h.1, fun i hi => ?_⟩
  rw [memcpy_get, memcpy_get, h.1, h.2 i hi]

/-- Copying the same bytes to the end of the agreement extends it. -/
theorem buf_agree_memcpy_ext {a b : List Nat} {off : Nat} (h : buf_agree off a b)
    (src : List Nat) : buf_agree (off + src.length) (memcpy a off src) (memcpy b off src) := by
  refine ⟨by rw [memcpy_length, memcpy_length]; exact h.1, fun i hi => ?_⟩
  rw [memcpy_get, memcpy_get, h.1]
  by_cases hc : off ≤ i ∧ i < off + src.length ∧ i < b.length
  · rw [if_pos hc, if_pos hc]
  · rw [if_neg hc, if_neg hc]
    by_cases hlt : i < off
    · exact h.2 i hlt
    · have hl : b.length ≤ i := by omega
      rw [List.getElem?_eq_none (by rw [h.1]; exact hl), List.getElem?_eq_none hl]

theorem zero_fill_get (buf : List Nat) (first e max i : Nat) :
    (cdc_ncm_zero_fill buf first e max)[i]? =
      if first ≤ i ∧ i < e ∧ i < max ∧ i < buf.length then some 0 else buf[i]? := by
  by_cases h : first ≤ i ∧ i < e ∧ i < max ∧ i < buf.length
  · rw [if_pos h]
    exact zero_fill_get_in buf first e max i h.1 h.2.1 h.2.2.1 h.2.2.2
  · rw [if_neg h]
    by_cases h1 : i < first ∨ e ≤ i ∨ max ≤ i
    · exact zero_fill_get_out buf first e max i h1
    · have hl : buf.length ≤ i := by omega
      rw [List.getElem?_eq_none (by rw [zero_fill_length]; exact hl), List.getElem?_eq_none hl]

/-- Zero-filling from inside the agreement extends it to the end of the filled range. -/
theorem buf_agree_zero_fill {k : Nat} {a b : List Nat} (h : buf_agree k a b)
    (first e mx : Nat) (hf : first ≤ k) :
    buf_agree (max k (min e mx)) (cdc_ncm_zero_fill a first e mx)
      (cdc_ncm_zero_fill b first e mx) := by
  refine ⟨by rw [zero_fill_length, zero_fill_length]; exact h.1, fun i hi => ?_⟩
  rw [zero_fill_get, zero_fill_get, h.1]
  by_cases hc : first ≤ i ∧ i < e ∧ i < mx ∧ i < b.length
  · rw [if_pos hc, if_pos hc]
  · rw [if_neg hc, if_neg hc]
    by_cases hlt : i < k
    · exact h.2 i hlt
    · have hl : b.length ≤ i := by
        rcases lt_max_iff.1 hi with h1 | h1
        · omega
        · have := Nat.lt_min.1 h1
          omega
      rw [List.getElem?_eq_none (by rw [h.1]; exact hl), List.getElem?_eq_none hl]

theorem buf_agree_take {n : Nat} {a b : List Nat} (h : buf_agree n a b) :
    a.take n = b.take n := by
  apply List.ext_getElem?
  intro i
  by_cases hi : i < n
  · rw [List.getElem?_take_of_lt hi, List.getElem?_take_of_lt hi]
    exact h.2 i hi
  · rw [List.getElem?_eq_none (by rw [List.length_take]; omega),
      List.getElem?_eq_none (by rw [List.length_take]; omega)]


theorem buf_agree_pack {tx_max off : Nat} {buf d' : List Nat}
    (hA : buf_agree (min off tx_max) buf d') (ho : ¬ off ≥ tx_max) (x : List Nat)
    (off' : Nat) :
    buf_agree (min off' tx_max)
      (cdc_ncm_zero_fill (memcpy buf off x) (off + x.length) off' tx_max)
      (cdc_ncm_zero_fill (memcpy d' off x) (off + x.length) off' tx_max) ∧
    buf_agree (min (off + x.length) tx_max)
      (cdc_ncm_zero_fill (memcpy buf off x) (off + x.length) off' tx_max)
      (cdc_ncm_zero_fill (memcpy d' off x) (off + x.length) off' tx_max) := by
  have hA' : buf_agree off buf d' := buf_agree_mono hA (by rw [Nat.min_def]; split_ifs <;> omega)
  have e2 := buf_agree_zero_fill (buf_agree_memcpy_ext hA' x) (off + x.length) off' tx_max
    (le_refl _)
  exact ⟨buf_agree_mono e2 (le_max_right _ _),
    buf_agree_mono e2 (le_trans (Nat.min_le_left _ _) (le_max_left _ _))⟩

/-- One pass of the packing loop on two buffers that agree below the cursor (and, with
datagrams packed, below the end of the last one): the passes take the same branch, and
the buffers agree as before. -/
theorem tx_fill_body_sim (tx_max m r : Nat) (s : tx_fill_state) (d' : List Nat)
    (hA : buf_agree (min s.offset tx_max) s.skb_out d')
    (hB : s.n ≠ 0 → buf_agree (min s.last_offset tx_max) s.skb_out d') :
    ∃ D', tx_fill_body tx_max m r { s with skb_out := d' } =
        ({ (tx_fill_body tx_max m r s).1 with skb_out := D' },
          (tx_fill_body tx_max m r s).2) ∧
      buf_agree (min (tx_fill_body tx_max m r s).1.offset tx_max)
        (tx_fill_body tx_max m r s).1.skb_out D' ∧
      ((tx_fill_body tx_max m r s).1.n ≠ 0 →
        buf_agree (min (tx_fill_body tx_max m r s).1.last_offset tx_max)
          (tx_fill_body tx_max m r s).1.skb_out D') := by
  rcases s with ⟨buf, off, last, n, rdy, skb, rem, dpe, drp⟩
  simp only at hA hB
  unfold tx_fill_body
  simp only
  by_cases ho : off ≥ tx_max
  · simp only [if_pos ho]
    exact ⟨d', rfl, hA, hB⟩
  · simp only [if_neg ho]
    rcases skb with _ | f <;> rcases rem with _ | g <;> simp only
    · exact ⟨d', rfl, hA, hB⟩
    · by_cases hl : g.length > tx_max - off
      · simp only [if_pos hl]
        by_cases hn : n = 0
        · simp only [if_pos hn]
          exact ⟨d', rfl, hA, hB⟩
        · simp only [if_neg hn]
          exact ⟨d', rfl, hA, hB⟩
      · simp only [if_neg hl]
        obtain ⟨p1, p2⟩ := buf_agree_pack hA ho g ((ALIGN (off + g.length) m + r) % U32)
        exact ⟨_, rfl, p1, fun _ => p2⟩
    · by_cases hl : f.length > tx_max - off
      · simp only [if_pos hl]
        by_cases hn : n = 0
        · simp only [if_pos hn]
          exact ⟨d', rfl, hA, hB⟩
        · simp only [if_neg hn]
          exact ⟨d', rfl, hA, hB⟩
      · simp only [if_neg hl]
        obtain ⟨p1, p2⟩ := buf_agree_pack hA ho f ((ALIGN (off + f.length) m + r) % U32)
        exact ⟨_, rfl, p1, fun _ => p2⟩
    · by_cases hl : f.length > tx_max - off
      · simp only [if_pos hl]
        by_cases hn : n = 0
        · simp only [if_pos hn]
          exact ⟨d', rfl, hA, hB⟩
        · simp only [if_neg hn]
          exact ⟨d', rfl, hA, hB⟩
      · simp only [if_neg hl]
        obtain ⟨p1, p2⟩ := buf_agree_pack hA ho f ((ALIGN (off + f.length) m + r) % U32)
        exact ⟨_, rfl, p1, fun _ => p2⟩

/-- The packing loop on two buffers that agree: the loops do the same, pack the same
frames, and the buffers agree afterwards. -/
theorem tx_fill_loop_sim (tx_max m r : Nat) :
    ∀ (k : Nat) (s : tx_fill_state) (d' : List Nat),
    buf_agree (min s.offset tx_max) s.skb_out d' →
    (s.n ≠ 0 → buf_agree (min s.last_offset tx_max) s.skb_out d') →
    ∃ D', tx_fill_loop tx_max m r k { s with skb_out := d' } =
        { tx_fill_loop tx_max m r k s with skb_out := D' } ∧
      tx_fill_packed tx_max m r k { s with skb_out := d' } = tx_fill_packed tx_max m r k s ∧
      buf_agree (min (tx_fill_loop tx_max m r k s).offset tx_max)
        (tx_fill_loop tx_max m r k s).skb_out D' ∧
      ((tx_fill_loop tx_max m r k s).n ≠ 0 →
        buf_agree (min (tx_fill_loop tx_max m r k s).last_offset tx_max)
          (tx_fill_loop tx_max m r k s).skb_out D') := by
  intro k
  induction k with
  | zero =>
    intro s d' hA hB
    exact ⟨d', rfl, rfl, hA, hB⟩
  | succ k ih =>
    intro s d' hA hB
    obtain ⟨D1, e1, a1, b1⟩ := tx_fill_body_sim tx_max m r s d' hA hB
    unfold tx_fill_loop tx_fill_packed
    rw [e1]
    rcases hb : tx_fill_body tx_max m r s with ⟨s1, _ | p⟩
    · rw [hb] at a1 b1
      exact ⟨D1, rfl, rfl, a1, b1⟩
    · rw [hb] at a1 b1
      simp only
      obtain ⟨D2, e2, f2, a2, b2⟩ := ih s1 D1 a1 b1
      exact ⟨D2, e2, by rw [f2], a2, b2⟩


theorem tx_sim_refl_none (c : cdc_ncm_ctx) (h : c.tx_curr_skb = none) : tx_sim c c := by
  refine ⟨none, ?_, ?_⟩
  · rw [← h]
  · rw [h]
    trivial

/-- The NTB that `tx_finalize` returns depends on the buffer only below the end of the
last datagram. -/
theorem tx_finalize_sim (c : cdc_ncm_ctx) (x : Option (List Nat)) (b b' : List Nat)
    (last : Nat) (h : buf_agree (min last c.tx_max) b b') :
    tx_finalize { c with tx_curr_skb := x } b' last = tx_finalize c b last := by
  unfold tx_finalize
  simp only
  have h1 : (if last > c.tx_max then c.tx_max else last) = min last c.tx_max := by
    rw [Nat.min_def]
    split_ifs <;> omega
  rw [h1]
  obtain ⟨L, hL⟩ : ∃ L, L = min last c.tx_max := ⟨_, rfl⟩
  rw [← hL] at h ⊢
  have hLm : L ≤ c.tx_max := by rw [hL]; exact Nat.min_le_right _ _
  obtain ⟨O, hO⟩ : ∃ O, O = if L > CDC_NCM_MIN_TX_PKT then c.tx_max else L := ⟨_, rfl⟩
  rw [← hO]
  have hO1 : L ≤ O ∧ O ≤ c.tx_max := by
    rw [hO]
    split_ifs <;> omega
  have e1 : buf_agree O (cdc_ncm_zero_fill b L O c.tx_max) (cdc_ncm_zero_fill b' L O c.tx_max) :=
    buf_agree_mono (buf_agree_zero_fill h L O c.tx_max (le_refl _))
      (le_trans (by rw [Nat.min_def]; split_ifs <;> omega) (le_max_right _ _))
  refine Prod.ext rfl ?_
  simp only
  apply buf_agree_take
  apply buf_agree_memcpy
  apply buf_agree_memcpy
  apply buf_agree_memcpy
  split_ifs with hp
  · exact buf_agree_mono (buf_agree_memcpy_ext (buf_agree_symm e1) [0]) (Nat.mod_le _ _)
  · exact buf_agree_symm e1

theorem tx_sim_store (c : cdc_ncm_ctx) (b b' : List Nat)
    (hA : buf_agree (min c.tx_curr_offset c.tx_max) b b')
    (hB : c.tx_curr_frame_num ≠ 0 → buf_agree (min c.tx_curr_last_offset c.tx_max) b b') :
    tx_sim (cdc_ncm_tx_timeout_start { c with tx_curr_skb := some b })
      (cdc_ncm_tx_timeout_start { c with tx_curr_skb := some b' }) := by
  unfold cdc_ncm_tx_timeout_start
  by_cases h : c.tx_timer = true ∨ c.stop = true
  · rw [if_neg (not_not.2 h), if_neg (not_not.2 h)]
    exact ⟨some b', rfl, hA, hB⟩
  · rw [if_pos h, if_pos h]
    exact ⟨some b', rfl, hA, hB⟩

/-- The part of `cdc_ncm_fill_tx_frame` after the packing loop, on two buffers that agree
below the cursor and below the end of the last datagram: the same NTB is returned, and
the contexts are related as before. -/
theorem tx_leave_sim (ctx : cdc_ncm_ctx) (x : Option (List Nat)) (s : tx_fill_state)
    (D' : List Nat) (hA : buf_agree (min s.offset ctx.tx_max) s.skb_out D')
    (hB : s.n ≠ 0 → buf_agree (min s.last_offset ctx.tx_max) s.skb_out D') :
    (tx_leave { ctx with tx_curr_skb := x } { s with skb_out := D' }).2 = (tx_leave ctx s).2 ∧
    tx_sim (tx_leave ctx s).1
      (tx_leave { ctx with tx_curr_skb := x } { s with skb_out := D' }).1 := by
  unfold tx_leave
  simp only
  by_cases hn : s.n = 0
  · simp only [if_pos hn]
    refine ⟨trivial, ?_⟩
    exact tx_sim_store
      { ctx with
        tx_rem_skb := s.tx_rem_skb
        tx_ncm := { ctx.tx_ncm with dpe16 := s.dpe16 }
        tx_dropped := if s.skb.isSome then s.tx_dropped + 1 else s.tx_dropped
        tx_curr_frame_num := s.n
        tx_curr_offset := s.offset
        tx_curr_last_offset := s.last_offset } s.skb_out D' hA hB
  · simp only [if_neg hn]
    by_cases h2 : s.n < ctx.tx_max_datagrams ∧ s.ready2send = 0
    · simp only [if_pos h2]
      refine ⟨trivial, ?_⟩
      exact tx_sim_store
        { ctx with
          tx_rem_skb := s.tx_rem_skb
          tx_ncm := { ctx.tx_ncm with dpe16 := s.dpe16 }
          tx_dropped := if s.skb.isSome then s.tx_dropped + 1 else s.tx_dropped
          tx_curr_frame_num := s.n
          tx_curr_offset := s.offset
          tx_curr_last_offset := s.last_offset
          tx_timer_pending :=
            if s.n < CDC_NCM_RESTART_TIMER_DATAGRAM_CNT then CDC_NCM_TIMER_PENDING_CNT
            else ctx.tx_timer_pending } s.skb_out D' hA hB
    · simp only [if_neg h2]
      have hf := tx_finalize_sim
        { ctx with
          tx_rem_skb := s.tx_rem_skb
          tx_ncm := { ctx.tx_ncm with dpe16 := s.dpe16 }
          tx_dropped := if s.skb.isSome then s.tx_dropped + 1 else s.tx_dropped
          tx_curr_frame_num := s.n } x s.skb_out D' s.last_offset (hB hn)
      simp only at hf
      rw [hf]
      refine ⟨rfl, ?_⟩
      apply tx_sim_refl_none
      rfl

/-- A new buffer is zero below the first payload offset, whatever it held. -/
theorem buf_agree_new (size off : Nat) (g g' : Nat → Nat) (k : Nat) (hk : k ≤ off) :
    buf_agree k (cdc_ncm_zero_fill (alloc_skb size g) 0 off off)
      (cdc_ncm_zero_fill (alloc_skb size g') 0 off off) := by
  refine ⟨by rw [zero_fill_length, zero_fill_length, alloc_skb_length, alloc_skb_length],
    fun i hi => ?_⟩
  rw [zero_fill_get, zero_fill_get, alloc_skb_length, alloc_skb_length]
  by_cases hc : 0 ≤ i ∧ i < off ∧ i < off ∧ i < size
  · rw [if_pos hc, if_pos hc]
  · rw [if_neg hc, if_neg hc]
    have hl : size ≤ i := by omega
    rw [List.getElem?_eq_none (by rw [alloc_skb_length]; exact hl),
      List.getElem?_eq_none (by rw [alloc_skb_length]; exact hl)]

/-- The part of `cdc_ncm_fill_tx_frame` before the packing loop, on related contexts:
if one call reaches the loop, so does the other, with buffers that agree. -/
theorem tx_enter_sim {c c' : cdc_ncm_ctx} {skb : Option (List Nat)}
    {a a' : Option (Nat → Nat)} (h : tx_sim c c') (ha : a = none ↔ a' = none)
    {ctx1 : cdc_ncm_ctx} {s : tx_fill_state} (he : tx_enter c skb a = some (ctx1, s)) :
    ∃ x D',
      tx_enter c' skb a' = some ({ ctx1 with tx_curr_skb := x }, { s with skb_out := D' }) ∧
      buf_agree (min s.offset ctx1.tx_max) s.skb_out D' ∧
      (s.n ≠ 0 → buf_agree (min s.last_offset ctx1.tx_max) s.skb_out D') := by
  obtain ⟨x, rfl, hm⟩ := h
  rcases hc : c.tx_curr_skb with _ | b <;> rcases x with _ | b' <;> rw [hc] at hm <;>
    simp only at hm
  · rcases a with _ | g <;> rcases a' with _ | g'
    · unfold tx_enter at he
      rcases skb with _ | f <;> simp [hc] at he
    · exact absurd (ha.1 rfl) (Option.some_ne_none _)
    · exact absurd (ha.2 rfl) (Option.some_ne_none _)
    · unfold tx_enter at he ⊢
      rcases skb with _ | f <;>
        simp only [hc, Option.isSome_none, Option.isSome_some, Bool.false_eq_true, if_false,
          if_true, Option.some.injEq, Prod.mk.injEq] at he ⊢ <;>
        obtain ⟨rfl, rfl⟩ := he <;>
        exact ⟨none, _, ⟨by simp only [hc], rfl⟩,
          buf_agree_new _ _ g g' _ (Nat.min_le_left _ _), fun h0 => absurd rfl h0⟩
  · unfold tx_enter at he ⊢
    rcases skb with _ | f <;>
      simp only [hc, Option.isSome_none, Option.isSome_some, Bool.false_eq_true, if_false,
        if_true, Option.some.injEq, Prod.mk.injEq] at he ⊢ <;>
      obtain ⟨rfl, rfl⟩ := he <;>
      exact ⟨some b', b', ⟨rfl, rfl⟩, hm.1,
        fun h0 => hm.2 (fun h => h0 (by show c.tx_curr_frame_num % U16 = 0; rw [h]; rfl))⟩

theorem tx_enter_sim_none {c c' : cdc_ncm_ctx} {skb : Option (List Nat)}
    {a a' : Option (Nat → Nat)} (h : tx_sim c c') (ha : a = none ↔ a' = none)
    (he : tx_enter c skb a = none) : tx_enter c' skb a' = none ∧ c' = c := by
  obtain ⟨x, rfl, hm⟩ := h
  obtain ⟨hc, ha0, -⟩ := tx_enter_none he
  rw [hc] at hm
  rcases x with _ | b'
  · have hcc : ({ c with tx_curr_skb := none } : cdc_ncm_ctx) = c := by rw [← hc]
    rw [hcc, ha.1 ha0]
    exact ⟨by rw [ha0] at he; exact he, rfl⟩
  · simp only at hm

/-- One call of `cdc_ncm_fill_tx_frame` on related contexts, with the same frame and
with `alloc_skb` failing in both calls or in neither: the calls return the same, copy
the same frames to the same offsets, and leave related contexts. -/
theorem tx_call_sim {c c' : cdc_ncm_ctx} (skb : Option (List Nat))
    {a a' : Option (Nat → Nat)} (h : tx_sim c c') (ha : a = none ↔ a' = none) :
    (cdc_ncm_fill_tx_frame c' skb a').2 = (cdc_ncm_fill_tx_frame c skb a).2 ∧
    tx_packed c' skb a' = tx_packed c skb a ∧
    tx_sim (cdc_ncm_fill_tx_frame c skb a).1 (cdc_ncm_fill_tx_frame c' skb a').1 := by
  rcases he : tx_enter c skb a with _ | ⟨ctx1, s⟩
  · obtain ⟨he', rfl⟩ := tx_enter_sim_none h ha he
    obtain ⟨hc, -, h3, -, -⟩ := tx_enter_none he
    unfold cdc_ncm_fill_tx_frame tx_packed
    rw [he, he']
    refine ⟨rfl, rfl, ?_⟩
    apply tx_sim_refl_none
    simp only
    split_ifs <;> exact hc
  · obtain ⟨x, D', he', hA, hB⟩ := tx_enter_sim h ha he
    unfold cdc_ncm_fill_tx_frame tx_packed
    rw [he, he']
    simp only
    obtain ⟨D2, e1, e2, a2, b2⟩ := tx_fill_loop_sim ctx1.tx_max ctx1.tx_modulus ctx1.tx_remainder
      (ctx1.tx_max_datagrams - s.n) s D' hA hB
    rw [e1, e2]
    obtain ⟨l1, l2⟩ := tx_leave_sim ctx1 x _ D2 a2 b2
    exact ⟨l1, rfl, l2⟩

theorem tx_sim_refl (c : cdc_ncm_ctx) : tx_sim c c := by
  refine ⟨c.tx_curr_skb, rfl, ?_⟩
  rcases c.tx_curr_skb with _ | b
  · trivial
  · exact ⟨buf_agree_refl _ _, fun _ => buf_agree_refl _ _⟩

/-- Two runs of related calls from related states record the same NTBs and the same
pending pairs, and end in related contexts. -/
theorem tx_fold_sim : ∀ (cs cs' : List tx_call), List.Forall₂ tx_same_call cs cs' →
    ∀ (t t' : tx_trace), tx_sim t.ctx t'.ctx → t'.pend = t.pend → t'.ntbs = t.ntbs →
    (cs'.foldl tx_call_step t').ntbs = (cs.foldl tx_call_step t).ntbs ∧
    (cs'.foldl tx_call_step t').pend = (cs.foldl tx_call_step t).pend ∧
    tx_sim (cs.foldl tx_call_step t).ctx (cs'.foldl tx_call_step t').ctx := by
  intro cs cs' h
  induction h with
  | nil =>
    intro t t' hs hp hn
    exact ⟨hn, hp, hs⟩
  | @cons a b l l' hc _ ih =>
    intro t t' hs hp hn
    rw [List.foldl_cons, List.foldl_cons]
    obtain ⟨hk, ha⟩ := hc
    obtain ⟨r1, r2, r3⟩ := tx_call_sim a.skb hs ha
    apply ih
    · unfold tx_call_step
      simp only
      rw [← hk]
      exact r3
    · unfold tx_call_step
      simp only
      rw [← hk, r1, r2, hp]
    · unfold tx_call_step
      simp only
      rw [← hk, r1, hn]

/-! ## Every byte accounted for -/

theorem in_pkts_append {pkts : List (Nat × List Nat)} {i : Nat} (h : in_pkts pkts i)
    (q : List (Nat × List Nat)) : in_pkts (pkts ++ q) i := by
  obtain ⟨p, hp, h1⟩ := h
  exact ⟨p, List.mem_append_left _ hp, h1⟩

theorem buf_clean_mono {k j : Nat} {buf : List Nat} {pkts : List (Nat × List Nat)}
    (h : buf_clean k buf pkts) (hj : j ≤ k) : buf_clean j buf pkts :=
  fun i hi hl => h i (by omega) hl

theorem buf_clean_append {k : Nat} {buf : List Nat} {pkts : List (Nat × List Nat)}
    (h : buf_clean k buf pkts) (q : List (Nat × List Nat)) : buf_clean k buf (pkts ++ q) := by
  intro i hi hl
  rcases h i hi hl with h1 | h1
  · exact Or.inl (in_pkts_append h1 q)
  · exact Or.inr h1

/-- Copying a frame to the end of the clean part extends it by the frame. -/
theorem buf_clean_memcpy_ext {buf : List Nat} {off : Nat} {pkts : List (Nat × List Nat)}
    (h : buf_clean off buf pkts) (f : List Nat) :
    buf_clean (off + f.length) (memcpy buf off f) (pkts ++ [(off, f)]) := by
  intro i hi hl
  rw [memcpy_length] at hl
  by_cases hlt : i < off
  · rw [memcpy_get_out _ _ _ _ (Or.inl hlt)]
    rcases h i hlt hl with h1 | h1
    · exact Or.inl (in_pkts_append h1 _)
    · exact Or.inr h1
  · exact Or.inl ⟨(off, f), List.mem_append_right _ (List.mem_singleton.2 rfl),
      by simp only; omega, by simp only; omega⟩

/-- Zero-filling from inside the clean part extends it to the end of the filled range. -/
theorem buf_clean_zero_fill {k : Nat} {buf : List Nat} {pkts : List (Nat × List Nat)}
    (h : buf_clean k buf pkts) (first e mx : Nat) (hf : first ≤ k) :
    buf_clean (max k (min e mx)) (cdc_ncm_zero_fill buf first e mx) pkts := by
  intro i hi hl
  rw [zero_fill_length] at hl
  rw [zero_fill_get]
  by_cases hc : first ≤ i ∧ i < e ∧ i < mx ∧ i < buf.length
  · rw [if_pos hc]
    exact Or.inr rfl
  · rw [if_neg hc]
    by_cases hlt : i < k
    · exact h i hlt hl
    · rcases lt_max_iff.1 hi with h1 | h1
      · omega
      · have := Nat.lt_min.1 h1
        omega

theorem buf_clean_pack {tx_max off : Nat} {buf : List Nat} {pkts : List (Nat × List Nat)}
    (hA : buf_clean (min off tx_max) buf pkts) (ho : ¬ off ≥ tx_max) (x : List Nat)
    (off' : Nat) :
    buf_clean (min off' tx_max)
      (cdc_ncm_zero_fill (memcpy buf off x) (off + x.length) off' tx_max)
      (pkts ++ [(off, x)]) ∧
    buf_clean (min (off + x.length) tx_max)
      (cdc_ncm_zero_fill (memcpy buf off x) (off + x.length) off' tx_max)
      (pkts ++ [(off, x)]) := by
  have hA' : buf_clean off buf pkts :=
    buf_clean_mono hA (by rw [Nat.min_def]; split_ifs <;> omega)
  have e2 := buf_clean_zero_fill (buf_clean_memcpy_ext hA' x) (off + x.length) off' tx_max
    (le_refl _)
  exact ⟨buf_clean_mono e2 (le_max_right _ _),
    buf_clean_mono e2 (le_trans (Nat.min_le_left _ _) (le_max_left _ _))⟩

/-- One pass of the packing loop keeps the buffer clean, for the pairs so far followed
by the pair it packs. -/
theorem tx_fill_body_clean (tx_max m r : Nat) (s : tx_fill_state)
    (pkts : List (Nat × List Nat))
    (hA : buf_clean (min s.offset tx_max) s.skb_out pkts)
    (hB : s.n ≠ 0 → buf_clean (min s.last_offset tx_max) s.skb_out pkts) :
    buf_clean (min (tx_fill_body tx_max m r s).1.offset tx_max)
        (tx_fill_body tx_max m r s).1.skb_out (pkts ++ (tx_fill_body tx_max m r s).2.toList) ∧
    ((tx_fill_body tx_max m r s).1.n ≠ 0 →
      buf_clean (min (tx_fill_body tx_max m r s).1.last_offset tx_max)
        (tx_fill_body tx_max m r s).1.skb_out
        (pkts ++ (tx_fill_body tx_max m r s).2.toList)) := by
  rcases s with ⟨buf, off, last, n, rdy, skb, rem, dpe, drp⟩
  simp only at hA hB
  unfold tx_fill_body
  simp only
  by_cases ho : off ≥ tx_max
  · simp only [if_pos ho, Option.toList_none, List.append_nil]
    exact ⟨hA, hB⟩
  · simp only [if_neg ho]
    rcases skb with _ | f <;> rcases rem with _ | g <;> simp only
    · simp only [Option.toList_none, List.append_nil]
      exact ⟨hA, hB⟩
    · by_cases hl : g.length > tx_max - off
      · simp only [if_pos hl]
        by_cases hn : n = 0
        · simp only [if_pos hn, Option.toList_none, List.append_nil]
          exact ⟨hA, hB⟩
        · simp only [if_neg hn, Option.toList_none, List.append_nil]
          exact ⟨hA, hB⟩
      · simp only [if_neg hl, Option.toList_some]
        obtain ⟨p1, p2⟩ := buf_clean_pack hA ho g ((ALIGN (off + g.length) m + r) % U32)
        exact ⟨p1, fun _ => p2⟩
    · by_cases hl : f.length > tx_max - off
      · simp only [if_pos hl]
        by_cases hn : n = 0
        · simp only [if_pos hn, Option.toList_none, List.append_nil]
          exact ⟨hA, hB⟩
        · simp only [if_neg hn, Option.toList_none, List.append_nil]
          exact ⟨hA, hB⟩
      · simp only [if_neg hl, Option.toList_some]
        obtain ⟨p1, p2⟩ := buf_clean_pack hA ho f ((ALIGN (off + f.length) m + r) % U32)
        exact ⟨p1, fun _ => p2⟩
    · by_cases hl : f.length > tx_max - off
      · simp only [if_pos hl]
        by_cases hn : n = 0
        · simp only [if_pos hn, Option.toList_none, List.append_nil]
          exact ⟨hA, hB⟩
        · simp only [if_neg hn, Option.toList_none, List.append_nil]
          exact ⟨hA, hB⟩
      · simp only [if_neg hl, Option.toList_some]
        obtain ⟨p1, p2⟩ := buf_clean_pack hA ho f ((ALIGN (off + f.length) m + r) % U32)
        exact ⟨p1, fun _ => p2⟩

/-- The packing loop keeps the buffer clean, for the pairs so far followed by those it
packs. -/
theorem tx_fill_loop_clean (tx_max m r : Nat) :
    ∀ (k : Nat) (s : tx_fill_state) (pkts : List (Nat × List Nat)),
    buf_clean (min s.offset tx_max) s.skb_out pkts →
    (s.n ≠ 0 → buf_clean (min s.last_offset tx_max) s.skb_out pkts) →
    buf_clean (min (tx_fill_loop tx_max m r k s).offset tx_max)
        (tx_fill_loop tx_max m r k s).skb_out (pkts ++ tx_fill_packed tx_max m r k s) ∧
    ((tx_fill_loop tx_max m r k s).n ≠ 0 →
      buf_clean (min (tx_fill_loop tx_max m r k s).last_offset tx_max)
        (tx_fill_loop tx_max m r k s).skb_out (pkts ++ tx_fill_packed tx_max m r k s)) := by
  intro k
  induction k with
  | zero =>
    intro s pkts hA hB
    simp only [tx_fill_loop, tx_fill_packed, List.append_nil]
    exact ⟨hA, hB⟩
  | succ k ih =>
    intro s pkts hA hB
    obtain ⟨a1, b1⟩ := tx_fill_body_clean tx_max m r s pkts hA hB
    unfold tx_fill_loop tx_fill_packed
    rcases hb : tx_fill_body tx_max m r s with ⟨s1, _ | p⟩
    · rw [hb] at a1 b1
      simp only [Option.toList_none] at a1 b1
      exact ⟨a1, b1⟩
    · rw [hb] at a1 b1
      simp only [Option.toList_some] at a1 b1
      simp only
      have := ih s1 (pkts ++ [p]) a1 b1
      rw [List.append_assoc, List.singleton_append] at this
      exact this

theorem hdr_copies_get_out (data : List Nat) (idx m : Nat) (a b c : List Nat)
    (ha : a.length = 12) (hb : b.length = 8) (hc : c.length ≤ m) (i : Nat) (h12 : 12 ≤ i)
    (hout : i < idx ∨ idx + 8 + m ≤ i) :
    (memcpy (memcpy (memcpy data 0 a) idx b) (idx + 8) c)[i]? = data[i]? := by
  rw [memcpy_get_out _ _ _ _ (by omega), memcpy_get_out _ _ _ _ (by omega),
    memcpy_get_out _ _ _ _ (by omega)]

/-- Every byte of the NTB that `tx_finalize` returns for a clean buffer lies in the
NTH16, in the NDP16 with its pointer table, in the range of a pair, or is zero. -/
theorem tx_finalize_clean (c : cdc_ncm_ctx) (buf : List Nat) (last : Nat)
    (pkts : List (Nat × List Nat)) (h : buf_clean (min last c.tx_max) buf pkts) (i : Nat)
    (hi : i < (tx_finalize c buf last).2.length) :
    i < 12 ∨
    (ALIGN SIZEOF_NTH16 c.tx_ndp_modulus % U16 ≤ i ∧
      i < ALIGN SIZEOF_NTH16 c.tx_ndp_modulus % U16 + 8 + 4 * (c.tx_curr_frame_num + 1)) ∨
    in_pkts pkts i ∨ (tx_finalize c buf last).2[i]? = some 0 := by
  unfold tx_finalize at hi ⊢
  simp only at hi ⊢
  have h1 : (if last > c.tx_max then c.tx_max else last) = min last c.tx_max := by
    rw [Nat.min_def]
    split_ifs <;> omega
  rw [h1] at hi ⊢
  obtain ⟨L, hL⟩ : ∃ L, L = min last c.tx_max := ⟨_, rfl⟩
  rw [← hL] at h hi ⊢
  have hLm : L ≤ c.tx_max := by rw [hL]; exact Nat.min_le_right _ _
  obtain ⟨O, hO⟩ : ∃ O, O = if L > CDC_NCM_MIN_TX_PKT then c.tx_max else L := ⟨_, rfl⟩
  rw [← hO] at hi ⊢
  have hO1 : L ≤ O ∧ O ≤ c.tx_max := by
    rw [hO]
    split_ifs <;> omega
  have e1 : buf_clean O (cdc_ncm_zero_fill buf L O c.tx_max) pkts :=
    buf_clean_mono (buf_clean_zero_fill h L O c.tx_max (le_refl _))
      (le_trans (by rw [Nat.min_def]; split_ifs <;> omega) (le_max_right _ _))
  obtain ⟨P, hP⟩ : ∃ P : Bool, P = decide ((O < c.tx_max ∧ O % c.out_ep = 0) ∨
      ((O = c.tx_max ∧ c.tx_max % c.out_ep = 0) ∧ c.tx_max < c.ncm_parm.dwNtbOutMaxSize)) :=
    ⟨_, rfl⟩
  rw [← hP] at hi ⊢
  obtain ⟨D, hD⟩ : ∃ D, D = (if P = true then
      memcpy (cdc_ncm_zero_fill buf L O c.tx_max) O [0]
    else cdc_ncm_zero_fill buf L O c.tx_max) := ⟨_, rfl⟩
  obtain ⟨E, hE⟩ : ∃ E, E = (if P = true then (O + 1) % U32 else O) := ⟨_, rfl⟩
  rw [← hD, ← hE] at hi ⊢
  have e2 : buf_clean E D pkts := by
    rw [hD, hE]
    split_ifs with hp
    · intro j hj hl
      rw [memcpy_length] at hl
      have hj2 : j < O + 1 := lt_of_lt_of_le hj (Nat.mod_le _ _)
      by_cases hjO : j < O
      · rw [memcpy_get_out _ _ _ _ (Or.inl hjO)]
        exact e1 j hjO hl
      · have hje : j = O := by omega
        right
        rw [memcpy_get_in _ _ _ _ (by omega) (by simp; omega) hl, hje]
        simp
    · exact e1
  rw [List.length_take] at hi
  have hiE : i < E := lt_of_lt_of_le hi (Nat.min_le_left _ _)
  have hiD : i < D.length := by
    have := lt_of_lt_of_le hi (Nat.min_le_right _ _)
    rw [memcpy_length, memcpy_length, memcpy_length] at this
    exact this
  by_cases c1 : i < 12
  · exact Or.inl c1
  · by_cases c2 : ALIGN SIZEOF_NTH16 c.tx_ndp_modulus % U16 ≤ i ∧
        i < ALIGN SIZEOF_NTH16 c.tx_ndp_modulus % U16 + 8 + 4 * (c.tx_curr_frame_num + 1)
    · exact Or.inr (Or.inl c2)
    · right
      right
      rw [List.getElem?_take_of_lt hiE]
      unfold SIZEOF_NDP16
      rw [hdr_copies_get_out D _ (4 * (c.tx_curr_frame_num + 1)) _ _ _ (nth16_bytes_length _)
        (ndp16_bytes_length _)
        (by rw [dpe16_bytes_length, List.length_take]
            exact Nat.mul_le_mul_left 4 (Nat.min_le_left _ _))
        i (by omega) (by omega)]
      exact e2 i hiE hiD

theorem buf_clean_new (size off : Nat) (g : Nat → Nat) (k : Nat) (hk : k ≤ off)
    (pkts : List (Nat × List Nat)) :
    buf_clean k (cdc_ncm_zero_fill (alloc_skb size g) 0 off off) pkts := by
  intro i hi hl
  rw [zero_fill_length] at hl
  right
  rw [zero_fill_get, if_pos ⟨Nat.zero_le _, by omega, by omega, hl⟩]

/-- At the head of the packing loop the buffer is clean: the pending one by the
invariant, a new one because it is zeroed up to the first payload offset. -/
theorem tx_enter_clean {c ctx1 : cdc_ncm_ctx} {pkts : List (Nat × List Nat)}
    {skb : Option (List Nat)} {a : Option (Nat → Nat)} {s : tx_fill_state}
    (hc : tx_clean c pkts) (he : tx_enter c skb a = some (ctx1, s)) :
    buf_clean (min s.offset ctx1.tx_max) s.skb_out pkts ∧
    (s.n ≠ 0 → buf_clean (min s.last_offset ctx1.tx_max) s.skb_out pkts) := by
  unfold tx_enter at he
  rcases hcur : c.tx_curr_skb with _ | b
  · rcases a with _ | g
    · rcases skb with _ | f <;> simp [hcur] at he
    · rcases skb with _ | f <;>
        simp only [hcur, Option.isSome_none, Option.isSome_some, Bool.false_eq_true, if_false,
          if_true, Option.some.injEq, Prod.mk.injEq] at he <;>
        obtain ⟨rfl, rfl⟩ := he <;>
        exact ⟨buf_clean_new _ _ g _ (Nat.min_le_left _ _) _, fun h0 => absurd rfl h0⟩
  · obtain ⟨hA, hB⟩ := hc b hcur
    rcases skb with _ | f <;>
      simp only [hcur, Option.isSome_none, Option.isSome_some, Bool.false_eq_true, if_false,
        if_true, Option.some.injEq, Prod.mk.injEq] at he <;>
      obtain ⟨rfl, rfl⟩ := he <;>
      exact ⟨hA,
        fun h0 => hB (fun h => h0 (by show c.tx_curr_frame_num % U16 = 0; rw [h]; rfl))⟩

theorem tx_clean_store (c : cdc_ncm_ctx) (b : List Nat) (pkts : List (Nat × List Nat))
    (hA : buf_clean (min c.tx_curr_offset c.tx_max) b pkts)
    (hB : c.tx_curr_frame_num ≠ 0 → buf_clean (min c.tx_curr_last_offset c.tx_max) b pkts) :
    tx_clean (cdc_ncm_tx_timeout_start { c with tx_curr_skb := some b }) pkts := by
  unfold cdc_ncm_tx_timeout_start
  by_cases h : c.tx_timer = true ∨ c.stop = true
  · rw [if_neg (not_not.2 h)]
    intro buf hb
    obtain rfl : b = buf := Option.some.inj hb
    exact ⟨hA, hB⟩
  · rw [if_pos h]
    intro buf hb
    obtain rfl : b = buf := Option.some.inj hb
    exact ⟨hA, hB⟩

/-- The part of `cdc_ncm_fill_tx_frame` after the packing loop, on a clean buffer: an
NTB that is kept stays clean, and every byte of an NTB that is returned lies in the
NTH16, in the NDP16 with its pointer table, in the range of a pair, or is zero. -/
theorem tx_leave_clean (ctx : cdc_ncm_ctx) (s : tx_fill_state) (pkts : List (Nat × List Nat))
    (hA : buf_clean (min s.offset ctx.tx_max) s.skb_out pkts)
    (hB : s.n ≠ 0 → buf_clean (min s.last_offset ctx.tx_max) s.skb_out pkts) :
    tx_clean (tx_leave ctx s).1 pkts ∧
    (∀ ntb, (tx_leave ctx s).2 = some ntb → ∀ i, i < ntb.length →
      i < 12 ∨
      (ALIGN SIZEOF_NTH16 ctx.tx_ndp_modulus % U16 ≤ i ∧
        i < ALIGN SIZEOF_NTH16 ctx.tx_ndp_modulus % U16 + 8 + 4 * (s.n + 1)) ∨
      in_pkts pkts i ∨ ntb[i]? = some 0) := by
  unfold tx_leave
  simp only
  by_cases hn : s.n = 0
  · simp only [if_pos hn]
    refine ⟨?_, fun ntb h => by simp at h⟩
    exact tx_clean_store
      { ctx with
        tx_rem_skb := s.tx_rem_skb
        tx_ncm := { ctx.tx_ncm with dpe16 := s.dpe16 }
        tx_dropped := if s.skb.isSome then s.tx_dropped + 1 else s.tx_dropped
        tx_curr_frame_num := s.n
        tx_curr_offset := s.offset
        tx_curr_last_offset := s.last_offset } s.skb_out pkts hA hB
  · simp only [if_neg hn]
    by_cases h2 : s.n < ctx.tx_max_datagrams ∧ s.ready2send = 0
    · simp only [if_pos h2]
      refine ⟨?_, fun ntb h => by simp at h⟩
      exact tx_clean_store
        { ctx with
          tx_rem_skb := s.tx_rem_skb
          tx_ncm := { ctx.tx_ncm with dpe16 := s.dpe16 }
          tx_dropped := if s.skb.isSome then s.tx_dropped + 1 else s.tx_dropped
          tx_curr_frame_num := s.n
          tx_curr_offset := s.offset
          tx_curr_last_offset := s.last_offset
          tx_timer_pending :=
            if s.n < CDC_NCM_RESTART_TIMER_DATAGRAM_CNT then CDC_NCM_TIMER_PENDING_CNT
            else ctx.tx_timer_pending } s.skb_out pkts hA hB
    · simp only [if_neg h2]
      refine ⟨?_, ?_⟩
      · intro buf hb
        exact absurd hb (by simp [tx_finalize])
      · intro ntb hntb i hi
        simp only [Option.some.injEq] at hntb
        subst hntb
        exact tx_finalize_clean
          { ctx with
            tx_rem_skb := s.tx_rem_skb
            tx_ncm := { ctx.tx_ncm with dpe16 := s.dpe16 }
            tx_dropped := if s.skb.isSome then s.tx_dropped + 1 else s.tx_dropped
            tx_curr_frame_num := s.n } s.skb_out s.last_offset pkts (hB hn) i hi

/-- One call of `cdc_ncm_fill_tx_frame` from a state of a run with a clean pending NTB:
an NTB that is kept stays clean, and every byte of an NTB that is returned is
accounted for. -/
theorem tx_call_clean {ctx : cdc_ncm_ctx} {pend : List (Nat × List Nat)} (h : tx_inv ctx pend)
    (hc : tx_clean ctx pend) (skb : Option (List Nat)) (alloc : Option (Nat → Nat)) :
    tx_clean (cdc_ncm_fill_tx_frame ctx skb alloc).1 (pend ++ tx_packed ctx skb alloc) ∧
    (∀ ntb, (cdc_ncm_fill_tx_frame ctx skb alloc).2 = some ntb → ∀ i, i < ntb.length →
      ntb_byte_known ctx (pend ++ tx_packed ctx skb alloc) ntb i) := by
  have hP := h.1
  have hh := tx_hdr_end_bounds hP
  rcases he : tx_enter ctx skb alloc with _ | ⟨ctx1, s⟩
  · obtain ⟨-, -, h3, -, h5⟩ := tx_enter_none he
    refine ⟨fun buf hb => ?_, fun ntb hn => ?_⟩
    · rw [h3] at hb
      exact absurd hb (by simp)
    · rw [h5] at hn
      exact absurd hn (by simp)
  · obtain ⟨hS, hseq, hdl, hinv, hn, hcapp⟩ := tx_enter_spec h he
    obtain ⟨c1, c2, c3, c4, c5, c6, c7⟩ := hS
    obtain ⟨hA, hB⟩ := tx_enter_clean hc he
    obtain ⟨f1, f2⟩ := tx_fill_eq he
    have hk : s.n + (ctx.tx_max_datagrams - s.n) ≤ 40 := by
      have hdg : ctx.tx_max_datagrams ≤ 40 := hP.2.2.2.1
      by_cases hp : pend = []
      · rw [hp] at hn
        simp only [List.length_nil] at hn
        omega
      · have := hcapp hp
        omega
    obtain ⟨l1, l2, -, -⟩ :=
      tx_fill_loop_inv hP (ctx.tx_max_datagrams - s.n) s pend hinv hn hk
    rw [← c1, ← c2, ← c3, ← c5, ← f2] at l1 l2
    obtain ⟨a1, b1⟩ := tx_fill_loop_clean ctx1.tx_max ctx1.tx_modulus ctx1.tx_remainder
      (ctx1.tx_max_datagrams - s.n) s pend hA hB
    rw [← f2] at a1 b1
    obtain ⟨k1, k2⟩ := tx_leave_clean ctx1 _ _ a1 b1
    rw [← f1] at k1 k2
    refine ⟨k1, fun ntb hntb i hi => ?_⟩
    obtain ⟨-, -, s3⟩ := tx_step h skb alloc
    obtain ⟨-, -, -, -, hlay, -⟩ := s3 ntb hntb
    have hidx : ALIGN SIZEOF_NTH16 ctx1.tx_ndp_modulus % U16 =
        ALIGN SIZEOF_NTH16 ctx.tx_ndp_modulus := by
      rw [c4]
      unfold U16
      exact Nat.mod_eq_of_lt (by omega)
    rcases k2 ntb hntb i hi with g1 | g1 | g1 | g1
    · exact Or.inl g1
    · rw [hidx, l2] at g1
      refine Or.inr (Or.inl ⟨g1.1, ?_⟩)
      unfold SIZEOF_NDP16 SIZEOF_DPE16
      omega
    · obtain ⟨p, hp, hp1, hp2⟩ := g1
      obtain ⟨j, hj⟩ := List.getElem?_of_mem hp
      have hsl := (hlay.2.2.2.2.2.2.2.2.2.2.1 j p hj).2.2
      refine Or.inr (Or.inr (Or.inl ⟨p, hp, hp1, hp2, ?_⟩))
      have hg := slice_get ntb p.1 p.2.length (i - p.1)
      rw [hsl, if_pos (by omega), show p.1 + (i - p.1) = i by omega] at hg
      exact hg.symm
    · exact Or.inr (Or.inr (Or.inr g1))

/-- A call that returns an NTB leaves no pending NTB. -/
theorem tx_call_emit_none (c : cdc_ncm_ctx) (skb : Option (List Nat))
    (alloc : Option (Nat → Nat)) (h : (cdc_ncm_fill_tx_frame c skb alloc).2 ≠ none) :
    (cdc_ncm_fill_tx_frame c skb alloc).1.tx_curr_skb = none := by
  rcases he : tx_enter c skb alloc with _ | ⟨ctx1, s⟩
  · exact (tx_enter_none he).2.2.1
  · rw [(tx_fill_eq he).1] at h ⊢
    exact (tx_leave_acct ctx1 _).2.2.1 h

/-- The pending NTB is clean in every state of a run that starts without one. -/
theorem tx_run_clean {ctx0 : cdc_ncm_ctx} (hP : tx_params_ok ctx0)
    (hI : ctx0.tx_curr_skb = none) (calls : List tx_call) :
    tx_clean (tx_run ctx0 calls).ctx (tx_run ctx0 calls).pend := by
  induction calls using List.reverseRecOn with
  | nil =>
    intro buf hb
    rw [show (tx_run ctx0 []).ctx = ctx0 from rfl, hI] at hb
    exact absurd hb (by simp)
  | append_singleton calls c ih =>
    obtain ⟨h1, -, -, -⟩ := tx_run_inv hP hI calls
    obtain ⟨k1, -⟩ := tx_call_clean h1 ih c.skb c.alloc
    rw [tx_run_snoc]
    unfold tx_call_step
    simp only
    rcases hr : (cdc_ncm_fill_tx_frame (tx_run ctx0 calls).ctx c.skb c.alloc).2 with _ | ntb
    · simp only [Option.isSome_none, Bool.false_eq_true, if_false]
      exact k1
    · intro buf hb
      rw [tx_call_emit_none _ _ _ (by rw [hr]; exact Option.some_ne_none _)] at hb
      exact absurd hb (by simp)

/-- Every byte of an NTB that a call returns in a state of a run is accounted for. -/
theorem tx_emit_known {ctx0 : cdc_ncm_ctx} (hP : tx_params_ok ctx0)
    (hI : ctx0.tx_curr_skb = none) (calls : List tx_call) (skb : Option (List Nat))
    (alloc : Option (Nat → Nat)) (ntb : List Nat)
    (he : (cdc_ncm_fill_tx_frame (tx_run ctx0 calls).ctx skb alloc).2 = some ntb) (i : Nat)
    (hi : i < ntb.length) :
    ntb_byte_known ctx0
      ((tx_run ctx0 calls).pend ++ tx_packed (tx_run ctx0 calls).ctx skb alloc) ntb i := by
  obtain ⟨h1, h2, -, -⟩ := tx_run_inv hP hI calls
  have hk := (tx_call_clean h1 (tx_run_clean hP hI calls) skb alloc).2 ntb he i hi
  unfold ntb_byte_known at hk ⊢
  rw [h2.2.2.2.1] at hk
  exact hk

/-- C24 (no uninitialised bytes on the wire). Take two runs of `cdc_ncm_fill_tx_frame`
from the same context whose calls hand in the same frames and in which `alloc_skb`
fails in the same calls, while the bytes that the new buffers hold are arbitrary and
unrelated. The two runs return the same NTBs, byte for byte over the length handed to
the transport, and copy the same frames to the same offsets; the contexts they end in
differ at most in bytes of the pending buffer from the write cursor on. And when the
parameters are in order and the run starts without a pending NTB, every byte of an NTB
that a call returns in a state of the run belongs to the NTH16, to the NDP16 with its
pointer table, or to a packed datagram, whose byte it is, or it is zero. -/
theorem tx_ntb_fresh_independent (ctx0 : cdc_ncm_ctx) (calls calls' : List tx_call)
    (h : List.Forall₂ tx_same_call calls calls') :
    (tx_run ctx0 calls').ntbs = (tx_run ctx0 calls).ntbs ∧
    (tx_run ctx0 calls').pend = (tx_run ctx0 calls).pend ∧
    tx_sim (tx_run ctx0 calls).ctx (tx_run ctx0 calls').ctx ∧
    (tx_params_ok ctx0 → ctx0.tx_curr_skb = none →
      ∀ (skb : Option (List Nat)) (alloc : Option (Nat → Nat)) (ntb : List Nat),
        (cdc_ncm_fill_tx_frame (tx_run ctx0 calls).ctx skb alloc).2 = some ntb →
        ∀ i, i < ntb.length →
          ntb_byte_known ctx0
            ((tx_run ctx0 calls).pend ++ tx_packed (tx_run ctx0 calls).ctx skb alloc) ntb i) := by
  obtain ⟨r1, r2, r3⟩ :=
    tx_fold_sim calls calls' h ⟨ctx0, [], []⟩ ⟨ctx0, [], []⟩ (tx_sim_refl ctx0) rfl rfl
  exact ⟨r1, r2, r3, fun hP hI skb alloc ntb he i hi =>
    tx_emit_known hP hI calls skb alloc ntb he i hi⟩

/-- The run `calls_mixed` with `tx_max = 1024` and the same run with other bytes in the
new buffers return the same NTBs; and every byte of the NTB of scenario 1, one frame of
64 bytes followed by a NULL frame, is accounted for. -/
theorem tx_ntb_fresh_independent_witness :
    List.Forall₂ tx_same_call calls_mixed calls_mixed_55 ∧
    ((tx_run ctx_1k calls_mixed_55).ntbs = (tx_run ctx_1k calls_mixed).ntbs ∧
      (tx_run ctx_1k calls_mixed_55).pend = (tx_run ctx_1k calls_mixed).pend ∧
      tx_sim (tx_run ctx_1k calls_mixed).ctx (tx_run ctx_1k calls_mixed_55).ctx) ∧
    (List.Forall₂ tx_same_call [call_frame 64] [call_frame 64] ∧
      tx_params_ok ctx_s1 ∧ ctx_s1.tx_curr_skb = none ∧
      (cdc_ncm_fill_tx_frame (tx_run ctx_s1 [call_frame 64]).ctx none (some fresh_aa)).2 =
        some ((ntb_one_frame ctx_s1 64).getD []) ∧
      ∀ i, i < ((ntb_one_frame ctx_s1 64).getD []).length →
        ntb_byte_known ctx_s1
          ((tx_run ctx_s1 [call_frame 64]).pend ++
            tx_packed (tx_run ctx_s1 [call_frame 64]).ctx none (some fresh_aa))
          ((ntb_one_frame ctx_s1 64).getD []) i) :=
  have h : List.Forall₂ tx_same_call calls_mixed calls_mixed_55 := by
    simp [calls_mixed, calls_mixed_55, call_frame, tx_same_call]
  have h2 : List.Forall₂ tx_same_call [call_frame 64] [call_frame 64] := by
    simp [call_frame, tx_same_call]
  ⟨h,
    ⟨(tx_ntb_fresh_independent ctx_1k calls_mixed calls_mixed_55 h).1,
      (tx_ntb_fresh_independent ctx_1k calls_mixed calls_mixed_55 h).2.1,
      (tx_ntb_fresh_independent ctx_1k calls_mixed calls_mixed_55 h).2.2.1⟩,
    h2, ctx_s1_ok, by decide, by rfl,
    (tx_ntb_fresh_independent ctx_s1 [call_frame 64] [call_frame 64] h2).2.2.2 ctx_s1_ok
      (by decide) none (some fresh_aa) _ (by rfl)⟩

end CdcNcm
